import Mathlib

/-! GLSL code generator of the ReShade FX compiler (`effect_codegen_glsl.cpp`)

A shallow embedding of `class codegen_glsl`: the backend object is a record of
its private members, every member function is a function on that record, and
`std::string` values are lists of characters.  Unsigned 32-bit members wrap
modulo `2 ^ 32`, `size_t` positions wrap modulo `2 ^ 64`, and a call that
trips an assertion, divides by zero, reads out of range or throws yields
`none`.
-/

namespace reshadefx

/-! ## Strings and machine integers -/

/-- A `std::string`, as its sequence of characters. -/
abbrev std_string := List Char

/-- The characters of a string literal. -/
def S (s : String) : std_string := s.data

/-- Reduction of a natural number to an `uint32_t`. -/
def u32 (n : Nat) : Nat := n % 2 ^ 32

/-- Reduction of a natural number to a `size_t` (64-bit). -/
def usize (n : Nat) : Nat := n % 2 ^ 64

/-- Subtraction `a - b` of two `uint32_t` values: the difference, wrapped
around `2 ^ 32` when `b` exceeds `a`. -/
def u32_sub (a b : Nat) : Nat := u32 (if b ≤ a then a - b else a + 2 ^ 32 - b)

/-- Subtraction `a - b` of two `size_t` values: the difference, wrapped around
`2 ^ 64` when `b` exceeds `a`. -/
def usize_sub (a b : Nat) : Nat := usize (if b ≤ a then a - b else a + 2 ^ 64 - b)

/-- The value of an `int32_t` that shares its storage with the `uint32_t` word `w`. -/
def as_int32 (w : Nat) : Int := if w < 2 ^ 31 then (w : Int) else (w : Int) - 2 ^ 32

/-- The constant `std::string::npos`. -/
def npos : Nat := 2 ^ 64 - 1

/-- Decimal rendering `std::to_string` of an unsigned value. -/
def to_string (n : Nat) : std_string := Nat.toDigits 10 n

/-- Decimal rendering `std::to_string` of a signed value. -/
def to_string_int (i : Int) : std_string :=
  if i < 0 then '-' :: Nat.toDigits 10 i.natAbs else Nat.toDigits 10 i.natAbs

/-- Search of `std::string::find(pat)` in the remaining text, which starts at
position `i`. -/
def find_from (pat : std_string) : std_string → Nat → Option Nat
  | [], i => if pat = [] then some i else none
  | c :: cs, i => if pat.isPrefixOf (c :: cs) then some i else find_from pat cs (i + 1)

/-- The position `s.find(pat)` of the first occurrence of `pat`; `none` is the
result `npos`. -/
def find (s pat : std_string) : Option Nat := find_from pat s 0

/-- Downward search of `rfind`: the largest start `j ≤ i` at which `pat` occurs. -/
def rfind_from (s pat : std_string) : Nat → Nat
  | 0 => if pat.isPrefixOf s then 0 else npos
  | i + 1 => if pat.isPrefixOf (s.drop (i + 1)) then i + 1 else rfind_from s pat i

/-- The position `s.rfind(pat, pos)`: the last occurrence of `pat` that starts
at or before `pos`, or `npos`. -/
def rfind (s pat : std_string) (pos : Nat) : Nat :=
  if s.length < pat.length then npos
  else rfind_from s pat (min pos (s.length - pat.length))

/-- The call `s.erase(pos, n)`; it throws when `pos` is past the end. -/
def erase (s : std_string) (pos n : Nat) : Option std_string :=
  if s.length < pos then none else some (s.take pos ++ s.drop (pos + n))

/-- The call `s.replace(pos, n, by)`; it throws when `pos` is past the end. -/
def replace (s : std_string) (pos n : Nat) (t : std_string) : Option std_string :=
  if s.length < pos then none else some (s.take pos ++ t ++ s.drop (pos + n))

/-- The function `align` at the top of the file.  The remainder by a zero
alignment is a division by zero, rendered as `none`. -/
def align (address alignment : Nat) : Option Nat :=
  if alignment = 0 then none
  else if address % alignment ≠ 0 then
    some (u32_sub (u32 (address + alignment)) (address % alignment))
  else some address

/-! ## The intermediate representation consumed by the backend -/

/-- Modelled from the spec: the base kinds of a type (the enumeration
`type::datatype` is declared in a header outside this file). -/
inductive datatype where
  | t_void | t_bool | t_int | t_uint | t_float | t_struct | t_sampler
  deriving DecidableEq, Repr

/-- Modelled from the spec: the qualifiers tested by `write_type` (the
enumeration `type::qualifier` is declared in a header outside this file). -/
inductive qualifier where
  | q_precise | q_linear | q_noperspective | q_centroid | q_nointerpolation
  | q_inout | q_in | q_out
  deriving DecidableEq, Repr

/-- Modelled from the spec: the record `type` (declared in a header outside
this file): base kind, rows, columns, array length (a signed `int`), the set
of qualifiers and the id of the struct definition. -/
structure type where
  base : datatype
  rows : Nat
  cols : Nat
  array_length : Int
  qualifiers : List qualifier
  definition : Nat
  deriving DecidableEq, Repr

namespace type

/-- Modelled from the spec: `type::has`, the test of one qualifier. -/
def has (t : type) (q : qualifier) : Bool := decide (q ∈ t.qualifiers)

/-- Modelled from the spec: `type::is_array`. -/
def is_array (t : type) : Bool := decide (t.array_length ≠ 0)

/-- Modelled from the spec: `type::is_numeric` (bool, int, uint or float). -/
def is_numeric (t : type) : Bool :=
  match t.base with
  | .t_bool | .t_int | .t_uint | .t_float => true
  | _ => false

/-- Modelled from the spec: `type::is_scalar`, rows = cols = 1. -/
def is_scalar (t : type) : Bool := decide (t.rows = 1 ∧ t.cols = 1)

/-- Modelled from the spec: `type::is_vector`, cols = 1 and rows > 1. -/
def is_vector (t : type) : Bool := decide (t.cols = 1 ∧ 1 < t.rows)

/-- Modelled from the spec: `type::is_matrix`, rows > 1 and cols > 1. -/
def is_matrix (t : type) : Bool := decide (1 < t.rows ∧ 1 < t.cols)

/-- Modelled from the spec: `type::is_void`. -/
def is_void (t : type) : Bool := decide (t.base = .t_void)

/-- Modelled from the spec: `type::is_struct`. -/
def is_struct (t : type) : Bool := decide (t.base = .t_struct)

/-- Modelled from the spec: `type::is_floating_point`. -/
def is_floating_point (t : type) : Bool := decide (t.base = .t_float)

/-- Modelled from the spec: `type::components`, rows times cols. -/
def components (t : type) : Nat := u32 (t.rows * t.cols)

end type

/-- Modelled from the spec: a source location; the backend reads its line only. -/
structure location where
  line : Nat
  deriving DecidableEq, Repr

/-- Modelled from the spec: a member of a struct, (type, name). -/
structure struct_member_info where
  type : type
  name : std_string
  deriving DecidableEq, Repr

/-- Modelled from the spec: a struct definition. -/
structure struct_info where
  name : std_string
  unique_name : std_string
  member_list : List struct_member_info
  definition : Nat
  deriving DecidableEq, Repr

/-- Modelled from the spec: a texture declaration; the backend sets its id. -/
structure texture_info where
  id : Nat
  unique_name : std_string
  deriving DecidableEq, Repr

/-- Modelled from the spec: a sampler declaration with its binding slot. -/
structure sampler_info where
  id : Nat
  binding : Nat
  unique_name : std_string
  deriving DecidableEq, Repr

/-- Modelled from the spec: a uniform declaration with its placement. -/
structure uniform_info where
  name : std_string
  type : type
  size : Nat
  offset : Nat
  member_index : Nat
  deriving DecidableEq, Repr

/-- Modelled from the spec: a function parameter. -/
structure parameter_info where
  type : type
  name : std_string
  location : location
  definition : Nat
  deriving DecidableEq, Repr

/-- Modelled from the spec: a function definition. -/
structure function_info where
  definition : Nat
  unique_name : std_string
  return_type : type
  parameter_list : List parameter_info
  deriving DecidableEq, Repr

/-- Modelled from the spec: the metadata of a technique, which the backend
passes through unmodified. -/
structure technique_info where
  name : std_string
  deriving DecidableEq, Repr

/-- Modelled from the spec: the output module (declared in a header outside
this file): the source text, the sampler, texture and uniform descriptors, the
techniques and the entry points (name, is-pixel-shader flag). -/
structure module where
  hlsl : std_string
  samplers : List sampler_info
  textures : List texture_info
  uniforms : List uniform_info
  techniques : List technique_info
  entry_points : List (std_string × Bool)
  deriving DecidableEq, Repr

/-- Modelled from the spec: a constant, the words of the component union
(`as_uint`, `as_int` and `as_float` share storage) and the nested constants of
an array. -/
inductive constant where
  | mk (as_uint : List Nat) (array_data : List constant) : constant

/-- The component words of a constant. -/
def constant.as_uint : constant → List Nat
  | .mk w _ => w

/-- The element constants of an array constant. -/
def constant.array_data : constant → List constant
  | .mk _ d => d

/-- Modelled from the spec: the kinds of operation of an expression chain. -/
inductive op_kind where
  | op_cast | op_index | op_member | op_swizzle
  deriving DecidableEq, Repr

/-- Modelled from the spec: one operation of an expression chain (`from_` and
`to_` are the members `from` and `to`, `swizzle` the four signed lane indices). -/
structure operation where
  type : op_kind
  from_ : reshadefx.type
  to_ : reshadefx.type
  index : Nat
  swizzle : List Int

/-- Modelled from the spec: an expression chain. -/
structure expression where
  type : reshadefx.type
  base : Nat
  constant : reshadefx.constant
  is_constant : Bool
  location : reshadefx.location
  ops : List operation

/-- Modelled from the spec: the operator tokens named by the backend; `other`
stands for every remaining token of the lexer. -/
inductive tokenid where
  | plus | plus_plus | plus_equal | minus | minus_minus | minus_equal
  | star | star_equal | slash | slash_equal | percent | percent_equal
  | caret | caret_equal | pipe | pipe_equal | ampersand | ampersand_equal
  | less_less | less_less_equal | greater_greater | greater_greater_equal
  | pipe_pipe | ampersand_ampersand | less | less_equal | greater | greater_equal
  | equal_equal | exclaim_equal | tilde | exclaim | question | other
  deriving DecidableEq, Repr

/-- Modelled from the spec: the data the backend takes from outside this file:
the rendering `std::to_string(float)` of a component word, the text template of
every intrinsic (`effect_symbol_table_intrinsics.inl`) applied to the rendered
result type and argument names, and the masks of the control hints. -/
structure dialect where
  float_to_string : Nat → std_string
  intrinsic_code : Nat → std_string → List std_string → Option std_string
  flatten : Nat
  dont_flatten : Nat
  unroll : Nat
  dont_unroll : Nat

/-! ## The backend object -/

/-- The data members of `class codegen_glsl`, with the module lists `_structs`,
`_samplers`, `_textures`, `_uniforms`, `_functions` and `_techniques` it inherits
from the base class `codegen`.  The three `unordered_map` members are finite maps: `none` is
an absent key. -/
structure codegen_glsl where
  _next_id : Nat
  _last_block : Nat
  _current_block : Nat
  _cbuffer_type_id : Nat
  _names : Nat → Option std_string
  _blocks : Nat → Option std_string
  _scope_level : Nat
  _current_cbuffer_offset : Nat
  _current_sampler_binding : Nat
  _switch_fallthrough_blocks : Nat → Option (List Nat)
  _entry_points : List (std_string × Bool)
  _structs : List struct_info
  _samplers : List sampler_info
  _textures : List texture_info
  _uniforms : List uniform_info
  _functions : List function_info
  _techniques : List technique_info

/-- Assignment `m[k] = v` on a finite map. -/
def map_set {α : Type} (m : Nat → Option α) (k : Nat) (v : α) : Nat → Option α :=
  fun j => if j = k then some v else m j

namespace codegen_glsl

/-- The member `make_id`: it returns `_next_id` and increments it. -/
def make_id (st : codegen_glsl) : Nat × codegen_glsl :=
  (st._next_id, { st with _next_id := u32 (st._next_id + 1) })

/-- The assignment `_names[id] = name`. -/
def set_name (st : codegen_glsl) (id : Nat) (name : std_string) : codegen_glsl :=
  { st with _names := map_set st._names id name }

/-- The text that `_blocks[k]` refers to (empty when the key is new). -/
def block_text (st : codegen_glsl) (k : Nat) : std_string :=
  (st._blocks k).getD []

/-- The effect of evaluating `_blocks[k]`: a missing key is inserted with an
empty text. -/
def touch_block (st : codegen_glsl) (k : Nat) : codegen_glsl :=
  { st with _blocks := map_set st._blocks k (block_text st k) }

/-- The statement `_blocks[k] += s`. -/
def append_block (st : codegen_glsl) (k : Nat) (s : std_string) : codegen_glsl :=
  { st with _blocks := map_set st._blocks k (block_text st k ++ s) }

/-- The statement `code() += s`, where `code()` is `_blocks[_current_block]`. -/
def append_code (st : codegen_glsl) (s : std_string) : codegen_glsl :=
  append_block st st._current_block s

/-- The guarded statement `if (c) code() += s;`. -/
def append_code_if (st : codegen_glsl) (c : Bool) (s : std_string) : codegen_glsl :=
  if c then append_code st s else st

/-- The evaluation of `_blocks[k]` inside a guarded expression. -/
def touch_block_if (st : codegen_glsl) (c : Bool) (k : Nat) : codegen_glsl :=
  if c then touch_block st k else st

/-- The statement `_scope_level++`. -/
def scope_inc (st : codegen_glsl) : codegen_glsl :=
  { st with _scope_level := u32 (st._scope_level + 1) }

/-- The statement `_scope_level--`. -/
def scope_dec (st : codegen_glsl) : codegen_glsl :=
  { st with _scope_level := u32_sub st._scope_level 1 }

/-- The list that `_switch_fallthrough_blocks[k]` refers to. -/
def fallthrough_of (st : codegen_glsl) (k : Nat) : List Nat :=
  (st._switch_fallthrough_blocks k).getD []

/-- The effect of evaluating `_switch_fallthrough_blocks[k]`: a missing key is
inserted with an empty list. -/
def touch_fallthrough (st : codegen_glsl) (k : Nat) : codegen_glsl :=
  { st with _switch_fallthrough_blocks :=
      map_set st._switch_fallthrough_blocks k (fallthrough_of st k) }

/-- Modelled from the spec: the member `find_struct` of the base class `codegen`
(declared outside this file), the struct registered under a definition id; a
search that finds none is rendered as `none`. -/
def find_struct (st : codegen_glsl) (id : Nat) : Option struct_info :=
  st._structs.find? (fun s => decide (s.definition = id))

/-- The default member initialisers of the class (`_next_id = 1`, everything
else zero or empty). -/
def members_default : codegen_glsl :=
  { _next_id := 1
    _last_block := 0
    _current_block := 0
    _cbuffer_type_id := 0
    _names := fun _ => none
    _blocks := fun _ => none
    _scope_level := 0
    _current_cbuffer_offset := 0
    _current_sampler_binding := 0
    _switch_fallthrough_blocks := fun _ => none
    _entry_points := []
    _structs := []
    _samplers := []
    _textures := []
    _uniforms := []
    _functions := []
    _techniques := [] }

/-- The constructor `codegen_glsl()`: it registers the `$Globals` struct under
the first id. -/
def construct : codegen_glsl :=
  let r := make_id members_default
  let cbuffer_type : struct_info :=
    { name := S "$Globals", unique_name := S "_Globals", member_list := [],
      definition := r.1 }
  let st1 := { r.2 with _cbuffer_type_id := r.1 }
  let st2 := { st1 with _structs := st1._structs ++ [cbuffer_type] }
  set_name st2 st2._cbuffer_type_id cbuffer_type.unique_name

/-- The member `id_to_name`. -/
def id_to_name (st : codegen_glsl) (id : Nat) : std_string :=
  match st._names id with
  | some n => n
  | none => '_' :: to_string id

/-- The member `write_scope`. -/
def write_scope (st : codegen_glsl) : std_string :=
  List.replicate st._scope_level '\t'

/-- The member `write_location`. -/
def write_location (loc : location) : std_string :=
  S "#line " ++ to_string loc.line ++ S "\n"

/-- The spelling of a numeric base in `write_type`: `matRxC`, the vector
spelling `vec` with its rows, or the scalar spelling. -/
def write_numeric (t : type) (vec scalar : std_string) : std_string :=
  if 1 < t.cols then S "mat" ++ to_string t.rows ++ S "x" ++ to_string t.cols
  else if 1 < t.rows then vec ++ to_string t.rows
  else scalar

/-- The member `write_result`: it appends the source text to the module and
copies the lists. The call `_blocks.at(k)` throws when the key `k` is absent. -/
def write_result (st : codegen_glsl) (s : module) : Option module :=
  let s1 : module :=
    match st._blocks st._cbuffer_type_id with
    | some b =>
      { s with hlsl := s.hlsl ++
          (S "layout(std140, binding = 0) uniform _Globals \x7b\n" ++ b ++ S "\x7d;\n") }
    | none => s
  match st._blocks 0 with
  | none => none
  | some b0 =>
    some { hlsl := s1.hlsl ++ b0, samplers := st._samplers, textures := st._textures,
           uniforms := st._uniforms, techniques := st._techniques,
           entry_points := st._entry_points }

/-- The member `write_type`. -/
def write_type (st : codegen_glsl) (t : type) (is_param : Bool) : std_string :=
  (if t.has .q_precise then S "precise " else []) ++
  (if is_param then
    (if t.has .q_linear then S "smooth " else []) ++
    (if t.has .q_noperspective then S "noperspective " else []) ++
    (if t.has .q_centroid then S "centroid " else []) ++
    (if t.has .q_nointerpolation then S "flat " else []) ++
    (if t.has .q_inout then S "inout "
     else if t.has .q_in then S "in "
     else if t.has .q_out then S "out "
     else [])
   else []) ++
  (match t.base with
   | .t_void => S "void"
   | .t_bool => write_numeric t (S "bvec") (S "bool")
   | .t_int => write_numeric t (S "ivec") (S "int")
   | .t_uint => write_numeric t (S "uvec") (S "uint")
   | .t_float => write_numeric t (S "vec") (S "float")
   | .t_struct => id_to_name st t.definition
   | .t_sampler => S "sampler2D")

/-- The `switch (type.base)` inside the component loop of `write_constant`: the
literal of a component whose word is `w`. -/
def component_literal (env : dialect) (t : type) (w : Nat) : std_string :=
  match t.base with
  | .t_bool => if w ≠ 0 then S "true" else S "false"
  | .t_int => to_string_int (as_int32 w)
  | .t_uint => to_string w
  | .t_float => env.float_to_string w
  | _ => []

/-- The literal of component `i` in `write_constant`, followed by the
separator when it is not the last one; a read past the component array is
`none`. -/
def write_component (env : dialect) (t : type) (data : constant) (components i : Nat) :
    Option std_string :=
  if 16 ≤ i then none else
  match data.as_uint.get? i with
  | none => none
  | some w =>
    some (component_literal env t w ++ (if i < u32_sub components 1 then S ", " else []))

/-- The component loop of `write_constant`, from index `i`, for `n` more rounds. -/
def write_components (env : dialect) (t : type) (data : constant) (components : Nat) :
    Nat → Nat → Option std_string
  | _, 0 => some []
  | i, n + 1 =>
    match write_component env t data components i with
    | none => none
    | some c =>
      match write_components env t data components (i + 1) n with
      | none => none
      | some rest => some (c ++ rest)

/-- The member `write_constant` on a type that is not an array. -/
def write_constant_value (st : codegen_glsl) (env : dialect) (t : type) (data : constant) :
    Option std_string :=
  if ¬ (t.is_numeric ∨ (t.is_struct ∧ data.as_uint.get? 0 = some 0)) then none else
  match (if t.is_numeric then write_components env t data t.components 0 t.components
         else some []) with
  | none => none
  | some body =>
    some ((if ¬ t.is_scalar then
            (if t.is_matrix then S "transpose" else []) ++ S "(" ++ write_type st t false
           else []) ++ S "(" ++ body ++ (if ¬ t.is_scalar then S ")" else []) ++ S ")")

/-- The element loop of the array branch of `write_constant`. -/
def write_constant_elems (st : codegen_glsl) (env : dialect) (elem_type : type) :
    List constant → Option std_string
  | [] => some []
  | d :: ds =>
    match write_constant_value st env elem_type d with
    | none => none
    | some e =>
      match write_constant_elems st env elem_type ds with
      | none => none
      | some rest => some (e ++ S ", " ++ rest)

/-- The member `write_constant`.  The recursive call of the array branch runs
on the element type, whose array length is 0, so it never recurses again. -/
def write_constant (st : codegen_glsl) (env : dialect) (t : type) (data : constant) :
    Option std_string :=
  if ¬ (t.is_numeric ∨ (t.is_struct ∧ data.as_uint.get? 0 = some 0)) then none else
  if t.is_array then
    match write_constant_elems st env { t with array_length := 0 } data.array_data with
    | none => none
    | some elems => some (S "\x7b " ++ elems ++ S " \x7d")
  else write_constant_value st env t data

/-- The set `s_reserverd_names` of `escape_name`. -/
def s_reserverd_names : List std_string :=
  [S "common", S "partition", S "input", S "ouput", S "active", S "filter", S "superp",
   S "invariant", S "lowp", S "mediump", S "highp", S "precision", S "patch",
   S "subroutine", S "abs", S "sign", S "all", S "any", S "sin", S "sinh", S "cos",
   S "cosh", S "tan", S "tanh", S "asin", S "acos", S "atan", S "exp", S "exp2",
   S "log", S "log2", S "sqrt", S "inversesqrt", S "ceil", S "floor", S "fract",
   S "trunc", S "round", S "radians", S "degrees", S "length", S "normalize",
   S "transpose", S "determinant", S "intBitsToFloat", S "uintBitsToFloat",
   S "floatBitsToInt", S "floatBitsToUint", S "matrixCompMult", S "not", S "lessThan",
   S "greaterThan", S "lessThanEqual", S "greaterThanEqual", S "equal", S "notEqual",
   S "dot", S "cross", S "distance", S "pow", S "modf", S "frexp", S "ldexp", S "min",
   S "max", S "step", S "reflect", S "texture", S "textureOffset", S "fma", S "mix",
   S "clamp", S "smoothstep", S "refract", S "faceforward", S "textureLod",
   S "textureLodOffset", S "texelFetch", S "main"]

/-- The loop `while ((p = res.find("__")) != npos) res.replace(p, 2, "_US");` of
`escape_name`, run for at most `fuel` rounds; `none` when the rounds run out. -/
def escape_loop : Nat → std_string → Option std_string
  | fuel, res =>
    match find res (S "__") with
    | none => some res
    | some p =>
      match fuel with
      | 0 => none
      | fuel + 1 =>
        match replace res p 2 (S "_US") with
        | none => none
        | some res1 => escape_loop fuel res1

/-- The member `escape_name`; the loop gets one round per character. -/
def escape_name (name : std_string) : Option std_string :=
  escape_loop (name.length + 1)
    ((if name.take 3 = S "gl_" ∨ name ∈ s_reserverd_names then S "_" else []) ++ name)

/-! ## Declarations -/

/-- The member `define_struct`. -/
def define_struct (st : codegen_glsl) (loc : location) (info : struct_info) :
    Nat × codegen_glsl :=
  let r := make_id st
  let info1 : struct_info := { info with definition := r.1 }
  let st1 := set_name r.2 info1.definition info1.unique_name
  let st2 := { st1 with _structs := st1._structs ++ [info1] }
  let st3 := append_code st2
    (write_location loc ++ S "struct " ++ info1.unique_name ++ S "\n\x7b\n")
  let st4 := info1.member_list.foldl
    (fun s m => append_code s (S "\t" ++ write_type s m.type true ++ S " " ++ m.name ++ S ";\n"))
    st3
  let st5 := append_code_if st4 info1.member_list.isEmpty (S "float _dummy;\n")
  (info1.definition, append_code st5 (S "\x7d;\n"))

/-- The member `define_texture`. -/
def define_texture (st : codegen_glsl) (info : texture_info) : Nat × codegen_glsl :=
  let r := make_id st
  let info1 : texture_info := { info with id := r.1 }
  (info1.id, { r.2 with _textures := r.2._textures ++ [info1] })

/-- The member `define_sampler`. -/
def define_sampler (st : codegen_glsl) (loc : location) (info : sampler_info) :
    Nat × codegen_glsl :=
  let r := make_id st
  let info1 : sampler_info := { info with id := r.1, binding := r.2._current_sampler_binding }
  let st1 := { r.2 with _current_sampler_binding := u32 (r.2._current_sampler_binding + 1) }
  let st2 := { st1 with _samplers := st1._samplers ++ [info1] }
  let st3 := append_code st2
    (write_location loc ++ S "layout(binding = " ++ to_string info1.binding ++
      S ") uniform sampler2D " ++ info1.unique_name ++ S ";\n")
  (info1.id, set_name st3 info1.id info1.unique_name)

/-- The value `size` computed by `define_uniform`, in unsigned 32-bit arithmetic. -/
def uniform_size (t : type) : Nat :=
  u32 (4 * (if t.rows = 3 then 4 else t.rows) * t.cols * (max 1 t.array_length).toNat)

/-- The statement `find_struct(id).member_list.push_back(member)`. -/
def push_member (structs : List struct_info) (id : Nat) (member : struct_member_info) :
    List struct_info :=
  match structs with
  | [] => []
  | s :: rest =>
    if s.definition = id then { s with member_list := s.member_list ++ [member] } :: rest
    else s :: push_member rest id member

/-- The member `define_uniform`. -/
def define_uniform (st : codegen_glsl) (loc : location) (info : uniform_info) :
    Option (Nat × codegen_glsl) :=
  let size := uniform_size info.type
  let alignment := size
  match align st._current_cbuffer_offset alignment with
  | none => none
  | some offset =>
    let info1 : uniform_info := { info with size := size, offset := offset }
    let st1 := { st with _current_cbuffer_offset := u32 (info1.offset + info1.size) }
    let member : struct_member_info := { type := info1.type, name := info1.name }
    match find_struct st1 st1._cbuffer_type_id with
    | none => none
    | some _ =>
      let st2 := { st1 with _structs := push_member st1._structs st1._cbuffer_type_id member }
      let st3 := append_block st2 st2._cbuffer_type_id
        (write_location loc ++ write_type st2 info1.type false ++ S " _Globals_" ++
          info1.name ++ S ";\n")
      let info2 : uniform_info := { info1 with member_index := u32 st3._uniforms.length }
      some (st3._cbuffer_type_id, { st3 with _uniforms := st3._uniforms ++ [info2] })

/-- The suffix `[N]` appended after a declared name when the type is an array. -/
def array_suffix (t : type) : std_string :=
  if t.is_array then S "[" ++ to_string_int t.array_length ++ S "]" else []

/-- The member `define_variable`; `name` is `none` for a null pointer. -/
def define_variable (st : codegen_glsl) (loc : location) (t : type)
    (name : Option std_string) (initializer_value : Nat) : Nat × codegen_glsl :=
  let r := make_id st
  let st1 := match name with
    | some n => set_name r.2 r.1 n
    | none => r.2
  let st2 := append_code st1
    (write_location loc ++ write_scope st1 ++ write_type st1 t false ++ S " " ++
      id_to_name st1 r.1)
  let st3 := append_code st2 (array_suffix t)
  let st4 := append_code_if st3 (decide (initializer_value ≠ 0))
    (S " = " ++ id_to_name st3 initializer_value)
  (r.1, append_code st4 (S ";\n"))

/-- One round of the parameter loop of `define_function`, at index `i`. -/
def define_function_param (num_params : Nat) (st : codegen_glsl) (param : parameter_info)
    (i : Nat) : codegen_glsl × parameter_info :=
  let r := make_id st
  let param1 : parameter_info := { param with definition := r.1 }
  let st1 := set_name r.2 param1.definition param1.name
  let st2 := append_code st1
    (S "\n" ++ write_location param1.location ++ S "\t" ++
      write_type st1 param1.type true ++ S " " ++ param1.name)
  let st3 := append_code_if st2 (decide (i < usize_sub num_params 1)) (S ",")
  (st3, param1)

/-- The parameter loop of `define_function`, over the parameters paired with
their loop index; the second component collects the parameters with their ids. -/
def define_function_params (num_params : Nat) (st : codegen_glsl)
    (params : List parameter_info) : codegen_glsl × List parameter_info :=
  params.enum.foldl
    (fun acc ip =>
      ((define_function_param num_params acc.1 ip.2 ip.1).1,
        acc.2 ++ [(define_function_param num_params acc.1 ip.2 ip.1).2]))
    (st, [])

/-- The member `define_function`. -/
def define_function (st : codegen_glsl) (loc : location) (info : function_info) :
    Nat × codegen_glsl :=
  let r := make_id st
  let st1 := set_name r.2 r.1 info.unique_name
  let st2 := append_code st1
    (write_location loc ++ write_type st1 info.return_type false ++ S " " ++
      info.unique_name ++ S "(")
  let p := define_function_params info.parameter_list.length st2 info.parameter_list
  let st3 := append_code p.1 (S ")\n")
  let st4 := scope_inc st3
  let info1 : function_info := { info with definition := r.1, parameter_list := p.2 }
  (r.1, { st4 with _functions := st4._functions ++ [info1] })

/-- The member `create_block`. -/
def create_block (st : codegen_glsl) : Nat × codegen_glsl := make_id st

/-- The member `create_entry_point`. -/
def create_entry_point (st : codegen_glsl) (func : function_info) (is_ps : Bool) :
    codegen_glsl :=
  if (st._entry_points.find? (fun ep => decide (ep.1 = func.unique_name))).isSome then st
  else
    let st1 := append_code st (S "#ifdef ENTRY_POINT_" ++ func.unique_name ++ S "\n")
    let st2 := append_code st1 (S "void main()\n\x7b\n")
    let st3 := scope_inc st2
    let st4 := scope_dec st3
    let st5 := append_code st4 (S "\x7d\n")
    let st6 := append_code st5 (S "#endif\n")
    { st6 with _entry_points := st6._entry_points ++ [(func.unique_name, is_ps)] }

/-! ## Expressions and statements -/

/-- The character `"xyzw"[k]` of the swizzle loops: a lane letter, the
terminating NUL at index 4, and an out-of-range read otherwise. -/
def lane_letter (k : Int) : Option Char :=
  if k = 0 then some 'x' else if k = 1 then some 'y' else if k = 2 then some 'z'
  else if k = 3 then some 'w' else if k = 4 then some (Char.ofNat 0) else none

/-- The loop `for (i = 0; i < 4 && op.swizzle[i] >= 0; ++i) s += "xyzw"[op.swizzle[i]]`,
with `n` rounds left. -/
def swizzle_letters (swizzle : List Int) : Nat → Nat → Option std_string
  | _, 0 => some []
  | i, n + 1 =>
    match swizzle.get? i with
    | none => none
    | some k =>
      if k < 0 then some []
      else match lane_letter k with
        | none => none
        | some c =>
          match swizzle_letters swizzle (i + 1) n with
          | none => none
          | some rest => some (c :: rest)

/-- The name `find_struct(definition).member_list[index].name`. -/
def member_name (st : codegen_glsl) (definition index : Nat) : Option std_string :=
  match find_struct st definition with
  | none => none
  | some s => (s.member_list.get? index).map (fun m => m.name)

/-- One round of the operation loop of `emit_load`, on the path built so far. -/
def load_op (st : codegen_glsl) (newcode : std_string) (op : operation) :
    Option std_string :=
  match op.type with
  | .op_cast => some (S "((" ++ write_type st op.to_ false ++ S ")" ++ newcode ++ S ")")
  | .op_index => some (newcode ++ S "[" ++ id_to_name st op.index ++ S "]")
  | .op_member =>
    match member_name st op.from_.definition op.index with
    | none => none
    | some n =>
      some (newcode ++ (if op.from_.definition = st._cbuffer_type_id then S "_" else S ".") ++ n)
  | .op_swizzle =>
    match swizzle_letters op.swizzle 0 4 with
    | none => none
    | some l => some (newcode ++ S "." ++ l)

/-- The operation loop of `emit_load`. -/
def load_chain (st : codegen_glsl) : std_string → List operation → Option std_string
  | newcode, [] => some newcode
  | newcode, op :: ops =>
    match load_op st newcode op with
    | none => none
    | some c => load_chain st c ops

/-- The member `emit_load`. -/
def emit_load (st : codegen_glsl) (env : dialect) (chain : expression) :
    Option (Nat × codegen_glsl) :=
  let r := make_id st
  let st1 := append_code r.2
    (write_location chain.location ++ write_scope r.2 ++ S "const " ++
      write_type r.2 chain.type false ++ S " " ++ id_to_name r.2 r.1)
  let st2 := append_code st1 (array_suffix chain.type)
  let st3 := append_code st2 (S " = ")
  match (if chain.is_constant then write_constant st3 env chain.type chain.constant
         else load_chain st3 (id_to_name st3 chain.base) chain.ops) with
  | none => none
  | some rhs => some (r.1, append_code (append_code st3 rhs) (S ";\n"))

/-- One round of the operation loop of `emit_store` (a cast appends nothing). -/
def store_op (st : codegen_glsl) (op : operation) : Option codegen_glsl :=
  match op.type with
  | .op_cast => some st
  | .op_index => some (append_code st (S "[" ++ id_to_name st op.index ++ S "]"))
  | .op_member =>
    match member_name st op.from_.definition op.index with
    | none => none
    | some n => some (append_code (append_code st (S ".")) n)
  | .op_swizzle =>
    match swizzle_letters op.swizzle 0 4 with
    | none => none
    | some l => some (append_code (append_code st (S ".")) l)

/-- The operation loop of `emit_store`. -/
def store_chain : codegen_glsl → List operation → Option codegen_glsl
  | st, [] => some st
  | st, op :: ops =>
    match store_op st op with
    | none => none
    | some st1 => store_chain st1 ops

/-- The member `emit_store`. -/
def emit_store (st : codegen_glsl) (chain : expression) (value : Nat) :
    Option codegen_glsl :=
  let st1 := append_code st
    (write_location chain.location ++ write_scope st ++ id_to_name st chain.base)
  match store_chain st1 chain.ops with
  | none => none
  | some st2 => some (append_code st2 (S " = " ++ id_to_name st2 value ++ S ";\n"))

/-- The member `emit_constant`. -/
def emit_constant (st : codegen_glsl) (env : dialect) (t : type) (data : constant) :
    Option (Nat × codegen_glsl) :=
  if ¬ t.is_numeric then none else
  let r := make_id st
  let st1 := append_code r.2
    (write_scope r.2 ++ S "const " ++ write_type r.2 t false ++ S " " ++ id_to_name r.2 r.1)
  let st2 := append_code st1 (array_suffix t)
  match write_constant st2 env t data with
  | none => none
  | some c => some (r.1, append_code st2 (S " = " ++ c ++ S ";\n"))

/-- The operator text chosen by the `switch` of `emit_unary_op`. -/
def unary_op_code (op : tokenid) (res_type : type) : Option std_string :=
  match op with
  | .minus => some (S "-")
  | .tilde => some (S "~")
  | .exclaim => some (if res_type.is_vector then S "not" else S "!bool")
  | _ => none

/-- The member `emit_unary_op`. -/
def emit_unary_op (st : codegen_glsl) (loc : location) (op : tokenid) (res_type : type)
    (val : Nat) : Option (Nat × codegen_glsl) :=
  let r := make_id st
  let st1 := append_code r.2
    (write_location loc ++ write_scope r.2 ++ S "const " ++ write_type r.2 res_type false ++
      S " " ++ id_to_name r.2 r.1 ++ S " = ")
  match unary_op_code op res_type with
  | none => none
  | some c =>
    let st2 := append_code st1 c
    some (r.1, append_code st2 (S "(" ++ id_to_name st2 val ++ S ");\n"))

/-- The pair (`intrinsic`, `operator_code`) set by the `switch` of
`emit_binary_op`. -/
def binary_op_code (op : tokenid) (t : type) : Option (std_string × std_string) :=
  match op with
  | .plus | .plus_plus | .plus_equal => some ([], S "+")
  | .minus | .minus_minus | .minus_equal => some ([], S "-")
  | .star | .star_equal =>
    if t.is_matrix then some (S "matrixCompMult", []) else some ([], S "*")
  | .slash | .slash_equal => some ([], S "/")
  | .percent | .percent_equal =>
    if t.is_floating_point then some (S "_fmod", []) else some ([], S "%")
  | .caret | .caret_equal => some ([], S "^")
  | .pipe | .pipe_equal => some ([], S "|")
  | .ampersand | .ampersand_equal => some ([], S "&")
  | .less_less | .less_less_equal => some ([], S "<<")
  | .greater_greater | .greater_greater_equal => some ([], S ">>")
  | .pipe_pipe => some ([], S "||")
  | .ampersand_ampersand => some ([], S "&&")
  | .less => if t.is_vector then some (S "lessThan", []) else some ([], S "<")
  | .less_equal => if t.is_vector then some (S "lessThanEqual", []) else some ([], S "<=")
  | .greater => if t.is_vector then some (S "greaterThan", []) else some ([], S ">")
  | .greater_equal =>
    if t.is_vector then some (S "greaterThanEqual", []) else some ([], S ">=")
  | .equal_equal => if t.is_vector then some (S "equal", []) else some ([], S "==")
  | .exclaim_equal => if t.is_vector then some (S "notEqual", []) else some ([], S "!=")
  | _ => none

/-- The member `emit_binary_op`. -/
def emit_binary_op (st : codegen_glsl) (loc : location) (op : tokenid)
    (res_type t : type) (lhs rhs : Nat) : Option (Nat × codegen_glsl) :=
  let r := make_id st
  let st1 := append_code r.2
    (write_location loc ++ write_scope r.2 ++ S "const " ++ write_type r.2 res_type false ++
      S " " ++ id_to_name r.2 r.1 ++ S " = ")
  match binary_op_code op t with
  | none => none
  | some c =>
    let st2 := append_code st1
      (if c.1 ≠ [] then
        c.1 ++ S "(" ++ id_to_name st1 lhs ++ S ", " ++ id_to_name st1 rhs ++ S ")"
       else id_to_name st1 lhs ++ S " " ++ c.2 ++ S " " ++ id_to_name st1 rhs)
    some (r.1, append_code st2 (S ";\n"))

/-- The member `emit_ternary_op`. -/
def emit_ternary_op (st : codegen_glsl) (loc : location) (op : tokenid) (res_type : type)
    (condition true_value false_value : Nat) : Option (Nat × codegen_glsl) :=
  if op ≠ .question then none else
  let r := make_id st
  let st1 := append_code r.2
    (write_location loc ++ write_scope r.2 ++ S "const " ++ write_type r.2 res_type false ++
      S " " ++ id_to_name r.2 r.1)
  let st2 := append_code st1 (array_suffix res_type)
  some (r.1, append_code st2
    (S " = " ++ id_to_name st2 condition ++ S " ? " ++ id_to_name st2 true_value ++
      S " : " ++ id_to_name st2 false_value ++ S ";\n"))

/-- The argument loop of `emit_call` and `emit_construct`: the names of the
argument bases, separated by `, `. -/
def write_args (st : codegen_glsl) : List expression → std_string
  | [] => []
  | [a] => id_to_name st a.base
  | a :: b :: rest => id_to_name st a.base ++ S ", " ++ write_args st (b :: rest)

/-- The assertion of `emit_call` on every argument. -/
def call_args_ok (args : List expression) : Bool :=
  args.all (fun arg => (arg.ops.isEmpty && decide (arg.base ≠ 0)))

/-- The member `emit_call`. -/
def emit_call (st : codegen_glsl) (loc : location) (function : Nat) (res_type : type)
    (args : List expression) : Option (Nat × codegen_glsl) :=
  if ¬ call_args_ok args then none else
  let r := make_id st
  let st1 := append_code r.2 (write_location loc ++ write_scope r.2)
  let st2 := append_code_if
    (append_code_if
      (append_code_if st1 (!res_type.is_void)
        (S "const " ++ write_type st1 res_type false ++ S " " ++ id_to_name st1 r.1))
      (!res_type.is_void) (array_suffix res_type))
    (!res_type.is_void) (S " = ")
  let st3 := append_code st2 (id_to_name st2 function ++ S "(")
  let st4 := append_code st3 (write_args st3 args)
  some (r.1, append_code st4 (S ");\n"))

/-- The member `emit_call_intrinsic`; the text of the intrinsic comes from the
template table. -/
def emit_call_intrinsic (st : codegen_glsl) (env : dialect) (loc : location)
    (intrinsic : Nat) (res_type : type) (args : List expression) :
    Option (Nat × codegen_glsl) :=
  if ¬ call_args_ok args then none else
  let r := make_id st
  let st1 := append_code r.2 (write_location loc ++ write_scope r.2)
  let st2 := append_code_if st1 (!res_type.is_void)
    (S "const " ++ write_type st1 res_type false ++ S " " ++ id_to_name st1 r.1 ++ S " = ")
  match env.intrinsic_code intrinsic (write_type st2 res_type false)
      (args.map (fun a => id_to_name st2 a.base)) with
  | none => none
  | some c => some (r.1, append_code (append_code st2 c) (S ";\n"))

/-- The member `emit_construct`. -/
def emit_construct (st : codegen_glsl) (loc : location) (t : type)
    (args : List expression) : Option (Nat × codegen_glsl) :=
  if ¬ args.all (fun arg =>
      (arg.type.is_scalar || t.is_array) && (arg.ops.isEmpty && decide (arg.base ≠ 0))) then none
  else
  let r := make_id st
  let st1 := append_code r.2
    (write_location loc ++ write_scope r.2 ++ S "const " ++ write_type r.2 t false ++
      S " " ++ id_to_name r.2 r.1)
  let st2 := append_code st1 (array_suffix t)
  let st3 := append_code st2 (S " = ")
  let st4 := append_code_if st3 (!t.is_array && t.is_matrix) (S "transpose(")
  let st5 := append_code st4 (write_type st4 t false)
  let st6 := append_code_if st5 t.is_array (S "[]")
  let st7 := append_code st6 (S "(")
  let st8 := append_code st7 (write_args st7 args)
  let st9 := append_code_if st8 (!t.is_array && t.is_matrix) (S ")")
  some (r.1, append_code st9 (S ");\n"))

/-! ## Control flow -/

/-- The test `flags & mask`. -/
def has_flag (flags mask : Nat) : Bool := decide (Nat.land flags mask ≠ 0)

/-- The member `is_in_block`. -/
def is_in_block (st : codegen_glsl) : Bool := decide (st._current_block ≠ 0)

/-- The member `is_in_function`. -/
def is_in_function (st : codegen_glsl) : Bool := decide (0 < st._scope_level)

/-- The member `set_block`. -/
def set_block (st : codegen_glsl) (id : Nat) : Nat × codegen_glsl :=
  let st1 := { st with _last_block := st._current_block }
  let st2 := { st1 with _current_block := id }
  (st2._last_block, st2)

/-- The member `enter_block`. -/
def enter_block (st : codegen_glsl) (id : Nat) : codegen_glsl :=
  { st with _current_block := id }

/-- The member `emit_if`. -/
def emit_if (st : codegen_glsl) (env : dialect) (loc : location)
    (condition_value condition_block true_statement_block false_statement_block flags : Nat) :
    Option codegen_glsl :=
  if ¬ (condition_value ≠ 0 ∧ condition_block ≠ 0 ∧ true_statement_block ≠ 0 ∧
      false_statement_block ≠ 0) then none else
  let st1 := append_code (touch_block st condition_block) (block_text st condition_block)
  let st2 := append_code st1 (write_location loc)
  let st3 := append_code_if st2 (has_flag flags env.flatten) (S "[flatten]")
  let st4 := append_code_if st3 (has_flag flags env.dont_flatten) (S "[branch]")
  let st5 := touch_block (touch_block st4 true_statement_block) false_statement_block
  some (append_code st5
    (write_scope st4 ++ S "if (" ++ id_to_name st4 condition_value ++ S ")\n" ++
      write_scope st4 ++ S "\x7b\n" ++
      block_text st4 true_statement_block ++
      write_scope st4 ++ S "\x7d\n" ++ write_scope st4 ++ S "else\n" ++
      write_scope st4 ++ S "\x7b\n" ++
      block_text st4 false_statement_block ++
      write_scope st4 ++ S "\x7d\n"))

/-- The member `emit_phi`. -/
def emit_phi (st : codegen_glsl) (loc : location)
    (condition_value condition_block true_value true_statement_block false_value
      false_statement_block : Nat) (t : type) : Option (Nat × codegen_glsl) :=
  if ¬ (condition_value ≠ 0 ∧ condition_block ≠ 0 ∧ true_value ≠ 0 ∧
      true_statement_block ≠ 0 ∧ false_value ≠ 0 ∧ false_statement_block ≠ 0) then none else
  let r := make_id st
  let st1 := touch_block r.2 condition_block
  let st2 := touch_block_if st1 (decide (true_statement_block ≠ condition_block))
    true_statement_block
  let st3 := touch_block_if st2 (decide (false_statement_block ≠ condition_block))
    false_statement_block
  some (r.1, append_code st3
    (block_text r.2 condition_block ++
      write_scope r.2 ++ write_type r.2 t false ++ S " " ++ id_to_name r.2 r.1 ++ S ";\n" ++
      write_location loc ++
      write_scope r.2 ++ S "if (" ++ id_to_name r.2 condition_value ++ S ")\n" ++
      write_scope r.2 ++ S "\x7b\n" ++
      (if true_statement_block ≠ condition_block then block_text r.2 true_statement_block
       else []) ++
      write_scope r.2 ++ id_to_name r.2 r.1 ++ S " = " ++ id_to_name r.2 true_value ++
      S ";\n" ++
      write_scope r.2 ++ S "\x7d\n" ++ write_scope r.2 ++ S "else\n" ++
      write_scope r.2 ++ S "\x7b\n" ++
      (if false_statement_block ≠ condition_block then block_text r.2 false_statement_block
       else []) ++
      write_scope r.2 ++ id_to_name r.2 r.1 ++ S " = " ++ id_to_name r.2 false_value ++
      S ";\n" ++
      write_scope r.2 ++ S "\x7d\n"))

/-- The rewrite "remove `const` from condition variable" of `emit_loop`. -/
def remove_const (loop_condition name : std_string) : Option std_string :=
  let pos_assign := rfind loop_condition name npos
  let pos_const_keyword := rfind loop_condition (S "const") pos_assign
  erase loop_condition pos_const_keyword 6

/-- The rewrite "convert variable initializer to assignment statement" of
`emit_loop`; the positions are `size_t` values. -/
def initializer_to_assignment (loop_condition name : std_string) : Option std_string :=
  let pos_assign := rfind loop_condition name npos
  let pos_prev_assign := rfind loop_condition (S "\n") pos_assign
  erase loop_condition (usize (pos_prev_assign + 1))
    (usize_sub (usize_sub pos_assign pos_prev_assign) 1)

/-- The first branch of `emit_loop` on `condition_block == 0`: the declaration
of the condition variable, or the condition block without its `const`. -/
def emit_loop_head (st : codegen_glsl) (condition_value condition_block : Nat) :
    Option codegen_glsl :=
  if condition_block = 0 then
    some (append_code st
      (write_scope st ++ S "bool " ++ id_to_name st condition_value ++ S ";\n"))
  else
    match remove_const (block_text st condition_block) (id_to_name st condition_value) with
    | none => none
    | some loop_condition => some (append_code (touch_block st condition_block) loop_condition)

/-- The second branch of `emit_loop` on `condition_block == 0`: the `do` loop
or the `while` loop. -/
def emit_loop_body (st : codegen_glsl)
    (condition_value condition_block loop_block continue_block : Nat) :
    Option codegen_glsl :=
  if condition_block = 0 then
    match initializer_to_assignment (block_text st continue_block)
        (id_to_name st condition_value) with
    | none => none
    | some loop_condition =>
      let st1 := touch_block st continue_block
      some (append_code (touch_block st1 loop_block)
        (S "do\n" ++ write_scope st1 ++ S "\x7b\n" ++ block_text st1 loop_block ++
          loop_condition ++ S "\x7d\n" ++ write_scope st1 ++ S "while (" ++
          id_to_name st1 condition_value ++ S ");\n"))
  else
    match initializer_to_assignment (block_text st condition_block)
        (id_to_name st condition_value) with
    | none => none
    | some loop_condition =>
      let st1 := touch_block st condition_block
      some (append_code (touch_block (touch_block st1 loop_block) continue_block)
        (S "while (" ++ id_to_name st1 condition_value ++ S ")\n" ++ write_scope st1 ++
          S "\x7b\n" ++ block_text st1 loop_block ++ block_text st1 continue_block ++
          loop_condition ++ write_scope st1 ++ S "\x7d\n"))

/-- The member `emit_loop` (its fourth id is unused, as in the source). -/
def emit_loop (st : codegen_glsl) (env : dialect) (loc : location)
    (condition_value prev_block condition_block loop_block continue_block flags : Nat) :
    Option codegen_glsl :=
  if ¬ (condition_value ≠ 0 ∧ prev_block ≠ 0 ∧ loop_block ≠ 0 ∧ continue_block ≠ 0) then none
  else
  let st1 := append_code (touch_block st prev_block) (block_text st prev_block)
  match emit_loop_head st1 condition_value condition_block with
  | none => none
  | some st2 =>
    let st3 := append_code st2 (write_location loc ++ write_scope st2)
    let st4 := append_code_if st3 (has_flag flags env.unroll) (S "[unroll] ")
    let st5 := append_code_if st4 (has_flag flags env.dont_unroll) (S "[loop] ")
    emit_loop_body st5 condition_value condition_block loop_block continue_block

/-- The inner loop of `emit_switch` over the fall-through blocks of a case. -/
def emit_fallthrough : codegen_glsl → List Nat → codegen_glsl
  | st, [] => st
  | st, fallthrough :: rest =>
    emit_fallthrough (append_code (touch_block st fallthrough) (block_text st fallthrough))
      rest

/-- The loop of `emit_switch` over the (literal, label) pairs; an odd number of
entries reads past the end of the vector. -/
def emit_switch_cases : codegen_glsl → List Nat → Option codegen_glsl
  | st, [] => some st
  | _, [_] => none
  | st, literal :: label :: rest =>
    if label = 0 then none else
    let st1 := append_code (touch_block st label)
      (write_scope st ++ S "case " ++ to_string literal ++ S ": \x7b\n" ++
        block_text st label)
    let st2 := emit_fallthrough (touch_fallthrough st1 label) (fallthrough_of st1 label)
    emit_switch_cases (append_code st2 (write_scope st2 ++ S "\x7d\n")) rest

/-- The statements of `emit_switch` in front of the case loop, up to the
opening brace of the `switch`. -/
def emit_switch_open (st : codegen_glsl) (env : dialect) (loc : location)
    (selector_value selector_block flags : Nat) : codegen_glsl :=
  let st1 := append_code (touch_block st selector_block) (block_text st selector_block)
  let st2 := append_code st1 (write_location loc ++ write_scope st1)
  let st3 := append_code_if st2 (has_flag flags env.flatten) (S "[flatten]")
  let st4 := append_code_if st3 (has_flag flags env.dont_flatten) (S "[branch]")
  append_code st4
    (S "switch (" ++ id_to_name st4 selector_value ++ S ")\n" ++ write_scope st4 ++
      S "\x7b\n")

/-- The member `emit_switch`. -/
def emit_switch (st : codegen_glsl) (env : dialect) (loc : location)
    (selector_value selector_block default_label : Nat)
    (case_literal_and_labels : List Nat) (flags : Nat) : Option codegen_glsl :=
  if ¬ (selector_value ≠ 0 ∧ selector_block ≠ 0 ∧ default_label ≠ 0) then none else
  let st5 := emit_switch_open st env loc selector_value selector_block flags
  let st6 := scope_inc st5
  match emit_switch_cases st6 case_literal_and_labels with
  | none => none
  | some st7 =>
    let st8 := append_code_if
      (touch_block_if st7 (decide (default_label ≠ st7._current_block)) default_label)
      (decide (default_label ≠ st7._current_block))
      (write_scope st7 ++ S "default: \x7b\n" ++ block_text st7 default_label ++
        write_scope st7 ++ S "\x7d\n")
    let st9 := scope_dec st8
    some (append_code st9 (write_scope st9 ++ S "\x7d\n"))

/-- The member `leave_block_and_kill`. -/
def leave_block_and_kill (st : codegen_glsl) : Nat × codegen_glsl :=
  if ¬ is_in_block st then (0, st) else
  set_block (append_code st (write_scope st ++ S "discard;\n")) 0

/-- The member `leave_block_and_return`. -/
def leave_block_and_return (st : codegen_glsl) (value : Nat) : Nat × codegen_glsl :=
  if ¬ is_in_block st then (0, st) else
  set_block
    (append_code st
      (write_scope st ++ S "return" ++
        (if value ≠ 0 then S " " ++ id_to_name st value else []) ++ S ";\n")) 0

/-- The member `leave_block_and_switch` (both ids are unused, as in the source). -/
def leave_block_and_switch (st : codegen_glsl) : Nat × codegen_glsl :=
  if ¬ is_in_block st then (st._last_block, st) else
  set_block st 0

/-- The statement `_switch_fallthrough_blocks[_current_block].push_back(target)`. -/
def push_fallthrough (st : codegen_glsl) (target : Nat) : codegen_glsl :=
  let targets := fallthrough_of st st._current_block ++ [target]
  { st with _switch_fallthrough_blocks :=
      map_set st._switch_fallthrough_blocks st._current_block targets }

/-- The member `leave_block_and_branch`. -/
def leave_block_and_branch (st : codegen_glsl) (target loop_flow : Nat) :
    Nat × codegen_glsl :=
  if ¬ is_in_block st then (st._last_block, st) else
  let st1 :=
    if loop_flow = 1 then append_code st (write_scope st ++ S "break;\n")
    else if loop_flow = 2 then append_code st (write_scope st ++ S "continue;\n")
    else if loop_flow = 3 then push_fallthrough st target
    else st
  set_block st1 0

/-- The member `leave_block_and_branch_conditional` (its three ids are unused,
as in the source). -/
def leave_block_and_branch_conditional (st : codegen_glsl) : Nat × codegen_glsl :=
  if ¬ is_in_block st then (st._last_block, st) else
  set_block st 0

/-- The member `leave_function`. -/
def leave_function (st : codegen_glsl) : Option codegen_glsl :=
  let st1 := append_code (touch_block st st._last_block)
    (S "\x7b\n" ++ block_text st st._last_block ++ S "\x7d\n")
  if ¬ (0 < st1._scope_level) then none
  else some (scope_dec st1)

/-! ## Runs of the backend -/

/-- One call of a state-changing member function of the `codegen` interface,
with its arguments. -/
inductive call where
  | define_struct (loc : location) (info : struct_info)
  | define_texture (info : texture_info)
  | define_sampler (loc : location) (info : sampler_info)
  | define_uniform (loc : location) (info : uniform_info)
  | define_variable (loc : location) (t : type) (name : Option std_string)
      (initializer_value : Nat)
  | define_function (loc : location) (info : function_info)
  | create_block
  | create_entry_point (func : function_info) (is_ps : Bool)
  | emit_load (chain : expression)
  | emit_store (chain : expression) (value : Nat)
  | emit_constant (t : type) (data : constant)
  | emit_unary_op (loc : location) (op : tokenid) (res_type : type) (val : Nat)
  | emit_binary_op (loc : location) (op : tokenid) (res_type t : type) (lhs rhs : Nat)
  | emit_ternary_op (loc : location) (op : tokenid) (res_type : type)
      (condition true_value false_value : Nat)
  | emit_call (loc : location) (function : Nat) (res_type : type) (args : List expression)
  | emit_call_intrinsic (loc : location) (intrinsic : Nat) (res_type : type)
      (args : List expression)
  | emit_construct (loc : location) (t : type) (args : List expression)
  | emit_if (loc : location)
      (condition_value condition_block true_statement_block false_statement_block
        flags : Nat)
  | emit_phi (loc : location)
      (condition_value condition_block true_value true_statement_block false_value
        false_statement_block : Nat) (t : type)
  | emit_loop (loc : location)
      (condition_value prev_block condition_block loop_block continue_block flags : Nat)
  | emit_switch (loc : location) (selector_value selector_block default_label : Nat)
      (case_literal_and_labels : List Nat) (flags : Nat)
  | set_block (id : Nat)
  | enter_block (id : Nat)
  | leave_block_and_kill
  | leave_block_and_return (value : Nat)
  | leave_block_and_switch
  | leave_block_and_branch (target loop_flow : Nat)
  | leave_block_and_branch_conditional
  | leave_function

/-- The backend after one call; `none` when the call aborts. -/
def step (env : dialect) (st : codegen_glsl) : call → Option codegen_glsl
  | .define_struct loc info => some (define_struct st loc info).2
  | .define_texture info => some (define_texture st info).2
  | .define_sampler loc info => some (define_sampler st loc info).2
  | .define_uniform loc info => (define_uniform st loc info).map Prod.snd
  | .define_variable loc t name v => some (define_variable st loc t name v).2
  | .define_function loc info => some (define_function st loc info).2
  | .create_block => some (create_block st).2
  | .create_entry_point func is_ps => some (create_entry_point st func is_ps)
  | .emit_load chain => (emit_load st env chain).map Prod.snd
  | .emit_store chain value => emit_store st chain value
  | .emit_constant t data => (emit_constant st env t data).map Prod.snd
  | .emit_unary_op loc op res_type val => (emit_unary_op st loc op res_type val).map Prod.snd
  | .emit_binary_op loc op res_type t lhs rhs =>
    (emit_binary_op st loc op res_type t lhs rhs).map Prod.snd
  | .emit_ternary_op loc op res_type c a b =>
    (emit_ternary_op st loc op res_type c a b).map Prod.snd
  | .emit_call loc f res_type args => (emit_call st loc f res_type args).map Prod.snd
  | .emit_call_intrinsic loc i res_type args =>
    (emit_call_intrinsic st env loc i res_type args).map Prod.snd
  | .emit_construct loc t args => (emit_construct st loc t args).map Prod.snd
  | .emit_if loc c cb tb fb flags => emit_if st env loc c cb tb fb flags
  | .emit_phi loc c cb tv tb fv fb t => (emit_phi st loc c cb tv tb fv fb t).map Prod.snd
  | .emit_loop loc c pb cb lb ctb flags => emit_loop st env loc c pb cb lb ctb flags
  | .emit_switch loc v b d cases flags => emit_switch st env loc v b d cases flags
  | .set_block id => some (set_block st id).2
  | .enter_block id => some (enter_block st id)
  | .leave_block_and_kill => some (leave_block_and_kill st).2
  | .leave_block_and_return value => some (leave_block_and_return st value).2
  | .leave_block_and_switch => some (leave_block_and_switch st).2
  | .leave_block_and_branch target loop_flow =>
    some (leave_block_and_branch st target loop_flow).2
  | .leave_block_and_branch_conditional => some (leave_block_and_branch_conditional st).2
  | .leave_function => leave_function st

/-- The backend after a sequence of calls, in order. -/
def run (env : dialect) : codegen_glsl → List call → Option codegen_glsl
  | st, [] => some st
  | st, c :: cs =>
    match step env st c with
    | none => none
    | some st1 => run env st1 cs

/-! ## Vocabulary of the properties -/

/-- The size of a uniform computed without wrap-around. -/
def uniform_size_exact (t : type) : Nat :=
  4 * (if t.rows = 3 then 4 else t.rows) * t.cols * (max 1 t.array_length).toNat

/-- The expression of `align` computed without wrap-around. -/
def align_exact (address alignment : Nat) : Nat :=
  if address % alignment ≠ 0 then address + alignment - address % alignment else address

/-- The cbuffer cursor after a sequence of uniforms, computed without
wrap-around; the 32-bit arithmetic of `define_uniform` does not wrap when this
value is below `2 ^ 32`. -/
def cursor_exact : Nat → List uniform_info → Nat
  | c, [] => c
  | c, u :: us =>
    cursor_exact (align_exact c (uniform_size_exact u.type) + uniform_size_exact u.type) us

/-- A sequence of `define_uniform` calls. -/
def uniform_calls (infos : List (location × uniform_info)) : List call :=
  infos.map (fun p => call.define_uniform p.1 p.2)

/-- Layout invariant of the recorded uniforms with respect to the cursor `c`:
every offset is a multiple of the size, every range ends at or before `c`, and
a later uniform starts at or after the end of an earlier one. -/
def layout_ok (c : Nat) (us : List uniform_info) : Prop :=
  (∀ u ∈ us, u.size ∣ u.offset ∧ u.offset + u.size ≤ c) ∧
    us.Pairwise (fun a b => a.offset + a.size ≤ b.offset)

/-- The part of the backend that `define_sampler` alone changes. -/
def sampler_state (st : codegen_glsl) : List sampler_info × Nat :=
  (st._samplers, st._current_sampler_binding)

/-- Whether a call is a `define_sampler` call. -/
def is_define_sampler : call → Bool
  | .define_sampler _ _ => true
  | _ => false

/-- The name of the sampler that a call declares, if it is a `define_sampler` call. -/
def declared_sampler : call → Option std_string
  | .define_sampler _ info => some info.unique_name
  | _ => none

/-- Binding invariant: the counter is the number of samplers and the `k`-th
sampler has slot `k`, both as unsigned 32-bit values. -/
def sampler_ok (st : codegen_glsl) : Prop :=
  st._current_sampler_binding = u32 st._samplers.length ∧
    ∀ (k : Nat) (s : sampler_info), st._samplers[k]? = some s → s.binding = u32 k

/-- The text in which every `__`, read from left to right, is replaced by `_US`. -/
def replace_all_us : std_string → std_string
  | [] => []
  | [c] => [c]
  | c :: d :: rest =>
    if c = '_' ∧ d = '_' then '_' :: 'U' :: 'S' :: replace_all_us rest
    else c :: replace_all_us (d :: rest)

/-- The text in which every `_US`, read from left to right, is replaced by `__`. -/
def restore_us : std_string → std_string
  | c :: d :: e :: rest =>
    if c = '_' ∧ d = 'U' ∧ e = 'S' then '_' :: '_' :: restore_us rest
    else c :: restore_us (d :: e :: rest)
  | s => s

/-- The text of one `case` arm written from state `st`: the header, the text of
the label's block, the texts of the fall-through blocks registered for the
label, and the closing brace. -/
def switch_arm (st : codegen_glsl) (literal label : Nat) : std_string :=
  write_scope st ++ S "case " ++ to_string literal ++ S ": \x7b\n" ++ block_text st label ++
    ((fallthrough_of st label).map (block_text st)).flatten ++ write_scope st ++ S "\x7d\n"

/-- The arms of all (literal, label) pairs, in order. -/
def switch_arms (st : codegen_glsl) : List Nat → std_string
  | literal :: label :: rest => switch_arm st literal label ++ switch_arms st rest
  | _ => []

/-- The case list holds whole pairs, every label is a block other than 0 and
`cur`, and so is every fall-through target registered for a label. -/
def cases_apart (targets : Nat → List Nat) (cur : Nat) : List Nat → Prop
  | [] => True
  | [_] => False
  | _ :: label :: rest =>
    (label ≠ 0 ∧ label ≠ cur ∧ ∀ t ∈ targets label, t ≠ cur) ∧
      cases_apart targets cur rest

/-- Two states that differ at most in the text of block `cur` and in which
keys of the maps are present. -/
def agree_outside (cur : Nat) (st st1 : codegen_glsl) : Prop :=
  st1._current_block = st._current_block ∧ st1._scope_level = st._scope_level ∧
    st1._names = st._names ∧ (∀ k, fallthrough_of st1 k = fallthrough_of st k) ∧
    ∀ k, k ≠ cur → block_text st1 k = block_text st k

/-- The text `emit_switch` puts before the arms: the selector block, the
location, the hints and the opening of the `switch`. -/
def switch_head (st : codegen_glsl) (env : dialect) (loc : location)
    (selector_value selector_block flags : Nat) : std_string :=
  block_text st selector_block ++ (write_location loc ++ write_scope st) ++
    (if has_flag flags env.flatten then S "[flatten]" else []) ++
    (if has_flag flags env.dont_flatten then S "[branch]" else []) ++
    (S "switch (" ++ id_to_name st selector_value ++ S ")\n" ++ write_scope st ++ S "\x7b\n")

/-- The text `emit_switch` puts after the arms: the `default` arm unless the
default label is the current block, and the closing brace. -/
def switch_tail (st : codegen_glsl) (default_label : Nat) : std_string :=
  (if default_label ≠ st._current_block then
    write_scope (scope_inc st) ++ S "default: \x7b\n" ++ block_text st default_label ++
      write_scope (scope_inc st) ++ S "\x7d\n"
   else []) ++ (write_scope (scope_dec (scope_inc st)) ++ S "\x7d\n")

/-! ## Sample inputs -/

/-- A sample of the outside data: floats print as `0.000000`, no intrinsic is
known, and the hint masks are 1 and 2. -/
def sample_dialect : dialect :=
  { float_to_string := fun _ => S "0.000000"
    intrinsic_code := fun _ _ _ => none
    flatten := 1
    dont_flatten := 2
    unroll := 1
    dont_unroll := 2 }

/-- A non-array numeric type without qualifiers. -/
def numeric_type (base : datatype) (rows cols : Nat) : type :=
  { base := base, rows := rows, cols := cols, array_length := 0, qualifiers := [],
    definition := 0 }

/-- A uniform declaration as the front end passes it in. -/
def sample_uniform (name : String) (t : type) : uniform_info :=
  { name := S name, type := t, size := 0, offset := 0, member_index := 0 }

/-- A `float4` uniform followed by a `float` uniform. -/
def sample_uniforms : List (location × uniform_info) :=
  [(⟨1⟩, sample_uniform "a" (numeric_type .t_float 4 1)),
   (⟨2⟩, sample_uniform "b" (numeric_type .t_float 1 1))]

/-- A sampler declaration as the front end passes it in. -/
def sample_sampler (name : String) : sampler_info :=
  { id := 0, binding := 0, unique_name := S name }

/-- Two sampler declarations with a block creation between them. -/
def sample_sampler_calls : List call :=
  [.define_sampler ⟨1⟩ (sample_sampler "s0"), .create_block,
   .define_sampler ⟨2⟩ (sample_sampler "s1")]

/-- A switch with three case blocks 2, 3 and 4: block 2 falls through to 3,
block 3 falls through to 4, block 4 ends with `break`; the calls up to the
point where the switch is emitted into block 7. -/
def sample_switch_calls : List call :=
  [.create_block, .create_block, .create_block, .create_block, .create_block, .create_block,
   .enter_block 2, .define_variable ⟨1⟩ (numeric_type .t_int 1 1) (some (S "a")) 0,
   .leave_block_and_branch 3 3,
   .enter_block 3, .define_variable ⟨2⟩ (numeric_type .t_int 1 1) (some (S "b")) 0,
   .leave_block_and_branch 4 3,
   .enter_block 4, .define_variable ⟨3⟩ (numeric_type .t_int 1 1) (some (S "c")) 0,
   .leave_block_and_branch 5 1,
   .enter_block 7]

/-- The backend after `sample_switch_calls`. -/
def sample_switch_state : codegen_glsl :=
  (run sample_dialect construct sample_switch_calls).getD construct

/-- An expression chain that names a value and applies no operation. -/
def value_chain (loc : location) (t : type) (base : Nat) : expression :=
  { type := t, base := base, constant := .mk [] [], is_constant := false, location := loc,
    ops := [] }

/-- A loop whose condition block 3 computes the condition `_6 = _10 < _11` and
then stores it into `_12`; the calls up to the point where the loop is emitted
into block 7, with previous block 2, loop block 4 and continue block 5. -/
def sample_loop_calls : List call :=
  [.create_block, .create_block, .create_block, .create_block,
   .enter_block 3,
   .emit_binary_op ⟨1⟩ .less (numeric_type .t_bool 1 1) (numeric_type .t_int 1 1) 10 11,
   .emit_store (value_chain ⟨2⟩ (numeric_type .t_bool 1 1) 12) 6,
   .leave_block_and_branch_conditional,
   .enter_block 7]

/-- The backend after `sample_loop_calls`. -/
def sample_loop_state : codegen_glsl :=
  (run sample_dialect construct sample_loop_calls).getD construct

/-- A loop whose condition block 3 loads the variable `x_7` into the condition
`_7`; the calls up to the point where the loop is emitted into block 8. -/
def sample_named_loop_calls : List call :=
  [.create_block, .create_block, .create_block, .create_block,
   .define_variable ⟨1⟩ (numeric_type .t_bool 1 1) (some (S "x_7")) 0,
   .enter_block 3,
   .emit_load (value_chain ⟨2⟩ (numeric_type .t_bool 1 1) 6),
   .leave_block_and_branch_conditional,
   .enter_block 8]

/-- The backend after `sample_named_loop_calls`. -/
def sample_named_loop_state : codegen_glsl :=
  (run sample_dialect construct sample_named_loop_calls).getD construct

/-- The backend after a block was created, entered and left by a branch: no
block is current and block 2 is the last block. -/
def sample_left_state : codegen_glsl :=
  (leave_block_and_branch (enter_block (create_block construct).2 2) 0 0).2

/-! ## Further sample inputs -/

/-- A function `void f()` as the front end passes it in. -/
def sample_function : function_info :=
  { definition := 0, unique_name := S "f", return_type := numeric_type .t_void 0 0,
    parameter_list := [] }

/-- The backend inside the body of a function: `f` is defined (id 2), block 3 is
created and entered, and the scope level is 1. -/
def sample_body_state : codegen_glsl :=
  (run sample_dialect construct
    [.define_function ⟨1⟩ sample_function, .create_block, .enter_block 3]).getD construct

/-! ## Vocabulary of the texts -/

/-- The number of positions of a text at which the word `pat` occurs. -/
def occurrences (pat : std_string) : std_string → Nat
  | [] => 0
  | c :: cs => (if pat.isPrefixOf (c :: cs) then 1 else 0) + occurrences pat cs

/-- The characters that `std::to_string(float)` writes: digits, sign, point and
the letters of the `inf` and `nan` forms. -/
def float_alphabet : std_string := S "0123456789-.infa(d)"

/-- A 2x3 `int` matrix constant with the components 1 to 6 in row-major order;
the remaining words of the 16-word storage are 0. -/
def sample_matrix_constant : constant :=
  .mk [1, 2, 3, 4, 5, 6, 0, 0, 0, 0, 0, 0, 0, 0, 0, 0] []

/-- A scalar `float` argument that names the value `base`. -/
def scalar_arg (base : Nat) : expression :=
  value_chain ⟨0⟩ (numeric_type .t_float 1 1) base

/-! ## Vocabulary of the swizzles -/

/-- The lane indices of a swizzle in front of its first unused (negative) slot. -/
def used_lanes (swizzle : List Int) : List Int :=
  swizzle.takeWhile (fun k => decide (0 ≤ k))

/-- A swizzle operation with the given four lane slots. -/
def swizzle_op (swizzle : List Int) : operation :=
  { type := .op_swizzle, from_ := numeric_type .t_float 4 1, to_ := numeric_type .t_float 4 1,
    index := 0, swizzle := swizzle }

/-- The chain that applies one swizzle to the value `base`. -/
def swizzle_chain (base : Nat) (swizzle : List Int) : expression :=
  { type := numeric_type .t_float 1 1, base := base, constant := .mk [] [],
    is_constant := false, location := ⟨1⟩, ops := [swizzle_op swizzle] }

/-! ## Vocabulary of the operators -/

/-- The relational and equality operators, each with the name of its
element-wise intrinsic and with its infix spelling. -/
def relational_ops : List (tokenid × std_string × std_string) :=
  [(.less, S "lessThan", S "<"), (.less_equal, S "lessThanEqual", S "<="),
   (.greater, S "greaterThan", S ">"), (.greater_equal, S "greaterThanEqual", S ">="),
   (.equal_equal, S "equal", S "=="), (.exclaim_equal, S "notEqual", S "!=")]

/-! ## Vocabulary of the value-emitting operations -/

/-- The effect of a value-emitting operation that returned `r` in state `st` for
a result of type `t`: the id returned is the id counter of `st`; the text of the
current block grew by a suffix, which for a non-void `t` holds the declaration
`const <type> <name of the id>`; the text of every other block, the current and
the last block and the scope level are those of `st`. -/
def emits_value (st : codegen_glsl) (t : type) (r : Nat × codegen_glsl) : Prop :=
  r.1 = st._next_id ∧
    (∃ s, block_text r.2 st._current_block = block_text st st._current_block ++ s ∧
      (t.is_void = false → ∃ pre post,
        s = pre ++ (S "const " ++ write_type st t false ++ S " " ++ id_to_name st r.1) ++
          post)) ∧
    (∀ k, k ≠ st._current_block → block_text r.2 k = block_text st k) ∧
    r.2._current_block = st._current_block ∧ r.2._last_block = st._last_block ∧
    r.2._scope_level = st._scope_level

/-! ## Vocabulary of the declarations -/

/-- The declaration part of the backend: the state in which the block cursor,
the names, the texts, the scope level and the fall-through registry are
erased. It keeps the id counter, the id of `$Globals`, the layout cursors and
the lists. -/
def decl_view (st : codegen_glsl) : codegen_glsl :=
  { st with _last_block := 0, _current_block := 0, _names := fun _ => none,
            _blocks := fun _ => none, _scope_level := 0,
            _switch_fallthrough_blocks := fun _ => none }

/-- The id counter after `k` calls of `make_id` that start at the counter `n`. -/
def counter_after : Nat → Nat → Nat
  | n, 0 => n
  | n, k + 1 => counter_after (u32 (n + 1)) k

/-- The ids that `k` calls of `make_id` hand out when they start at the counter `n`. -/
def ids_from : Nat → Nat → List Nat
  | _, 0 => []
  | n, k + 1 => n :: ids_from (u32 (n + 1)) k

/-- The state after `k` calls of `make_id`. -/
def alloc (st : codegen_glsl) (k : Nat) : codegen_glsl :=
  { st with _next_id := counter_after st._next_id k }

/-- The parameters of a function with the ids that the parameter loop of
`define_function` hands out from the counter `n`. -/
def with_ids : Nat → List parameter_info → List parameter_info
  | _, [] => []
  | n, p :: ps => { p with definition := n } :: with_ids (u32 (n + 1)) ps

/-- The number of `make_id` calls of an interface call that returns. -/
def allocs : call → Nat
  | .define_struct _ _ | .define_texture _ | .define_sampler _ _ | .define_variable _ _ _ _
  | .create_block | .emit_load _ | .emit_constant _ _ | .emit_unary_op _ _ _ _
  | .emit_binary_op _ _ _ _ _ _ | .emit_ternary_op _ _ _ _ _ _ | .emit_call _ _ _ _
  | .emit_call_intrinsic _ _ _ _ | .emit_construct _ _ _ | .emit_phi _ _ _ _ _ _ _ _ => 1
  | .define_function _ info => 1 + info.parameter_list.length
  | _ => 0

/-- The ids of a function definition: its own and those of its parameters. -/
def function_ids (f : function_info) : List Nat :=
  f.definition :: f.parameter_list.map (fun p => p.definition)

/-- The ids that an interface call hands out through `make_id`, in the order of
the calls of `make_id`: the id the member function returns and, for
`define_function`, the ids of the parameters it records. -/
def call_ids (env : dialect) (st : codegen_glsl) : call → List Nat
  | .define_struct loc info => [(define_struct st loc info).1]
  | .define_texture info => [(define_texture st info).1]
  | .define_sampler loc info => [(define_sampler st loc info).1]
  | .define_variable loc t name v => [(define_variable st loc t name v).1]
  | .define_function loc info =>
    (((define_function st loc info).2._functions.getLast?).map function_ids).getD []
  | .create_block => [(create_block st).1]
  | .emit_load chain => ((emit_load st env chain).map Prod.fst).toList
  | .emit_constant t data => ((emit_constant st env t data).map Prod.fst).toList
  | .emit_unary_op loc op res_type val =>
    ((emit_unary_op st loc op res_type val).map Prod.fst).toList
  | .emit_binary_op loc op res_type t lhs rhs =>
    ((emit_binary_op st loc op res_type t lhs rhs).map Prod.fst).toList
  | .emit_ternary_op loc op res_type c a b =>
    ((emit_ternary_op st loc op res_type c a b).map Prod.fst).toList
  | .emit_call loc f res_type args => ((emit_call st loc f res_type args).map Prod.fst).toList
  | .emit_call_intrinsic loc i res_type args =>
    ((emit_call_intrinsic st env loc i res_type args).map Prod.fst).toList
  | .emit_construct loc t args => ((emit_construct st loc t args).map Prod.fst).toList
  | .emit_phi loc c cb tv tb fv fb t =>
    ((emit_phi st loc c cb tv tb fv fb t).map Prod.fst).toList
  | _ => []

/-- The ids handed out along a run of the backend, in order. -/
def run_ids (env : dialect) : codegen_glsl → List call → List Nat
  | _, [] => []
  | st, c :: cs =>
    match step env st c with
    | none => []
    | some st1 => call_ids env st c ++ run_ids env st1 cs

/-- The declaration part after an interface call that returns, computed from
the declaration part before it. -/
def decl_after (d : codegen_glsl) : call → codegen_glsl
  | .define_struct _ info =>
    { alloc d 1 with _structs := d._structs ++ [{ info with definition := d._next_id }] }
  | .define_texture info =>
    { alloc d 1 with _textures := d._textures ++ [{ info with id := d._next_id }] }
  | .define_sampler _ info =>
    { alloc d 1 with
      _current_sampler_binding := u32 (d._current_sampler_binding + 1),
      _samplers := d._samplers ++
        [{ info with id := d._next_id, binding := d._current_sampler_binding }] }
  | .define_uniform _ info =>
    match align d._current_cbuffer_offset (uniform_size info.type) with
    | none => d
    | some off =>
      { d with
        _current_cbuffer_offset := u32 (off + uniform_size info.type),
        _structs := push_member d._structs d._cbuffer_type_id
          { type := info.type, name := info.name },
        _uniforms := d._uniforms ++
          [{ info with size := uniform_size info.type, offset := off,
                       member_index := u32 d._uniforms.length }] }
  | .define_function _ info =>
    { alloc d (1 + info.parameter_list.length) with
      _functions := d._functions ++
        [{ info with definition := d._next_id,
                     parameter_list := with_ids (u32 (d._next_id + 1)) info.parameter_list }] }
  | .create_entry_point f b =>
    { d with
      _entry_points :=
        if (d._entry_points.find? (fun ep => decide (ep.1 = f.unique_name))).isSome = true
        then d._entry_points else d._entry_points ++ [(f.unique_name, b)] }
  | .define_variable _ _ _ _ | .create_block | .emit_load _ | .emit_constant _ _
  | .emit_unary_op _ _ _ _ | .emit_binary_op _ _ _ _ _ _ | .emit_ternary_op _ _ _ _ _ _
  | .emit_call _ _ _ _ | .emit_call_intrinsic _ _ _ _ | .emit_construct _ _ _
  | .emit_phi _ _ _ _ _ _ _ _ => alloc d 1
  | _ => d

/-- Two requests for an entry point of the sample function `f`, as a pixel
shader and then as a vertex shader. -/
def sample_entry_calls : List call :=
  [.create_entry_point sample_function true, .create_entry_point sample_function false]

/-- A function `float g(float a, float b)` as the front end passes it in. -/
def sample_function_g : function_info :=
  { definition := 0, unique_name := S "g", return_type := numeric_type .t_float 1 1,
    parameter_list :=
      [{ type := numeric_type .t_float 1 1, name := S "a", location := ⟨2⟩, definition := 0 },
       { type := numeric_type .t_float 1 1, name := S "b", location := ⟨3⟩, definition := 0 }] }

/-- Calls that hand out ids: a block, a function with two parameters, a
texture, a uniform (which hands out none) and a comparison. -/
def sample_id_calls : List call :=
  [.create_block, .define_function ⟨1⟩ sample_function_g,
   .define_texture { id := 0, unique_name := S "t" },
   .define_uniform ⟨4⟩ (sample_uniform "u" (numeric_type .t_float 4 1)),
   .emit_binary_op ⟨5⟩ .less (numeric_type .t_bool 1 1) (numeric_type .t_float 1 1) 4 5]

/-! ## Vocabulary of the block store -/

/-- The labels of a (literal, label) list of `emit_switch`. -/
def case_labels : List Nat → List Nat
  | _ :: label :: rest => label :: case_labels rest
  | _ => []

/-- The blocks other than the current one that an interface call reads or
writes in the block store. -/
def call_blocks (st : codegen_glsl) : call → List Nat
  | .define_uniform _ _ => [st._cbuffer_type_id]
  | .emit_if _ _ cb tb fb _ => [cb, tb, fb]
  | .emit_phi _ _ cb _ tb _ fb _ => [cb, tb, fb]
  | .emit_loop _ _ pb cb lb ctb _ => [pb, cb, lb, ctb]
  | .emit_switch _ _ sb dl cases _ =>
    sb :: dl :: (case_labels cases ++ ((case_labels cases).map (fallthrough_of st)).flatten)
  | .leave_function => [st._last_block]
  | _ => []

/-- The block ids that the caller passes to an interface call. -/
def block_args : call → List Nat
  | .set_block id | .enter_block id => [id]
  | .emit_if _ _ cb tb fb _ => [cb, tb, fb]
  | .emit_phi _ _ cb _ tb _ fb _ => [cb, tb, fb]
  | .emit_loop _ _ pb cb lb ctb _ => [pb, cb, lb, ctb]
  | .emit_switch _ _ sb dl cases _ => sb :: dl :: case_labels cases
  | .leave_block_and_branch target _ => [target]
  | _ => []

/-- The state `st1` has the block cursor and the fall-through registry of `st`,
holds every key of the block store of `st`, and differs from `st` in the block
store at most at the keys listed in `touched`. -/
def frame (touched : List Nat) (st st1 : codegen_glsl) : Prop :=
  st1._current_block = st._current_block ∧ st1._last_block = st._last_block ∧
    (∀ k, fallthrough_of st1 k = fallthrough_of st k) ∧
    (∀ k, k ∉ touched → st1._blocks k = st._blocks k) ∧
    ∀ k, (st._blocks k).isSome = true → (st1._blocks k).isSome = true

/-- Whether an interface call moves the block cursor. -/
def moves_cursor : call → Bool
  | .set_block _ | .enter_block _ | .leave_block_and_kill | .leave_block_and_return _
  | .leave_block_and_switch | .leave_block_and_branch _ _
  | .leave_block_and_branch_conditional => true
  | _ => false

/-- Whether a call is a `define_uniform` call. -/
def is_define_uniform : call → Bool
  | .define_uniform _ _ => true
  | _ => false

/-- The name of the texture that a call declares, if it is a `define_texture` call. -/
def declared_texture : call → Option std_string
  | .define_texture info => some info.unique_name
  | _ => none

/-- The name of the uniform that a call declares, if it is a `define_uniform` call. -/
def declared_uniform : call → Option std_string
  | .define_uniform _ info => some info.name
  | _ => none

/-- The id of `$Globals` is 1 and is kept apart from the blocks: it is not the
current block, not the last block and not a registered fall-through target,
and the block store holds a text for it exactly when a uniform is declared. -/
def globals_apart (st : codegen_glsl) : Prop :=
  st._cbuffer_type_id = 1 ∧ st._current_block ≠ 1 ∧ st._last_block ≠ 1 ∧
    (∀ k, 1 ∉ fallthrough_of st k) ∧
    ((st._blocks 1).isSome = true ↔ st._uniforms ≠ [])

/-- The module that `write_result` starts from. -/
def empty_module : module :=
  { hlsl := [], samplers := [], textures := [], uniforms := [], techniques := [],
    entry_points := [] }

/-- A global variable, followed by a variable written while the id 1 of
`$Globals` is entered as if it were a block. -/
def sample_misuse_calls : List call :=
  [.define_variable ⟨1⟩ (numeric_type .t_int 1 1) (some (S "g")) 0, .enter_block 1,
   .define_variable ⟨2⟩ (numeric_type .t_int 1 1) (some (S "x")) 0]

/-- A texture, a sampler, the two sample uniforms and a global variable. -/
def sample_module_calls : List call :=
  [.define_texture { id := 0, unique_name := S "t" },
   .define_sampler ⟨1⟩ (sample_sampler "s0"),
   .define_uniform ⟨2⟩ (sample_uniform "a" (numeric_type .t_float 4 1)),
   .define_uniform ⟨3⟩ (sample_uniform "b" (numeric_type .t_float 1 1)),
   .define_variable ⟨4⟩ (numeric_type .t_int 1 1) (some (S "g")) 0]

/-- A pre-test loop `while (ok_8)`: the blocks 2 to 6 are created, the variable
`ok_8` (id 7) is defined, and the condition block 3 loads it into the condition
value, which gets the id 8; the calls up to the point where the loop is emitted
into block 6. -/
def sample_while_calls : List call :=
  [.create_block, .create_block, .create_block, .create_block, .create_block,
   .define_variable ⟨1⟩ (numeric_type .t_bool 1 1) (some (S "ok_8")) 0,
   .enter_block 3,
   .emit_load (value_chain ⟨3⟩ (numeric_type .t_bool 1 1) 7),
   .leave_block_and_branch_conditional,
   .enter_block 6]

/-- The backend after `sample_while_calls`. -/
def sample_while_state : codegen_glsl :=
  (run sample_dialect construct sample_while_calls).getD construct

/-! ## Vocabulary of the literals -/

/-- The value of a decimal digit string read from left to right, starting from
the value `acc`; `none` when a character is not a digit. -/
def parse_digits : Nat → std_string → Option Nat
  | acc, [] => some acc
  | acc, c :: cs => if c.isDigit = true then parse_digits (acc * 10 + (c.toNat - 48)) cs else none

/-- The value of a decimal integer literal without sign: one or more digits. -/
def parse_nat (s : std_string) : Option Nat :=
  if s = [] then none else parse_digits 0 s

/-- The value of a decimal integer literal with an optional minus sign. -/
def parse_int : std_string → Option Int
  | '-' :: ds => (parse_nat ds).map (fun (n : Nat) => -Int.ofNat n)
  | s => (parse_nat s).map (fun (n : Nat) => Int.ofNat n)

/-- The 32-bit word that stores a signed value in two's complement. -/
def int_word (i : Int) : Nat := (i % 2 ^ 32).toNat

/-- The component word that a literal of the given base type denotes: a decimal
integer for `int` and `uint`, `true` (1) or `false` (0) for `bool`. -/
def parse_word (base : datatype) (lit : std_string) : Option Nat :=
  match base with
  | .t_bool => if lit = S "true" then some 1 else if lit = S "false" then some 0 else none
  | .t_int => (parse_int lit).map int_word
  | .t_uint => parse_nat lit
  | _ => none

/-- Modelled from the IEEE 754 binary32 format, in which `as_float` stores a
component: the sign bit of the word `w`. -/
def float_negative (w : Nat) : Bool := decide (w / 2 ^ 31 % 2 = 1)

/-- Modelled from the IEEE 754 binary32 format: the exponent field of the word `w`. -/
def float_exponent (w : Nat) : Nat := w / 2 ^ 23 % 256

/-- Modelled from the IEEE 754 binary32 format: the fraction field of the word `w`. -/
def float_mantissa (w : Nat) : Nat := w % 2 ^ 23

/-- Modelled from the IEEE 754 binary32 format: the magnitude of the finite
value of the word `w`, multiplied by `10 ^ 6`, as a fraction (numerator,
denominator). The value is `m * 2 ^ (e - 150)` for the significand `m` and the
biased exponent `e`. -/
def float_micro (w : Nat) : Nat × Nat :=
  let m := if float_exponent w = 0 then float_mantissa w else float_mantissa w + 2 ^ 23
  let e := if float_exponent w = 0 then 1 else float_exponent w
  if 150 ≤ e then (m * 10 ^ 6 * 2 ^ (e - 150), 1) else (m * 10 ^ 6, 2 ^ (150 - e))

/-- The fraction `a / b` rounded to the nearest integer, ties to even. -/
def round_half_even (a b : Nat) : Nat :=
  if 2 * (a % b) < b then a / b
  else if b < 2 * (a % b) then a / b + 1
  else if a / b % 2 = 0 then a / b else a / b + 1

/-- The magnitude of the finite value of the word `w` rounded to six digits
after the decimal point, in units of `10 ^ -6`. -/
def fixed6 (w : Nat) : Nat := round_half_even (float_micro w).1 (float_micro w).2

/-- A digit string padded with zeros on the left to `n` characters. -/
def pad_zeros (n : Nat) (s : std_string) : std_string :=
  List.replicate (n - s.length) '0' ++ s

/-- Modelled from the C++ standard library: `std::to_string(float)`, which formats
the value as `printf` does with `%f`: the sign, the integer part and six digits
after the decimal point, rounded to nearest; infinities and NaNs print as `inf`
and `nan`. -/
def to_string_float (w : Nat) : std_string :=
  (if float_negative w = true then S "-" else []) ++
    (if float_exponent w = 255 then (if float_mantissa w = 0 then S "inf" else S "nan")
     else to_string (fixed6 w / 10 ^ 6) ++ S "." ++
       pad_zeros 6 (to_string (fixed6 w % 10 ^ 6)))

/-- The outside data with the float rendering of the C++ standard library. -/
def std_dialect : dialect :=
  { sample_dialect with float_to_string := to_string_float }

/-- The value of a decimal literal with an optional minus sign and exactly six
digits after the decimal point: the sign and the magnitude in units of
`10 ^ -6`. -/
def parse_fixed6 (s : std_string) : Option (Bool × Nat) :=
  let neg := decide (s.head? = some '-')
  let body := if neg = true then s.drop 1 else s
  let fp := (body.dropWhile (fun c => c != '.')).drop 1
  match parse_nat (body.takeWhile (fun c => c != '.')), parse_nat fp with
  | some a, some b => if fp.length = 6 then some (neg, a * 10 ^ 6 + b) else none
  | _, _ => none

/-- A constant whose first component word is `w`; the remaining words of the
16-word storage are 0. -/
def scalar_constant (w : Nat) : constant :=
  .mk (w :: List.replicate 15 0) []

/-- A two-component `float` constant with the words of 3.14159274 and -1. -/
def sample_float_constant : constant :=
  .mk (0x40490FDB :: 0xBF800000 :: List.replicate 14 0) []

/-! ## Vocabulary of the fall-through edges -/

/-- The fall-through edge that a call registers for the block `label` when it is
made in state `st`: the target of `leave_block_and_branch(target, 3)` made
while `label` is the current block. -/
def registered_edge (st : codegen_glsl) (label : Nat) : call → List Nat
  | .leave_block_and_branch target loop_flow =>
    if loop_flow = 3 ∧ st._current_block = label then [target] else []
  | _ => []

/-- The fall-through edges registered for the block `label` along a run of the
backend, in the order in which they were registered. -/
def registered_edges (env : dialect) (label : Nat) : codegen_glsl → List call → List Nat
  | _, [] => []
  | st, c :: cs =>
    registered_edge st label c ++
      (match step env st c with
       | none => []
       | some st1 => registered_edges env label st1 cs)

/-- The (literal, label) pairs of the list passed to `emit_switch`, in order. -/
def case_pairs : List Nat → List (Nat × Nat)
  | literal :: label :: rest => (literal, label) :: case_pairs rest
  | _ => []

/-! ## Vocabulary of the names and texts that are kept -/

/-- The state `st` extends the state `st0`: the text of every block of `st0` is
the beginning of its text in `st`, and the names of `st` are those of `st0`
except at the ids listed in `named`. -/
def kept (named : List Nat) (st0 st : codegen_glsl) : Prop :=
  (∀ k, List.IsPrefix (block_text st0 k) (block_text st k)) ∧
    ∀ k, k ∉ named → st._names k = st0._names k

/-! ## Vocabulary of the uniforms -/

/-- The `$Globals` struct is the first struct of the backend, its members have
the names of the recorded uniforms, in order, and the uniform at position `k`
records the member index `k` as an unsigned 32-bit value. -/
def globals_members (st : codegen_glsl) : Prop :=
  ∃ s rest, st._structs = s :: rest ∧ s.definition = st._cbuffer_type_id ∧
    s.member_list.map (fun m => m.name) = st._uniforms.map (fun u => u.name) ∧
    ∀ (k : Nat) (u : uniform_info), st._uniforms[k]? = some u → u.member_index = u32 k

/-- The text of the `$Globals` block holds the declarator ` _Globals_<name>;` of
every recorded uniform. -/
def uniforms_declared (st : codegen_glsl) : Prop :=
  ∀ u ∈ st._uniforms,
    List.IsInfix (S " _Globals_" ++ u.name ++ S ";\n") (block_text st st._cbuffer_type_id)

/-- The chain that loads the uniform `u`: the base is the id of `$Globals`, and
the single operation selects the member of `$Globals` at the index of `u`. -/
def uniform_chain (st : codegen_glsl) (loc : location) (u : uniform_info) : expression :=
  { type := u.type, base := st._cbuffer_type_id, constant := .mk [] [], is_constant := false,
    location := loc,
    ops := [{ type := .op_member,
              from_ := { base := .t_struct, rows := 0, cols := 0, array_length := 0,
                         qualifiers := [], definition := st._cbuffer_type_id },
              to_ := u.type, index := u.member_index, swizzle := [] }] }

/-- A struct `X` without members as the front end passes it in. -/
def sample_struct_x : struct_info :=
  { name := S "X", unique_name := S "X", member_list := [], definition := 0 }

/-- The calls after which the id counter has wrapped around to 1: `2 ^ 32 - 1`
blocks are created, then the struct `X` and the uniform `n` are declared. -/
def sample_wrap_calls : List call :=
  List.replicate (2 ^ 32 - 1) call.create_block ++
    [.define_struct ⟨1⟩ sample_struct_x,
     .define_uniform ⟨2⟩ (sample_uniform "n" (numeric_type .t_float 1 1))]

/-- The backend in which the id counter is 1 again. -/
def wrapped_backend : codegen_glsl := { construct with _next_id := 1 }

/-- The backend after the struct `X` and the uniform `n` were declared on the
backend whose id counter is 1 again. -/
def sample_wrap_state : codegen_glsl :=
  (run sample_dialect wrapped_backend
    [.define_struct ⟨1⟩ sample_struct_x,
     .define_uniform ⟨2⟩ (sample_uniform "n" (numeric_type .t_float 1 1))]).getD construct

/-! ## Theorems -/

set_option maxRecDepth 100000

/-! ### Machine arithmetic and `align` -/

theorem u32_of_lt {n : Nat} (h : n < 2 ^ 32) : u32 n = n := Nat.mod_eq_of_lt h

theorem u32_u32_succ (n : Nat) : u32 (u32 n + 1) = u32 (n + 1) := by
  unfold u32
  exact Nat.mod_add_mod n (2 ^ 32) 1

/-- The value of `align` when the intermediate sum fits 32 bits. -/
theorem align_eq_of_fits (a n : Nat) (hn : 0 < n) (h : a + n < 2 ^ 32) :
    align a n = some (if a % n ≠ 0 then a + n - a % n else a) := by
  unfold align
  have hn0 : n ≠ 0 := Nat.pos_iff_ne_zero.mp hn
  simp only [hn0, if_false]
  by_cases hr : a % n = 0
  · simp [hr]
  · simp only [ne_eq, hr, not_false_eq_true, if_true]
    have hlt : a % n < n := Nat.mod_lt a hn
    have h1 : u32 (a + n) = a + n := u32_of_lt h
    rw [h1]
    unfold u32_sub
    rw [if_pos (by omega), u32_of_lt (by omega)]

/-- Claim C3. For an alignment `n > 0` with `a + n` in the 32-bit range, `align a n` is
the least multiple of `n` that is at least `a`; it lies in `[a, a + n)` and is
`a` itself when `a` is a multiple of `n`. -/
theorem align_least_multiple (a n : Nat) (hn : 0 < n) (h : a + n < 2 ^ 32) :
    ∃ r, align a n = some r ∧ n ∣ r ∧ a ≤ r ∧ r < a + n ∧
      (∀ m, n ∣ m → a ≤ m → r ≤ m) ∧ (n ∣ a → r = a) := by
  refine ⟨_, align_eq_of_fits a n hn h, ?_⟩
  have hlt : a % n < n := Nat.mod_lt a hn
  have hdm : n * (a / n) + a % n = a := Nat.div_add_mod a n
  by_cases hr : a % n = 0
  · rw [if_neg (not_not.mpr hr)]
    exact ⟨Nat.dvd_of_mod_eq_zero hr, le_refl _, by omega, fun m _ hm => hm, fun _ => rfl⟩
  · rw [if_pos hr]
    have hval : a + n - a % n = n * (a / n + 1) := by
      rw [Nat.mul_add, Nat.mul_one]; omega
    refine ⟨?_, by omega, by omega, ?_, ?_⟩
    · rw [hval]; exact Nat.dvd_mul_right _ _
    · rintro m ⟨k, rfl⟩ hm
      rw [hval]
      apply Nat.mul_le_mul_left
      by_contra hk
      have hk' : k ≤ a / n := by omega
      have : n * k ≤ n * (a / n) := Nat.mul_le_mul_left _ hk'
      omega
    · intro hd
      exact absurd (Nat.mod_eq_zero_of_dvd hd) hr

/-- Claim C3 at address 5 and alignment 4. -/
theorem align_least_multiple_witness :
    ∃ r, align 5 4 = some r ∧ 4 ∣ r ∧ 5 ≤ r ∧ r < 5 + 4 ∧
      (∀ m, 4 ∣ m → 5 ≤ m → r ≤ m) ∧ (4 ∣ 5 → r = 5) :=
  align_least_multiple 5 4 (by decide) (by decide)


/-! ### Layout of the uniforms -/

theorem find_push_member (structs : List struct_info) (id : Nat) (m : struct_member_info)
    (h : (structs.find? (fun s => decide (s.definition = id))).isSome) :
    ((push_member structs id m).find? (fun s => decide (s.definition = id))).isSome := by
  induction structs with
  | nil => simp at h
  | cons s rest ih =>
    unfold push_member
    by_cases hs : s.definition = id
    · simp [hs, List.find?]
    · simp only [hs, if_false]
      simp only [List.find?, hs, decide_False] at h ⊢
      exact ih h

/-- What `define_uniform` records when the alignment succeeds and the
`$Globals` struct is registered. -/
theorem define_uniform_eq (st : codegen_glsl) (loc : location) (info : uniform_info)
    (off : Nat) (ha : align st._current_cbuffer_offset (uniform_size info.type) = some off)
    (hs : (find_struct st st._cbuffer_type_id).isSome) :
    ∃ st1, define_uniform st loc info = some (st._cbuffer_type_id, st1) ∧
      st1._uniforms = st._uniforms ++
        [{ info with size := uniform_size info.type, offset := off,
                     member_index := u32 st._uniforms.length }] ∧
      st1._current_cbuffer_offset = u32 (off + uniform_size info.type) ∧
      st1._cbuffer_type_id = st._cbuffer_type_id ∧
      (find_struct st1 st1._cbuffer_type_id).isSome ∧
      st1._samplers = st._samplers ∧
      st1._current_sampler_binding = st._current_sampler_binding := by
  obtain ⟨s, hs'⟩ := Option.isSome_iff_exists.mp hs
  have hs2 : find_struct { st with _current_cbuffer_offset := u32 (off + uniform_size info.type) }
      st._cbuffer_type_id = some s := hs'
  unfold define_uniform
  simp only [ha, hs2]
  exact ⟨_, rfl, rfl, rfl, rfl, find_push_member _ _ _ hs, rfl, rfl⟩

theorem uniform_size_exact_pos (t : type) (hr : 1 ≤ t.rows) (hc : 1 ≤ t.cols) :
    0 < uniform_size_exact t := by
  unfold uniform_size_exact
  have h1 : 0 < (if t.rows = 3 then 4 else t.rows) := by split <;> omega
  have h2 : 0 < (max 1 t.array_length).toNat := by
    have : (1 : Int) ≤ max 1 t.array_length := le_max_left _ _
    omega
  positivity

theorem le_align_exact (c n : Nat) (hn : 0 < n) : c ≤ align_exact c n := by
  unfold align_exact
  have := Nat.mod_lt c hn
  split <;> omega

theorem align_exact_dvd (c n : Nat) (hn : 0 < n) : n ∣ align_exact c n := by
  unfold align_exact
  have hlt := Nat.mod_lt c hn
  have hdm : n * (c / n) + c % n = c := Nat.div_add_mod c n
  by_cases hr : c % n = 0
  · rw [if_neg (not_not.mpr hr)]; exact Nat.dvd_of_mod_eq_zero hr
  · rw [if_pos hr]
    have hval : c + n - c % n = n * (c / n + 1) := by
      rw [Nat.mul_add, Nat.mul_one]; omega
    rw [hval]; exact Nat.dvd_mul_right _ _

theorem le_cursor_exact : ∀ (us : List uniform_info) (c : Nat),
    (∀ u ∈ us, 1 ≤ u.type.rows ∧ 1 ≤ u.type.cols) → c ≤ cursor_exact c us := by
  intro us
  induction us with
  | nil => intro c _; exact le_refl _
  | cons u us ih =>
    intro c h
    have hu := h u (List.mem_cons_self _ _)
    have hpos := uniform_size_exact_pos u.type hu.1 hu.2
    have h1 := le_align_exact c _ hpos
    have h2 := ih (align_exact c (uniform_size_exact u.type) + uniform_size_exact u.type)
      (fun v hv => h v (List.mem_cons_of_mem _ hv))
    show c ≤ cursor_exact (align_exact c (uniform_size_exact u.type) + uniform_size_exact u.type) us
    omega

theorem run_uniforms (env : dialect) : ∀ (infos : List (location × uniform_info))
    (st : codegen_glsl),
    (find_struct st st._cbuffer_type_id).isSome →
    (∀ p ∈ infos, 1 ≤ p.2.type.rows ∧ 1 ≤ p.2.type.cols) →
    cursor_exact st._current_cbuffer_offset (infos.map Prod.snd) < 2 ^ 32 →
    layout_ok st._current_cbuffer_offset st._uniforms →
    ∃ st1, run env st (uniform_calls infos) = some st1 ∧
      st1._uniforms.length = st._uniforms.length + infos.length ∧
      layout_ok st1._current_cbuffer_offset st1._uniforms := by
  intro infos
  induction infos with
  | nil =>
    intro st _ _ _ hl
    exact ⟨st, rfl, rfl, hl⟩
  | cons p infos ih =>
    intro st hs hdim hfit hl
    have hp := hdim p (List.mem_cons_self _ _)
    have hrest : ∀ q ∈ infos, 1 ≤ q.2.type.rows ∧ 1 ≤ q.2.type.cols :=
      fun q hq => hdim q (List.mem_cons_of_mem _ hq)
    have hpos := uniform_size_exact_pos p.2.type hp.1 hp.2
    have hfit1 : cursor_exact
        (align_exact st._current_cbuffer_offset (uniform_size_exact p.2.type) +
          uniform_size_exact p.2.type) (infos.map Prod.snd) < 2 ^ 32 := hfit
    have hmono := le_cursor_exact (infos.map Prod.snd)
      (align_exact st._current_cbuffer_offset (uniform_size_exact p.2.type) +
        uniform_size_exact p.2.type)
      (by
        intro u hu
        obtain ⟨q, hq, rfl⟩ := List.mem_map.mp hu
        exact hrest q hq)
    have hle := le_align_exact st._current_cbuffer_offset _ hpos
    have hlt : uniform_size_exact p.2.type < 2 ^ 32 := by omega
    have hsz : uniform_size p.2.type = uniform_size_exact p.2.type := u32_of_lt hlt
    have hal : align st._current_cbuffer_offset (uniform_size p.2.type) =
        some (align_exact st._current_cbuffer_offset (uniform_size_exact p.2.type)) := by
      rw [hsz]
      exact align_eq_of_fits _ _ hpos (by omega)
    obtain ⟨st1, hdef, hun, hcur, hid, hfs, _, _⟩ := define_uniform_eq st p.1 p.2 _ hal hs
    rw [hsz] at hun hcur
    have hsum : align_exact st._current_cbuffer_offset (uniform_size_exact p.2.type) +
        uniform_size_exact p.2.type < 2 ^ 32 := by omega
    rw [u32_of_lt hsum] at hcur
    have hl1 : layout_ok st1._current_cbuffer_offset st1._uniforms := by
      rw [hun, hcur]
      refine ⟨?_, ?_⟩
      · intro u hu
        rcases List.mem_append.mp hu with hu | hu
        · have := hl.1 u hu
          exact ⟨this.1, by omega⟩
        · rw [List.mem_singleton] at hu
          subst hu
          exact ⟨align_exact_dvd _ _ hpos, le_refl _⟩
      · rw [List.pairwise_append]
        refine ⟨hl.2, List.pairwise_singleton _ _, ?_⟩
        intro a ha b hb
        rw [List.mem_singleton] at hb
        subst hb
        have := (hl.1 a ha).2
        show a.offset + a.size ≤ align_exact _ _
        omega
    obtain ⟨st2, hrun, hlen, hl2⟩ := ih st1 hfs hrest (by rw [hcur]; exact hfit1) hl1
    refine ⟨st2, ?_, ?_, hl2⟩
    · show run env st (call.define_uniform p.1 p.2 :: uniform_calls infos) = some st2
      simp only [run, step, hdef, Option.map_some']
      exact hrun
    · rw [hlen, hun]
      simp only [List.length_append, List.length_cons, List.length_nil]
      omega

/-- Claim C1. After any sequence of `define_uniform` calls on a fresh backend, with
rows and columns at least 1 and sizes for which the 32-bit arithmetic does not
wrap, every call succeeds and the recorded uniforms have offsets that are
multiples of their sizes, non-decreasing in declaration order, with pairwise
disjoint byte ranges `[offset, offset + size)`. -/
theorem define_uniform_layout_invariant (env : dialect) (infos : List (location × uniform_info))
    (hdim : ∀ p ∈ infos, 1 ≤ p.2.type.rows ∧ 1 ≤ p.2.type.cols)
    (hfit : cursor_exact 0 (infos.map Prod.snd) < 2 ^ 32) :
    ∃ st, run env construct (uniform_calls infos) = some st ∧
      st._uniforms.length = infos.length ∧
      (∀ u ∈ st._uniforms, u.size ∣ u.offset) ∧
      st._uniforms.Pairwise (fun a b => a.offset ≤ b.offset) ∧
      (∀ (i j : Nat) (a b : uniform_info), st._uniforms.get? i = some a →
        st._uniforms.get? j = some b → i ≠ j →
        Disjoint (Set.Ico a.offset (a.offset + a.size)) (Set.Ico b.offset (b.offset + b.size))) := by
  obtain ⟨st, hrun, hlen, hl⟩ := run_uniforms env infos construct (by decide) hdim hfit
    ⟨by intro u hu; exact absurd hu (List.not_mem_nil u), List.Pairwise.nil⟩
  have hlen0 : st._uniforms.length = infos.length := by
    rw [hlen]
    show 0 + infos.length = infos.length
    omega
  refine ⟨st, hrun, hlen0, fun u hu => (hl.1 u hu).1, ?_, ?_⟩
  · exact hl.2.imp (fun h => by omega)
  · intro i j a b hi hj hij
    rw [Set.Ico_disjoint_Ico]
    have hpw := List.pairwise_iff_getElem.mp hl.2
    obtain ⟨hi1, hi2⟩ := List.get?_eq_some.mp hi
    obtain ⟨hj1, hj2⟩ := List.get?_eq_some.mp hj
    rcases Nat.lt_or_gt_of_ne hij with h | h
    · have := hpw i j hi1 hj1 h
      simp only [List.get_eq_getElem] at hi2 hj2
      rw [hi2, hj2] at this
      simp only [min_le_iff, le_max_iff]
      omega
    · have := hpw j i hj1 hi1 h
      simp only [List.get_eq_getElem] at hi2 hj2
      rw [hi2, hj2] at this
      simp only [min_le_iff, le_max_iff]
      omega

/-- Claim C1 at a `float4` uniform followed by a `float` uniform. -/
theorem define_uniform_layout_invariant_witness :
    ∃ st, run sample_dialect construct (uniform_calls sample_uniforms) = some st ∧
      st._uniforms.length = sample_uniforms.length ∧
      (∀ u ∈ st._uniforms, u.size ∣ u.offset) ∧
      st._uniforms.Pairwise (fun a b => a.offset ≤ b.offset) ∧
      (∀ (i j : Nat) (a b : uniform_info), st._uniforms.get? i = some a →
        st._uniforms.get? j = some b → i ≠ j →
        Disjoint (Set.Ico a.offset (a.offset + a.size))
          (Set.Ico b.offset (b.offset + b.size))) :=
  define_uniform_layout_invariant sample_dialect sample_uniforms (by decide) (by decide)

@[simp] theorem sampler_state_make_id (st : codegen_glsl) :
    sampler_state (make_id st).2 = sampler_state st := rfl

@[simp] theorem sampler_state_set_name (st : codegen_glsl) (i : Nat) (n : std_string) :
    sampler_state (set_name st i n) = sampler_state st := rfl

@[simp] theorem sampler_state_touch_block (st : codegen_glsl) (k : Nat) :
    sampler_state (touch_block st k) = sampler_state st := rfl

@[simp] theorem sampler_state_append_block (st : codegen_glsl) (k : Nat) (s : std_string) :
    sampler_state (append_block st k s) = sampler_state st := rfl

@[simp] theorem sampler_state_append_code (st : codegen_glsl) (s : std_string) :
    sampler_state (append_code st s) = sampler_state st := rfl

@[simp] theorem sampler_state_append_code_if (st : codegen_glsl) (c : Bool) (s : std_string) :
    sampler_state (append_code_if st c s) = sampler_state st := by
  unfold append_code_if; split <;> rfl

@[simp] theorem sampler_state_touch_block_if (st : codegen_glsl) (c : Bool) (k : Nat) :
    sampler_state (touch_block_if st c k) = sampler_state st := by
  unfold touch_block_if; split <;> rfl

@[simp] theorem sampler_state_scope_inc (st : codegen_glsl) :
    sampler_state (scope_inc st) = sampler_state st := rfl

@[simp] theorem sampler_state_scope_dec (st : codegen_glsl) :
    sampler_state (scope_dec st) = sampler_state st := rfl

@[simp] theorem sampler_state_touch_fallthrough (st : codegen_glsl) (k : Nat) :
    sampler_state (touch_fallthrough st k) = sampler_state st := rfl

@[simp] theorem sampler_state_push_fallthrough (st : codegen_glsl) (k : Nat) :
    sampler_state (push_fallthrough st k) = sampler_state st := rfl

@[simp] theorem sampler_state_set_block (st : codegen_glsl) (k : Nat) :
    sampler_state (set_block st k).2 = sampler_state st := rfl

@[simp] theorem sampler_state_enter_block (st : codegen_glsl) (k : Nat) :
    sampler_state (enter_block st k) = sampler_state st := rfl

theorem sampler_state_foldl {α : Type} (f : codegen_glsl → α → codegen_glsl)
    (hf : ∀ s a, sampler_state (f s a) = sampler_state s) :
    ∀ (l : List α) (st : codegen_glsl), sampler_state (l.foldl f st) = sampler_state st := by
  intro l
  induction l with
  | nil => intro st; rfl
  | cons a l ih => intro st; rw [List.foldl_cons, ih, hf]

theorem sampler_state_define_struct (st : codegen_glsl) (loc : location) (info : struct_info) :
    sampler_state (define_struct st loc info).2 = sampler_state st := by
  have hf := sampler_state_foldl
    (fun (s : codegen_glsl) (m : struct_member_info) =>
      append_code s (S "\t" ++ write_type s m.type true ++ S " " ++ m.name ++ S ";\n"))
    (fun _ _ => rfl)
  unfold define_struct
  simp only [sampler_state_append_code, sampler_state_append_code_if, hf]
  rfl

theorem sampler_state_define_function_param (n : Nat) (st : codegen_glsl)
    (p : parameter_info) (i : Nat) :
    sampler_state (define_function_param n st p i).1 = sampler_state st := by
  unfold define_function_param
  simp only [sampler_state_append_code, sampler_state_append_code_if, sampler_state_set_name,
    sampler_state_make_id]

theorem sampler_state_foldl_fst {α β : Type} (f : codegen_glsl × β → α → codegen_glsl × β)
    (hf : ∀ s a, sampler_state (f s a).1 = sampler_state s.1) :
    ∀ (l : List α) (st : codegen_glsl × β),
      sampler_state (l.foldl f st).1 = sampler_state st.1 := by
  intro l
  induction l with
  | nil => intro st; rfl
  | cons a l ih => intro st; rw [List.foldl_cons, ih, hf]

theorem sampler_state_define_function (st : codegen_glsl) (loc : location)
    (info : function_info) :
    sampler_state (define_function st loc info).2 = sampler_state st := by
  have hf := sampler_state_foldl_fst
    (fun (acc : codegen_glsl × List parameter_info) (ip : Nat × parameter_info) =>
      ((define_function_param info.parameter_list.length acc.1 ip.2 ip.1).1,
        acc.2 ++ [(define_function_param info.parameter_list.length acc.1 ip.2 ip.1).2]))
    (fun s a => sampler_state_define_function_param _ _ _ _)
  unfold define_function define_function_params
  simp only []
  exact (hf _ _).trans rfl

theorem sampler_state_define_variable (st : codegen_glsl) (loc : location) (t : type)
    (name : Option std_string) (v : Nat) :
    sampler_state (define_variable st loc t name v).2 = sampler_state st := by
  unfold define_variable
  cases name <;>
    simp only [sampler_state_append_code, sampler_state_append_code_if, sampler_state_set_name,
      sampler_state_make_id]

theorem sampler_state_create_entry_point (st : codegen_glsl) (f : function_info) (b : Bool) :
    sampler_state (create_entry_point st f b) = sampler_state st := by
  unfold create_entry_point
  split_ifs
  · rfl
  · simp only [sampler_state, append_code, append_block, scope_inc, scope_dec]

theorem sampler_state_emit_load (st : codegen_glsl) (env : dialect) (chain : expression)
    (r : Nat × codegen_glsl) (h : emit_load st env chain = some r) :
    sampler_state r.2 = sampler_state st := by
  unfold emit_load at h
  simp only [] at h
  split at h
  · cases h
  · cases h; rfl

theorem sampler_state_store_op (st st1 : codegen_glsl) (op : operation)
    (h : store_op st op = some st1) : sampler_state st1 = sampler_state st := by
  unfold store_op at h
  split at h
  · cases h; rfl
  · cases h; rfl
  · split at h
    · cases h
    · cases h; rfl
  · split at h
    · cases h
    · cases h; rfl

theorem sampler_state_store_chain : ∀ (ops : List operation) (st st1 : codegen_glsl),
    store_chain st ops = some st1 → sampler_state st1 = sampler_state st := by
  intro ops
  induction ops with
  | nil => intro st st1 h; cases h; rfl
  | cons op ops ih =>
    intro st st1 h
    unfold store_chain at h
    split at h
    · cases h
    · rename_i st2 hop
      rw [ih _ _ h, sampler_state_store_op _ _ _ hop]

theorem sampler_state_emit_store (st st1 : codegen_glsl) (chain : expression) (value : Nat)
    (h : emit_store st chain value = some st1) : sampler_state st1 = sampler_state st := by
  unfold emit_store at h
  simp only [] at h
  split at h
  · cases h
  · rename_i st2 hc
    cases h
    rw [sampler_state_append_code, sampler_state_store_chain _ _ _ hc]
    rfl

theorem sampler_state_emit_constant (st : codegen_glsl) (env : dialect) (t : type)
    (data : constant) (r : Nat × codegen_glsl) (h : emit_constant st env t data = some r) :
    sampler_state r.2 = sampler_state st := by
  unfold emit_constant at h
  split at h
  · cases h
  · simp only [] at h
    split at h
    · cases h
    · cases h; rfl

theorem sampler_state_emit_unary_op (st : codegen_glsl) (loc : location) (op : tokenid)
    (t : type) (v : Nat) (r : Nat × codegen_glsl)
    (h : emit_unary_op st loc op t v = some r) : sampler_state r.2 = sampler_state st := by
  unfold emit_unary_op at h
  simp only [] at h
  split at h
  · cases h
  · cases h; rfl

theorem sampler_state_emit_binary_op (st : codegen_glsl) (loc : location) (op : tokenid)
    (t1 t2 : type) (a b : Nat) (r : Nat × codegen_glsl)
    (h : emit_binary_op st loc op t1 t2 a b = some r) :
    sampler_state r.2 = sampler_state st := by
  unfold emit_binary_op at h
  simp only [] at h
  split at h
  · cases h
  · cases h; rfl

theorem sampler_state_emit_ternary_op (st : codegen_glsl) (loc : location) (op : tokenid)
    (t : type) (a b c : Nat) (r : Nat × codegen_glsl)
    (h : emit_ternary_op st loc op t a b c = some r) :
    sampler_state r.2 = sampler_state st := by
  unfold emit_ternary_op at h
  split at h
  · cases h
  · cases h; rfl

theorem sampler_state_emit_call (st : codegen_glsl) (loc : location) (f : Nat) (t : type)
    (args : List expression) (r : Nat × codegen_glsl)
    (h : emit_call st loc f t args = some r) : sampler_state r.2 = sampler_state st := by
  unfold emit_call at h
  split at h
  · cases h
  · cases h
    simp only [sampler_state_append_code, sampler_state_append_code_if, sampler_state_make_id]

theorem sampler_state_emit_call_intrinsic (st : codegen_glsl) (env : dialect) (loc : location)
    (f : Nat) (t : type) (args : List expression) (r : Nat × codegen_glsl)
    (h : emit_call_intrinsic st env loc f t args = some r) :
    sampler_state r.2 = sampler_state st := by
  unfold emit_call_intrinsic at h
  split at h
  · cases h
  · simp only [] at h
    split at h
    · cases h
    · cases h
      simp only [sampler_state_append_code, sampler_state_append_code_if, sampler_state_make_id]

theorem sampler_state_emit_construct (st : codegen_glsl) (loc : location) (t : type)
    (args : List expression) (r : Nat × codegen_glsl)
    (h : emit_construct st loc t args = some r) : sampler_state r.2 = sampler_state st := by
  unfold emit_construct at h
  split at h
  · cases h
  · cases h
    simp only [sampler_state_append_code, sampler_state_append_code_if, sampler_state_make_id]

theorem sampler_state_emit_if (st st1 : codegen_glsl) (env : dialect) (loc : location)
    (c cb tb fb flags : Nat) (h : emit_if st env loc c cb tb fb flags = some st1) :
    sampler_state st1 = sampler_state st := by
  unfold emit_if at h
  split at h
  · cases h
  · cases h
    simp only [sampler_state_append_code, sampler_state_append_code_if,
      sampler_state_touch_block]

theorem sampler_state_emit_phi (st : codegen_glsl) (loc : location)
    (c cb tv tb fv fb : Nat) (t : type) (r : Nat × codegen_glsl)
    (h : emit_phi st loc c cb tv tb fv fb t = some r) :
    sampler_state r.2 = sampler_state st := by
  unfold emit_phi at h
  split at h
  · cases h
  · cases h
    simp only [sampler_state_append_code, sampler_state_touch_block_if,
      sampler_state_touch_block, sampler_state_make_id]

theorem sampler_state_emit_loop_head (st st1 : codegen_glsl) (c cb : Nat)
    (h : emit_loop_head st c cb = some st1) : sampler_state st1 = sampler_state st := by
  unfold emit_loop_head at h
  split at h
  · cases h; rfl
  · split at h
    · cases h
    · cases h; rfl

theorem sampler_state_emit_loop_body (st st1 : codegen_glsl) (c cb lb ctb : Nat)
    (h : emit_loop_body st c cb lb ctb = some st1) : sampler_state st1 = sampler_state st := by
  unfold emit_loop_body at h
  split at h
  · split at h
    · cases h
    · cases h; rfl
  · split at h
    · cases h
    · cases h; rfl

theorem sampler_state_emit_loop (st st1 : codegen_glsl) (env : dialect) (loc : location)
    (c pb cb lb ctb flags : Nat) (h : emit_loop st env loc c pb cb lb ctb flags = some st1) :
    sampler_state st1 = sampler_state st := by
  unfold emit_loop at h
  split at h
  · cases h
  · simp only [] at h
    split at h
    · cases h
    · rename_i st2 h2
      rw [sampler_state_emit_loop_body _ _ _ _ _ _ h]
      simp only [sampler_state_append_code, sampler_state_append_code_if]
      rw [sampler_state_emit_loop_head _ _ _ _ h2]
      rfl

theorem sampler_state_emit_fallthrough : ∀ (l : List Nat) (st : codegen_glsl),
    sampler_state (emit_fallthrough st l) = sampler_state st := by
  intro l
  induction l with
  | nil => intro st; rfl
  | cons a l ih => intro st; rw [emit_fallthrough, ih]; rfl

theorem sampler_state_emit_switch_cases : ∀ (n : Nat) (l : List Nat) (st st1 : codegen_glsl),
    l.length ≤ n → emit_switch_cases st l = some st1 → sampler_state st1 = sampler_state st := by
  intro n
  induction n with
  | zero =>
    intro l st st1 hl h
    have : l = [] := List.length_eq_zero.mp (Nat.le_zero.mp hl)
    subst this
    cases h; rfl
  | succ n ih =>
    intro l st st1 hl h
    match l, hl, h with
    | [], _, h => cases h; rfl
    | [_], _, h => cases h
    | a :: b :: rest, hl, h =>
      rw [emit_switch_cases] at h
      split at h
      · cases h
      · have hlen : rest.length ≤ n := by
          simp only [List.length_cons] at hl; omega
        rw [ih rest _ _ hlen h, sampler_state_append_code, sampler_state_emit_fallthrough]
        rfl

theorem sampler_state_emit_switch (st st1 : codegen_glsl) (env : dialect) (loc : location)
    (v b d : Nat) (cases : List Nat) (flags : Nat)
    (h : emit_switch st env loc v b d cases flags = some st1) :
    sampler_state st1 = sampler_state st := by
  unfold emit_switch at h
  split at h
  · cases h
  · simp only [] at h
    split at h
    · cases h
    · rename_i st7 h7
      have h7' := sampler_state_emit_switch_cases cases.length _ _ _ (le_refl _) h7
      cases h
      simp only [sampler_state_append_code, sampler_state_append_code_if,
        sampler_state_touch_block_if, sampler_state_scope_dec, h7', sampler_state_scope_inc,
        sampler_state_touch_block]
      unfold emit_switch_open
      simp only [sampler_state_append_code, sampler_state_append_code_if,
        sampler_state_touch_block]

theorem sampler_state_leave_block_and_kill (st : codegen_glsl) :
    sampler_state (leave_block_and_kill st).2 = sampler_state st := by
  unfold leave_block_and_kill
  split_ifs
  · rfl
  · rfl

theorem sampler_state_leave_block_and_return (st : codegen_glsl) (v : Nat) :
    sampler_state (leave_block_and_return st v).2 = sampler_state st := by
  unfold leave_block_and_return
  split_ifs <;> rfl

theorem sampler_state_leave_block_and_switch (st : codegen_glsl) :
    sampler_state (leave_block_and_switch st).2 = sampler_state st := by
  unfold leave_block_and_switch
  split_ifs
  · rfl
  · rfl

theorem sampler_state_leave_block_and_branch (st : codegen_glsl) (t f : Nat) :
    sampler_state (leave_block_and_branch st t f).2 = sampler_state st := by
  unfold leave_block_and_branch
  split_ifs <;> rfl

theorem sampler_state_leave_block_and_branch_conditional (st : codegen_glsl) :
    sampler_state (leave_block_and_branch_conditional st).2 = sampler_state st := by
  unfold leave_block_and_branch_conditional
  split_ifs
  · rfl
  · rfl

theorem sampler_state_leave_function (st st1 : codegen_glsl) (h : leave_function st = some st1) :
    sampler_state st1 = sampler_state st := by
  unfold leave_function at h
  simp only [] at h
  split at h
  · cases h
  · cases h; rfl

theorem sampler_state_step (env : dialect) (st st1 : codegen_glsl) (c : call)
    (hc : is_define_sampler c = false) (h : step env st c = some st1) :
    sampler_state st1 = sampler_state st := by
  cases c with
  | define_sampler loc info => cases hc
  | define_struct loc info => cases h; exact sampler_state_define_struct _ _ _
  | define_texture info => cases h; rfl
  | define_uniform loc info =>
    simp only [step, Option.map_eq_some'] at h
    obtain ⟨r, hr, rfl⟩ := h
    unfold define_uniform at hr
    simp only [] at hr
    split at hr
    · cases hr
    · split at hr
      · cases hr
      · cases hr; rfl
  | define_variable loc t name v => cases h; exact sampler_state_define_variable _ _ _ _ _
  | define_function loc info => cases h; exact sampler_state_define_function _ _ _
  | create_block => cases h; rfl
  | create_entry_point f b => cases h; exact sampler_state_create_entry_point _ _ _
  | emit_load chain =>
    simp only [step, Option.map_eq_some'] at h
    obtain ⟨r, hr, rfl⟩ := h
    exact sampler_state_emit_load _ _ _ _ hr
  | emit_store chain v => exact sampler_state_emit_store _ _ _ _ h
  | emit_constant t d =>
    simp only [step, Option.map_eq_some'] at h
    obtain ⟨r, hr, rfl⟩ := h
    exact sampler_state_emit_constant _ _ _ _ _ hr
  | emit_unary_op loc op t v =>
    simp only [step, Option.map_eq_some'] at h
    obtain ⟨r, hr, rfl⟩ := h
    exact sampler_state_emit_unary_op _ _ _ _ _ _ hr
  | emit_binary_op loc op t1 t2 a b =>
    simp only [step, Option.map_eq_some'] at h
    obtain ⟨r, hr, rfl⟩ := h
    exact sampler_state_emit_binary_op _ _ _ _ _ _ _ _ hr
  | emit_ternary_op loc op t a b c =>
    simp only [step, Option.map_eq_some'] at h
    obtain ⟨r, hr, rfl⟩ := h
    exact sampler_state_emit_ternary_op _ _ _ _ _ _ _ _ hr
  | emit_call loc f t args =>
    simp only [step, Option.map_eq_some'] at h
    obtain ⟨r, hr, rfl⟩ := h
    exact sampler_state_emit_call _ _ _ _ _ _ hr
  | emit_call_intrinsic loc f t args =>
    simp only [step, Option.map_eq_some'] at h
    obtain ⟨r, hr, rfl⟩ := h
    exact sampler_state_emit_call_intrinsic _ _ _ _ _ _ _ hr
  | emit_construct loc t args =>
    simp only [step, Option.map_eq_some'] at h
    obtain ⟨r, hr, rfl⟩ := h
    exact sampler_state_emit_construct _ _ _ _ _ hr
  | emit_if loc c cb tb fb flags => exact sampler_state_emit_if _ _ _ _ _ _ _ _ _ h
  | emit_phi loc c cb tv tb fv fb t =>
    simp only [step, Option.map_eq_some'] at h
    obtain ⟨r, hr, rfl⟩ := h
    exact sampler_state_emit_phi _ _ _ _ _ _ _ _ _ _ hr
  | emit_loop loc c pb cb lb ctb flags => exact sampler_state_emit_loop _ _ _ _ _ _ _ _ _ _ h
  | emit_switch loc v b d cases flags => exact sampler_state_emit_switch _ _ _ _ _ _ _ _ _ h
  | set_block id => cases h; rfl
  | enter_block id => cases h; rfl
  | leave_block_and_kill => cases h; exact sampler_state_leave_block_and_kill _
  | leave_block_and_return v => cases h; exact sampler_state_leave_block_and_return _ _
  | leave_block_and_switch => cases h; exact sampler_state_leave_block_and_switch _
  | leave_block_and_branch t f => cases h; exact sampler_state_leave_block_and_branch _ _ _
  | leave_block_and_branch_conditional =>
    cases h; exact sampler_state_leave_block_and_branch_conditional _
  | leave_function => exact sampler_state_leave_function _ _ h

theorem sampler_ok_step (env : dialect) (st st1 : codegen_glsl) (c : call)
    (hok : sampler_ok st) (h : step env st c = some st1) :
    sampler_ok st1 ∧
      st1._samplers.length = st._samplers.length + (if is_define_sampler c then 1 else 0) := by
  by_cases hc : is_define_sampler c = true
  · cases c with
    | define_sampler loc info =>
      cases h
      have hs : (define_sampler st loc info).2._samplers =
          st._samplers ++ [{ info with id := st._next_id,
                                       binding := st._current_sampler_binding }] := rfl
      have hb : (define_sampler st loc info).2._current_sampler_binding =
          u32 (st._current_sampler_binding + 1) := rfl
      refine ⟨⟨?_, ?_⟩, ?_⟩
      · rw [hb, hs, hok.1, List.length_append, List.length_singleton, u32_u32_succ]
      · intro k s hk
        rw [hs] at hk
        by_cases hlt : k < st._samplers.length
        · rw [List.getElem?_append_left hlt] at hk
          exact hok.2 k s hk
        · have hle : st._samplers.length ≤ k := Nat.le_of_not_lt hlt
          rw [List.getElem?_append_right hle] at hk
          cases hd : k - st._samplers.length with
          | zero =>
            rw [hd] at hk
            simp only [List.getElem?_cons_zero, Option.some.injEq] at hk
            subst hk
            have hk' : k = st._samplers.length := by omega
            rw [hk']
            exact hok.1
          | succ m =>
            rw [hd] at hk
            simp at hk
      · rw [hs, List.length_append, List.length_singleton]
        simp only [is_define_sampler, if_true]
    | _ => cases hc
  · have hc' : is_define_sampler c = false := by
      cases hb : is_define_sampler c
      · rfl
      · exact absurd hb hc
    have hfr := sampler_state_step env st st1 c hc' h
    have h1 : st1._samplers = st._samplers := congrArg Prod.fst hfr
    have h2 : st1._current_sampler_binding = st._current_sampler_binding :=
      congrArg Prod.snd hfr
    refine ⟨⟨?_, ?_⟩, ?_⟩
    · rw [h1, h2]; exact hok.1
    · rw [h1]; exact hok.2
    · rw [h1, hc']; simp

theorem sampler_ok_run (env : dialect) : ∀ (calls : List call) (st st1 : codegen_glsl),
    sampler_ok st → run env st calls = some st1 →
    sampler_ok st1 ∧
      st1._samplers.length = st._samplers.length + calls.countP is_define_sampler := by
  intro calls
  induction calls with
  | nil =>
    intro st st1 hok h
    cases h
    exact ⟨hok, rfl⟩
  | cons c calls ih =>
    intro st st1 hok h
    rw [run] at h
    split at h
    · cases h
    · rename_i st2 hstep
      obtain ⟨hok2, hlen2⟩ := sampler_ok_step env st st2 c hok hstep
      obtain ⟨hok1, hlen1⟩ := ih st2 st1 hok2 h
      refine ⟨hok1, ?_⟩
      rw [hlen1, hlen2, List.countP_cons]
      omega

theorem sampler_names_step (env : dialect) (st st1 : codegen_glsl) (c : call)
    (h : step env st c = some st1) :
    st1._samplers.map (fun s => s.unique_name) =
      st._samplers.map (fun s => s.unique_name) ++ (declared_sampler c).toList := by
  by_cases hc : is_define_sampler c = true
  · cases c with
    | define_sampler loc info =>
      cases h
      have hs : (define_sampler st loc info).2._samplers =
          st._samplers ++ [{ info with id := st._next_id,
                                       binding := st._current_sampler_binding }] := rfl
      rw [hs, List.map_append]
      rfl
    | _ => cases hc
  · have hc1 : is_define_sampler c = false := by
      cases hb : is_define_sampler c
      · rfl
      · exact absurd hb hc
    have hfr := sampler_state_step env st st1 c hc1 h
    have h1 : st1._samplers = st._samplers := congrArg Prod.fst hfr
    have hd : declared_sampler c = none := by
      cases c with
      | define_sampler loc info => cases hc1
      | _ => rfl
    rw [h1, hd]
    simp

theorem sampler_names_run (env : dialect) : ∀ (calls : List call) (st st1 : codegen_glsl),
    run env st calls = some st1 →
    st1._samplers.map (fun s => s.unique_name) =
      st._samplers.map (fun s => s.unique_name) ++ calls.filterMap declared_sampler := by
  intro calls
  induction calls with
  | nil =>
    intro st st1 h
    cases h
    simp
  | cons c calls ih =>
    intro st st1 h
    rw [run] at h
    split at h
    · cases h
    · rename_i st2 hstep
      rw [ih st2 st1 h, sampler_names_step env st st2 c hstep, List.append_assoc]
      congr 1
      cases hd : declared_sampler c with
      | none => simp [List.filterMap_cons, hd]
      | some n => simp [List.filterMap_cons, hd]

theorem sampler_ok_construct : sampler_ok construct :=
  ⟨rfl, fun k s hk => by simp [construct, set_name, make_id, members_default] at hk⟩

/-- Claim C4, amended. After any sequence of backend calls on a fresh backend with at
most `2 ^ 32` `define_sampler` calls among them, the sampler list has one entry
per `define_sampler` call, in declaration order, and the `k`-th declared
sampler has binding slot `k`, whatever other calls are interleaved. -/
theorem sampler_bindings_sequential (env : dialect) (calls : List call) (st : codegen_glsl)
    (hrun : run env construct calls = some st)
    (hN : calls.countP is_define_sampler ≤ 2 ^ 32) :
    st._samplers.length = calls.countP is_define_sampler ∧
      st._samplers.map (fun s => s.unique_name) = calls.filterMap declared_sampler ∧
      ∀ (k : Nat) (s : sampler_info), st._samplers[k]? = some s → s.binding = k := by
  have hnames : st._samplers.map (fun s => s.unique_name) =
      calls.filterMap declared_sampler := by
    rw [sampler_names_run env calls construct st hrun]
    rfl
  obtain ⟨hok, hlen⟩ := sampler_ok_run env calls construct st sampler_ok_construct hrun
  have hlen' : st._samplers.length = calls.countP is_define_sampler := by
    rw [hlen]
    show 0 + _ = _
    omega
  refine ⟨hlen', hnames, ?_⟩
  intro k s hk
  have hlt : k < st._samplers.length := (List.getElem?_eq_some.mp hk).1
  rw [hok.2 k s hk]
  exact u32_of_lt (by omega)

/-- Claim C4, amended, at two sampler declarations with a block creation between. -/
theorem sampler_bindings_sequential_witness :
    (run sample_dialect construct sample_sampler_calls).isSome ∧
    ((run sample_dialect construct sample_sampler_calls).getD construct)._samplers.length =
        sample_sampler_calls.countP is_define_sampler ∧
      ((run sample_dialect construct sample_sampler_calls).getD construct)._samplers.map
          (fun s => s.unique_name) = sample_sampler_calls.filterMap declared_sampler ∧
      ∀ (k : Nat) (s : sampler_info),
        ((run sample_dialect construct sample_sampler_calls).getD construct)._samplers[k]? =
          some s → s.binding = k :=
  ⟨by decide, sampler_bindings_sequential sample_dialect sample_sampler_calls
    ((run sample_dialect construct sample_sampler_calls).getD construct) rfl (by decide)⟩

theorem run_replicate_define_sampler (env : dialect) (loc : location) (info : sampler_info) :
    ∀ (n : Nat) (st : codegen_glsl),
      ∃ st1, run env st (List.replicate n (call.define_sampler loc info)) = some st1 := by
  intro n
  induction n with
  | zero => intro st; exact ⟨st, rfl⟩
  | succ n ih =>
    intro st
    obtain ⟨st1, h1⟩ := ih (define_sampler st loc info).2
    exact ⟨st1, by rw [List.replicate_succ, run]; exact h1⟩

/-- Claim C4 fails after `2 ^ 32 + 1` sampler declarations: the binding counter is an
unsigned 32-bit value, so the sampler declared at position `2 ^ 32` gets slot 0. -/
theorem sampler_binding_wraps :
    ∃ st, run sample_dialect construct
        (List.replicate (2 ^ 32 + 1) (call.define_sampler ⟨1⟩ (sample_sampler "s"))) = some st ∧
      ∃ s, st._samplers[2 ^ 32]? = some s ∧ s.binding = 0 ∧ s.binding ≠ 2 ^ 32 := by
  obtain ⟨st, hrun⟩ := run_replicate_define_sampler sample_dialect ⟨1⟩ (sample_sampler "s")
    (2 ^ 32 + 1) construct
  obtain ⟨hok, hlen⟩ := sampler_ok_run _ _ construct st sampler_ok_construct hrun
  have hlen' : st._samplers.length = 2 ^ 32 + 1 := by
    rw [hlen, List.countP_replicate]
    show 0 + (if is_define_sampler (call.define_sampler ⟨1⟩ (sample_sampler "s")) = true
      then 2 ^ 32 + 1 else 0) = _
    simp [is_define_sampler]
  have hlt : 2 ^ 32 < st._samplers.length := by omega
  have hb : (st._samplers[2 ^ 32]).binding = 0 := by
    rw [hok.2 _ _ (List.getElem?_eq_getElem hlt)]
    unfold u32
    simp
  refine ⟨st, hrun, st._samplers[2 ^ 32], List.getElem?_eq_getElem hlt, hb, ?_⟩
  rw [hb]
  decide


/-! ### Escaped names -/

theorem replace_all_us_head (s : std_string) : (replace_all_us s).head? = s.head? := by
  match s with
  | [] => rfl
  | [c] => rfl
  | c :: d :: rest =>
    rw [replace_all_us]
    split
    · rename_i h; rw [h.1]; rfl
    · rfl

theorem replace_all_us_cons (c : Char) (s : std_string)
    (h : ¬ (c = '_' ∧ s.head? = some '_')) :
    replace_all_us (c :: s) = c :: replace_all_us s := by
  match s with
  | [] => rfl
  | d :: rest =>
    rw [replace_all_us]
    have : ¬ (c = '_' ∧ d = '_') := by
      intro hc
      exact h ⟨hc.1, by rw [hc.2]; rfl⟩
    rw [if_neg this]

theorem replace_all_us_idem (s : std_string) :
    replace_all_us (replace_all_us s) = replace_all_us s := by
  induction s using replace_all_us.induct with
  | case1 => rfl
  | case2 c => rfl
  | case3 c d rest h ih =>
    rw [replace_all_us, if_pos h]
    rw [replace_all_us_cons '_' _ (by simp), replace_all_us_cons 'U' _ (by simp),
      replace_all_us_cons 'S' _ (by simp), ih]
  | case4 c d rest h ih =>
    rw [replace_all_us, if_neg h]
    rw [replace_all_us_cons c _ ?_, ih]
    rw [replace_all_us_head]
    intro hc
    exact h ⟨hc.1, by simpa using hc.2⟩

theorem is_prefix_us (c : Char) (cs : std_string) :
    (S "__").isPrefixOf (c :: cs) = true ↔ c = '_' ∧ cs.head? = some '_' := by
  match cs with
  | [] => simp [S, List.isPrefixOf]
  | d :: rest =>
    simp only [S, List.isPrefixOf, Bool.and_eq_true, beq_iff_eq, List.head?_cons,
      Option.some.injEq, Bool.and_true]
    constructor
    · rintro ⟨h1, h2⟩; exact ⟨h1.symm, h2.symm⟩
    · rintro ⟨h1, h2⟩; exact ⟨h1.symm, h2.symm⟩

/-- What `find` reports for the pattern `__`, and the effect of one replacement. -/
theorem find_from_us : ∀ (res : std_string) (i : Nat),
    match find_from (S "__") res i with
    | none => replace_all_us res = res
    | some p => ∃ k, p = i + k ∧ k + 2 ≤ res.length ∧
        replace_all_us (res.take k ++ S "_US" ++ res.drop (k + 2)) = replace_all_us res ∧
        (res.take k ++ S "_US" ++ res.drop (k + 2)).count '_' + 1 = res.count '_' ∧
        (res.take k ++ S "_US" ++ res.drop (k + 2)).head? = res.head? := by
  intro res
  induction res with
  | nil => intro i; simp [find_from, S, replace_all_us]
  | cons c cs ih =>
    intro i
    rw [find_from]
    by_cases hp : (S "__").isPrefixOf (c :: cs) = true
    · rw [if_pos hp]
      obtain ⟨hc, hd⟩ := (is_prefix_us c cs).mp hp
      subst hc
      match cs, hd with
      | d :: post, hd =>
        simp only [List.head?_cons, Option.some.injEq] at hd
        subst hd
        refine ⟨0, rfl, by simp, ?_, ?_, ?_⟩
        · show replace_all_us ('_' :: 'U' :: 'S' :: post) = replace_all_us ('_' :: '_' :: post)
          rw [replace_all_us_cons '_' _ (by simp), replace_all_us_cons 'U' _ (by simp),
            replace_all_us_cons 'S' _ (by simp)]
          rw [replace_all_us, if_pos ⟨rfl, rfl⟩]
        · show ('_' :: 'U' :: 'S' :: post).count '_' + 1 = ('_' :: '_' :: post).count '_'
          simp [List.count_cons]
        · rfl
    · rw [if_neg hp]
      have hnot : ¬ (c = '_' ∧ cs.head? = some '_') := fun h => hp ((is_prefix_us c cs).mpr h)
      have h := ih (i + 1)
      cases hf : find_from (S "__") cs (i + 1) with
      | none =>
        rw [hf] at h
        simp only at h ⊢
        rw [replace_all_us_cons c cs hnot, h]
      | some p =>
        rw [hf] at h
        simp only at h ⊢
        obtain ⟨k, hk, hlen, hrep, hcnt, hhead⟩ := h
        refine ⟨k + 1, by omega, by simp only [List.length_cons]; omega, ?_, ?_, ?_⟩
        · show replace_all_us (c :: (cs.take k ++ S "_US" ++ cs.drop (k + 2))) = _
          rw [replace_all_us_cons c _ (by rw [hhead]; exact hnot), hrep,
            replace_all_us_cons c cs hnot]
        · show (c :: (cs.take k ++ S "_US" ++ cs.drop (k + 2))).count '_' + 1 = _
          rw [List.count_cons, List.count_cons]
          omega
        · rfl

theorem escape_loop_eq : ∀ (fuel : Nat) (res : std_string), res.count '_' ≤ fuel →
    escape_loop fuel res = some (replace_all_us res) := by
  intro fuel
  induction fuel with
  | zero =>
    intro res hc
    have h := find_from_us res 0
    rw [escape_loop]
    unfold find
    cases hf : find_from (S "__") res 0 with
    | none => rw [hf] at h; simp only at h ⊢; rw [h]
    | some p =>
      rw [hf] at h
      obtain ⟨k, _, _, _, hcnt, _⟩ := h
      omega
  | succ fuel ih =>
    intro res hc
    have h := find_from_us res 0
    rw [escape_loop]
    unfold find
    cases hf : find_from (S "__") res 0 with
    | none => rw [hf] at h; simp only at h ⊢; rw [h]
    | some p =>
      rw [hf] at h
      obtain ⟨k, hk, hlen, hrep, hcnt, _⟩ := h
      have hpk : p = k := by omega
      subst hpk
      simp only
      have hr : replace res p 2 (S "_US") = some (res.take p ++ S "_US" ++ res.drop (p + 2)) := by
        unfold replace
        rw [if_neg (by omega)]
      rw [hr]
      simp only
      rw [ih _ (by omega), hrep]

/-- The text on which the loop of `escape_name` starts. -/
theorem escape_name_eq (name : std_string) :
    escape_name name = some (replace_all_us
      ((if name.take 3 = S "gl_" ∨ name ∈ s_reserverd_names then S "_" else []) ++ name)) := by
  unfold escape_name
  apply escape_loop_eq
  refine le_trans (List.count_le_length _ _) ?_
  rw [List.length_append]
  split
  · show 1 + name.length ≤ name.length + 1
    omega
  · show 0 + name.length ≤ name.length + 1
    omega

theorem reserved_head : ∀ n ∈ s_reserverd_names, n.head? ≠ some '_' := by decide

theorem reserved_no_underscore : ∀ n ∈ s_reserverd_names, '_' ∉ n := by decide

theorem replace_all_us_of_not_mem : ∀ (s : std_string), '_' ∉ s → replace_all_us s = s := by
  intro s
  induction s with
  | nil => intro _; rfl
  | cons c cs ih =>
    intro h
    have hc : c ≠ '_' := fun e => h (by rw [e]; exact List.mem_cons_self _ _)
    rw [replace_all_us_cons c cs (fun hh => hc hh.1), ih (fun hm => h (List.mem_cons_of_mem _ hm))]

theorem mem_replace_all_us (s : std_string) (h : '_' ∈ s) : '_' ∈ replace_all_us s := by
  induction s using replace_all_us.induct with
  | case1 => exact h
  | case2 c => exact h
  | case3 c d rest hcd ih =>
    rw [replace_all_us, if_pos hcd]
    exact List.mem_cons_self _ _
  | case4 c d rest hcd ih =>
    rw [replace_all_us, if_neg hcd]
    rcases List.mem_cons.mp h with h1 | h1
    · rw [← h1]; exact List.mem_cons_self _ _
    · exact List.mem_cons_of_mem _ (ih h1)

theorem replace_all_us_take3 (s : std_string) (h : (replace_all_us s).take 3 = S "gl_") :
    s.take 3 = S "gl_" := by
  match s with
  | [] => exact h
  | [c] => exact h
  | [c, d] =>
    rw [replace_all_us] at h
    split at h
    · simp [S] at h
    · exact h
  | c :: d :: e :: rest =>
    rw [replace_all_us] at h
    split at h
    · simp [S] at h
    · rw [replace_all_us] at h
      split at h
      · rename_i hde
        simp only [List.take_succ_cons, List.take_zero, S, List.cons.injEq] at h
        obtain ⟨_, hd, _⟩ := h
        exact absurd hd (by decide)
      · have hh := replace_all_us_head (e :: rest)
        cases hr : replace_all_us (e :: rest) with
        | nil => rw [hr] at h; simp [S] at h
        | cons x xs =>
          rw [hr] at h hh
          simp only [List.head?_cons, Option.some.injEq] at hh
          subst hh
          simpa using h

theorem restore_replace : ∀ (s : std_string), ¬ (S "_US" <:+: s) →
    restore_us (replace_all_us s) = s := by
  intro s
  induction s using replace_all_us.induct with
  | case1 => intro _; rfl
  | case2 c => intro _; rfl
  | case3 c d rest hcd ih =>
    intro h
    rw [replace_all_us, if_pos hcd, restore_us, if_pos ⟨rfl, rfl, rfl⟩, hcd.1, hcd.2]
    rw [ih ?_]
    intro hin
    exact h (hin.trans (List.infix_cons (List.infix_cons (List.infix_refl _))))
  | case4 c d rest hcd ih =>
    intro h
    rw [replace_all_us, if_neg hcd]
    have hrest : ¬ (S "_US" <:+: d :: rest) :=
      fun hin => h (hin.trans (List.infix_cons (List.infix_refl _)))
    have hh := replace_all_us_head (d :: rest)
    cases hr : replace_all_us (d :: rest) with
    | nil => rw [hr] at hh; simp at hh
    | cons x xs =>
      rw [hr] at hh
      simp only [List.head?_cons, Option.some.injEq] at hh
      subst hh
      have ih' := ih hrest
      rw [hr] at ih'
      cases xs with
      | nil =>
        rw [restore_us]
        · rw [← ih']; rfl
        · intro c' d' e' rest' hcontra; cases hcontra
      | cons y ys =>
        rw [restore_us]
        by_cases hc3 : c = '_' ∧ x = 'U' ∧ y = 'S'
        · exfalso
          obtain ⟨hc, hx, hy⟩ := hc3
          subst hc hx hy
          match rest, hr with
          | [], hr => simp [replace_all_us] at hr
          | e :: rest', hr =>
            rw [replace_all_us, if_neg (fun hh => absurd hh.1 (by decide))] at hr
            have hh2 := replace_all_us_head (e :: rest')
            simp only [List.cons.injEq, true_and] at hr
            rw [hr] at hh2
            simp only [List.head?_cons, Option.some.injEq] at hh2
            subst hh2
            exact h ⟨[], rest', rfl⟩
        · rw [if_neg hc3, ih']

/-- Claim C5 fails: the distinct names `abs` and `_abs` both escape to `_abs`, and
the distinct names `__` and `_US` both escape to `_US`. -/
theorem escape_name_collision :
    S "abs" ≠ S "_abs" ∧ escape_name (S "abs") = escape_name (S "_abs") ∧
      S "__" ≠ S "_US" ∧ escape_name (S "__") = escape_name (S "_US") := by decide

theorem reserved_head_U : ∀ n ∈ s_reserverd_names, n.head? ≠ some 'U' := by decide

theorem head_of_take3_gl (a : std_string) (h : a.take 3 = S "gl_") : a.head? = some 'g' := by
  cases a with
  | nil => exact absurd h (by decide)
  | cons c t =>
    rw [List.take_succ_cons] at h
    have hc : c = 'g' := (List.cons.inj h).1
    rw [hc]
    rfl

theorem prefixed_head (a : std_string)
    (h : a.take 3 = S "gl_" ∨ a ∈ s_reserverd_names) :
    a.head? ≠ some '_' ∧ a.head? ≠ some 'U' := by
  rcases h with h | h
  · rw [head_of_take3_gl a h]
    exact ⟨by decide, by decide⟩
  · exact ⟨reserved_head a h, reserved_head_U a h⟩

theorem not_infix_us_underscore (a : std_string) (h1 : a.head? ≠ some 'U')
    (h2 : ¬ (S "_US" <:+: a)) : ¬ (S "_US" <:+: '_' :: a) := by
  rw [List.infix_cons_iff]
  rintro (h | h)
  · cases a with
    | nil =>
      have hl : (3 : Nat) ≤ 1 := List.IsPrefix.length_le h
      omega
    | cons c t =>
      obtain ⟨r, hr⟩ := h
      have hc : 'U' = c := (List.cons.inj (List.cons.inj hr).2).1
      exact h1 (by rw [← hc]; rfl)
  · exact h2 h

/-- Claim C5, amended. The function `escape_name` is injective on the names that do not
contain `_US` and are not an underscore followed by a name that `escape_name`
prefixes (a reserved name or a name that begins with `gl_`): two distinct names
of this kind have distinct escaped names. -/
theorem escape_name_injective_on (a b : std_string)
    (ha : ¬ (S "_US" <:+: a)) (hb : ¬ (S "_US" <:+: b))
    (ha' : a.head? = some '_' → ¬ (a.tail.take 3 = S "gl_" ∨ a.tail ∈ s_reserverd_names))
    (hb' : b.head? = some '_' → ¬ (b.tail.take 3 = S "gl_" ∨ b.tail ∈ s_reserverd_names))
    (hab : a ≠ b) :
    escape_name a ≠ escape_name b := by
  rw [escape_name_eq, escape_name_eq]
  intro h
  have h1 := Option.some.inj h
  have hinj : ∀ x y : std_string, ¬ (S "_US" <:+: x) → ¬ (S "_US" <:+: y) →
      replace_all_us x = replace_all_us y → x = y := by
    intro x y hx hy e
    rw [← restore_replace x hx, ← restore_replace y hy, e]
  have hmixed : ∀ x y : std_string, ¬ (S "_US" <:+: x) → ¬ (S "_US" <:+: y) →
      (x.take 3 = S "gl_" ∨ x ∈ s_reserverd_names) →
      (y.head? = some '_' → ¬ (y.tail.take 3 = S "gl_" ∨ y.tail ∈ s_reserverd_names)) →
      replace_all_us (S "_" ++ x) = replace_all_us y → False := by
    intro x y hx hy hpx hy' e
    have hxu := not_infix_us_underscore x (prefixed_head x hpx).2 hx
    have hyx : y = '_' :: x := (hinj ('_' :: x) y hxu hy e).symm
    rw [hyx] at hy'
    exact hy' rfl hpx
  by_cases hpa : a.take 3 = S "gl_" ∨ a ∈ s_reserverd_names <;>
    by_cases hpb : b.take 3 = S "gl_" ∨ b ∈ s_reserverd_names
  · rw [if_pos hpa, if_pos hpb] at h1
    have e := hinj _ _ (not_infix_us_underscore a (prefixed_head a hpa).2 ha)
      (not_infix_us_underscore b (prefixed_head b hpb).2 hb) h1
    exact hab (List.cons.inj e).2
  · rw [if_pos hpa, if_neg hpb, List.nil_append] at h1
    exact hmixed a b ha hb hpa hb' h1
  · rw [if_neg hpa, if_pos hpb, List.nil_append] at h1
    exact hmixed b a hb ha hpb ha' h1.symm
  · rw [if_neg hpa, if_neg hpb, List.nil_append, List.nil_append] at h1
    exact hab (hinj a b ha hb h1)

/-- Claim C5, amended, at the names `_MainTex` and `MainTex`. -/
theorem escape_name_injective_on_witness :
    escape_name (S "_MainTex") ≠ escape_name (S "MainTex") :=
  escape_name_injective_on (S "_MainTex") (S "MainTex") (by decide) (by decide) (by decide)
    (by decide) (by decide)

/-- Claim C6. The function `escape_name` returns for every name, and escaping its
result again gives the same result. -/
theorem escape_name_idempotent (s : std_string) :
    ∃ r, escape_name s = some r ∧ escape_name r = some r := by
  refine ⟨_, escape_name_eq s, ?_⟩
  rw [escape_name_eq]
  by_cases hp : s.take 3 = S "gl_" ∨ s ∈ s_reserverd_names
  · rw [if_pos hp]
    have hhead : (replace_all_us (S "_" ++ s)).head? = some '_' := by
      rw [replace_all_us_head]; rfl
    have hnp : ¬ ((replace_all_us (S "_" ++ s)).take 3 = S "gl_" ∨
        replace_all_us (S "_" ++ s) ∈ s_reserverd_names) := by
      rintro (h | h)
      · cases hr : replace_all_us (S "_" ++ s) with
        | nil => rw [hr] at hhead; simp at hhead
        | cons x xs =>
          rw [hr] at hhead h
          simp only [List.head?_cons, Option.some.injEq] at hhead
          subst hhead
          simp [S] at h
      · exact reserved_head _ h hhead
    rw [if_neg hnp, List.nil_append, replace_all_us_idem]
  · rw [if_neg hp, List.nil_append]
    have hnp : ¬ ((replace_all_us s).take 3 = S "gl_" ∨
        replace_all_us s ∈ s_reserverd_names) := by
      rintro (h | h)
      · exact hp (Or.inl (replace_all_us_take3 s h))
      · have hno := reserved_no_underscore _ h
        have hs : '_' ∉ s := fun hm => hno (mem_replace_all_us s hm)
        rw [replace_all_us_of_not_mem s hs] at h
        exact hp (Or.inr h)
    rw [if_neg hnp, List.nil_append, replace_all_us_idem]


/-! ### Texts of the blocks -/

theorem block_text_append_block_same (st : codegen_glsl) (k : Nat) (s : std_string) :
    block_text (append_block st k s) k = block_text st k ++ s := by
  simp [block_text, append_block, map_set]

theorem block_text_append_block_other (st : codegen_glsl) (k j : Nat) (s : std_string)
    (h : j ≠ k) : block_text (append_block st k s) j = block_text st j := by
  simp [block_text, append_block, map_set, h]

theorem block_text_touch_block (st : codegen_glsl) (k j : Nat) :
    block_text (touch_block st k) j = block_text st j := by
  unfold block_text touch_block map_set
  by_cases h : j = k
  · subst h; simp [block_text]
  · simp [h]

theorem block_text_touch_block_if (st : codegen_glsl) (c : Bool) (k j : Nat) :
    block_text (touch_block_if st c k) j = block_text st j := by
  unfold touch_block_if
  split
  · exact block_text_touch_block st k j
  · rfl

theorem current_block_touch_block_if (st : codegen_glsl) (c : Bool) (k : Nat) :
    (touch_block_if st c k)._current_block = st._current_block := by
  unfold touch_block_if
  split <;> rfl

theorem block_text_append_code_if (st : codegen_glsl) (c : Bool) (s : std_string) :
    block_text (append_code_if st c s) st._current_block =
      block_text st st._current_block ++ (if c then s else []) := by
  unfold append_code_if
  cases c
  · simp
  · simp only [if_true]
    exact block_text_append_block_same _ _ _

theorem fallthrough_of_touch_fallthrough (st : codegen_glsl) (k j : Nat) :
    fallthrough_of (touch_fallthrough st k) j = fallthrough_of st j := by
  unfold fallthrough_of touch_fallthrough map_set
  by_cases h : j = k
  · subst h; simp [fallthrough_of]
  · simp [h]

theorem agree_outside_refl (cur : Nat) (st : codegen_glsl) : agree_outside cur st st :=
  ⟨rfl, rfl, rfl, fun _ => rfl, fun _ _ => rfl⟩

theorem agree_outside_trans {cur : Nat} {a b c : codegen_glsl}
    (h1 : agree_outside cur a b) (h2 : agree_outside cur b c) : agree_outside cur a c :=
  ⟨h2.1.trans h1.1, h2.2.1.trans h1.2.1, h2.2.2.1.trans h1.2.2.1,
    fun k => (h2.2.2.2.1 k).trans (h1.2.2.2.1 k),
    fun k hk => (h2.2.2.2.2 k hk).trans (h1.2.2.2.2 k hk)⟩

theorem agree_outside_append_code (st : codegen_glsl) (s : std_string) :
    agree_outside st._current_block st (append_code st s) :=
  ⟨rfl, rfl, rfl, fun _ => rfl, fun _ hk => block_text_append_block_other _ _ _ _ hk⟩

theorem agree_outside_append_code_if (st : codegen_glsl) (c : Bool) (s : std_string) :
    agree_outside st._current_block st (append_code_if st c s) := by
  unfold append_code_if
  split
  · exact agree_outside_append_code st s
  · exact agree_outside_refl _ _

theorem agree_outside_touch_block (cur : Nat) (st : codegen_glsl) (k : Nat) :
    agree_outside cur st (touch_block st k) :=
  ⟨rfl, rfl, rfl, fun _ => rfl, fun _ _ => block_text_touch_block _ _ _⟩

theorem agree_outside_touch_block_if (cur : Nat) (st : codegen_glsl) (c : Bool) (k : Nat) :
    agree_outside cur st (touch_block_if st c k) := by
  unfold touch_block_if
  split
  · exact agree_outside_touch_block cur st k
  · exact agree_outside_refl _ _

theorem agree_outside_touch_fallthrough (cur : Nat) (st : codegen_glsl) (k : Nat) :
    agree_outside cur st (touch_fallthrough st k) :=
  ⟨rfl, rfl, rfl, fun _ => fallthrough_of_touch_fallthrough _ _ _, fun _ _ => rfl⟩

theorem agree_outside_scope_inc {cur : Nat} {st st1 : codegen_glsl}
    (h : agree_outside cur st st1) : agree_outside cur (scope_inc st) (scope_inc st1) := by
  refine ⟨h.1, ?_, h.2.2.1, h.2.2.2.1, h.2.2.2.2⟩
  show u32 (st1._scope_level + 1) = u32 (st._scope_level + 1)
  rw [h.2.1]

theorem fallthrough_of_congr {cur : Nat} {st st1 : codegen_glsl}
    (h : agree_outside cur st st1) : fallthrough_of st1 = fallthrough_of st :=
  funext h.2.2.2.1


/-! ### Switch statements -/

theorem emit_fallthrough_text : ∀ (l : List Nat) (st : codegen_glsl),
    (∀ t ∈ l, t ≠ st._current_block) →
    agree_outside st._current_block st (emit_fallthrough st l) ∧
      block_text (emit_fallthrough st l) st._current_block =
        block_text st st._current_block ++ (l.map (block_text st)).flatten := by
  intro l
  induction l with
  | nil => intro st _; exact ⟨agree_outside_refl _ _, by simp [emit_fallthrough]⟩
  | cons t l ih =>
    intro st hl
    have ht : t ≠ st._current_block := hl t (List.mem_cons_self _ _)
    have hl' : ∀ u ∈ l, u ≠ st._current_block := fun u hu => hl u (List.mem_cons_of_mem _ hu)
    rw [emit_fallthrough]
    have hag : agree_outside st._current_block st
        (append_code (touch_block st t) (block_text st t)) :=
      agree_outside_trans (agree_outside_touch_block _ st t)
        (agree_outside_append_code (touch_block st t) _)
    obtain ⟨ih1, ih2⟩ := ih (append_code (touch_block st t) (block_text st t)) hl'
    have hcur : (append_code (touch_block st t) (block_text st t))._current_block =
        st._current_block := rfl
    rw [hcur] at ih1 ih2
    refine ⟨agree_outside_trans hag ih1, ?_⟩
    rw [ih2]
    have hmap : l.map (block_text (append_code (touch_block st t) (block_text st t))) =
        l.map (block_text st) := by
      apply List.map_congr_left
      intro u hu
      exact hag.2.2.2.2 u (hl' u hu)
    rw [hmap]
    show block_text (append_block (touch_block st t) st._current_block (block_text st t))
      st._current_block ++ _ = _
    rw [block_text_append_block_same, block_text_touch_block]
    simp [List.append_assoc]

theorem switch_arm_congr {cur : Nat} {st st1 : codegen_glsl} (h : agree_outside cur st st1)
    (literal label : Nat) (hl : label ≠ cur) (ht : ∀ t ∈ fallthrough_of st label, t ≠ cur) :
    switch_arm st1 literal label = switch_arm st literal label := by
  unfold switch_arm write_scope
  rw [h.2.1, h.2.2.2.1 label, h.2.2.2.2 label hl]
  have hmap : (fallthrough_of st label).map (block_text st1) =
      (fallthrough_of st label).map (block_text st) :=
    List.map_congr_left (fun u hu => h.2.2.2.2 u (ht u hu))
  rw [hmap]

theorem switch_arms_congr {cur : Nat} {st st1 : codegen_glsl} (h : agree_outside cur st st1) :
    ∀ (n : Nat) (cases : List Nat), cases.length ≤ n →
      cases_apart (fallthrough_of st) cur cases →
      switch_arms st1 cases = switch_arms st cases := by
  intro n
  induction n with
  | zero =>
    intro cases hl _
    have : cases = [] := List.length_eq_zero.mp (Nat.le_zero.mp hl)
    subst this
    rfl
  | succ n ih =>
    intro cases hl hc
    match cases, hl, hc with
    | [], _, _ => rfl
    | [_], _, _ => rfl
    | a :: b :: rest, hl, hc =>
      have hlen : rest.length ≤ n := by simp only [List.length_cons] at hl; omega
      rw [switch_arms, switch_arms, ih rest hlen hc.2,
        switch_arm_congr h a b hc.1.2.1 hc.1.2.2]

theorem emit_switch_cases_text : ∀ (n : Nat) (cases : List Nat) (st : codegen_glsl),
    cases.length ≤ n → cases_apart (fallthrough_of st) st._current_block cases →
    ∃ st1, emit_switch_cases st cases = some st1 ∧
      agree_outside st._current_block st st1 ∧
      block_text st1 st._current_block =
        block_text st st._current_block ++ switch_arms st cases := by
  intro n
  induction n with
  | zero =>
    intro cases st hl _
    have : cases = [] := List.length_eq_zero.mp (Nat.le_zero.mp hl)
    subst this
    exact ⟨st, rfl, agree_outside_refl _ _, by simp [switch_arms]⟩
  | succ n ih =>
    intro cases st hl hc
    match cases, hl, hc with
    | [], _, _ => exact ⟨st, rfl, agree_outside_refl _ _, by simp [switch_arms]⟩
    | [_], _, hc => exact absurd hc id
    | literal :: label :: rest, hl, hc =>
      have hlen : rest.length ≤ n := by simp only [List.length_cons] at hl; omega
      obtain ⟨⟨hl0, hlc, hft⟩, hrest⟩ := hc
      rw [emit_switch_cases, if_neg hl0]
      simp only []
      have hag1 : agree_outside st._current_block st
          (append_code (touch_block st label)
            (write_scope st ++ S "case " ++ to_string literal ++ S ": \x7b\n" ++
              block_text st label)) :=
        agree_outside_trans (agree_outside_touch_block _ st label)
          (agree_outside_append_code (touch_block st label) _)
      generalize hst1 : append_code (touch_block st label)
        (write_scope st ++ S "case " ++ to_string literal ++ S ": \x7b\n" ++
          block_text st label) = st1 at hag1 ⊢
      have hcur1 : st1._current_block = st._current_block := hag1.1
      have htext1 : block_text st1 st._current_block = block_text st st._current_block ++
          (write_scope st ++ S "case " ++ to_string literal ++ S ": \x7b\n" ++
            block_text st label) := by
        rw [← hst1]
        show block_text (append_block (touch_block st label) st._current_block _) _ = _
        rw [block_text_append_block_same, block_text_touch_block]
      have hag2 : agree_outside st._current_block st (touch_fallthrough st1 label) :=
        agree_outside_trans hag1 (agree_outside_touch_fallthrough _ st1 label)
      have hft1 : fallthrough_of st1 label = fallthrough_of st label := hag1.2.2.2.1 label
      have hfall := emit_fallthrough_text (fallthrough_of st1 label) (touch_fallthrough st1 label)
        (by
          intro t ht
          rw [hft1] at ht
          show t ≠ st1._current_block
          rw [hcur1]
          exact hft t ht)
      have hcur2 : (touch_fallthrough st1 label)._current_block = st._current_block := hcur1
      rw [hcur2] at hfall
      obtain ⟨hag3, htext3⟩ := hfall
      generalize hst2 : emit_fallthrough (touch_fallthrough st1 label)
        (fallthrough_of st1 label) = st2 at hag3 htext3 ⊢
      have hag3' : agree_outside st._current_block st st2 := agree_outside_trans hag2 hag3
      have hcur3 : st2._current_block = st._current_block := hag3'.1
      have hag4 : agree_outside st._current_block st
          (append_code st2 (write_scope st2 ++ S "\x7d\n")) := by
        have := agree_outside_append_code st2 (write_scope st2 ++ S "\x7d\n")
        rw [hcur3] at this
        exact agree_outside_trans hag3' this
      have htext4 : block_text (append_code st2 (write_scope st2 ++ S "\x7d\n"))
          st._current_block = block_text st st._current_block ++
            switch_arm st literal label := by
        show block_text (append_block st2 st2._current_block _) _ = _
        rw [hcur3, block_text_append_block_same, htext3]
        have hb : block_text (touch_fallthrough st1 label) st._current_block =
            block_text st1 st._current_block := rfl
        rw [hb, htext1, hft1]
        have hmap : (fallthrough_of st label).map (block_text (touch_fallthrough st1 label)) =
            (fallthrough_of st label).map (block_text st) :=
          List.map_congr_left (fun u hu => hag2.2.2.2.2 u (hft u hu))
        have hsc : write_scope st2 = write_scope st := by
          unfold write_scope; rw [hag3'.2.1]
        rw [hmap, hsc]
        unfold switch_arm
        simp only [List.append_assoc]
      generalize hst4 : append_code st2 (write_scope st2 ++ S "\x7d\n") = st4 at hag4 htext4 ⊢
      have hcur4 : st4._current_block = st._current_block := hag4.1
      have hc4 : cases_apart (fallthrough_of st4) st4._current_block rest := by
        rw [hcur4, fallthrough_of_congr hag4]
        exact hrest
      obtain ⟨st5, hrun, hag5, htext5⟩ := ih rest st4 hlen hc4
      rw [hcur4] at hag5 htext5
      refine ⟨st5, hrun, agree_outside_trans hag4 hag5, ?_⟩
      rw [htext5, htext4, switch_arms_congr hag4 _ rest (le_refl _) hrest, switch_arms]
      simp only [List.append_assoc]

theorem emit_switch_open_text (st : codegen_glsl) (env : dialect) (loc : location)
    (v sb flags : Nat) :
    agree_outside st._current_block st (emit_switch_open st env loc v sb flags) ∧
      block_text (emit_switch_open st env loc v sb flags) st._current_block =
        block_text st st._current_block ++ switch_head st env loc v sb flags := by
  unfold emit_switch_open
  simp only []
  have h1 : agree_outside st._current_block st
      (append_code (touch_block st sb) (block_text st sb)) :=
    agree_outside_trans (agree_outside_touch_block _ st sb)
      (agree_outside_append_code (touch_block st sb) _)
  have t1 : block_text (append_code (touch_block st sb) (block_text st sb)) st._current_block =
      block_text st st._current_block ++ block_text st sb := by
    show block_text (append_block (touch_block st sb) st._current_block _) _ = _
    rw [block_text_append_block_same, block_text_touch_block]
  generalize append_code (touch_block st sb) (block_text st sb) = st1 at h1 t1 ⊢
  have h2 := agree_outside_append_code st1 (write_location loc ++ write_scope st1)
  have t2 := block_text_append_block_same st1 st1._current_block
    (write_location loc ++ write_scope st1)
  have e1 : st1._current_block = st._current_block := h1.1
  have w1 : write_scope st1 = write_scope st := by unfold write_scope; rw [h1.2.1]
  change block_text (append_code st1 _) _ = _ at t2
  rw [e1] at h2 t2
  rw [w1] at h2 t2 ⊢
  have h2' := agree_outside_trans h1 h2
  rw [t1] at t2
  generalize append_code st1 (write_location loc ++ write_scope st) = st2 at h2' t2 ⊢
  have e2 : st2._current_block = st._current_block := h2'.1
  have h3 := agree_outside_append_code_if st2 (has_flag flags env.flatten) (S "[flatten]")
  have t3 := block_text_append_code_if st2 (has_flag flags env.flatten) (S "[flatten]")
  rw [e2] at h3 t3
  have h3' := agree_outside_trans h2' h3
  rw [t2] at t3
  generalize append_code_if st2 (has_flag flags env.flatten) (S "[flatten]") = st3
    at h3' t3 ⊢
  have e3 : st3._current_block = st._current_block := h3'.1
  have h4 := agree_outside_append_code_if st3 (has_flag flags env.dont_flatten) (S "[branch]")
  have t4 := block_text_append_code_if st3 (has_flag flags env.dont_flatten) (S "[branch]")
  rw [e3] at h4 t4
  have h4' := agree_outside_trans h3' h4
  rw [t3] at t4
  generalize append_code_if st3 (has_flag flags env.dont_flatten) (S "[branch]") = st4
    at h4' t4 ⊢
  have e4 : st4._current_block = st._current_block := h4'.1
  have w4 : write_scope st4 = write_scope st := by unfold write_scope; rw [h4'.2.1]
  have n4 : id_to_name st4 v = id_to_name st v := by unfold id_to_name; rw [h4'.2.2.1]
  rw [w4, n4]
  have h5 := agree_outside_append_code st4
    (S "switch (" ++ id_to_name st v ++ S ")\n" ++ write_scope st ++ S "\x7b\n")
  have t5 := block_text_append_block_same st4 st4._current_block
    (S "switch (" ++ id_to_name st v ++ S ")\n" ++ write_scope st ++ S "\x7b\n")
  change block_text (append_code st4 _) _ = _ at t5
  rw [e4] at h5 t5
  refine ⟨agree_outside_trans h4' h5, ?_⟩
  rw [t5, t4]
  unfold switch_head
  simp only [List.append_assoc]

theorem emit_switch_text (st : codegen_glsl) (env : dialect) (loc : location)
    (selector_value selector_block default_label : Nat) (cases : List Nat) (flags : Nat)
    (hv : selector_value ≠ 0 ∧ selector_block ≠ 0 ∧ default_label ≠ 0)
    (hc : cases_apart (fallthrough_of st) st._current_block cases) :
    ∃ st1, emit_switch st env loc selector_value selector_block default_label cases flags =
        some st1 ∧
      st1._current_block = st._current_block ∧
      block_text st1 st._current_block = block_text st st._current_block ++
        switch_head st env loc selector_value selector_block flags ++
        switch_arms (scope_inc st) cases ++ switch_tail st default_label := by
  unfold emit_switch
  rw [if_neg (not_not.mpr hv)]
  simp only []
  obtain ⟨hago, htxt⟩ := emit_switch_open_text st env loc selector_value selector_block flags
  generalize emit_switch_open st env loc selector_value selector_block flags = st5
    at hago htxt ⊢
  have hag6 : agree_outside st._current_block (scope_inc st) (scope_inc st5) :=
    agree_outside_scope_inc hago
  have hcur6 : (scope_inc st5)._current_block = st._current_block := hago.1
  have htxt6 : block_text (scope_inc st5) st._current_block =
      block_text st st._current_block ++
        switch_head st env loc selector_value selector_block flags := htxt
  have hci : cases_apart (fallthrough_of (scope_inc st)) st._current_block cases := hc
  have hc6 : cases_apart (fallthrough_of (scope_inc st5)) (scope_inc st5)._current_block
      cases := by
    rw [hcur6, fallthrough_of_congr hag6]
    exact hci
  obtain ⟨st7, hrun, hag7, htxt7⟩ :=
    emit_switch_cases_text cases.length cases (scope_inc st5) (le_refl _) hc6
  rw [hcur6] at hag7 htxt7
  rw [hrun]
  simp only []
  have hag7' : agree_outside st._current_block (scope_inc st) st7 :=
    agree_outside_trans hag6 hag7
  have hcur7 : st7._current_block = st._current_block := hag7'.1
  have hw7 : write_scope st7 = write_scope (scope_inc st) := by
    unfold write_scope; rw [hag7'.2.1]
  rw [htxt6, switch_arms_congr hag6 cases.length cases (le_refl _) hci] at htxt7
  rw [hcur7, hw7]
  have hfin : ∀ (st8 : codegen_glsl) (extra : std_string),
      st8._current_block = st._current_block →
      st8._scope_level = (scope_inc st)._scope_level →
      block_text st8 st._current_block = block_text st7 st._current_block ++ extra →
      (append_code (scope_dec st8) (write_scope (scope_dec st8) ++ S "\x7d\n"))._current_block =
          st._current_block ∧
        block_text (append_code (scope_dec st8) (write_scope (scope_dec st8) ++ S "\x7d\n"))
            st._current_block =
          block_text st7 st._current_block ++
            (extra ++ (write_scope (scope_dec (scope_inc st)) ++ S "\x7d\n")) := by
    intro st8 extra h1 h2 h3
    have hw : write_scope (scope_dec st8) = write_scope (scope_dec (scope_inc st)) := by
      unfold write_scope scope_dec
      simp only []
      rw [h2]
    have hb : block_text (scope_dec st8) st._current_block =
        block_text st8 st._current_block := by
      unfold block_text scope_dec; rfl
    have hcd : (scope_dec st8)._current_block = st._current_block := by
      unfold scope_dec; exact h1
    refine ⟨hcd, ?_⟩
    show block_text (append_block (scope_dec st8) (scope_dec st8)._current_block _) _ = _
    rw [hcd, block_text_append_block_same, hb, h3, hw]
    simp only [List.append_assoc]
  by_cases hd : default_label = st._current_block
  · have hdec : decide (default_label ≠ st._current_block) = false := by simp [hd]
    rw [hdec]
    simp only [touch_block_if, append_code_if, Bool.false_eq_true, if_false]
    obtain ⟨r1, r2⟩ := hfin st7 [] hcur7 hag7'.2.1 (by simp)
    refine ⟨_, rfl, r1, ?_⟩
    rw [r2, htxt7]
    unfold switch_tail
    rw [if_neg (not_not.mpr hd)]
  · have hdec : decide (default_label ≠ st._current_block) = true := by simp [hd]
    rw [hdec]
    simp only [touch_block_if, append_code_if, if_true]
    have hbd : block_text st7 default_label = block_text st default_label :=
      hag7'.2.2.2.2 default_label hd
    have h8 : block_text (append_code (touch_block st7 default_label)
        (write_scope (scope_inc st) ++ S "default: \x7b\n" ++ block_text st7 default_label ++
          write_scope (scope_inc st) ++ S "\x7d\n")) st._current_block =
        block_text st7 st._current_block ++
          (write_scope (scope_inc st) ++ S "default: \x7b\n" ++ block_text st default_label ++
            write_scope (scope_inc st) ++ S "\x7d\n") := by
      show block_text (append_block (touch_block st7 default_label) st7._current_block _) _ = _
      rw [hcur7, block_text_append_block_same, block_text_touch_block, hbd]
    have c8 : (append_code (touch_block st7 default_label)
        (write_scope (scope_inc st) ++ S "default: \x7b\n" ++ block_text st7 default_label ++
          write_scope (scope_inc st) ++ S "\x7d\n"))._current_block = st._current_block :=
      hcur7
    have l8 : (append_code (touch_block st7 default_label)
        (write_scope (scope_inc st) ++ S "default: \x7b\n" ++ block_text st7 default_label ++
          write_scope (scope_inc st) ++ S "\x7d\n"))._scope_level =
        (scope_inc st)._scope_level := hag7'.2.1
    obtain ⟨r1, r2⟩ := hfin _ _ c8 l8 h8
    refine ⟨_, rfl, r1, ?_⟩
    rw [r2, htxt7]
    unfold switch_tail
    rw [if_pos hd]

theorem fallthrough_of_leave_block_and_branch (st : codegen_glsl) (target : Nat)
    (h : st._current_block ≠ 0) :
    (leave_block_and_branch st target 3).1 = st._current_block ∧
      fallthrough_of (leave_block_and_branch st target 3).2 st._current_block =
        fallthrough_of st st._current_block ++ [target] ∧
      (∀ k, k ≠ st._current_block →
        fallthrough_of (leave_block_and_branch st target 3).2 k = fallthrough_of st k) ∧
      ∀ k, block_text (leave_block_and_branch st target 3).2 k = block_text st k := by
  have hb : ¬ ¬ (is_in_block st = true) := by simp [is_in_block, h]
  unfold leave_block_and_branch
  rw [if_neg hb]
  simp only [show (3 : Nat) ≠ 1 by decide, show (3 : Nat) ≠ 2 by decide, if_false, if_true]
  refine ⟨rfl, ?_, ?_, fun k => rfl⟩
  · simp [fallthrough_of, set_block, push_fallthrough, map_set]
  · intro k hk
    simp [fallthrough_of, set_block, push_fallthrough, map_set, hk]

/-- Claim C7 on the sample switch, in which the fall-through edges 2 -> 3 and 3 -> 4
were registered by `leave_block_and_branch(target, 3)` and block 4 ends with
`break`. The arm that `emit_switch` writes for block 2 under "Handle
fall-through blocks" holds the texts of blocks 2 and 3 only: the text of
block 4 does not occur in it, and it is closed without a `break`, so that the
emitted `switch` runs on into the arm of block 3, which holds the text of
block 3 a second time. -/
theorem switch_fallthrough_not_transitive :
    block_text sample_switch_state 2 = S "#line 1\nint a;\n" ∧
    block_text sample_switch_state 3 = S "#line 2\nint b;\n" ∧
    block_text sample_switch_state 4 = S "#line 3\nint c;\nbreak;\n" ∧
    fallthrough_of sample_switch_state 2 = [3] ∧
    fallthrough_of sample_switch_state 3 = [4] ∧
    (emit_switch sample_switch_state sample_dialect ⟨9⟩ 11 6 7 [1, 2, 2, 3, 3, 4] 0).map
        (fun st => block_text st 7) =
      some (S "#line 9\nswitch (_11)\n\x7b\n" ++
        S "\tcase 1: \x7b\n#line 1\nint a;\n#line 2\nint b;\n\t\x7d\n" ++
        S "\tcase 2: \x7b\n#line 2\nint b;\n#line 3\nint c;\nbreak;\n\t\x7d\n" ++
        S "\tcase 3: \x7b\n#line 3\nint c;\nbreak;\n\t\x7d\n" ++ S "\x7d\n") ∧
    ¬ (block_text sample_switch_state 4 <:+:
        S "\tcase 1: \x7b\n#line 1\nint a;\n#line 2\nint b;\n\t\x7d\n") ∧
    ¬ (S "break" <:+:
        S "\tcase 1: \x7b\n#line 1\nint a;\n#line 2\nint b;\n\t\x7d\n") ∧
    block_text sample_switch_state 3 <:+:
        S "\tcase 2: \x7b\n#line 2\nint b;\n#line 3\nint c;\nbreak;\n\t\x7d\n" := by
  decide

/-- The text of `emit_switch` when the edges registered are `a -> b` and `b -> c`:
the arm of `a` is the header, the text of `a`, the text of `b` and the closing
brace; the text of `c` follows the text of `b` in the arm of `b` only. A call
`leave_block_and_branch(target, 3)` appends `target` to the list of the
current block. -/
theorem switch_fallthrough_direct (st : codegen_glsl) (env : dialect) (loc : location)
    (a b c la lb lc selector_value selector_block default_label flags : Nat)
    (hreg : fallthrough_of st a = [b] ∧ fallthrough_of st b = [c] ∧ fallthrough_of st c = [])
    (hne : a ≠ 0 ∧ b ≠ 0 ∧ c ≠ 0)
    (hcur : a ≠ st._current_block ∧ b ≠ st._current_block ∧ c ≠ st._current_block)
    (hv : selector_value ≠ 0 ∧ selector_block ≠ 0 ∧ default_label ≠ 0) :
    (∃ st1, emit_switch st env loc selector_value selector_block default_label
          [la, a, lb, b, lc, c] flags = some st1 ∧
        block_text st1 st._current_block = block_text st st._current_block ++
          switch_head st env loc selector_value selector_block flags ++
          (write_scope (scope_inc st) ++ S "case " ++ to_string la ++ S ": \x7b\n" ++
            block_text st a ++ block_text st b ++ write_scope (scope_inc st) ++ S "\x7d\n") ++
          (write_scope (scope_inc st) ++ S "case " ++ to_string lb ++ S ": \x7b\n" ++
            block_text st b ++ block_text st c ++ write_scope (scope_inc st) ++ S "\x7d\n") ++
          (write_scope (scope_inc st) ++ S "case " ++ to_string lc ++ S ": \x7b\n" ++
            block_text st c ++ write_scope (scope_inc st) ++ S "\x7d\n") ++
          switch_tail st default_label) ∧
      ∀ (s : codegen_glsl) (target : Nat), s._current_block ≠ 0 →
        fallthrough_of (leave_block_and_branch s target 3).2 s._current_block =
          fallthrough_of s s._current_block ++ [target] := by
  refine ⟨?_, fun s target hs => (fallthrough_of_leave_block_and_branch s target hs).2.1⟩
  have hc : cases_apart (fallthrough_of st) st._current_block [la, a, lb, b, lc, c] := by
    refine ⟨⟨hne.1, hcur.1, ?_⟩, ⟨hne.2.1, hcur.2.1, ?_⟩, ⟨hne.2.2, hcur.2.2, ?_⟩, True.intro⟩
    · intro t ht
      rw [hreg.1, List.mem_singleton] at ht
      rw [ht]; exact hcur.2.1
    · intro t ht
      rw [hreg.2.1, List.mem_singleton] at ht
      rw [ht]; exact hcur.2.2
    · intro t ht
      rw [hreg.2.2] at ht
      exact absurd ht (List.not_mem_nil t)
  obtain ⟨st1, hrun, _, htxt⟩ := emit_switch_text st env loc selector_value selector_block
    default_label [la, a, lb, b, lc, c] flags hv hc
  refine ⟨st1, hrun, ?_⟩
  rw [htxt]
  have ha : fallthrough_of (scope_inc st) a = [b] := hreg.1
  have hb : fallthrough_of (scope_inc st) b = [c] := hreg.2.1
  have hc' : fallthrough_of (scope_inc st) c = [] := hreg.2.2
  have hbt : ∀ k, block_text (scope_inc st) k = block_text st k := fun _ => rfl
  simp only [switch_arms, switch_arm, ha, hb, hc', hbt, List.map_cons, List.map_nil,
    List.flatten, List.append_nil, List.append_assoc]

/-- The text of `emit_switch` at the sample switch with the chain 2 -> 3 -> 4. -/
theorem switch_fallthrough_direct_witness :
    ∃ st1, emit_switch sample_switch_state sample_dialect ⟨9⟩ 11 6 7 [1, 2, 2, 3, 3, 4] 0 =
        some st1 ∧
      block_text st1 7 =
        S "#line 9\nswitch (_11)\n\x7b\n" ++
        S "\tcase 1: \x7b\n#line 1\nint a;\n#line 2\nint b;\n\t\x7d\n" ++
        S "\tcase 2: \x7b\n#line 2\nint b;\n#line 3\nint c;\nbreak;\n\t\x7d\n" ++
        S "\tcase 3: \x7b\n#line 3\nint c;\nbreak;\n\t\x7d\n" ++ S "\x7d\n" := by
  obtain ⟨⟨st1, h1, h2⟩, _⟩ := switch_fallthrough_direct sample_switch_state sample_dialect
    ⟨9⟩ 2 3 4 1 2 3 11 6 7 0 (by decide) (by decide) (by decide) (by decide)
  exact ⟨st1, h1, h2.trans (by decide)⟩


/-! ### Loops -/

/-- Claim C8 on the sample loop, whose condition block declares `const bool _6` and
then stores `_6`: the text that `emit_loop` appends keeps the declaration
`const bool _6 = ...;` inside the loop body, for the pre-test and for the
post-test loop. On the loop whose condition `_7` is loaded from the variable
`x_7`, the statement inside the loop body is `_7;` and not an assignment. -/
theorem emit_loop_keeps_const :
    block_text sample_loop_state 3 =
      S "#line 1\nconst bool _6 = _10 < _11;\n#line 2\n_12 = _6;\n" ∧
    (emit_loop sample_loop_state sample_dialect ⟨3⟩ 6 2 3 4 5 0).map
        (fun st => block_text st 7) =
      some (S "#line 1\nbool _6 = _10 < _11;\n#line 2\n_12 = _6;\n" ++
        S "#line 3\nwhile (_6)\n\x7b\n" ++
        S "#line 1\nconst bool _6 = _10 < _11;\n#line 2\n_6;\n" ++ S "\x7d\n") ∧
    (emit_loop sample_loop_state sample_dialect ⟨3⟩ 6 2 0 4 3 0).map
        (fun st => block_text st 7) =
      some (S "bool _6;\n" ++ S "#line 3\ndo\n\x7b\n" ++
        S "#line 1\nconst bool _6 = _10 < _11;\n#line 2\n_6;\n" ++
        S "\x7d\nwhile (_6);\n") ∧
    block_text sample_named_loop_state 3 = S "#line 2\nconst bool _7 = x_7;\n" ∧
    (emit_loop sample_named_loop_state sample_dialect ⟨3⟩ 7 2 3 4 5 0).map
        (fun st => block_text st 8) =
      some (S "#line 2\nbool _7 = x_7;\n" ++ S "#line 3\nwhile (_7)\n\x7b\n" ++
        S "#line 2\n_7;\n" ++ S "\x7d\n") := by
  decide


/-! ### Value reconciliation -/

/-- Claim C9. For nonzero ids, `emit_phi` returns the id that `make_id` hands out and
appends to the current block exactly the text of the condition block, the
declaration of the result without `const`, and the `if`/`else` statement that
assigns the true and the false value; the text of a branch block is left out
when it is the condition block. No other block changes its text. -/
theorem emit_phi_text (st : codegen_glsl) (loc : location)
    (condition_value condition_block true_value true_statement_block false_value
      false_statement_block : Nat) (t : type)
    (h : condition_value ≠ 0 ∧ condition_block ≠ 0 ∧ true_value ≠ 0 ∧
      true_statement_block ≠ 0 ∧ false_value ≠ 0 ∧ false_statement_block ≠ 0) :
    ∃ st1, emit_phi st loc condition_value condition_block true_value true_statement_block
        false_value false_statement_block t = some (st._next_id, st1) ∧
      st1._current_block = st._current_block ∧
      block_text st1 st._current_block = block_text st st._current_block ++
        (block_text st condition_block ++
          write_scope st ++ write_type st t false ++ S " " ++ id_to_name st st._next_id ++
          S ";\n" ++
          write_location loc ++
          write_scope st ++ S "if (" ++ id_to_name st condition_value ++ S ")\n" ++
          write_scope st ++ S "\x7b\n" ++
          (if true_statement_block ≠ condition_block then block_text st true_statement_block
           else []) ++
          write_scope st ++ id_to_name st st._next_id ++ S " = " ++ id_to_name st true_value ++
          S ";\n" ++
          write_scope st ++ S "\x7d\n" ++ write_scope st ++ S "else\n" ++
          write_scope st ++ S "\x7b\n" ++
          (if false_statement_block ≠ condition_block then block_text st false_statement_block
           else []) ++
          write_scope st ++ id_to_name st st._next_id ++ S " = " ++ id_to_name st false_value ++
          S ";\n" ++
          write_scope st ++ S "\x7d\n") ∧
      ∀ k, k ≠ st._current_block → block_text st1 k = block_text st k := by
  unfold emit_phi
  rw [if_neg (not_not.mpr h)]
  refine ⟨_, rfl, ?_, ?_, ?_⟩
  · simp only [append_code, append_block, current_block_touch_block_if]
    rfl
  · simp only [append_code, current_block_touch_block_if]
    rw [show (touch_block (make_id st).2 condition_block)._current_block = st._current_block
      from rfl, block_text_append_block_same, block_text_touch_block_if,
      block_text_touch_block_if, block_text_touch_block]
    rfl
  · intro k hk
    simp only [append_code, current_block_touch_block_if]
    rw [show (touch_block (make_id st).2 condition_block)._current_block = st._current_block
      from rfl, block_text_append_block_other _ _ _ _ hk, block_text_touch_block_if,
      block_text_touch_block_if, block_text_touch_block]
    rfl

/-- Claim C9 at a `bool` phi on a fresh backend. -/
theorem emit_phi_text_witness :
    ∃ st1, emit_phi construct ⟨7⟩ 3 2 4 2 5 6 (numeric_type .t_bool 1 1) = some (2, st1) ∧
      block_text st1 0 =
        S "bool _2;\n#line 7\nif (_3)\n\x7b\n_2 = _4;\n\x7d\nelse\n\x7b\n_2 = _5;\n\x7d\n" := by
  obtain ⟨st1, h1, _, h3, _⟩ := emit_phi_text construct ⟨7⟩ 3 2 4 2 5 6
    (numeric_type .t_bool 1 1) (by decide)
  exact ⟨st1, h1, h3.trans (by decide)⟩


/-! ### Terminal actions outside a block -/

/-- Claim C10 fails for `leave_block_and_kill` and `leave_block_and_return`: with no
current block and last block 2 they return 0, not the last block. -/
theorem leave_block_and_kill_returns_zero :
    sample_left_state._current_block = 0 ∧ sample_left_state._last_block = 2 ∧
      (leave_block_and_kill sample_left_state).1 = 0 ∧
      (leave_block_and_return sample_left_state 0).1 = 0 := by decide

/-- Claim C10, amended. When the current block is 0, every terminal action leaves the
backend unchanged; `leave_block_and_switch`, `leave_block_and_branch` and
`leave_block_and_branch_conditional` return the last block, while
`leave_block_and_kill` and `leave_block_and_return` return 0. -/
theorem leave_block_in_no_block (st : codegen_glsl) (value target loop_flow : Nat)
    (h : st._current_block = 0) :
    leave_block_and_kill st = (0, st) ∧
      leave_block_and_return st value = (0, st) ∧
      leave_block_and_switch st = (st._last_block, st) ∧
      leave_block_and_branch st target loop_flow = (st._last_block, st) ∧
      leave_block_and_branch_conditional st = (st._last_block, st) := by
  have hb : ¬ (is_in_block st = true) := by simp [is_in_block, h]
  refine ⟨?_, ?_, ?_, ?_, ?_⟩
  · unfold leave_block_and_kill; rw [if_pos hb]
  · unfold leave_block_and_return; rw [if_pos hb]
  · unfold leave_block_and_switch; rw [if_pos hb]
  · unfold leave_block_and_branch; rw [if_pos hb]
  · unfold leave_block_and_branch_conditional; rw [if_pos hb]

/-- Claim C10, amended, at a backend whose last block is 2. -/
theorem leave_block_in_no_block_witness :
    leave_block_and_kill sample_left_state = (0, sample_left_state) ∧
      leave_block_and_return sample_left_state 5 = (0, sample_left_state) ∧
      leave_block_and_switch sample_left_state = (2, sample_left_state) ∧
      leave_block_and_branch sample_left_state 3 1 = (2, sample_left_state) ∧
      leave_block_and_branch_conditional sample_left_state = (2, sample_left_state) :=
  leave_block_in_no_block sample_left_state 5 3 1 (by decide)

/-! ### Terminal actions inside a block -/

theorem block_text_set_block (st : codegen_glsl) (id k : Nat) :
    block_text (set_block st id).2 k = block_text st k := rfl

/-- Claim C11. When the current block is `b ≠ 0`, every terminal action returns `b`,
makes 0 the current block (so `is_in_block` is false) and `b` the last block,
and changes the text of no block other than `b`. To the text of `b`,
`leave_block_and_kill` appends `discard;`, `leave_block_and_return` appends
`return;` or `return <name of the value>;`, and `leave_block_and_branch` appends
`break;` for flow 1 and `continue;` for flow 2, each after one tab per scope
level; the remaining actions append nothing to it. -/
theorem leave_block_in_block (st : codegen_glsl) (value target loop_flow : Nat)
    (h : st._current_block ≠ 0) :
    (∀ r ∈ [leave_block_and_kill st, leave_block_and_return st value,
          leave_block_and_switch st, leave_block_and_branch st target loop_flow,
          leave_block_and_branch_conditional st],
        r.1 = st._current_block ∧ r.2._current_block = 0 ∧ is_in_block r.2 = false ∧
          r.2._last_block = st._current_block ∧ r.2._scope_level = st._scope_level ∧
          ∀ k, k ≠ st._current_block → block_text r.2 k = block_text st k) ∧
      block_text (leave_block_and_kill st).2 st._current_block =
        block_text st st._current_block ++ (write_scope st ++ S "discard;\n") ∧
      block_text (leave_block_and_return st value).2 st._current_block =
        block_text st st._current_block ++
          (write_scope st ++ S "return" ++
            (if value ≠ 0 then S " " ++ id_to_name st value else []) ++ S ";\n") ∧
      block_text (leave_block_and_branch st target 1).2 st._current_block =
        block_text st st._current_block ++ (write_scope st ++ S "break;\n") ∧
      block_text (leave_block_and_branch st target 2).2 st._current_block =
        block_text st st._current_block ++ (write_scope st ++ S "continue;\n") ∧
      (loop_flow ≠ 1 → loop_flow ≠ 2 →
        block_text (leave_block_and_branch st target loop_flow).2 st._current_block =
          block_text st st._current_block) ∧
      block_text (leave_block_and_switch st).2 st._current_block =
        block_text st st._current_block ∧
      block_text (leave_block_and_branch_conditional st).2 st._current_block =
        block_text st st._current_block := by
  have hb : ¬ ¬ (is_in_block st = true) := by simp [is_in_block, h]
  have hkill : leave_block_and_kill st =
      set_block (append_code st (write_scope st ++ S "discard;\n")) 0 := by
    unfold leave_block_and_kill; rw [if_neg hb]
  have hret : leave_block_and_return st value =
      set_block (append_code st (write_scope st ++ S "return" ++
        (if value ≠ 0 then S " " ++ id_to_name st value else []) ++ S ";\n")) 0 := by
    unfold leave_block_and_return; rw [if_neg hb]
  have hsw : leave_block_and_switch st = set_block st 0 := by
    unfold leave_block_and_switch; rw [if_neg hb]
  have hbc : leave_block_and_branch_conditional st = set_block st 0 := by
    unfold leave_block_and_branch_conditional; rw [if_neg hb]
  have hbr : ∀ f, leave_block_and_branch st target f =
      set_block (if f = 1 then append_code st (write_scope st ++ S "break;\n")
        else if f = 2 then append_code st (write_scope st ++ S "continue;\n")
        else if f = 3 then push_fallthrough st target else st) 0 := by
    intro f; unfold leave_block_and_branch; rw [if_neg hb]
  have happ : ∀ s, (set_block (append_code st s) 0).1 = st._current_block ∧
      (set_block (append_code st s) 0).2._current_block = 0 ∧
      is_in_block (set_block (append_code st s) 0).2 = false ∧
      (set_block (append_code st s) 0).2._last_block = st._current_block ∧
      (set_block (append_code st s) 0).2._scope_level = st._scope_level ∧
      ∀ k, k ≠ st._current_block →
        block_text (set_block (append_code st s) 0).2 k = block_text st k := by
    intro s
    refine ⟨rfl, rfl, rfl, rfl, rfl, fun k hk => ?_⟩
    rw [block_text_set_block]
    exact block_text_append_block_other _ _ _ _ hk
  have hsame : (set_block st 0).1 = st._current_block ∧
      (set_block st 0).2._current_block = 0 ∧
      is_in_block (set_block st 0).2 = false ∧
      (set_block st 0).2._last_block = st._current_block ∧
      (set_block st 0).2._scope_level = st._scope_level ∧
      ∀ k, k ≠ st._current_block → block_text (set_block st 0).2 k = block_text st k :=
    ⟨rfl, rfl, rfl, rfl, rfl, fun _ _ => rfl⟩
  have hpush : (set_block (push_fallthrough st target) 0).1 = st._current_block ∧
      (set_block (push_fallthrough st target) 0).2._current_block = 0 ∧
      is_in_block (set_block (push_fallthrough st target) 0).2 = false ∧
      (set_block (push_fallthrough st target) 0).2._last_block = st._current_block ∧
      (set_block (push_fallthrough st target) 0).2._scope_level = st._scope_level ∧
      ∀ k, k ≠ st._current_block →
        block_text (set_block (push_fallthrough st target) 0).2 k = block_text st k :=
    ⟨rfl, rfl, rfl, rfl, rfl, fun _ _ => rfl⟩
  refine ⟨?_, ?_, ?_, ?_, ?_, ?_, ?_, ?_⟩
  · intro r hr
    simp only [List.mem_cons, List.mem_singleton, List.not_mem_nil, or_false] at hr
    rcases hr with rfl | rfl | rfl | rfl | rfl
    · rw [hkill]; exact happ _
    · rw [hret]; exact happ _
    · rw [hsw]; exact hsame
    · rw [hbr]
      split_ifs
      · exact happ _
      · exact happ _
      · exact hpush
      · exact hsame
    · rw [hbc]; exact hsame
  · rw [hkill, block_text_set_block]; exact block_text_append_block_same _ _ _
  · rw [hret, block_text_set_block]; exact block_text_append_block_same _ _ _
  · rw [hbr, if_pos rfl, block_text_set_block]; exact block_text_append_block_same _ _ _
  · rw [hbr, if_neg (by decide), if_pos rfl, block_text_set_block]
    exact block_text_append_block_same _ _ _
  · intro h1 h2
    rw [hbr, if_neg h1, if_neg h2]
    split_ifs <;> rfl
  · rw [hsw]; rfl
  · rw [hbc]; rfl

/-- Claim C11 in block 3 of a function body, at scope level 1. -/
theorem leave_block_in_block_witness :
    sample_body_state._current_block = 3 ∧
      (leave_block_and_kill sample_body_state).1 = 3 ∧
      (leave_block_and_kill sample_body_state).2._last_block = 3 ∧
      is_in_block (leave_block_and_kill sample_body_state).2 = false ∧
      block_text (leave_block_and_kill sample_body_state).2 3 = S "\tdiscard;\n" ∧
      block_text (leave_block_and_return sample_body_state 5).2 3 = S "\treturn _5;\n" ∧
      block_text (leave_block_and_branch sample_body_state 4 1).2 3 = S "\tbreak;\n" ∧
      block_text (leave_block_and_branch sample_body_state 4 2).2 3 = S "\tcontinue;\n" := by
  have h := leave_block_in_block sample_body_state 5 4 1 (by decide)
  have hk := h.1 (leave_block_and_kill sample_body_state) (by simp)
  exact ⟨by decide, hk.1.trans (by decide), hk.2.2.2.1.trans (by decide), hk.2.2.1,
    h.2.1.trans (by decide), h.2.2.1.trans (by decide), h.2.2.2.1.trans (by decide),
    h.2.2.2.2.1.trans (by decide)⟩

/-! ### Texts of the primitive updates -/

theorem map_set_map_set {α : Type} (m : Nat → Option α) (k : Nat) (x y : α) :
    map_set (map_set m k x) k y = map_set m k y := by
  funext j
  unfold map_set
  by_cases h : j = k <;> simp [h]

theorem append_code_append_code (st : codegen_glsl) (a b : std_string) :
    append_code (append_code st a) b = append_code st (a ++ b) := by
  have h1 : block_text (append_block st st._current_block a) st._current_block =
      block_text st st._current_block ++ a := by
    simp [block_text, append_block, map_set]
  unfold append_code
  show append_block (append_block st st._current_block a) st._current_block b = _
  unfold append_block at h1 ⊢
  simp only [h1, map_set_map_set, List.append_assoc]

theorem append_code_if_eq (st : codegen_glsl) (c : Bool) (s : std_string) :
    append_code (append_code_if st c s) [] = append_code st (if c then s else []) := by
  unfold append_code_if
  cases c
  · rfl
  · simp only [if_true]
    rw [append_code_append_code, List.append_nil]

theorem append_code_if_append_code (st : codegen_glsl) (c : Bool) (a b : std_string) :
    append_code (append_code_if st c a) b = append_code st ((if c then a else []) ++ b) := by
  unfold append_code_if
  cases c
  · rfl
  · simp only [if_true]
    rw [append_code_append_code]

theorem id_to_name_congr {st st1 : codegen_glsl} (h : st1._names = st._names) (x : Nat) :
    id_to_name st1 x = id_to_name st x := by
  unfold id_to_name; rw [h]

theorem write_type_congr {st st1 : codegen_glsl} (h : st1._names = st._names) (t : type)
    (p : Bool) : write_type st1 t p = write_type st t p := by
  unfold write_type
  cases t.base <;> simp only [id_to_name_congr h]

theorem write_args_congr {st st1 : codegen_glsl} (h : st1._names = st._names) :
    ∀ args : List expression, write_args st1 args = write_args st args
  | [] => rfl
  | [a] => by simp only [write_args, id_to_name_congr h]
  | a :: b :: rest => by
    simp only [write_args, id_to_name_congr h, write_args_congr h (b :: rest)]

theorem names_append_code_if (st : codegen_glsl) (c : Bool) (s : std_string) :
    (append_code_if st c s)._names = st._names := by
  unfold append_code_if; split <;> rfl

theorem scope_append_code_if (st : codegen_glsl) (c : Bool) (s : std_string) :
    (append_code_if st c s)._scope_level = st._scope_level := by
  unfold append_code_if; split <;> rfl

theorem write_scope_congr {st st1 : codegen_glsl} (h : st1._scope_level = st._scope_level) :
    write_scope st1 = write_scope st := by
  unfold write_scope; rw [h]

theorem write_args_eq (st : codegen_glsl) :
    ∀ args : List expression,
      write_args st args = (S ", ").intercalate (args.map (fun a => id_to_name st a.base))
  | [] => rfl
  | [a] => by simp [write_args, List.intercalate]
  | a :: b :: rest => by
    rw [write_args, write_args_eq st (b :: rest)]
    simp [List.intercalate, List.intersperse]

theorem write_type_append_code (st : codegen_glsl) (s : std_string) (t : type) (p : Bool) :
    write_type (append_code st s) t p = write_type st t p :=
  @write_type_congr st (append_code st s) rfl t p

theorem write_type_append_code_if (st : codegen_glsl) (c : Bool) (s : std_string) (t : type)
    (p : Bool) : write_type (append_code_if st c s) t p = write_type st t p :=
  write_type_congr (names_append_code_if st c s) t p

theorem write_type_make_id (st : codegen_glsl) (t : type) (p : Bool) :
    write_type (make_id st).2 t p = write_type st t p :=
  @write_type_congr st (make_id st).2 rfl t p

theorem id_to_name_append_code (st : codegen_glsl) (s : std_string) (x : Nat) :
    id_to_name (append_code st s) x = id_to_name st x := rfl

theorem id_to_name_append_code_if (st : codegen_glsl) (c : Bool) (s : std_string) (x : Nat) :
    id_to_name (append_code_if st c s) x = id_to_name st x :=
  id_to_name_congr (names_append_code_if st c s) x

theorem id_to_name_make_id (st : codegen_glsl) (x : Nat) :
    id_to_name (make_id st).2 x = id_to_name st x := rfl

theorem write_scope_append_code (st : codegen_glsl) (s : std_string) :
    write_scope (append_code st s) = write_scope st := rfl

theorem write_scope_append_code_if (st : codegen_glsl) (c : Bool) (s : std_string) :
    write_scope (append_code_if st c s) = write_scope st :=
  write_scope_congr (scope_append_code_if st c s)

theorem write_scope_make_id (st : codegen_glsl) : write_scope (make_id st).2 = write_scope st :=
  rfl

theorem write_args_append_code (st : codegen_glsl) (s : std_string) (args : List expression) :
    write_args (append_code st s) args = write_args st args :=
  @write_args_congr st (append_code st s) rfl args

theorem write_args_append_code_if (st : codegen_glsl) (c : Bool) (s : std_string)
    (args : List expression) : write_args (append_code_if st c s) args = write_args st args :=
  write_args_congr (names_append_code_if st c s) args

theorem write_args_make_id (st : codegen_glsl) (args : List expression) :
    write_args (make_id st).2 args = write_args st args :=
  @write_args_congr st (make_id st).2 rfl args

/-- The text that `emit_construct` appends to the current block. -/
theorem emit_construct_eq (st : codegen_glsl) (loc : location) (t : type)
    (args : List expression)
    (hargs : args.all (fun arg =>
      (arg.type.is_scalar || t.is_array) && (arg.ops.isEmpty && decide (arg.base ≠ 0))) = true) :
    emit_construct st loc t args = some (st._next_id, append_code (make_id st).2
      (write_location loc ++ write_scope st ++ S "const " ++ write_type st t false ++ S " " ++
        id_to_name st st._next_id ++ array_suffix t ++ S " = " ++
        (if (!t.is_array && t.is_matrix) = true then S "transpose(" else []) ++
        write_type st t false ++ (if t.is_array = true then S "[]" else []) ++ S "(" ++
        write_args st args ++ (if (!t.is_array && t.is_matrix) = true then S ")" else []) ++
        S ");\n")) := by
  unfold emit_construct
  rw [if_neg (not_not.mpr hargs)]
  simp only [write_type_append_code, write_type_append_code_if, write_type_make_id,
    id_to_name_append_code, id_to_name_append_code_if, id_to_name_make_id,
    write_scope_append_code, write_scope_append_code_if, write_scope_make_id,
    write_args_append_code, write_args_append_code_if, write_args_make_id,
    append_code_append_code, append_code_if_append_code, List.append_assoc]
  rfl

/-! ### Texts of the value-emitting operations -/

theorem write_constant_value_congr {st st1 : codegen_glsl} (h : st1._names = st._names)
    (env : dialect) (t : type) (data : constant) :
    write_constant_value st1 env t data = write_constant_value st env t data := by
  unfold write_constant_value
  simp only [write_type_congr h]

theorem write_constant_elems_congr {st st1 : codegen_glsl} (h : st1._names = st._names)
    (env : dialect) (t : type) :
    ∀ ds : List constant, write_constant_elems st1 env t ds = write_constant_elems st env t ds
  | [] => rfl
  | d :: ds => by
    simp only [write_constant_elems, write_constant_value_congr h,
      write_constant_elems_congr h env t ds]

theorem write_constant_congr {st st1 : codegen_glsl} (h : st1._names = st._names)
    (env : dialect) (t : type) (data : constant) :
    write_constant st1 env t data = write_constant st env t data := by
  unfold write_constant
  simp only [write_constant_value_congr h, write_constant_elems_congr h]

theorem load_op_congr {st st1 : codegen_glsl} (h : st1._names = st._names)
    (hs : st1._structs = st._structs) (hc : st1._cbuffer_type_id = st._cbuffer_type_id)
    (c : std_string) (op : operation) : load_op st1 c op = load_op st c op := by
  unfold load_op member_name find_struct
  simp only [write_type_congr h, id_to_name_congr h, hs, hc]

theorem load_chain_congr {st st1 : codegen_glsl} (h : st1._names = st._names)
    (hs : st1._structs = st._structs) (hc : st1._cbuffer_type_id = st._cbuffer_type_id) :
    ∀ (ops : List operation) (c : std_string), load_chain st1 c ops = load_chain st c ops
  | [], _ => rfl
  | op :: ops, c => by
    simp only [load_chain, load_op_congr h hs hc]
    cases load_op st c op with
    | none => rfl
    | some c1 => exact load_chain_congr h hs hc ops c1

theorem write_constant_append_code (st : codegen_glsl) (s : std_string) (env : dialect)
    (t : type) (data : constant) :
    write_constant (append_code st s) env t data = write_constant st env t data :=
  @write_constant_congr st (append_code st s) rfl env t data

theorem write_constant_make_id (st : codegen_glsl) (env : dialect) (t : type)
    (data : constant) :
    write_constant (make_id st).2 env t data = write_constant st env t data :=
  @write_constant_congr st (make_id st).2 rfl env t data

theorem load_chain_append_code (st : codegen_glsl) (s : std_string) (c : std_string)
    (ops : List operation) : load_chain (append_code st s) c ops = load_chain st c ops :=
  @load_chain_congr st (append_code st s) rfl rfl rfl ops c

theorem load_chain_make_id (st : codegen_glsl) (c : std_string) (ops : List operation) :
    load_chain (make_id st).2 c ops = load_chain st c ops :=
  @load_chain_congr st (make_id st).2 rfl rfl rfl ops c

/-- The text that `emit_load` appends to the current block. -/
theorem emit_load_eq (st : codegen_glsl) (env : dialect) (chain : expression) :
    emit_load st env chain =
      (if chain.is_constant = true then write_constant st env chain.type chain.constant
       else load_chain st (id_to_name st chain.base) chain.ops).map
        (fun rhs => (st._next_id, append_code (make_id st).2
          (write_location chain.location ++ write_scope st ++ S "const " ++
            write_type st chain.type false ++ S " " ++ id_to_name st st._next_id ++
            array_suffix chain.type ++ S " = " ++ rhs ++ S ";\n"))) := by
  unfold emit_load
  simp only [write_constant_append_code, write_constant_make_id, load_chain_append_code,
    load_chain_make_id, write_type_make_id, id_to_name_append_code, id_to_name_make_id,
    write_scope_make_id, append_code_append_code, List.append_assoc]
  cases (if chain.is_constant = true then write_constant st env chain.type chain.constant
       else load_chain st (id_to_name st chain.base) chain.ops) with
  | none => rfl
  | some rhs => rfl

/-- The text that `emit_constant` appends to the current block. -/
theorem emit_constant_eq (st : codegen_glsl) (env : dialect) (t : type) (data : constant) :
    emit_constant st env t data =
      if t.is_numeric = true then
        (write_constant st env t data).map
          (fun c => (st._next_id, append_code (make_id st).2
            (write_scope st ++ S "const " ++ write_type st t false ++ S " " ++
              id_to_name st st._next_id ++ array_suffix t ++ S " = " ++ c ++ S ";\n")))
      else none := by
  unfold emit_constant
  by_cases hnum : t.is_numeric = true
  · rw [if_neg (not_not.mpr hnum), if_pos hnum]
    simp only [write_constant_append_code, write_constant_make_id, write_type_make_id, id_to_name_make_id,
      write_scope_make_id, append_code_append_code, List.append_assoc]
    cases write_constant st env t data with
    | none => rfl
    | some c => rfl
  · rw [if_pos hnum, if_neg hnum]

/-- The text that `emit_unary_op` appends to the current block. -/
theorem emit_unary_op_eq (st : codegen_glsl) (loc : location) (op : tokenid) (res_type : type)
    (val : Nat) :
    emit_unary_op st loc op res_type val =
      (unary_op_code op res_type).map
        (fun c => (st._next_id, append_code (make_id st).2
          (write_location loc ++ write_scope st ++ S "const " ++ write_type st res_type false ++
            S " " ++ id_to_name st st._next_id ++ S " = " ++ c ++ S "(" ++
            id_to_name st val ++ S ");\n"))) := by
  unfold emit_unary_op
  simp only [write_type_make_id, id_to_name_append_code, id_to_name_make_id,
    write_scope_make_id, append_code_append_code, List.append_assoc]
  cases unary_op_code op res_type with
  | none => rfl
  | some c => rfl

/-- The text that `emit_binary_op` appends to the current block. -/
theorem emit_binary_op_eq (st : codegen_glsl) (loc : location) (op : tokenid)
    (res_type t : type) (lhs rhs : Nat) :
    emit_binary_op st loc op res_type t lhs rhs =
      (binary_op_code op t).map
        (fun c => (st._next_id, append_code (make_id st).2
          (write_location loc ++ write_scope st ++ S "const " ++ write_type st res_type false ++
            S " " ++ id_to_name st st._next_id ++ S " = " ++
            (if c.1 ≠ [] then
              c.1 ++ S "(" ++ id_to_name st lhs ++ S ", " ++ id_to_name st rhs ++ S ")"
             else id_to_name st lhs ++ S " " ++ c.2 ++ S " " ++ id_to_name st rhs) ++
            S ";\n"))) := by
  unfold emit_binary_op
  simp only [write_type_make_id, id_to_name_append_code, id_to_name_make_id,
    write_scope_make_id, append_code_append_code, List.append_assoc]
  cases binary_op_code op t with
  | none => rfl
  | some c => rfl

/-- The text that `emit_ternary_op` appends to the current block. -/
theorem emit_ternary_op_eq (st : codegen_glsl) (loc : location) (op : tokenid)
    (res_type : type) (condition true_value false_value : Nat) :
    emit_ternary_op st loc op res_type condition true_value false_value =
      if op = .question then
        some (st._next_id, append_code (make_id st).2
          (write_location loc ++ write_scope st ++ S "const " ++ write_type st res_type false ++
            S " " ++ id_to_name st st._next_id ++ array_suffix res_type ++ S " = " ++
            id_to_name st condition ++ S " ? " ++ id_to_name st true_value ++ S " : " ++
            id_to_name st false_value ++ S ";\n"))
      else none := by
  unfold emit_ternary_op
  by_cases hq : op = .question
  · rw [if_neg (not_not.mpr hq), if_pos hq]
    simp only [write_type_make_id, id_to_name_append_code, id_to_name_make_id,
      write_scope_make_id, append_code_append_code, List.append_assoc]
    rfl
  · rw [if_pos hq, if_neg hq]

/-- The text that `emit_call` appends to the current block. -/
theorem emit_call_eq (st : codegen_glsl) (loc : location) (function : Nat) (res_type : type)
    (args : List expression) :
    emit_call st loc function res_type args =
      if call_args_ok args = true then
        some (st._next_id, append_code (make_id st).2
          (write_location loc ++ write_scope st ++
            (if (!res_type.is_void) = true then
              S "const " ++ write_type st res_type false ++ S " " ++ id_to_name st st._next_id ++
                array_suffix res_type ++ S " = "
             else []) ++
            id_to_name st function ++ S "(" ++ write_args st args ++ S ");\n"))
      else none := by
  unfold emit_call
  by_cases hq : call_args_ok args = true
  · rw [if_neg (not_not.mpr hq), if_pos hq]
    simp only [write_type_append_code, write_type_make_id, id_to_name_append_code,
      id_to_name_append_code_if, id_to_name_make_id, write_scope_make_id,
      write_args_append_code, write_args_append_code_if, write_args_make_id,
      append_code_append_code, append_code_if_append_code, List.append_assoc]
    cases res_type.is_void <;>
      simp only [Bool.not_false, Bool.not_true, if_true, Bool.false_eq_true, if_false,
        List.nil_append, List.append_assoc] <;> rfl
  · rw [if_pos hq, if_neg hq]


/-! ### Matrix values -/

theorem digitChar_mem (n : Nat) : Nat.digitChar (n % 10) ∈ S "0123456789" := by
  have h : n % 10 < 10 := Nat.mod_lt n (by decide)
  generalize n % 10 = k at h
  interval_cases k <;> decide

theorem toDigitsCore_mem : ∀ (fuel n : Nat) (ds : List Char) (c : Char),
    c ∈ Nat.toDigitsCore 10 fuel n ds → c ∈ ds ∨ c ∈ S "0123456789" := by
  intro fuel
  induction fuel with
  | zero => intro n ds c h; exact Or.inl h
  | succ fuel ih =>
    intro n ds c h
    rw [Nat.toDigitsCore] at h
    split at h
    · rcases List.mem_cons.mp h with h1 | h1
      · exact Or.inr (h1 ▸ digitChar_mem n)
      · exact Or.inl h1
    · rcases ih _ _ _ h with h1 | h1
      · rcases List.mem_cons.mp h1 with h2 | h2
        · exact Or.inr (h2 ▸ digitChar_mem n)
        · exact Or.inl h2
      · exact Or.inr h1

theorem to_string_mem (n : Nat) (c : Char) (h : c ∈ to_string n) : c ∈ S "0123456789" := by
  rcases toDigitsCore_mem _ _ _ _ h with h1 | h1
  · exact absurd h1 (List.not_mem_nil c)
  · exact h1

theorem occurrences_of_not_mem (pat : std_string) (c0 : Char) (hp : c0 ∈ pat) :
    ∀ s : std_string, c0 ∉ s → occurrences pat s = 0
  | [], _ => rfl
  | c :: cs, h => by
    have hcs : c0 ∉ cs := fun hm => h (List.mem_cons_of_mem _ hm)
    rw [occurrences, occurrences_of_not_mem pat c0 hp cs hcs, if_neg, Nat.add_zero]
    intro hpre
    exact h ((List.isPrefixOf_iff_prefix.mp hpre).subset hp)

theorem occurrences_transpose (r : std_string) (h : 'o' ∉ r) :
    occurrences (S "transpose") (S "transpose(" ++ r) = 1 := by
  have h0 := occurrences_of_not_mem (S "transpose") 'o' (by decide) r h
  have e1 : S "transpose(" = ['t', 'r', 'a', 'n', 's', 'p', 'o', 's', 'e', '('] := rfl
  have e2 : S "transpose" = ['t', 'r', 'a', 'n', 's', 'p', 'o', 's', 'e'] := rfl
  rw [e2] at h0
  rw [e1, e2]
  simp [occurrences, List.isPrefixOf, h0]

theorem intercalate_cons_cons (sep a b : std_string) (r : List std_string) :
    sep.intercalate (a :: b :: r) = a ++ sep ++ sep.intercalate (b :: r) := by
  simp [List.intercalate, List.intersperse]

theorem intercalate_singleton (sep a : std_string) : sep.intercalate [a] = a := by
  simp [List.intercalate, List.intersperse]

theorem u32_sub_one {n : Nat} (h1 : 1 ≤ n) (h2 : n ≤ 16) : u32_sub n 1 = n - 1 := by
  unfold u32_sub
  rw [if_pos h1]
  exact u32_of_lt (by omega)

/-- The component loop of `write_constant` joins the literals of the words it
reads with `, `. -/
theorem write_components_eq (env : dialect) (t : type) (data : constant) (n : Nat)
    (hn : n ≤ 16) (hlen : n ≤ data.as_uint.length) :
    ∀ (k i : Nat), i + k = n →
      write_components env t data n i k =
        some ((S ", ").intercalate
          (((data.as_uint.drop i).take k).map (component_literal env t))) := by
  intro k
  induction k with
  | zero => intro i _; rfl
  | succ k ih =>
    intro i hik
    have hi : i < data.as_uint.length := by omega
    have hget : data.as_uint.get? i = some (data.as_uint[i]) := by
      rw [List.get?_eq_getElem?]
      exact List.getElem?_eq_getElem hi
    have hsub : u32_sub n 1 = n - 1 := u32_sub_one (by omega) hn
    rw [write_components, write_component, if_neg (by omega), hget]
    simp only []
    rw [ih (i + 1) (by omega), List.drop_eq_getElem_cons hi, List.take_succ_cons,
      List.map_cons, hsub]
    cases k with
    | zero =>
      rw [if_neg (by omega)]
      simp [intercalate_singleton, List.intercalate]
    | succ k =>
      have hi1 : i + 1 < data.as_uint.length := by omega
      rw [if_pos (by omega), List.drop_eq_getElem_cons hi1, List.take_succ_cons, List.map_cons,
        intercalate_cons_cons]

theorem not_mem_intercalate (c0 : Char) (sep : std_string) (hs : c0 ∉ sep) :
    ∀ l : List std_string, (∀ a ∈ l, c0 ∉ a) → c0 ∉ sep.intercalate l
  | [], _ => by simp [List.intercalate]
  | [a], h => by
    rw [intercalate_singleton]
    exact h a (List.mem_singleton.mpr rfl)
  | a :: b :: r, h => by
    rw [intercalate_cons_cons]
    have ha := h a (List.mem_cons_self _ _)
    have hr := not_mem_intercalate c0 sep hs (b :: r)
      (fun x hx => h x (List.mem_cons_of_mem _ hx))
    simp only [List.mem_append, not_or]
    exact ⟨⟨ha, hs⟩, hr⟩

theorem to_string_int_no_o (i : Int) : 'o' ∉ to_string_int i := by
  unfold to_string_int
  have hd : ∀ n : Nat, 'o' ∉ Nat.toDigits 10 n := fun n hm =>
    absurd (to_string_mem n 'o' hm) (by decide)
  split
  · intro hm
    rcases List.mem_cons.mp hm with h1 | h1
    · exact absurd h1 (by decide)
    · exact hd _ h1
  · exact hd _

theorem component_literal_no_o (env : dialect) (t : type) (w : Nat)
    (hfloat : ∀ (w : Nat) (c : Char), c ∈ env.float_to_string w → c ∈ float_alphabet) :
    'o' ∉ component_literal env t w := by
  unfold component_literal
  cases t.base
  · simp
  · simp only []
    split <;> decide
  · exact to_string_int_no_o _
  · exact fun hm => absurd (to_string_mem w 'o' hm) (by decide)
  · exact fun hm => absurd (hfloat w 'o' hm) (by decide)
  · simp
  · simp

theorem write_type_matrix (st : codegen_glsl) (t : type) (hnum : t.is_numeric = true)
    (hcols : 1 < t.cols) :
    write_type st t false =
      (if t.has .q_precise = true then S "precise " else []) ++
        (S "mat" ++ to_string t.rows ++ S "x" ++ to_string t.cols) := by
  unfold write_type write_numeric
  unfold type.is_numeric at hnum
  cases hb : t.base <;> rw [hb] at hnum <;> simp only [if_pos hcols] <;>
    first
    | exact absurd hnum (by decide)
    | simp

theorem write_type_matrix_no_o (st : codegen_glsl) (t : type) (hnum : t.is_numeric = true)
    (hcols : 1 < t.cols) : 'o' ∉ write_type st t false := by
  rw [write_type_matrix st t hnum hcols]
  have hd : ∀ n : Nat, 'o' ∉ to_string n := fun n hm =>
    absurd (to_string_mem n 'o' hm) (by decide)
  simp only [List.mem_append, not_or]
  refine ⟨?_, ⟨⟨?_, hd _⟩, ?_⟩, hd _⟩
  · split <;> decide
  · decide
  · decide

/-- Claim C12. A non-array numeric matrix constant whose components fit the 16 words
of the constant is written as `transpose(` + type + `(` + the literals of the
component words in their stored order, joined by `, `, + `))`, and the word
`transpose` occurs exactly once in it (float literals are drawn from the
alphabet of `std::to_string`).  For a non-array matrix type and scalar
arguments, `emit_construct` returns the next id and appends the declaration of
it with the right-hand side `transpose(` + type + `(` + the argument names in
the supplied order, joined by `, `, + `))`. -/
theorem matrix_transposed_once (st : codegen_glsl) (env : dialect) (t : type) (data : constant)
    (loc : location) (args : List expression)
    (hnum : t.is_numeric = true) (hrows : 1 < t.rows) (hcols : 1 < t.cols)
    (harr : t.array_length = 0) (hfit : t.rows * t.cols ≤ 16)
    (hdata : data.as_uint.length = 16)
    (hfloat : ∀ (w : Nat) (c : Char), c ∈ env.float_to_string w → c ∈ float_alphabet)
    (hargs : ∀ a ∈ args, a.type.is_scalar = true ∧ a.ops = [] ∧ a.base ≠ 0) :
    (∃ s, write_constant st env t data = some s ∧
        s = S "transpose(" ++ write_type st t false ++ S "(" ++
          (S ", ").intercalate
            ((data.as_uint.take (t.rows * t.cols)).map (component_literal env t)) ++ S "))" ∧
        occurrences (S "transpose") s = 1) ∧
      ∃ st1, emit_construct st loc t args = some (st._next_id, st1) ∧
        block_text st1 st._current_block = block_text st st._current_block ++
          (write_location loc ++ write_scope st ++ S "const " ++ write_type st t false ++
            S " " ++ id_to_name st st._next_id ++ S " = " ++
            (S "transpose(" ++ write_type st t false ++ S "(" ++
              (S ", ").intercalate (args.map (fun a => id_to_name st a.base)) ++ S "))") ++
            S ";\n") := by
  have hna : t.is_array = false := by simp [type.is_array, harr]
  have hmat : t.is_matrix = true := by simp [type.is_matrix, hrows, hcols]
  have hns : t.is_scalar = false := by
    simp only [type.is_scalar, decide_eq_false_iff_not, not_and]
    intro h1; omega
  have hcomp : t.components = t.rows * t.cols := u32_of_lt (by omega)
  constructor
  · have hbody := write_components_eq env t data (t.rows * t.cols) hfit (by omega)
      (t.rows * t.cols) 0 (by omega)
    rw [List.drop_zero] at hbody
    have hval : write_constant st env t data =
        some (S "transpose(" ++ write_type st t false ++ S "(" ++
          (S ", ").intercalate
            ((data.as_uint.take (t.rows * t.cols)).map (component_literal env t)) ++
          S "))") := by
      unfold write_constant
      rw [if_neg (by simp [hnum]), hna]
      simp only [Bool.false_eq_true, if_false]
      unfold write_constant_value
      rw [if_neg (by simp [hnum]), hnum, hcomp]
      simp only [if_true, hbody, hns, hmat, Bool.false_eq_true, not_false_eq_true]
      have e1 : S "transpose(" = S "transpose" ++ S "(" := rfl
      have e2 : S "))" = S ")" ++ S ")" := rfl
      rw [e1, e2]
      simp only [List.append_assoc]
    refine ⟨_, hval, rfl, ?_⟩
    rw [List.append_assoc, List.append_assoc, List.append_assoc]
    apply occurrences_transpose
    have hlit : 'o' ∉ (S ", ").intercalate
        ((data.as_uint.take (t.rows * t.cols)).map (component_literal env t)) := by
      apply not_mem_intercalate _ _ (by decide)
      intro a ha
      obtain ⟨w, _, rfl⟩ := List.mem_map.mp ha
      exact component_literal_no_o env t w hfloat
    simp only [List.mem_append, not_or]
    exact ⟨write_type_matrix_no_o st t hnum hcols, by decide, hlit, by decide⟩
  · have hall : args.all (fun arg =>
        (arg.type.is_scalar || t.is_array) && (arg.ops.isEmpty && decide (arg.base ≠ 0))) =
        true := by
      rw [List.all_eq_true]
      intro a ha
      obtain ⟨h1, h2, h3⟩ := hargs a ha
      simp [h1, h2, h3]
    refine ⟨_, emit_construct_eq st loc t args hall, ?_⟩
    show block_text (append_block (make_id st).2 st._current_block _) st._current_block = _
    rw [block_text_append_block_same, write_args_eq]
    simp only [hna, hmat, array_suffix, Bool.not_false, Bool.true_and, if_true,
      Bool.false_eq_true, if_false, List.append_nil, List.append_assoc]
    rfl

/-- Claim C12 at the 2x3 `int` matrix with the components 1 to 6 and at a
constructor call with six arguments. -/
theorem matrix_transposed_once_witness :
    write_constant construct sample_dialect (numeric_type .t_int 2 3) sample_matrix_constant =
        some (S "transpose(mat2x3(1, 2, 3, 4, 5, 6))") ∧
      occurrences (S "transpose") (S "transpose(mat2x3(1, 2, 3, 4, 5, 6))") = 1 ∧
      ∃ st1, emit_construct construct ⟨7⟩ (numeric_type .t_float 2 3)
          [scalar_arg 11, scalar_arg 12, scalar_arg 13, scalar_arg 14, scalar_arg 15,
            scalar_arg 16] = some (2, st1) ∧
        block_text st1 0 =
          S "#line 7\nconst mat2x3 _2 = transpose(mat2x3(_11, _12, _13, _14, _15, _16));\n" := by
  obtain ⟨⟨s, h1, h2, h3⟩, _⟩ := matrix_transposed_once construct sample_dialect
    (numeric_type .t_int 2 3) sample_matrix_constant ⟨7⟩ [] (by decide) (by decide) (by decide)
    (by decide) (by decide) (by decide)
    (fun _ => (by decide : ∀ c ∈ S "0.000000", c ∈ float_alphabet)) (by simp)
  obtain ⟨_, st1, h4, h5⟩ := matrix_transposed_once construct sample_dialect
    (numeric_type .t_float 2 3) sample_matrix_constant ⟨7⟩
    [scalar_arg 11, scalar_arg 12, scalar_arg 13, scalar_arg 14, scalar_arg 15, scalar_arg 16]
    (by decide) (by decide) (by decide) (by decide) (by decide) (by decide)
    (fun _ => (by decide : ∀ c ∈ S "0.000000", c ∈ float_alphabet))
    (by simp [scalar_arg, value_chain, numeric_type, type.is_scalar])
  have hs : s = S "transpose(mat2x3(1, 2, 3, 4, 5, 6))" := h2.trans (by decide)
  exact ⟨h1.trans (congrArg some hs), hs ▸ h3, st1, h4, h5.trans (by decide)⟩

/-! ### Swizzles -/

theorem lane_letter_eq (k : Int) (h0 : 0 ≤ k) (h3 : k ≤ 3) :
    lane_letter k = (S "xyzw")[k.toNat]? := by
  interval_cases k <;> rfl

theorem swizzle_letters_eq (sw : List Int) :
    ∀ (n i : Nat), i + n ≤ sw.length →
      (∀ k ∈ used_lanes ((sw.drop i).take n), k ≤ 3) →
      ∃ letters, swizzle_letters sw i n = some letters ∧
        letters.map some =
          (used_lanes ((sw.drop i).take n)).map (fun k => (S "xyzw")[k.toNat]?) := by
  intro n
  induction n with
  | zero => intro i _ _; exact ⟨[], rfl, rfl⟩
  | succ n ih =>
    intro i hlen hl
    have hi : i < sw.length := by omega
    have hget : sw.get? i = some (sw[i]) := by
      rw [List.get?_eq_getElem?]
      exact List.getElem?_eq_getElem hi
    rw [List.drop_eq_getElem_cons hi, List.take_succ_cons] at hl ⊢
    rw [swizzle_letters, hget]
    simp only []
    by_cases hneg : sw[i] < 0
    · rw [if_pos hneg]
      refine ⟨[], rfl, ?_⟩
      simp [used_lanes, List.takeWhile, Int.not_le.mpr hneg]
    · have h0 : 0 ≤ sw[i] := Int.not_lt.mp hneg
      have hu : used_lanes (sw[i] :: (sw.drop (i + 1)).take n) =
          sw[i] :: used_lanes ((sw.drop (i + 1)).take n) := by
        simp [used_lanes, List.takeWhile, h0]
      rw [hu] at hl ⊢
      have h3 : sw[i] ≤ 3 := hl _ (List.mem_cons_self _ _)
      obtain ⟨rest, hr, hrm⟩ := ih (i + 1) (by omega)
        (fun k hk => hl k (List.mem_cons_of_mem _ hk))
      rw [if_neg hneg, lane_letter_eq _ h0 h3, hr]
      have hlt : sw[i].toNat < (S "xyzw").length := by
        have : (S "xyzw").length = 4 := rfl
        omega
      rw [List.getElem?_eq_getElem hlt]
      refine ⟨_, rfl, ?_⟩
      rw [List.map_cons, List.map_cons, hrm, List.getElem?_eq_getElem hlt]

theorem used_lanes_length (sw : List Int) : (used_lanes sw).length ≤ sw.length := by
  unfold used_lanes
  exact (List.takeWhile_sublist _).length_le

/-- Claim C13, amended. For a swizzle operation with four lane slots whose lane indices in
front of the first negative slot are at most 3, the member functions emit `.`
followed by one letter per used slot and nothing for the other slots: the
`k`-th letter is `"xyzw"[swizzle[k]]`, there are at most four letters, none when
the first slot is unused and at least one when it is used. This is what the
operation loops of `emit_load` and `emit_store` append at the place of the
operation in a chain. -/
theorem swizzle_suffix (st : codegen_glsl) (op : operation) (pre post : List operation)
    (c : std_string) (hop : op.type = .op_swizzle) (hlen : op.swizzle.length = 4)
    (hlane : ∀ k ∈ used_lanes op.swizzle, k ≤ 3) :
    ∃ letters : std_string,
      letters.map some = (used_lanes op.swizzle).map (fun k => (S "xyzw")[k.toNat]?) ∧
      letters.length = (used_lanes op.swizzle).length ∧ letters.length ≤ 4 ∧
      (∀ x ∈ letters, x ∈ S "xyzw") ∧
      (letters = [] ↔ ∀ k, op.swizzle.head? = some k → k < 0) ∧
      load_chain st c (pre ++ op :: post) =
        (load_chain st c pre).bind (fun p => load_chain st (p ++ S "." ++ letters) post) ∧
      store_chain st (pre ++ op :: post) =
        (store_chain st pre).bind
          (fun s => store_chain (append_code s (S "." ++ letters)) post) := by
  have hl : ∀ k ∈ used_lanes ((op.swizzle.drop 0).take 4), k ≤ 3 := by
    rw [List.drop_zero, List.take_of_length_le (by omega)]
    exact hlane
  obtain ⟨letters, hsw, hmap⟩ := swizzle_letters_eq op.swizzle 4 0 (by omega) hl
  rw [List.drop_zero, List.take_of_length_le (by omega)] at hmap
  have hlen2 : letters.length = (used_lanes op.swizzle).length := by
    have := congrArg List.length hmap
    simpa using this
  refine ⟨letters, hmap, hlen2, ?_, ?_, ?_, ?_, ?_⟩
  · rw [hlen2, ← hlen]
    exact used_lanes_length _
  · intro x hx
    have hx1 : some x ∈ letters.map some := List.mem_map_of_mem _ hx
    rw [hmap] at hx1
    obtain ⟨k, _, hk⟩ := List.mem_map.mp hx1
    exact List.getElem?_mem hk
  · rw [← List.length_eq_zero, hlen2, List.length_eq_zero]
    unfold used_lanes
    cases hsw0 : op.swizzle with
    | nil => rw [hsw0] at hlen; cases hlen
    | cons a rest =>
      simp only [List.head?_cons, Option.some.injEq, forall_eq']
      by_cases ha : 0 ≤ a
      · simp [List.takeWhile, ha]
      · simp [List.takeWhile, ha]
        omega
  · induction pre generalizing c with
    | nil =>
      simp only [List.nil_append, load_chain, load_op, hop, hsw, Option.bind]
    | cons o pre ih =>
      simp only [List.cons_append, load_chain]
      cases load_op st c o with
      | none => rfl
      | some c1 => exact ih c1
  · induction pre generalizing st with
    | nil =>
      simp only [List.nil_append, store_chain, store_op, hop, hsw, Option.bind,
        append_code_append_code]
    | cons o pre ih =>
      simp only [List.cons_append, store_chain]
      cases store_op st o with
      | none => rfl
      | some s1 => exact ih s1

/-- Claim C13 fails for a swizzle whose first slot is unused: `emit_load` and
`emit_store` emit the `.` and no letter after it. For the lane index 4 the
letter read is the terminating NUL of the literal `"xyzw"`, not a lane letter. -/
theorem swizzle_without_lanes :
    (emit_load construct sample_dialect (swizzle_chain 5 [-1, -1, -1, -1])).map
        (fun r => block_text r.2 0) = some (S "#line 1\nconst float _2 = _5.;\n") ∧
      (emit_store construct (swizzle_chain 5 [-1, -1, -1, -1]) 6).map
        (fun s => block_text s 0) = some (S "#line 1\n_5. = _6;\n") ∧
      swizzle_letters [4, -1, -1, -1] 0 4 = some [Char.ofNat 0] := by
  decide

/-- Claim C13, amended, at the swizzle `.zx` of the value `_5`. -/
theorem swizzle_suffix_witness :
    load_chain construct (S "_5") [swizzle_op [2, 0, -1, -1]] = some (S "_5.zx") ∧
      (store_chain construct [swizzle_op [2, 0, -1, -1]]).map (fun s => block_text s 0) =
        some (S ".zx") := by
  obtain ⟨letters, hmap, _, _, _, _, hload, hstore⟩ :=
    swizzle_suffix construct (swizzle_op [2, 0, -1, -1]) [] [] (S "_5") rfl rfl (by decide)
  have hl : letters = ['z', 'x'] :=
    List.map_injective_iff.mpr (Option.some_injective _) (hmap.trans (by decide))
  subst hl
  exact ⟨hload.trans (by decide), (congrArg _ hstore).trans (by decide)⟩

/-! ### Relational operators -/

theorem binary_op_code_relational (t : type) :
    ∀ p ∈ relational_ops,
      binary_op_code p.1 t = some (if t.is_vector = true then (p.2.1, []) else ([], p.2.2)) := by
  intro p hp
  simp only [relational_ops, List.mem_cons, List.mem_singleton, List.not_mem_nil,
    or_false] at hp
  rcases hp with rfl | rfl | rfl | rfl | rfl | rfl <;>
    simp only [binary_op_code] <;> split <;> rfl

/-- Claim C17. For each of the operators `<`, `<=`, `>`, `>=`, `==`, `!=` and all
operand ids, `emit_binary_op` returns the next id and appends the declaration
of it whose right-hand side is the intrinsic call `lessThan(l, r)`,
`lessThanEqual(l, r)`, `greaterThan(l, r)`, `greaterThanEqual(l, r)`,
`equal(l, r)` or `notEqual(l, r)` when the operand type is a vector, and the
infix form `l <op> r` when it is not (`l` and `r` are the names of the operand
ids). -/
theorem relational_lowering (st : codegen_glsl) (loc : location) (res_type t : type)
    (lhs rhs : Nat) :
    ∀ p ∈ relational_ops, ∃ st1,
      emit_binary_op st loc p.1 res_type t lhs rhs = some (st._next_id, st1) ∧
        block_text st1 st._current_block = block_text st st._current_block ++
          (write_location loc ++ write_scope st ++ S "const " ++ write_type st res_type false ++
            S " " ++ id_to_name st st._next_id ++ S " = " ++
            (if t.is_vector = true then
              p.2.1 ++ S "(" ++ id_to_name st lhs ++ S ", " ++ id_to_name st rhs ++ S ")"
             else id_to_name st lhs ++ S " " ++ p.2.2 ++ S " " ++ id_to_name st rhs) ++
            S ";\n") := by
  intro p hp
  have hne : p.2.1 ≠ [] := by
    simp only [relational_ops, List.mem_cons, List.mem_singleton, List.not_mem_nil,
      or_false] at hp
    rcases hp with rfl | rfl | rfl | rfl | rfl | rfl <;> decide
  rw [emit_binary_op_eq, binary_op_code_relational t p hp]
  refine ⟨_, rfl, ?_⟩
  show block_text (append_block (make_id st).2 st._current_block _) st._current_block = _
  rw [block_text_append_block_same]
  cases t.is_vector
  · simp only [Bool.false_eq_true, if_false, ne_eq, not_true_eq_false]
    rfl
  · simp only [if_true, ne_eq, hne, not_false_eq_true]
    rfl

/-- Claim C17 at `<` on `float3` operands and at `!=` on `int` operands. -/
theorem relational_lowering_witness :
    (∃ st1, emit_binary_op construct ⟨1⟩ .less (numeric_type .t_bool 3 1)
          (numeric_type .t_float 3 1) 5 6 = some (2, st1) ∧
        block_text st1 0 = S "#line 1\nconst bvec3 _2 = lessThan(_5, _6);\n") ∧
      ∃ st1, emit_binary_op construct ⟨1⟩ .exclaim_equal (numeric_type .t_bool 1 1)
          (numeric_type .t_int 1 1) 5 6 = some (2, st1) ∧
        block_text st1 0 = S "#line 1\nconst bool _2 = _5 != _6;\n" := by
  obtain ⟨st1, h1, h2⟩ := relational_lowering construct ⟨1⟩ (numeric_type .t_bool 3 1)
    (numeric_type .t_float 3 1) 5 6 (.less, S "lessThan", S "<") (by decide)
  obtain ⟨st2, h3, h4⟩ := relational_lowering construct ⟨1⟩ (numeric_type .t_bool 1 1)
    (numeric_type .t_int 1 1) 5 6 (.exclaim_equal, S "notEqual", S "!=") (by decide)
  exact ⟨⟨st1, h1, h2.trans (by decide)⟩, st2, h3, h4.trans (by decide)⟩

/-! ### Frame of the value-emitting operations -/

theorem emits_value_append (st : codegen_glsl) (t : type) (s : std_string)
    (hdecl : t.is_void = false → ∃ pre post,
      s = pre ++ (S "const " ++ write_type st t false ++ S " " ++ id_to_name st st._next_id) ++
        post) :
    emits_value st t (st._next_id, append_code (make_id st).2 s) :=
  ⟨rfl, ⟨s, block_text_append_block_same _ _ _, hdecl⟩,
    fun _ hk => block_text_append_block_other _ _ _ _ hk, rfl, rfl, rfl⟩

/-- Claim C20. Whenever one of `emit_load`, `emit_constant`, `emit_unary_op`,
`emit_binary_op`, `emit_ternary_op`, `emit_call` and `emit_construct` returns, the
id returned is the id counter before the call, the old text of the current
block is a prefix of its new text, for a non-void result type the appended
text holds `const <type> <name of the returned id>`, and the text of every
other block, the current block, the last block and the scope level are
unchanged. Each call returns if and only if its assertions hold and its
right-hand side can be written. -/
theorem value_emission_frame (st : codegen_glsl) (env : dialect) (loc : location)
    (chain : expression) (t res_type : type) (data : constant) (op : tokenid)
    (a b c : Nat) (args : List expression) :
    ((∀ r, emit_load st env chain = some r → emits_value st chain.type r) ∧
      (∀ r, emit_constant st env t data = some r → emits_value st t r) ∧
      (∀ r, emit_unary_op st loc op res_type a = some r → emits_value st res_type r) ∧
      (∀ r, emit_binary_op st loc op res_type t a b = some r → emits_value st res_type r) ∧
      (∀ r, emit_ternary_op st loc op res_type a b c = some r → emits_value st res_type r) ∧
      (∀ r, emit_call st loc a res_type args = some r → emits_value st res_type r) ∧
      (∀ r, emit_construct st loc t args = some r → emits_value st t r)) ∧
    ((emit_load st env chain).isSome =
        (if chain.is_constant = true then write_constant st env chain.type chain.constant
         else load_chain st (id_to_name st chain.base) chain.ops).isSome ∧
      (emit_constant st env t data).isSome =
        (t.is_numeric && (write_constant st env t data).isSome) ∧
      (emit_unary_op st loc op res_type a).isSome =
        decide (op = .minus ∨ op = .tilde ∨ op = .exclaim) ∧
      (emit_binary_op st loc op res_type t a b).isSome = (binary_op_code op t).isSome ∧
      (emit_ternary_op st loc op res_type a b c).isSome = decide (op = .question) ∧
      (emit_call st loc a res_type args).isSome = call_args_ok args ∧
      (emit_construct st loc t args).isSome =
        args.all (fun arg =>
          (arg.type.is_scalar || t.is_array) && (arg.ops.isEmpty && decide (arg.base ≠ 0)))) := by
  refine ⟨⟨?_, ?_, ?_, ?_, ?_, ?_, ?_⟩, ?_, ?_, ?_, ?_, ?_, ?_, ?_⟩
  · intro r hr
    rw [emit_load_eq] at hr
    obtain ⟨rhs, _, rfl⟩ := Option.map_eq_some'.mp hr
    exact emits_value_append st _ _ (fun _ => ⟨write_location chain.location ++ write_scope st,
      array_suffix chain.type ++ S " = " ++ rhs ++ S ";\n", by simp only [List.append_assoc]⟩)
  · intro r hr
    rw [emit_constant_eq] at hr
    split at hr
    · obtain ⟨cst, _, rfl⟩ := Option.map_eq_some'.mp hr
      exact emits_value_append st _ _ (fun _ => ⟨write_scope st,
        array_suffix t ++ S " = " ++ cst ++ S ";\n", by simp only [List.append_assoc]⟩)
    · cases hr
  · intro r hr
    rw [emit_unary_op_eq] at hr
    obtain ⟨code, _, rfl⟩ := Option.map_eq_some'.mp hr
    exact emits_value_append st _ _ (fun _ => ⟨write_location loc ++ write_scope st,
      S " = " ++ code ++ S "(" ++ id_to_name st a ++ S ");\n",
      by simp only [List.append_assoc]⟩)
  · intro r hr
    rw [emit_binary_op_eq] at hr
    obtain ⟨code, _, rfl⟩ := Option.map_eq_some'.mp hr
    exact emits_value_append st _ _ (fun _ => ⟨write_location loc ++ write_scope st, _,
      by simp only [List.append_assoc]; rfl⟩)
  · intro r hr
    rw [emit_ternary_op_eq] at hr
    split at hr
    · cases hr
      exact emits_value_append st _ _ (fun _ => ⟨write_location loc ++ write_scope st, _,
        by simp only [List.append_assoc]; rfl⟩)
    · cases hr
  · intro r hr
    rw [emit_call_eq] at hr
    split at hr
    · cases hr
      refine emits_value_append st _ _ (fun hv => ⟨write_location loc ++ write_scope st,
        array_suffix res_type ++ S " = " ++ id_to_name st a ++ S "(" ++ write_args st args ++
          S ");\n", ?_⟩)
      rw [hv]
      simp only [Bool.not_false, if_true, List.append_assoc]
    · cases hr
  · intro r hr
    by_cases hargs : args.all (fun arg =>
        (arg.type.is_scalar || t.is_array) && (arg.ops.isEmpty && decide (arg.base ≠ 0))) = true
    · rw [emit_construct_eq st loc t args hargs] at hr
      cases hr
      exact emits_value_append st _ _ (fun _ => ⟨write_location loc ++ write_scope st, _,
        by simp only [List.append_assoc]; rfl⟩)
    · unfold emit_construct at hr
      rw [if_pos hargs] at hr
      cases hr
  · rw [emit_load_eq, Option.isSome_map']
  · rw [emit_constant_eq]
    cases t.is_numeric <;> simp
  · rw [emit_unary_op_eq, Option.isSome_map']
    cases op <;> simp [unary_op_code]
  · rw [emit_binary_op_eq, Option.isSome_map']
  · rw [emit_ternary_op_eq]
    by_cases hq : op = .question <;> simp [hq]
  · rw [emit_call_eq]
    cases call_args_ok args <;> simp
  · unfold emit_construct
    cases hall : args.all (fun arg =>
        (arg.type.is_scalar || t.is_array) && (arg.ops.isEmpty && decide (arg.base ≠ 0)))
    · simp
    · simp

/-- Claim C20 at the comparison `_5 < _6` emitted on a fresh backend. -/
theorem value_emission_frame_witness :
    emit_binary_op construct ⟨1⟩ .less (numeric_type .t_bool 1 1) (numeric_type .t_int 1 1) 5 6 =
        some ((emit_binary_op construct ⟨1⟩ .less (numeric_type .t_bool 1 1)
          (numeric_type .t_int 1 1) 5 6).getD (0, construct)) ∧
      emits_value construct (numeric_type .t_bool 1 1)
        ((emit_binary_op construct ⟨1⟩ .less (numeric_type .t_bool 1 1)
          (numeric_type .t_int 1 1) 5 6).getD (0, construct)) ∧
      block_text ((emit_binary_op construct ⟨1⟩ .less (numeric_type .t_bool 1 1)
          (numeric_type .t_int 1 1) 5 6).getD (0, construct)).2 0 =
        S "#line 1\nconst bool _2 = _5 < _6;\n" :=
  ⟨rfl,
    (value_emission_frame construct sample_dialect ⟨1⟩ (value_chain ⟨1⟩ (numeric_type .t_int 1 1) 5)
      (numeric_type .t_int 1 1) (numeric_type .t_bool 1 1) (.mk [] []) .less 5 6 0 []).1.2.2.2.1
      _ rfl,
    by decide⟩

/-! ### The declaration part of the backend -/

theorem decl_view_make_id (st : codegen_glsl) :
    decl_view (make_id st).2 = alloc (decl_view st) 1 := rfl

theorem decl_view_set_name (st : codegen_glsl) (i : Nat) (n : std_string) :
    decl_view (set_name st i n) = decl_view st := rfl

theorem decl_view_touch_block (st : codegen_glsl) (k : Nat) :
    decl_view (touch_block st k) = decl_view st := rfl

theorem decl_view_append_block (st : codegen_glsl) (k : Nat) (s : std_string) :
    decl_view (append_block st k s) = decl_view st := rfl

theorem decl_view_append_code (st : codegen_glsl) (s : std_string) :
    decl_view (append_code st s) = decl_view st := rfl

theorem decl_view_append_code_if (st : codegen_glsl) (c : Bool) (s : std_string) :
    decl_view (append_code_if st c s) = decl_view st := by
  unfold append_code_if; split <;> rfl

theorem decl_view_touch_block_if (st : codegen_glsl) (c : Bool) (k : Nat) :
    decl_view (touch_block_if st c k) = decl_view st := by
  unfold touch_block_if; split <;> rfl

theorem decl_view_scope_inc (st : codegen_glsl) : decl_view (scope_inc st) = decl_view st := by
  unfold scope_inc; rfl

theorem decl_view_scope_dec (st : codegen_glsl) : decl_view (scope_dec st) = decl_view st := by
  unfold scope_dec; rfl

theorem decl_view_touch_fallthrough (st : codegen_glsl) (k : Nat) :
    decl_view (touch_fallthrough st k) = decl_view st := rfl

theorem decl_view_push_fallthrough (st : codegen_glsl) (k : Nat) :
    decl_view (push_fallthrough st k) = decl_view st := rfl

theorem decl_view_set_block (st : codegen_glsl) (k : Nat) :
    decl_view (set_block st k).2 = decl_view st := rfl

theorem decl_view_enter_block (st : codegen_glsl) (k : Nat) :
    decl_view (enter_block st k) = decl_view st := rfl

theorem alloc_alloc (st : codegen_glsl) (a b : Nat) : alloc (alloc st a) b = alloc st (a + b) := by
  have h : ∀ (a n : Nat), counter_after (counter_after n a) b = counter_after n (a + b) := by
    intro a
    induction a with
    | zero => intro n; rw [Nat.zero_add]; rfl
    | succ a ih =>
      intro n
      rw [show a + 1 + b = (a + b) + 1 by omega]
      exact ih (u32 (n + 1))
  unfold alloc
  simp only [h]

theorem decl_view_store_op (st st1 : codegen_glsl) (op : operation)
    (h : store_op st op = some st1) : decl_view st1 = decl_view st := by
  unfold store_op at h
  split at h
  · cases h; rfl
  · cases h; rfl
  · split at h
    · cases h
    · cases h; rfl
  · split at h
    · cases h
    · cases h; rfl

theorem decl_view_store_chain : ∀ (ops : List operation) (st st1 : codegen_glsl),
    store_chain st ops = some st1 → decl_view st1 = decl_view st := by
  intro ops
  induction ops with
  | nil => intro st st1 h; cases h; rfl
  | cons op ops ih =>
    intro st st1 h
    unfold store_chain at h
    split at h
    · cases h
    · rename_i st2 hop
      rw [ih _ _ h, decl_view_store_op _ _ _ hop]

theorem decl_view_emit_store (st st1 : codegen_glsl) (chain : expression) (value : Nat)
    (h : emit_store st chain value = some st1) : decl_view st1 = decl_view st := by
  unfold emit_store at h
  simp only [] at h
  split at h
  · cases h
  · rename_i st2 hc
    cases h
    rw [decl_view_append_code, decl_view_store_chain _ _ _ hc]
    rfl

theorem decl_view_emit_if (st st1 : codegen_glsl) (env : dialect) (loc : location)
    (c cb tb fb flags : Nat) (h : emit_if st env loc c cb tb fb flags = some st1) :
    decl_view st1 = decl_view st := by
  unfold emit_if at h
  split at h
  · cases h
  · cases h
    simp only [decl_view_append_code, decl_view_append_code_if,
      decl_view_touch_block]

theorem decl_view_emit_loop_head (st st1 : codegen_glsl) (c cb : Nat)
    (h : emit_loop_head st c cb = some st1) : decl_view st1 = decl_view st := by
  unfold emit_loop_head at h
  split at h
  · cases h; rfl
  · split at h
    · cases h
    · cases h; rfl

theorem decl_view_emit_loop_body (st st1 : codegen_glsl) (c cb lb ctb : Nat)
    (h : emit_loop_body st c cb lb ctb = some st1) : decl_view st1 = decl_view st := by
  unfold emit_loop_body at h
  split at h
  · split at h
    · cases h
    · cases h; rfl
  · split at h
    · cases h
    · cases h; rfl

theorem decl_view_emit_loop (st st1 : codegen_glsl) (env : dialect) (loc : location)
    (c pb cb lb ctb flags : Nat) (h : emit_loop st env loc c pb cb lb ctb flags = some st1) :
    decl_view st1 = decl_view st := by
  unfold emit_loop at h
  split at h
  · cases h
  · simp only [] at h
    split at h
    · cases h
    · rename_i st2 h2
      rw [decl_view_emit_loop_body _ _ _ _ _ _ h]
      simp only [decl_view_append_code, decl_view_append_code_if]
      rw [decl_view_emit_loop_head _ _ _ _ h2]
      rfl

theorem decl_view_emit_fallthrough : ∀ (l : List Nat) (st : codegen_glsl),
    decl_view (emit_fallthrough st l) = decl_view st := by
  intro l
  induction l with
  | nil => intro st; rfl
  | cons a l ih => intro st; rw [emit_fallthrough, ih]; rfl

theorem decl_view_emit_switch_cases : ∀ (n : Nat) (l : List Nat) (st st1 : codegen_glsl),
    l.length ≤ n → emit_switch_cases st l = some st1 → decl_view st1 = decl_view st := by
  intro n
  induction n with
  | zero =>
    intro l st st1 hl h
    have : l = [] := List.length_eq_zero.mp (Nat.le_zero.mp hl)
    subst this
    cases h; rfl
  | succ n ih =>
    intro l st st1 hl h
    match l, hl, h with
    | [], _, h => cases h; rfl
    | [_], _, h => cases h
    | a :: b :: rest, hl, h =>
      rw [emit_switch_cases] at h
      split at h
      · cases h
      · have hlen : rest.length ≤ n := by
          simp only [List.length_cons] at hl; omega
        rw [ih rest _ _ hlen h, decl_view_append_code, decl_view_emit_fallthrough]
        rfl

theorem decl_view_emit_switch (st st1 : codegen_glsl) (env : dialect) (loc : location)
    (v b d : Nat) (cases : List Nat) (flags : Nat)
    (h : emit_switch st env loc v b d cases flags = some st1) :
    decl_view st1 = decl_view st := by
  unfold emit_switch at h
  split at h
  · cases h
  · simp only [] at h
    split at h
    · cases h
    · rename_i st7 h7
      have h7' := decl_view_emit_switch_cases cases.length _ _ _ (le_refl _) h7
      cases h
      simp only [decl_view_append_code, decl_view_append_code_if,
        decl_view_touch_block_if, decl_view_scope_dec, h7', decl_view_scope_inc,
        decl_view_touch_block]
      unfold emit_switch_open
      simp only [decl_view_append_code, decl_view_append_code_if,
        decl_view_touch_block]

theorem decl_view_leave_block_and_kill (st : codegen_glsl) :
    decl_view (leave_block_and_kill st).2 = decl_view st := by
  unfold leave_block_and_kill
  split_ifs
  · rfl
  · rfl

theorem decl_view_leave_block_and_return (st : codegen_glsl) (v : Nat) :
    decl_view (leave_block_and_return st v).2 = decl_view st := by
  unfold leave_block_and_return
  split_ifs <;> rfl

theorem decl_view_leave_block_and_switch (st : codegen_glsl) :
    decl_view (leave_block_and_switch st).2 = decl_view st := by
  unfold leave_block_and_switch
  split_ifs
  · rfl
  · rfl

theorem decl_view_leave_block_and_branch (st : codegen_glsl) (t f : Nat) :
    decl_view (leave_block_and_branch st t f).2 = decl_view st := by
  unfold leave_block_and_branch
  split_ifs <;> rfl

theorem decl_view_leave_block_and_branch_conditional (st : codegen_glsl) :
    decl_view (leave_block_and_branch_conditional st).2 = decl_view st := by
  unfold leave_block_and_branch_conditional
  split_ifs
  · rfl
  · rfl

theorem decl_view_leave_function (st st1 : codegen_glsl) (h : leave_function st = some st1) :
    decl_view st1 = decl_view st := by
  unfold leave_function at h
  simp only [] at h
  split at h
  · cases h
  · cases h; rfl

theorem decl_view_foldl {α : Type} (f : codegen_glsl → α → codegen_glsl)
    (hf : ∀ s a, decl_view (f s a) = decl_view s) :
    ∀ (l : List α) (st : codegen_glsl), decl_view (l.foldl f st) = decl_view st := by
  intro l
  induction l with
  | nil => intro st; rfl
  | cons a l ih => intro st; rw [List.foldl_cons, ih, hf]

theorem decl_view_emit_load (st : codegen_glsl) (env : dialect) (chain : expression)
    (r : Nat × codegen_glsl) (h : emit_load st env chain = some r) :
    r.1 = st._next_id ∧ decl_view r.2 = alloc (decl_view st) 1 := by
  rw [emit_load_eq] at h
  obtain ⟨_, _, rfl⟩ := Option.map_eq_some'.mp h
  exact ⟨rfl, rfl⟩

theorem decl_view_emit_constant (st : codegen_glsl) (env : dialect) (t : type)
    (data : constant) (r : Nat × codegen_glsl) (h : emit_constant st env t data = some r) :
    r.1 = st._next_id ∧ decl_view r.2 = alloc (decl_view st) 1 := by
  rw [emit_constant_eq] at h
  split at h
  · obtain ⟨_, _, rfl⟩ := Option.map_eq_some'.mp h
    exact ⟨rfl, rfl⟩
  · cases h

theorem decl_view_emit_unary_op (st : codegen_glsl) (loc : location) (op : tokenid)
    (t : type) (v : Nat) (r : Nat × codegen_glsl)
    (h : emit_unary_op st loc op t v = some r) :
    r.1 = st._next_id ∧ decl_view r.2 = alloc (decl_view st) 1 := by
  rw [emit_unary_op_eq] at h
  obtain ⟨_, _, rfl⟩ := Option.map_eq_some'.mp h
  exact ⟨rfl, rfl⟩

theorem decl_view_emit_binary_op (st : codegen_glsl) (loc : location) (op : tokenid)
    (t1 t2 : type) (a b : Nat) (r : Nat × codegen_glsl)
    (h : emit_binary_op st loc op t1 t2 a b = some r) :
    r.1 = st._next_id ∧ decl_view r.2 = alloc (decl_view st) 1 := by
  rw [emit_binary_op_eq] at h
  obtain ⟨_, _, rfl⟩ := Option.map_eq_some'.mp h
  exact ⟨rfl, rfl⟩

theorem decl_view_emit_ternary_op (st : codegen_glsl) (loc : location) (op : tokenid)
    (t : type) (a b c : Nat) (r : Nat × codegen_glsl)
    (h : emit_ternary_op st loc op t a b c = some r) :
    r.1 = st._next_id ∧ decl_view r.2 = alloc (decl_view st) 1 := by
  rw [emit_ternary_op_eq] at h
  split at h
  · cases h; exact ⟨rfl, rfl⟩
  · cases h

theorem decl_view_emit_call (st : codegen_glsl) (loc : location) (f : Nat) (t : type)
    (args : List expression) (r : Nat × codegen_glsl)
    (h : emit_call st loc f t args = some r) :
    r.1 = st._next_id ∧ decl_view r.2 = alloc (decl_view st) 1 := by
  rw [emit_call_eq] at h
  split at h
  · cases h; exact ⟨rfl, rfl⟩
  · cases h

theorem decl_view_emit_call_intrinsic (st : codegen_glsl) (env : dialect) (loc : location)
    (f : Nat) (t : type) (args : List expression) (r : Nat × codegen_glsl)
    (h : emit_call_intrinsic st env loc f t args = some r) :
    r.1 = st._next_id ∧ decl_view r.2 = alloc (decl_view st) 1 := by
  unfold emit_call_intrinsic at h
  split at h
  · cases h
  · simp only [] at h
    split at h
    · cases h
    · cases h
      refine ⟨rfl, ?_⟩
      simp only [decl_view_append_code, decl_view_append_code_if, decl_view_make_id]

theorem decl_view_emit_construct (st : codegen_glsl) (loc : location) (t : type)
    (args : List expression) (r : Nat × codegen_glsl)
    (h : emit_construct st loc t args = some r) :
    r.1 = st._next_id ∧ decl_view r.2 = alloc (decl_view st) 1 := by
  unfold emit_construct at h
  split at h
  · cases h
  · cases h
    refine ⟨rfl, ?_⟩
    simp only [decl_view_append_code, decl_view_append_code_if, decl_view_make_id]

theorem decl_view_emit_phi (st : codegen_glsl) (loc : location)
    (c cb tv tb fv fb : Nat) (t : type) (r : Nat × codegen_glsl)
    (h : emit_phi st loc c cb tv tb fv fb t = some r) :
    r.1 = st._next_id ∧ decl_view r.2 = alloc (decl_view st) 1 := by
  unfold emit_phi at h
  split at h
  · cases h
  · cases h
    refine ⟨rfl, ?_⟩
    simp only [decl_view_append_code, decl_view_touch_block_if, decl_view_touch_block,
      decl_view_make_id]

theorem decl_view_define_variable (st : codegen_glsl) (loc : location) (t : type)
    (name : Option std_string) (v : Nat) :
    (define_variable st loc t name v).1 = st._next_id ∧
      decl_view (define_variable st loc t name v).2 = alloc (decl_view st) 1 := by
  refine ⟨rfl, ?_⟩
  unfold define_variable
  cases name <;>
    simp only [decl_view_append_code, decl_view_append_code_if, decl_view_set_name,
      decl_view_make_id]

theorem decl_view_define_struct (st : codegen_glsl) (loc : location) (info : struct_info) :
    (define_struct st loc info).1 = st._next_id ∧
      decl_view (define_struct st loc info).2 =
        { alloc (decl_view st) 1 with
          _structs := st._structs ++ [{ info with definition := st._next_id }] } := by
  have hf := decl_view_foldl
    (fun (s : codegen_glsl) (m : struct_member_info) =>
      append_code s (S "\t" ++ write_type s m.type true ++ S " " ++ m.name ++ S ";\n"))
    (fun _ _ => rfl)
  refine ⟨rfl, ?_⟩
  unfold define_struct
  simp only [decl_view_append_code, decl_view_append_code_if, hf]
  rfl

theorem decl_view_define_texture (st : codegen_glsl) (info : texture_info) :
    (define_texture st info).1 = st._next_id ∧
      decl_view (define_texture st info).2 =
        { alloc (decl_view st) 1 with
          _textures := st._textures ++ [{ info with id := st._next_id }] } :=
  ⟨rfl, rfl⟩

theorem decl_view_define_sampler (st : codegen_glsl) (loc : location) (info : sampler_info) :
    (define_sampler st loc info).1 = st._next_id ∧
      decl_view (define_sampler st loc info).2 =
        { alloc (decl_view st) 1 with
          _current_sampler_binding := u32 (st._current_sampler_binding + 1),
          _samplers := st._samplers ++
            [{ info with id := st._next_id, binding := st._current_sampler_binding }] } :=
  ⟨rfl, rfl⟩

theorem decl_view_create_entry_point (st : codegen_glsl) (f : function_info) (b : Bool) :
    decl_view (create_entry_point st f b) =
      { decl_view st with
        _entry_points :=
          if (st._entry_points.find? (fun ep => decide (ep.1 = f.unique_name))).isSome = true
          then st._entry_points else st._entry_points ++ [(f.unique_name, b)] } := by
  unfold create_entry_point
  split_ifs
  · rfl
  · simp only [decl_view, append_code, append_block, scope_inc, scope_dec]

theorem decl_view_define_uniform (st : codegen_glsl) (loc : location) (info : uniform_info)
    (r : Nat × codegen_glsl) (h : define_uniform st loc info = some r) :
    r.1 = st._cbuffer_type_id ∧
      ∃ off, align st._current_cbuffer_offset (uniform_size info.type) = some off ∧
        decl_view r.2 =
          { decl_view st with
            _current_cbuffer_offset := u32 (off + uniform_size info.type),
            _structs := push_member st._structs st._cbuffer_type_id
              { type := info.type, name := info.name },
            _uniforms := st._uniforms ++
              [{ info with size := uniform_size info.type, offset := off,
                           member_index := u32 st._uniforms.length }] } := by
  unfold define_uniform at h
  simp only [] at h
  split at h
  · cases h
  · rename_i off hoff
    split at h
    · cases h
    · cases h
      exact ⟨rfl, off, hoff, rfl⟩

theorem decl_view_define_function_param (n : Nat) (st : codegen_glsl) (p : parameter_info)
    (i : Nat) :
    decl_view (define_function_param n st p i).1 = alloc (decl_view st) 1 ∧
      (define_function_param n st p i).1._next_id = u32 (st._next_id + 1) ∧
      (define_function_param n st p i).2 = { p with definition := st._next_id } := by
  refine ⟨?_, ?_, rfl⟩
  · unfold define_function_param
    simp only [decl_view_append_code, decl_view_append_code_if, decl_view_set_name,
      decl_view_make_id]
  · exact congrArg (fun d => d._next_id)
      (show decl_view (define_function_param n st p i).1 = alloc (decl_view st) 1 by
        unfold define_function_param
        simp only [decl_view_append_code, decl_view_append_code_if, decl_view_set_name,
          decl_view_make_id])

theorem decl_view_define_function_params_from (n : Nat) :
    ∀ (l : List parameter_info) (j : Nat) (st : codegen_glsl) (acc : List parameter_info),
      decl_view ((l.enumFrom j).foldl
          (fun (a : codegen_glsl × List parameter_info) (ip : Nat × parameter_info) =>
            ((define_function_param n a.1 ip.2 ip.1).1,
              a.2 ++ [(define_function_param n a.1 ip.2 ip.1).2])) (st, acc)).1 =
          alloc (decl_view st) l.length ∧
        ((l.enumFrom j).foldl
          (fun (a : codegen_glsl × List parameter_info) (ip : Nat × parameter_info) =>
            ((define_function_param n a.1 ip.2 ip.1).1,
              a.2 ++ [(define_function_param n a.1 ip.2 ip.1).2])) (st, acc)).2 =
          acc ++ with_ids st._next_id l := by
  intro l
  induction l with
  | nil => intro j st acc; exact ⟨rfl, by simp [with_ids]⟩
  | cons p l ih =>
    intro j st acc
    obtain ⟨h1, h2, h3⟩ := decl_view_define_function_param n st p j
    rw [List.enumFrom_cons, List.foldl_cons]
    obtain ⟨ih1, ih2⟩ := ih (j + 1) (define_function_param n st p j).1
      (acc ++ [(define_function_param n st p j).2])
    refine ⟨?_, ?_⟩
    · rw [ih1, h1, alloc_alloc, List.length_cons, Nat.add_comm]
    · rw [ih2, h2, h3, with_ids, List.append_assoc, List.singleton_append]

theorem decl_view_define_function_params (n : Nat) (st : codegen_glsl)
    (l : List parameter_info) :
    decl_view (define_function_params n st l).1 = alloc (decl_view st) l.length ∧
      (define_function_params n st l).1._functions = st._functions ∧
      (define_function_params n st l).2 = with_ids st._next_id l := by
  obtain ⟨h1, h2⟩ := decl_view_define_function_params_from n l 0 st []
  rw [List.nil_append] at h2
  exact ⟨h1, congrArg (fun d => d._functions) h1, h2⟩

theorem decl_view_define_function (st : codegen_glsl) (loc : location) (info : function_info) :
    (define_function st loc info).1 = st._next_id ∧
      decl_view (define_function st loc info).2 =
        { alloc (decl_view st) (1 + info.parameter_list.length) with
          _functions := st._functions ++
            [{ info with definition := st._next_id,
                         parameter_list := with_ids (u32 (st._next_id + 1))
                           info.parameter_list }] } := by
  refine ⟨rfl, ?_⟩
  obtain ⟨h1, hf, h2⟩ := decl_view_define_function_params info.parameter_list.length
    (append_code (set_name (make_id st).2 (make_id st).1 info.unique_name)
      (write_location loc ++
        write_type (set_name (make_id st).2 (make_id st).1 info.unique_name) info.return_type
          false ++ S " " ++ info.unique_name ++ S "(")) info.parameter_list
  rw [decl_view_append_code, decl_view_set_name, decl_view_make_id, alloc_alloc] at h1
  unfold define_function
  simp only []
  generalize define_function_params info.parameter_list.length
    (append_code (set_name (make_id st).2 (make_id st).1 info.unique_name)
      (write_location loc ++
        write_type (set_name (make_id st).2 (make_id st).1 info.unique_name) info.return_type
          false ++ S " " ++ info.unique_name ++ S "(")) info.parameter_list = P at h1 hf h2
  have e : ∀ (x : codegen_glsl) (fs : List function_info),
      decl_view { scope_inc (append_code x (S ")\n")) with _functions := fs } =
        { decl_view x with _functions := fs } := fun _ _ => rfl
  have e2 : (scope_inc (append_code P.1 (S ")\n")))._functions = P.1._functions := rfl
  rw [e, e2, h1, hf, h2]
  rfl

theorem ids_from_with_ids : ∀ (l : List parameter_info) (n : Nat),
    (with_ids n l).map (fun p => p.definition) = ids_from n l.length
  | [], _ => rfl
  | p :: l, n => by
    rw [with_ids, List.map_cons, List.length_cons, ids_from, ids_from_with_ids l]

/-- The declaration part after a call is a function of the declaration part
before it, and the ids the call hands out are the next ids of the counter. -/
theorem decl_view_step (env : dialect) (st st1 : codegen_glsl) (c : call)
    (h : step env st c = some st1) :
    decl_view st1 = decl_after (decl_view st) c ∧
      call_ids env st c = ids_from st._next_id (allocs c) := by
  cases c with
  | define_struct loc info =>
    cases h; exact ⟨(decl_view_define_struct st loc info).2, rfl⟩
  | define_texture info => cases h; exact ⟨rfl, rfl⟩
  | define_sampler loc info => cases h; exact ⟨rfl, rfl⟩
  | define_uniform loc info =>
    simp only [step, Option.map_eq_some'] at h
    obtain ⟨r, hr, rfl⟩ := h
    obtain ⟨_, off, hoff, hd⟩ := decl_view_define_uniform st loc info r hr
    refine ⟨?_, rfl⟩
    rw [hd]
    have ha : align (decl_view st)._current_cbuffer_offset (uniform_size info.type) =
        some off := hoff
    simp only [decl_after, ha]
    rfl
  | define_variable loc t name v =>
    cases h; exact ⟨(decl_view_define_variable st loc t name v).2, rfl⟩
  | define_function loc info =>
    cases h
    obtain ⟨_, hd⟩ := decl_view_define_function st loc info
    refine ⟨hd, ?_⟩
    have hf := congrArg (fun d => d._functions) hd
    simp only [] at hf
    have hf2 : (define_function st loc info).2._functions = st._functions ++
        [{ info with definition := st._next_id,
                     parameter_list := with_ids (u32 (st._next_id + 1))
                       info.parameter_list }] := hf
    simp only [call_ids, hf2, List.getLast?_concat, Option.map_some', Option.getD_some,
      function_ids, ids_from_with_ids, allocs]
    rw [Nat.add_comm 1, ids_from]
  | create_block => cases h; exact ⟨rfl, rfl⟩
  | create_entry_point f b => cases h; exact ⟨decl_view_create_entry_point st f b, rfl⟩
  | emit_load chain =>
    simp only [step, Option.map_eq_some'] at h
    obtain ⟨r, hr, rfl⟩ := h
    obtain ⟨h1, h2⟩ := decl_view_emit_load _ _ _ _ hr
    exact ⟨h2, by simp only [call_ids, hr, Option.map_some', Option.toList, h1]; rfl⟩
  | emit_store chain v => exact ⟨decl_view_emit_store _ _ _ _ h, rfl⟩
  | emit_constant t d =>
    simp only [step, Option.map_eq_some'] at h
    obtain ⟨r, hr, rfl⟩ := h
    obtain ⟨h1, h2⟩ := decl_view_emit_constant _ _ _ _ _ hr
    exact ⟨h2, by simp only [call_ids, hr, Option.map_some', Option.toList, h1]; rfl⟩
  | emit_unary_op loc op t v =>
    simp only [step, Option.map_eq_some'] at h
    obtain ⟨r, hr, rfl⟩ := h
    obtain ⟨h1, h2⟩ := decl_view_emit_unary_op _ _ _ _ _ _ hr
    exact ⟨h2, by simp only [call_ids, hr, Option.map_some', Option.toList, h1]; rfl⟩
  | emit_binary_op loc op t1 t2 a b =>
    simp only [step, Option.map_eq_some'] at h
    obtain ⟨r, hr, rfl⟩ := h
    obtain ⟨h1, h2⟩ := decl_view_emit_binary_op _ _ _ _ _ _ _ _ hr
    exact ⟨h2, by simp only [call_ids, hr, Option.map_some', Option.toList, h1]; rfl⟩
  | emit_ternary_op loc op t a b c =>
    simp only [step, Option.map_eq_some'] at h
    obtain ⟨r, hr, rfl⟩ := h
    obtain ⟨h1, h2⟩ := decl_view_emit_ternary_op _ _ _ _ _ _ _ _ hr
    exact ⟨h2, by simp only [call_ids, hr, Option.map_some', Option.toList, h1]; rfl⟩
  | emit_call loc f t args =>
    simp only [step, Option.map_eq_some'] at h
    obtain ⟨r, hr, rfl⟩ := h
    obtain ⟨h1, h2⟩ := decl_view_emit_call _ _ _ _ _ _ hr
    exact ⟨h2, by simp only [call_ids, hr, Option.map_some', Option.toList, h1]; rfl⟩
  | emit_call_intrinsic loc f t args =>
    simp only [step, Option.map_eq_some'] at h
    obtain ⟨r, hr, rfl⟩ := h
    obtain ⟨h1, h2⟩ := decl_view_emit_call_intrinsic _ _ _ _ _ _ _ hr
    exact ⟨h2, by simp only [call_ids, hr, Option.map_some', Option.toList, h1]; rfl⟩
  | emit_construct loc t args =>
    simp only [step, Option.map_eq_some'] at h
    obtain ⟨r, hr, rfl⟩ := h
    obtain ⟨h1, h2⟩ := decl_view_emit_construct _ _ _ _ _ hr
    exact ⟨h2, by simp only [call_ids, hr, Option.map_some', Option.toList, h1]; rfl⟩
  | emit_if loc c cb tb fb flags => exact ⟨decl_view_emit_if _ _ _ _ _ _ _ _ _ h, rfl⟩
  | emit_phi loc c cb tv tb fv fb t =>
    simp only [step, Option.map_eq_some'] at h
    obtain ⟨r, hr, rfl⟩ := h
    obtain ⟨h1, h2⟩ := decl_view_emit_phi _ _ _ _ _ _ _ _ _ _ hr
    exact ⟨h2, by simp only [call_ids, hr, Option.map_some', Option.toList, h1]; rfl⟩
  | emit_loop loc c pb cb lb ctb flags =>
    exact ⟨decl_view_emit_loop _ _ _ _ _ _ _ _ _ _ h, rfl⟩
  | emit_switch loc v b d cases flags =>
    exact ⟨decl_view_emit_switch _ _ _ _ _ _ _ _ _ h, rfl⟩
  | set_block id => cases h; exact ⟨rfl, rfl⟩
  | enter_block id => cases h; exact ⟨rfl, rfl⟩
  | leave_block_and_kill => cases h; exact ⟨decl_view_leave_block_and_kill _, rfl⟩
  | leave_block_and_return v => cases h; exact ⟨decl_view_leave_block_and_return _ _, rfl⟩
  | leave_block_and_switch => cases h; exact ⟨decl_view_leave_block_and_switch _, rfl⟩
  | leave_block_and_branch t f =>
    cases h; exact ⟨decl_view_leave_block_and_branch _ _ _, rfl⟩
  | leave_block_and_branch_conditional =>
    cases h; exact ⟨decl_view_leave_block_and_branch_conditional _, rfl⟩
  | leave_function => exact ⟨decl_view_leave_function _ _ h, rfl⟩

/-! ### Entry points -/

theorem entry_points_decl_after (d : codegen_glsl) (c : call) :
    (decl_after d c)._entry_points =
      match c with
      | .create_entry_point f b =>
        if (d._entry_points.find? (fun ep => decide (ep.1 = f.unique_name))).isSome = true
        then d._entry_points else d._entry_points ++ [(f.unique_name, b)]
      | _ => d._entry_points := by
  cases c <;> try rfl
  case define_uniform loc info =>
    simp only [decl_after]
    split <;> rfl

theorem entry_points_nodup_step (env : dialect) (st st1 : codegen_glsl) (c : call)
    (hn : (st._entry_points.map Prod.fst).Nodup) (h : step env st c = some st1) :
    (st1._entry_points.map Prod.fst).Nodup := by
  have hd := congrArg (fun d => d._entry_points) (decl_view_step env st st1 c h).1
  have hd1 : st1._entry_points = (decl_after (decl_view st) c)._entry_points := hd
  rw [hd1, entry_points_decl_after]
  have hv : (decl_view st)._entry_points = st._entry_points := rfl
  rw [hv]
  split
  · rename_i f b
    split
    · exact hn
    · rename_i hfind
      rw [List.map_append, List.map_singleton]
      refine List.Nodup.append hn (List.nodup_singleton _) ?_
      intro a hm hb
      rw [List.mem_singleton] at hb
      subst hb
      obtain ⟨ep, hep, hname⟩ := List.mem_map.mp hm
      apply hfind
      rw [List.find?_isSome]
      exact ⟨ep, hep, by simpa using hname⟩
  · exact hn

theorem entry_points_nodup_run (env : dialect) :
    ∀ (calls : List call) (st st1 : codegen_glsl),
      (st._entry_points.map Prod.fst).Nodup → run env st calls = some st1 →
      (st1._entry_points.map Prod.fst).Nodup := by
  intro calls
  induction calls with
  | nil => intro st st1 hn h; cases h; exact hn
  | cons c calls ih =>
    intro st st1 hn h
    rw [run] at h
    split at h
    · cases h
    · rename_i st2 hstep
      exact ih st2 st1 (entry_points_nodup_step env st st2 c hn hstep) h

/-- Claim C15. In a state that records an entry point named `f.unique_name`,
`create_entry_point(f, is_ps)` returns the state unchanged, for both values of
`is_ps`; a second request for the same function is therefore without effect.
In every state reached from a fresh backend, no two entries of the entry-point
list have the same name. -/
theorem create_entry_point_idempotent (env : dialect) (st : codegen_glsl) (f : function_info)
    (is_ps again : Bool) (calls : List call) (reached : codegen_glsl) :
    ((∃ ep ∈ st._entry_points, ep.1 = f.unique_name) → create_entry_point st f is_ps = st) ∧
      create_entry_point (create_entry_point st f is_ps) f again =
        create_entry_point st f is_ps ∧
      (run env construct calls = some reached →
        (reached._entry_points.map Prod.fst).Nodup) := by
  have hpresent : ∀ (s : codegen_glsl) (b : Bool),
      (∃ ep ∈ s._entry_points, ep.1 = f.unique_name) → create_entry_point s f b = s := by
    intro s b hex
    have hfind : (s._entry_points.find? (fun ep => decide (ep.1 = f.unique_name))).isSome =
        true := by
      rw [List.find?_isSome]
      obtain ⟨ep, hep, hname⟩ := hex
      exact ⟨ep, hep, by simpa using hname⟩
    unfold create_entry_point
    rw [if_pos hfind]
  refine ⟨hpresent st is_ps, ?_, ?_⟩
  · by_cases hex : ∃ ep ∈ st._entry_points, ep.1 = f.unique_name
    · rw [hpresent st is_ps hex, hpresent st again hex]
    · apply hpresent
      have hd := congrArg (fun d => d._entry_points) (decl_view_create_entry_point st f is_ps)
      have hd1 : (create_entry_point st f is_ps)._entry_points =
          (if (st._entry_points.find? (fun ep => decide (ep.1 = f.unique_name))).isSome = true
            then st._entry_points else st._entry_points ++ [(f.unique_name, is_ps)]) := hd
      have hfind : ¬ (st._entry_points.find? (fun ep => decide (ep.1 = f.unique_name))).isSome =
          true := by
        rw [List.find?_isSome]
        rintro ⟨ep, hep, hname⟩
        exact hex ⟨ep, hep, by simpa using hname⟩
      rw [hd1, if_neg hfind]
      exact ⟨(f.unique_name, is_ps), List.mem_append_right _ (List.mem_singleton.mpr rfl), rfl⟩
  · intro hrun
    exact entry_points_nodup_run env calls construct reached List.nodup_nil hrun

/-- Claim C15 at two requests for an entry point of the function `f`. -/
theorem create_entry_point_idempotent_witness :
    create_entry_point (create_entry_point construct sample_function true) sample_function
        false = create_entry_point construct sample_function true ∧
      ((run sample_dialect construct sample_entry_calls).getD construct)._entry_points =
        [(S "f", true)] ∧
      (((run sample_dialect construct sample_entry_calls).getD construct)._entry_points.map
        Prod.fst).Nodup :=
  ⟨(create_entry_point_idempotent sample_dialect
      (create_entry_point construct sample_function true) sample_function false false
      sample_entry_calls ((run sample_dialect construct sample_entry_calls).getD construct)).1
      ⟨(S "f", true), by decide, rfl⟩,
    by decide,
    (create_entry_point_idempotent sample_dialect construct sample_function false false
      sample_entry_calls ((run sample_dialect construct sample_entry_calls).getD construct)).2.2
      rfl⟩

/-! ### Ids -/

theorem ids_from_length : ∀ (k n : Nat), (ids_from n k).length = k
  | 0, _ => rfl
  | k + 1, n => by rw [ids_from, List.length_cons, ids_from_length k]

theorem ids_from_eq_range : ∀ (k n : Nat), n + k ≤ 2 ^ 32 → ids_from n k = List.range' n k
  | 0, _, _ => rfl
  | k + 1, n, h => by
    rw [ids_from, List.range'_succ]
    congr 1
    cases k with
    | zero => rfl
    | succ k =>
      have hn : n + 1 < 2 ^ 32 := by omega
      rw [u32_of_lt hn]
      exact ids_from_eq_range (k + 1) (n + 1) (by omega)

theorem counter_after_eq : ∀ (k n : Nat), n + k < 2 ^ 32 → counter_after n k = n + k
  | 0, _, _ => rfl
  | k + 1, n, h => by
    have hn : n + 1 < 2 ^ 32 := by omega
    rw [counter_after, u32_of_lt hn, counter_after_eq k (n + 1) (by omega)]
    omega

theorem next_id_decl_after (d : codegen_glsl) (c : call) :
    (decl_after d c)._next_id = counter_after d._next_id (allocs c) := by
  cases c <;> try rfl
  case define_uniform loc info =>
    simp only [decl_after]
    split <;> rfl

theorem next_id_step (env : dialect) (st st1 : codegen_glsl) (c : call)
    (h : step env st c = some st1) :
    st1._next_id = counter_after st._next_id (allocs c) := by
  have hd := congrArg (fun d => d._next_id) (decl_view_step env st st1 c h).1
  exact hd.trans (next_id_decl_after _ _)

/-- The ids handed out along a run are consecutive while the counter does not wrap. -/
theorem run_ids_eq_range (env : dialect) :
    ∀ (calls : List call) (st st1 : codegen_glsl), run env st calls = some st1 →
      st._next_id + (run_ids env st calls).length ≤ 2 ^ 32 →
      run_ids env st calls = List.range' st._next_id (run_ids env st calls).length := by
  intro calls
  induction calls with
  | nil => intro st st1 _ _; rfl
  | cons c calls ih =>
    intro st st1 h hfit
    rw [run] at h
    split at h
    · cases h
    · rename_i st2 hstep
      have hids := (decl_view_step env st st2 c hstep).2
      have hnext := next_id_step env st st2 c hstep
      have hrun : run_ids env st (c :: calls) = call_ids env st c ++ run_ids env st2 calls := by
        rw [run_ids, hstep]
      rw [hrun, hids, List.length_append, ids_from_length] at hfit ⊢
      rw [ids_from_eq_range _ _ (by omega)]
      cases hlen : (run_ids env st2 calls).length with
      | zero =>
        rw [List.length_eq_zero.mp hlen]
        simp
      | succ m =>
        rw [hlen] at hfit
        have hlt : st._next_id + allocs c < 2 ^ 32 := by omega
        have hn2 : st2._next_id = st._next_id + allocs c := by
          rw [hnext, counter_after_eq _ _ hlt]
        have hrest := ih st2 st1 h (by rw [hn2, hlen]; omega)
        rw [hrest, hn2, hlen, List.range'_append_1, Nat.add_comm (m + 1)]

/-- Claim C16. In a run of backend calls on a fresh backend in which `make_id` is
called fewer than `2 ^ 32` times, the call of the constructor included, the ids
handed out are 2, 3, 4, ... in this order: every id is nonzero, is greater than
every id handed out before it, and differs from the id 1 that the constructor
reserved for `$Globals`. -/
theorem ids_never_reused (env : dialect) (calls : List call) (st : codegen_glsl)
    (hrun : run env construct calls = some st)
    (hfew : 1 + (run_ids env construct calls).length < 2 ^ 32) :
    construct._cbuffer_type_id = 1 ∧
      run_ids env construct calls = List.range' 2 (run_ids env construct calls).length ∧
      (run_ids env construct calls).Pairwise (fun a b => a < b) ∧
      ∀ i ∈ run_ids env construct calls, i ≠ 0 ∧ i ≠ construct._cbuffer_type_id := by
  have hn : construct._next_id = 2 := rfl
  have heq := run_ids_eq_range env calls construct st hrun (by rw [hn]; omega)
  rw [hn] at heq
  refine ⟨rfl, heq, ?_, ?_⟩
  · rw [heq]
    exact List.pairwise_lt_range' 2 _
  · intro i hi
    rw [heq, List.mem_range'_1] at hi
    have hc : construct._cbuffer_type_id = 1 := rfl
    rw [hc]
    omega

/-- Claim C16 at a run that hands out the ids 2 to 7. -/
theorem ids_never_reused_witness :
    run_ids sample_dialect construct sample_id_calls = [2, 3, 4, 5, 6, 7] ∧
      (run_ids sample_dialect construct sample_id_calls).Pairwise (fun a b => a < b) ∧
      ∀ i ∈ run_ids sample_dialect construct sample_id_calls,
        i ≠ 0 ∧ i ≠ construct._cbuffer_type_id :=
  ⟨by decide,
    (ids_never_reused sample_dialect sample_id_calls
      ((run sample_dialect construct sample_id_calls).getD construct) rfl (by decide)).2.2⟩

/-! ### Frame of the block store -/

theorem frame_refl (T : List Nat) (st : codegen_glsl) : frame T st st :=
  ⟨rfl, rfl, fun _ => rfl, fun _ _ => rfl, fun _ h => h⟩

theorem frame_of_eq {T : List Nat} {st0 st st1 : codegen_glsl} (h : frame T st0 st)
    (hc : st1._current_block = st._current_block) (hl : st1._last_block = st._last_block)
    (hf : st1._switch_fallthrough_blocks = st._switch_fallthrough_blocks)
    (hb : st1._blocks = st._blocks) : frame T st0 st1 := by
  refine ⟨hc.trans h.1, hl.trans h.2.1, fun k => ?_, fun k hk => ?_, fun k hk => ?_⟩
  · unfold fallthrough_of; rw [hf]; exact h.2.2.1 k
  · rw [hb]; exact h.2.2.2.1 k hk
  · rw [hb]; exact h.2.2.2.2 k hk

theorem frame_append_block {T : List Nat} {st0 st : codegen_glsl} (k : Nat) (s : std_string)
    (hk : k ∈ T) (h : frame T st0 st) : frame T st0 (append_block st k s) := by
  refine ⟨h.1, h.2.1, h.2.2.1, fun j hj => ?_, fun j hj => ?_⟩
  · have hne : j ≠ k := fun e => hj (e ▸ hk)
    show map_set st._blocks k _ j = _
    unfold map_set
    rw [if_neg hne]
    exact h.2.2.2.1 j hj
  · show (map_set st._blocks k _ j).isSome = true
    unfold map_set
    split
    · rfl
    · exact h.2.2.2.2 j hj

theorem frame_touch_block {T : List Nat} {st0 st : codegen_glsl} (k : Nat)
    (hk : k ∈ T) (h : frame T st0 st) : frame T st0 (touch_block st k) := by
  refine ⟨h.1, h.2.1, h.2.2.1, fun j hj => ?_, fun j hj => ?_⟩
  · have hne : j ≠ k := fun e => hj (e ▸ hk)
    show map_set st._blocks k _ j = _
    unfold map_set
    rw [if_neg hne]
    exact h.2.2.2.1 j hj
  · show (map_set st._blocks k _ j).isSome = true
    unfold map_set
    split
    · rfl
    · exact h.2.2.2.2 j hj

theorem frame_append_code {T : List Nat} {st0 st : codegen_glsl} (s : std_string)
    (hk : st0._current_block ∈ T) (h : frame T st0 st) : frame T st0 (append_code st s) :=
  frame_append_block _ _ (h.1 ▸ hk) h

theorem frame_append_code_if {T : List Nat} {st0 st : codegen_glsl} (c : Bool) (s : std_string)
    (hk : st0._current_block ∈ T) (h : frame T st0 st) :
    frame T st0 (append_code_if st c s) := by
  unfold append_code_if
  split
  · exact frame_append_code s hk h
  · exact h

theorem frame_touch_block_if {T : List Nat} {st0 st : codegen_glsl} (c : Bool) (k : Nat)
    (hk : k ∈ T) (h : frame T st0 st) : frame T st0 (touch_block_if st c k) := by
  unfold touch_block_if
  split
  · exact frame_touch_block k hk h
  · exact h

theorem frame_make_id {T : List Nat} {st0 st : codegen_glsl} (h : frame T st0 st) :
    frame T st0 (make_id st).2 := frame_of_eq h rfl rfl rfl rfl

theorem frame_set_name {T : List Nat} {st0 st : codegen_glsl} (i : Nat) (n : std_string)
    (h : frame T st0 st) : frame T st0 (set_name st i n) := frame_of_eq h rfl rfl rfl rfl

theorem frame_scope_inc {T : List Nat} {st0 st : codegen_glsl} (h : frame T st0 st) :
    frame T st0 (scope_inc st) := by
  unfold scope_inc
  exact frame_of_eq h rfl rfl rfl rfl

theorem frame_scope_dec {T : List Nat} {st0 st : codegen_glsl} (h : frame T st0 st) :
    frame T st0 (scope_dec st) := by
  unfold scope_dec
  exact frame_of_eq h rfl rfl rfl rfl

theorem frame_touch_fallthrough {T : List Nat} {st0 st : codegen_glsl} (k : Nat)
    (h : frame T st0 st) : frame T st0 (touch_fallthrough st k) :=
  ⟨h.1, h.2.1, fun j => (fallthrough_of_touch_fallthrough st k j).trans (h.2.2.1 j),
    h.2.2.2.1, h.2.2.2.2⟩

theorem frame_trans {T : List Nat} {a b c : codegen_glsl} (h1 : frame T a b)
    (h2 : frame T b c) : frame T a c :=
  ⟨h2.1.trans h1.1, h2.2.1.trans h1.2.1, fun k => (h2.2.2.1 k).trans (h1.2.2.1 k),
    fun k hk => (h2.2.2.2.1 k hk).trans (h1.2.2.2.1 k hk),
    fun k hk => h2.2.2.2.2 k (h1.2.2.2.2 k hk)⟩

theorem frame_mono {T U : List Nat} {a b : codegen_glsl} (h : frame T a b)
    (hs : ∀ k ∈ T, k ∈ U) : frame U a b :=
  ⟨h.1, h.2.1, h.2.2.1, fun k hk => h.2.2.2.1 k (fun hm => hk (hs k hm)), h.2.2.2.2⟩

theorem frame_emitted {T : List Nat} (st : codegen_glsl) (s : std_string)
    (hcur : st._current_block ∈ T) : frame T st (append_code (make_id st).2 s) :=
  frame_append_code s hcur (frame_make_id (frame_refl T st))

theorem frame_foldl {α : Type} {T : List Nat} {st0 : codegen_glsl}
    (f : codegen_glsl → α → codegen_glsl)
    (hf : ∀ s a, frame T st0 s → frame T st0 (f s a)) :
    ∀ (l : List α) (st : codegen_glsl), frame T st0 st → frame T st0 (l.foldl f st) := by
  intro l
  induction l with
  | nil => intro st h; exact h
  | cons a l ih => intro st h; rw [List.foldl_cons]; exact ih _ (hf _ _ h)

theorem frame_define_struct {T : List Nat} (st : codegen_glsl) (loc : location)
    (info : struct_info) (hcur : st._current_block ∈ T) :
    frame T st (define_struct st loc info).2 := by
  unfold define_struct
  simp only []
  apply frame_append_code _ hcur
  apply frame_append_code_if _ _ hcur
  apply frame_foldl _ (fun s a hs => frame_append_code _ hcur hs)
  apply frame_append_code _ hcur
  exact frame_of_eq (frame_refl _ _) rfl rfl rfl rfl

theorem frame_define_texture (T : List Nat) (st : codegen_glsl) (info : texture_info) :
    frame T st (define_texture st info).2 :=
  frame_of_eq (frame_refl _ _) rfl rfl rfl rfl

theorem frame_define_sampler {T : List Nat} (st : codegen_glsl) (loc : location)
    (info : sampler_info) (hcur : st._current_block ∈ T) :
    frame T st (define_sampler st loc info).2 := by
  unfold define_sampler
  simp only []
  apply frame_set_name
  apply frame_append_code _ hcur
  exact frame_of_eq (frame_refl _ _) rfl rfl rfl rfl

theorem frame_define_uniform {T : List Nat} (st : codegen_glsl) (loc : location)
    (info : uniform_info) (r : Nat × codegen_glsl) (hcb : st._cbuffer_type_id ∈ T)
    (h : define_uniform st loc info = some r) :
    frame T st r.2 ∧ (r.2._blocks st._cbuffer_type_id).isSome = true := by
  unfold define_uniform at h
  simp only [] at h
  split at h
  · cases h
  · split at h
    · cases h
    · cases h
      refine ⟨?_, ?_⟩
      · refine @frame_of_eq T st _ _ (@frame_append_block T st _ st._cbuffer_type_id _ hcb
          (@frame_of_eq T st st _ (frame_refl _ _) rfl rfl rfl rfl)) rfl rfl rfl rfl
      · simp [append_block, map_set]

theorem frame_define_variable {T : List Nat} (st : codegen_glsl) (loc : location) (t : type)
    (name : Option std_string) (v : Nat) (hcur : st._current_block ∈ T) :
    frame T st (define_variable st loc t name v).2 := by
  unfold define_variable
  cases name with
  | none =>
    exact frame_append_code _ hcur (frame_append_code_if _ _ hcur (frame_append_code _ hcur
      (frame_append_code _ hcur (frame_make_id (frame_refl _ _)))))
  | some n =>
    exact frame_append_code _ hcur (frame_append_code_if _ _ hcur (frame_append_code _ hcur
      (frame_append_code _ hcur (frame_set_name _ _ (frame_make_id (frame_refl _ _))))))

theorem frame_define_function_param {T : List Nat} {st0 : codegen_glsl} (n : Nat)
    (st : codegen_glsl) (p : parameter_info) (i : Nat) (hcur : st0._current_block ∈ T)
    (h : frame T st0 st) : frame T st0 (define_function_param n st p i).1 := by
  unfold define_function_param
  exact frame_append_code_if _ _ hcur (frame_append_code _ hcur
    (frame_set_name _ _ (frame_make_id h)))

theorem frame_define_function {T : List Nat} (st : codegen_glsl) (loc : location)
    (info : function_info) (hcur : st._current_block ∈ T) :
    frame T st (define_function st loc info).2 := by
  have hf : ∀ (l : List (Nat × parameter_info)) (a : codegen_glsl × List parameter_info),
      frame T st a.1 →
      frame T st (l.foldl
        (fun (acc : codegen_glsl × List parameter_info) (ip : Nat × parameter_info) =>
          ((define_function_param info.parameter_list.length acc.1 ip.2 ip.1).1,
            acc.2 ++ [(define_function_param info.parameter_list.length acc.1 ip.2 ip.1).2]))
        a).1 := by
    intro l
    induction l with
    | nil => intro a h; exact h
    | cons x l ih =>
      intro a h
      rw [List.foldl_cons]
      exact ih _ (frame_define_function_param _ _ _ _ hcur h)
  unfold define_function define_function_params
  have h0 : frame T st (append_code (set_name (make_id st).2 (make_id st).1 info.unique_name)
      (write_location loc ++
        write_type (set_name (make_id st).2 (make_id st).1 info.unique_name) info.return_type
          false ++ S " " ++ info.unique_name ++ S "(")) :=
    frame_append_code _ hcur
      (frame_set_name (make_id st).1 info.unique_name (frame_make_id (frame_refl T st)))
  have h1 := frame_scope_inc (frame_append_code (S ")\n") hcur
    (hf info.parameter_list.enum (_, []) h0))
  exact frame_of_eq h1 rfl rfl rfl rfl


theorem frame_create_entry_point {T : List Nat} (st : codegen_glsl) (f : function_info)
    (b : Bool) (hcur : st._current_block ∈ T) : frame T st (create_entry_point st f b) := by
  unfold create_entry_point
  split
  · exact frame_refl _ _
  · have h1 : frame T st
        (append_code (append_code (scope_dec (scope_inc
          (append_code (append_code st (S "#ifdef ENTRY_POINT_" ++ f.unique_name ++ S "\n"))
            (S "void main()\n\x7b\n")))) (S "\x7d\n")) (S "#endif\n")) :=
      frame_append_code _ hcur (frame_append_code _ hcur
        (frame_scope_dec (frame_scope_inc (frame_append_code _ hcur
          (frame_append_code _ hcur (frame_refl _ _))))))
    exact frame_of_eq h1 rfl rfl rfl rfl

theorem frame_emit_call_intrinsic {T : List Nat} (st : codegen_glsl) (env : dialect)
    (loc : location) (f : Nat) (t : type) (args : List expression) (r : Nat × codegen_glsl)
    (hcur : st._current_block ∈ T) (h : emit_call_intrinsic st env loc f t args = some r) :
    frame T st r.2 := by
  unfold emit_call_intrinsic at h
  split at h
  · cases h
  · simp only [] at h
    split at h
    · cases h
    · cases h
      exact frame_append_code _ hcur (frame_append_code _ hcur
        (frame_append_code_if _ _ hcur (frame_append_code _ hcur
          (frame_make_id (frame_refl _ _)))))

theorem frame_store_op {T : List Nat} {st0 : codegen_glsl} (st st1 : codegen_glsl)
    (op : operation) (hcur : st0._current_block ∈ T) (hf : frame T st0 st)
    (h : store_op st op = some st1) : frame T st0 st1 := by
  unfold store_op at h
  split at h
  · cases h; exact hf
  · cases h; exact frame_append_code _ hcur hf
  · split at h
    · cases h
    · cases h; exact frame_append_code _ hcur (frame_append_code _ hcur hf)
  · split at h
    · cases h
    · cases h; exact frame_append_code _ hcur (frame_append_code _ hcur hf)

theorem frame_store_chain {T : List Nat} {st0 : codegen_glsl}
    (hcur : st0._current_block ∈ T) :
    ∀ (ops : List operation) (st st1 : codegen_glsl), frame T st0 st →
      store_chain st ops = some st1 → frame T st0 st1 := by
  intro ops
  induction ops with
  | nil => intro st st1 hf h; cases h; exact hf
  | cons op ops ih =>
    intro st st1 hf h
    unfold store_chain at h
    split at h
    · cases h
    · rename_i st2 hop
      exact ih _ _ (frame_store_op _ _ _ hcur hf hop) h

theorem frame_emit_store {T : List Nat} (st st1 : codegen_glsl) (chain : expression)
    (value : Nat) (hcur : st._current_block ∈ T) (h : emit_store st chain value = some st1) :
    frame T st st1 := by
  unfold emit_store at h
  simp only [] at h
  split at h
  · cases h
  · rename_i st2 hc
    cases h
    exact frame_append_code _ hcur
      (frame_store_chain hcur _ _ _ (frame_append_code _ hcur (frame_refl _ _)) hc)

theorem frame_emit_if {T : List Nat} (st st1 : codegen_glsl) (env : dialect) (loc : location)
    (c cb tb fb flags : Nat) (hcur : st._current_block ∈ T) (hcb : cb ∈ T) (htb : tb ∈ T)
    (hfb : fb ∈ T) (h : emit_if st env loc c cb tb fb flags = some st1) : frame T st st1 := by
  unfold emit_if at h
  split at h
  · cases h
  · cases h
    exact frame_append_code _ hcur (frame_touch_block _ hfb (frame_touch_block _ htb
      (frame_append_code_if _ _ hcur (frame_append_code_if _ _ hcur
        (frame_append_code _ hcur (frame_append_code _ hcur
          (frame_touch_block _ hcb (frame_refl _ _))))))))

theorem frame_emit_phi {T : List Nat} (st : codegen_glsl) (loc : location)
    (c cb tv tb fv fb : Nat) (t : type) (r : Nat × codegen_glsl)
    (hcur : st._current_block ∈ T) (hcb : cb ∈ T) (htb : tb ∈ T) (hfb : fb ∈ T)
    (h : emit_phi st loc c cb tv tb fv fb t = some r) : frame T st r.2 := by
  unfold emit_phi at h
  split at h
  · cases h
  · cases h
    exact frame_append_code _ hcur (frame_touch_block_if _ _ hfb (frame_touch_block_if _ _ htb
      (frame_touch_block _ hcb (frame_make_id (frame_refl _ _)))))

theorem frame_emit_loop_head {T : List Nat} {st0 : codegen_glsl} (st st1 : codegen_glsl)
    (c cb : Nat) (hcur : st0._current_block ∈ T) (hcb : cb ∈ T) (hf : frame T st0 st)
    (h : emit_loop_head st c cb = some st1) : frame T st0 st1 := by
  unfold emit_loop_head at h
  split at h
  · cases h; exact frame_append_code _ hcur hf
  · split at h
    · cases h
    · cases h; exact frame_append_code _ hcur (frame_touch_block _ hcb hf)

theorem frame_emit_loop_body {T : List Nat} {st0 : codegen_glsl} (st st1 : codegen_glsl)
    (c cb lb ctb : Nat) (hcur : st0._current_block ∈ T) (hcb : cb ∈ T) (hlb : lb ∈ T)
    (hctb : ctb ∈ T) (hf : frame T st0 st)
    (h : emit_loop_body st c cb lb ctb = some st1) : frame T st0 st1 := by
  unfold emit_loop_body at h
  split at h
  · split at h
    · cases h
    · cases h
      exact frame_append_code _ hcur (frame_touch_block _ hlb (frame_touch_block _ hctb hf))
  · split at h
    · cases h
    · cases h
      exact frame_append_code _ hcur
        (frame_touch_block _ hctb (frame_touch_block _ hlb (frame_touch_block _ hcb hf)))

theorem frame_emit_loop {T : List Nat} (st st1 : codegen_glsl) (env : dialect) (loc : location)
    (c pb cb lb ctb flags : Nat) (hcur : st._current_block ∈ T) (hpb : pb ∈ T) (hcb : cb ∈ T)
    (hlb : lb ∈ T) (hctb : ctb ∈ T)
    (h : emit_loop st env loc c pb cb lb ctb flags = some st1) : frame T st st1 := by
  unfold emit_loop at h
  split at h
  · cases h
  · simp only [] at h
    split at h
    · cases h
    · rename_i st2 h2
      have hf2 := frame_emit_loop_head _ _ _ _ hcur hcb
        (frame_append_code _ hcur (frame_touch_block _ hpb (frame_refl T st))) h2
      exact frame_emit_loop_body _ _ _ _ _ _ hcur hcb hlb hctb
        (frame_append_code_if _ _ hcur (frame_append_code_if _ _ hcur
          (frame_append_code _ hcur hf2))) h

theorem frame_emit_fallthrough {T : List Nat} {st0 : codegen_glsl}
    (hcur : st0._current_block ∈ T) :
    ∀ (l : List Nat) (st : codegen_glsl), (∀ t ∈ l, t ∈ T) → frame T st0 st →
      frame T st0 (emit_fallthrough st l) := by
  intro l
  induction l with
  | nil => intro st _ hf; exact hf
  | cons t l ih =>
    intro st hl hf
    rw [emit_fallthrough]
    exact ih _ (fun u hu => hl u (List.mem_cons_of_mem _ hu))
      (frame_append_code _ hcur (frame_touch_block _ (hl t (List.mem_cons_self _ _)) hf))

theorem frame_emit_switch_cases {T : List Nat} {st0 : codegen_glsl}
    (hcur : st0._current_block ∈ T) :
    ∀ (n : Nat) (l : List Nat) (st st1 : codegen_glsl), l.length ≤ n →
      (∀ k ∈ case_labels l, k ∈ T) →
      (∀ k ∈ case_labels l, ∀ t ∈ fallthrough_of st0 k, t ∈ T) →
      frame T st0 st → emit_switch_cases st l = some st1 → frame T st0 st1 := by
  intro n
  induction n with
  | zero =>
    intro l st st1 hl _ _ hf h
    have : l = [] := List.length_eq_zero.mp (Nat.le_zero.mp hl)
    subst this
    cases h; exact hf
  | succ n ih =>
    intro l st st1 hl hlab hft hf h
    match l, hl, hlab, hft, h with
    | [], _, _, _, h => cases h; exact hf
    | [_], _, _, _, h => cases h
    | a :: b :: rest, hl, hlab, hft, h =>
      rw [emit_switch_cases] at h
      split at h
      · cases h
      · have hlen : rest.length ≤ n := by
          simp only [List.length_cons] at hl; omega
        have hb : b ∈ T := hlab b (List.mem_cons_self _ _)
        have h1 : frame T st0 (append_code (touch_block st b)
            (write_scope st ++ S "case " ++ to_string a ++ S ": \x7b\n" ++ block_text st b)) :=
          frame_append_code _ hcur (frame_touch_block _ hb hf)
        have hft1 : ∀ t ∈ fallthrough_of (append_code (touch_block st b)
            (write_scope st ++ S "case " ++ to_string a ++ S ": \x7b\n" ++ block_text st b)) b,
            t ∈ T := by
          intro t ht
          rw [h1.2.2.1 b] at ht
          exact hft b (List.mem_cons_self _ _) t ht
        have h2 := frame_emit_fallthrough hcur _ _ hft1 (frame_touch_fallthrough b h1)
        exact ih rest _ _ hlen (fun k hk => hlab k (List.mem_cons_of_mem _ hk))
          (fun k hk => hft k (List.mem_cons_of_mem _ hk)) (frame_append_code _ hcur h2) h

theorem frame_emit_switch {T : List Nat} (st st1 : codegen_glsl) (env : dialect)
    (loc : location) (v b d : Nat) (cases : List Nat) (flags : Nat)
    (hcur : st._current_block ∈ T) (hb : b ∈ T) (hd : d ∈ T)
    (hlab : ∀ k ∈ case_labels cases, k ∈ T)
    (hft : ∀ k ∈ case_labels cases, ∀ t ∈ fallthrough_of st k, t ∈ T)
    (h : emit_switch st env loc v b d cases flags = some st1) : frame T st st1 := by
  unfold emit_switch at h
  split at h
  · cases h
  · simp only [] at h
    split at h
    · cases h
    · rename_i st7 h7
      have hopen : frame T st (scope_inc (emit_switch_open st env loc v b flags)) := by
        unfold emit_switch_open
        exact frame_scope_inc (frame_append_code _ hcur (frame_append_code_if _ _ hcur
          (frame_append_code_if _ _ hcur (frame_append_code _ hcur (frame_append_code _ hcur
            (frame_touch_block _ hb (frame_refl _ _)))))))
      have h7f := frame_emit_switch_cases hcur cases.length _ _ _ (le_refl _) hlab hft hopen h7
      cases h
      exact frame_append_code _ hcur (frame_scope_dec (frame_append_code_if _ _ hcur
        (frame_touch_block_if _ _ hd h7f)))

theorem frame_leave_function {T : List Nat} (st st1 : codegen_glsl)
    (hcur : st._current_block ∈ T) (hlast : st._last_block ∈ T)
    (h : leave_function st = some st1) : frame T st st1 := by
  unfold leave_function at h
  simp only [] at h
  split at h
  · cases h
  · cases h
    exact frame_scope_dec (frame_append_code _ hcur (frame_touch_block _ hlast (frame_refl _ _)))

/-! ### Frame of a step -/

theorem frame_step (env : dialect) (st st1 : codegen_glsl) (c : call)
    (hc : moves_cursor c = false) (h : step env st c = some st1) :
    frame (st._current_block :: call_blocks st c) st st1 := by
  have hcur : ∀ l : List Nat, st._current_block ∈ st._current_block :: l :=
    fun l => List.mem_cons_self _ _
  cases c with
  | define_struct loc info => cases h; exact frame_define_struct _ _ _ (hcur _)
  | define_texture info => cases h; exact frame_define_texture _ _ _
  | define_sampler loc info => cases h; exact frame_define_sampler _ _ _ (hcur _)
  | define_uniform loc info =>
    simp only [step, Option.map_eq_some'] at h
    obtain ⟨r, hr, rfl⟩ := h
    exact (frame_define_uniform _ _ _ _ (by simp [call_blocks]) hr).1
  | define_variable loc t name v => cases h; exact frame_define_variable _ _ _ _ _ (hcur _)
  | define_function loc info => cases h; exact frame_define_function _ _ _ (hcur _)
  | create_block => cases h; exact frame_make_id (frame_refl _ _)
  | create_entry_point f b => cases h; exact frame_create_entry_point _ _ _ (hcur _)
  | emit_load chain =>
    simp only [step, Option.map_eq_some'] at h
    obtain ⟨r, hr, rfl⟩ := h
    rw [emit_load_eq] at hr
    obtain ⟨_, _, rfl⟩ := Option.map_eq_some'.mp hr
    exact frame_emitted _ _ (hcur _)
  | emit_store chain v => exact frame_emit_store _ _ _ _ (hcur _) h
  | emit_constant t d =>
    simp only [step, Option.map_eq_some'] at h
    obtain ⟨r, hr, rfl⟩ := h
    rw [emit_constant_eq] at hr
    split at hr
    · obtain ⟨_, _, rfl⟩ := Option.map_eq_some'.mp hr
      exact frame_emitted _ _ (hcur _)
    · cases hr
  | emit_unary_op loc op t v =>
    simp only [step, Option.map_eq_some'] at h
    obtain ⟨r, hr, rfl⟩ := h
    rw [emit_unary_op_eq] at hr
    obtain ⟨_, _, rfl⟩ := Option.map_eq_some'.mp hr
    exact frame_emitted _ _ (hcur _)
  | emit_binary_op loc op t1 t2 a b =>
    simp only [step, Option.map_eq_some'] at h
    obtain ⟨r, hr, rfl⟩ := h
    rw [emit_binary_op_eq] at hr
    obtain ⟨_, _, rfl⟩ := Option.map_eq_some'.mp hr
    exact frame_emitted _ _ (hcur _)
  | emit_ternary_op loc op t a b c =>
    simp only [step, Option.map_eq_some'] at h
    obtain ⟨r, hr, rfl⟩ := h
    rw [emit_ternary_op_eq] at hr
    split at hr
    · cases hr; exact frame_emitted _ _ (hcur _)
    · cases hr
  | emit_call loc f t args =>
    simp only [step, Option.map_eq_some'] at h
    obtain ⟨r, hr, rfl⟩ := h
    rw [emit_call_eq] at hr
    split at hr
    · cases hr; exact frame_emitted _ _ (hcur _)
    · cases hr
  | emit_call_intrinsic loc f t args =>
    simp only [step, Option.map_eq_some'] at h
    obtain ⟨r, hr, rfl⟩ := h
    exact frame_emit_call_intrinsic _ _ _ _ _ _ _ (hcur _) hr
  | emit_construct loc t args =>
    simp only [step, Option.map_eq_some'] at h
    obtain ⟨r, hr, rfl⟩ := h
    by_cases hargs : args.all (fun arg =>
        (arg.type.is_scalar || t.is_array) && (arg.ops.isEmpty && decide (arg.base ≠ 0))) = true
    · rw [emit_construct_eq st loc t args hargs] at hr
      cases hr
      exact frame_emitted _ _ (hcur _)
    · unfold emit_construct at hr
      rw [if_pos hargs] at hr
      cases hr
  | emit_if loc c cb tb fb flags =>
    exact frame_emit_if _ _ _ _ _ _ _ _ _ (hcur _) (by simp [call_blocks])
      (by simp [call_blocks]) (by simp [call_blocks]) h
  | emit_phi loc c cb tv tb fv fb t =>
    simp only [step, Option.map_eq_some'] at h
    obtain ⟨r, hr, rfl⟩ := h
    exact frame_emit_phi _ _ _ _ _ _ _ _ _ _ (hcur _) (by simp [call_blocks])
      (by simp [call_blocks]) (by simp [call_blocks]) hr
  | emit_loop loc c pb cb lb ctb flags =>
    exact frame_emit_loop _ _ _ _ _ _ _ _ _ _ (hcur _) (by simp [call_blocks])
      (by simp [call_blocks]) (by simp [call_blocks]) (by simp [call_blocks]) h
  | emit_switch loc v b d cases flags =>
    refine frame_emit_switch _ _ _ _ _ _ _ _ _ (hcur _) (by simp [call_blocks])
      (by simp [call_blocks]) ?_ ?_ h
    · intro k hk
      simp only [call_blocks, List.mem_cons, List.mem_append]
      exact Or.inr (Or.inr (Or.inr (Or.inl hk)))
    · intro k hk t ht
      simp only [call_blocks, List.mem_cons, List.mem_append, List.mem_flatten, List.mem_map]
      exact Or.inr (Or.inr (Or.inr (Or.inr ⟨_, ⟨k, hk, rfl⟩, ht⟩)))
  | set_block id => cases hc
  | enter_block id => cases hc
  | leave_block_and_kill => cases hc
  | leave_block_and_return v => cases hc
  | leave_block_and_switch => cases hc
  | leave_block_and_branch t f => cases hc
  | leave_block_and_branch_conditional => cases hc
  | leave_function =>
    exact frame_leave_function _ _ (hcur _) (by simp [call_blocks]) h

/-! ### The result module -/

theorem cbuffer_step (env : dialect) (st st1 : codegen_glsl) (c : call)
    (h : step env st c = some st1) : st1._cbuffer_type_id = st._cbuffer_type_id := by
  have hd := congrArg (fun d => d._cbuffer_type_id) (decl_view_step env st st1 c h).1
  refine hd.trans ?_
  cases c <;> try rfl
  case define_uniform loc info =>
    simp only [decl_after]
    split <;> rfl

theorem uniforms_step (env : dialect) (st st1 : codegen_glsl) (c : call)
    (h : step env st c = some st1) :
    st1._uniforms.map (fun u => u.name) =
        st._uniforms.map (fun u => u.name) ++ (declared_uniform c).toList ∧
      (is_define_uniform c = true → st1._uniforms ≠ []) ∧
      (is_define_uniform c = false → st1._uniforms = st._uniforms) := by
  cases c with
  | define_uniform loc info =>
    simp only [step, Option.map_eq_some'] at h
    obtain ⟨r, hr, rfl⟩ := h
    obtain ⟨_, off, _, hd⟩ := decl_view_define_uniform st loc info r hr
    have hu := congrArg (fun d => d._uniforms) hd
    have hu1 : r.2._uniforms = st._uniforms ++
        [{ info with size := uniform_size info.type, offset := off,
                     member_index := u32 st._uniforms.length }] := hu
    refine ⟨?_, fun _ => ?_, fun hc => ?_⟩
    · rw [hu1, List.map_append]; rfl
    · rw [hu1]; simp
    · cases hc
  | _ =>
    have hd := congrArg (fun d => d._uniforms) (decl_view_step env st st1 _ h).1
    have hu : st1._uniforms = st._uniforms := hd
    refine ⟨?_, fun hc => ?_, fun _ => hu⟩
    · rw [hu]; simp [declared_uniform]
    · cases hc

theorem textures_step (env : dialect) (st st1 : codegen_glsl) (c : call)
    (h : step env st c = some st1) :
    st1._textures.map (fun t => t.unique_name) =
      st._textures.map (fun t => t.unique_name) ++ (declared_texture c).toList := by
  have hd := congrArg (fun d => d._textures) (decl_view_step env st st1 c h).1
  have hu : st1._textures = (decl_after (decl_view st) c)._textures := hd
  rw [hu]
  cases c with
  | define_texture info => simp [decl_after, declared_texture, decl_view, alloc]
  | define_uniform loc info =>
    simp only [decl_after]
    split <;> simp [declared_texture, decl_view]
  | _ => simp [decl_after, declared_texture, decl_view, alloc]

theorem declared_names_run (env : dialect) :
    ∀ (calls : List call) (st st1 : codegen_glsl), run env st calls = some st1 →
      st1._textures.map (fun t => t.unique_name) =
          st._textures.map (fun t => t.unique_name) ++ calls.filterMap declared_texture ∧
        st1._uniforms.map (fun u => u.name) =
          st._uniforms.map (fun u => u.name) ++ calls.filterMap declared_uniform := by
  intro calls
  induction calls with
  | nil => intro st st1 h; cases h; simp
  | cons c calls ih =>
    intro st st1 h
    rw [run] at h
    split at h
    · cases h
    · rename_i st2 hstep
      obtain ⟨h1, h2⟩ := ih st2 st1 h
      rw [h1, h2, textures_step env st st2 c hstep, (uniforms_step env st st2 c hstep).1]
      constructor
      · cases hd : declared_texture c <;> simp [List.filterMap_cons, hd]
      · cases hd : declared_uniform c <;> simp [List.filterMap_cons, hd]

theorem call_blocks_mem (st : codegen_glsl) (c : call) (k : Nat) (hk : k ∈ call_blocks st c) :
    (is_define_uniform c = true ∧ k = st._cbuffer_type_id) ∨ k ∈ block_args c ∨
      k = st._last_block ∨ ∃ j, k ∈ fallthrough_of st j := by
  cases c with
  | define_uniform loc info =>
    exact Or.inl ⟨rfl, List.mem_singleton.mp hk⟩
  | emit_if loc c cb tb fb flags => exact Or.inr (Or.inl hk)
  | emit_phi loc c cb tv tb fv fb t => exact Or.inr (Or.inl hk)
  | emit_loop loc c pb cb lb ctb flags => exact Or.inr (Or.inl hk)
  | emit_switch loc v b d cases flags =>
    simp only [call_blocks, List.mem_cons, List.mem_append, List.mem_flatten, List.mem_map] at hk
    rcases hk with h1 | h1 | h1 | ⟨l, ⟨j, _, rfl⟩, h2⟩
    · exact Or.inr (Or.inl (by simp [block_args, h1]))
    · exact Or.inr (Or.inl (by simp [block_args, h1]))
    · exact Or.inr (Or.inl (by simp [block_args, h1]))
    · exact Or.inr (Or.inr (Or.inr ⟨j, h2⟩))
  | leave_function => exact Or.inr (Or.inr (Or.inl (List.mem_singleton.mp hk)))
  | _ => exact absurd hk (List.not_mem_nil k)

theorem globals_apart_of {st st1 : codegen_glsl} (hinv : globals_apart st)
    (hc : st1._cbuffer_type_id = st._cbuffer_type_id) (hcur : st1._current_block ≠ 1)
    (hlast : st1._last_block ≠ 1) (hft : ∀ k, 1 ∉ fallthrough_of st1 k)
    (hb : st1._blocks 1 = st._blocks 1) (hu : st1._uniforms = st._uniforms) :
    globals_apart st1 :=
  ⟨hc.trans hinv.1, hcur, hlast, hft, by rw [hb, hu]; exact hinv.2.2.2.2⟩

theorem globals_apart_leave {st : codegen_glsl} (hinv : globals_apart st) (s : std_string) :
    globals_apart (set_block (append_code st s) 0).2 := by
  refine globals_apart_of hinv rfl (show (0 : Nat) ≠ 1 by decide) hinv.2.1 hinv.2.2.2.1 ?_ rfl
  show map_set st._blocks st._current_block _ 1 = st._blocks 1
  unfold map_set
  rw [if_neg (fun e => hinv.2.1 e.symm)]

theorem globals_apart_step (env : dialect) (st st1 : codegen_glsl) (c : call)
    (hinv : globals_apart st) (hwf : 1 ∉ block_args c) (h : step env st c = some st1) :
    globals_apart st1 := by
  have hsame : globals_apart (set_block st 0).2 :=
    globals_apart_of hinv rfl (show (0 : Nat) ≠ 1 by decide) hinv.2.1 hinv.2.2.2.1 rfl rfl
  by_cases hm : moves_cursor c = true
  · cases c with
    | set_block id =>
      cases h
      exact globals_apart_of hinv rfl
        (fun e => hwf (by simp [block_args]; exact e.symm)) hinv.2.1 hinv.2.2.2.1 rfl rfl
    | enter_block id =>
      cases h
      exact globals_apart_of hinv rfl
        (fun e => hwf (by simp [block_args]; exact e.symm)) hinv.2.2.1 hinv.2.2.2.1 rfl rfl
    | leave_block_and_kill =>
      cases h
      unfold leave_block_and_kill
      split
      · exact hinv
      · exact globals_apart_leave hinv _
    | leave_block_and_return v =>
      cases h
      unfold leave_block_and_return
      split
      · exact hinv
      · exact globals_apart_leave hinv _
    | leave_block_and_switch =>
      cases h
      unfold leave_block_and_switch
      split
      · exact hinv
      · exact hsame
    | leave_block_and_branch t f =>
      cases h
      unfold leave_block_and_branch
      split
      · exact hinv
      · simp only []
        split
        · exact globals_apart_leave hinv _
        · split
          · exact globals_apart_leave hinv _
          · split
            · refine globals_apart_of hinv rfl (show (0 : Nat) ≠ 1 by decide) hinv.2.1 ?_ rfl
                rfl
              intro k hk
              have hk1 : 1 ∈ fallthrough_of (push_fallthrough st t) k := hk
              unfold fallthrough_of push_fallthrough map_set at hk1
              simp only [] at hk1
              split at hk1
              · simp only [Option.getD_some, List.mem_append, List.mem_singleton] at hk1
                rcases hk1 with h1 | h1
                · exact hinv.2.2.2.1 _ h1
                · exact hwf (by simp [block_args]; exact h1)
              · exact hinv.2.2.2.1 k hk1
            · exact hsame
    | leave_block_and_branch_conditional =>
      cases h
      unfold leave_block_and_branch_conditional
      split
      · exact hinv
      · exact hsame
    | _ => cases hm
  · have hm1 : moves_cursor c = false := by
      cases hb : moves_cursor c
      · rfl
      · exact absurd hb hm
    have hfr := frame_step env st st1 c hm1 h
    have hcb := cbuffer_step env st st1 c h
    obtain ⟨_, hu1, hu2⟩ := uniforms_step env st st1 c h
    have hft : ∀ k, 1 ∉ fallthrough_of st1 k := fun k => by
      rw [hfr.2.2.1 k]; exact hinv.2.2.2.1 k
    refine ⟨hcb.trans hinv.1, hfr.1 ▸ hinv.2.1, hfr.2.1 ▸ hinv.2.2.1, hft, ?_⟩
    cases hdu : is_define_uniform c
    · rw [hu2 hdu]
      have hnot : 1 ∉ st._current_block :: call_blocks st c := by
        intro hmem
        rcases List.mem_cons.mp hmem with h1 | h1
        · exact hinv.2.1 h1.symm
        · rcases call_blocks_mem st c 1 h1 with ⟨h2, _⟩ | h2 | h2 | ⟨j, h2⟩
          · rw [hdu] at h2; cases h2
          · exact hwf h2
          · exact hinv.2.2.1 h2.symm
          · exact hinv.2.2.2.1 j h2
      rw [hfr.2.2.2.1 1 hnot]
      exact hinv.2.2.2.2
    · have hne := hu1 hdu
      refine ⟨fun _ => hne, fun _ => ?_⟩
      cases c with
      | define_uniform loc info =>
        simp only [step, Option.map_eq_some'] at h
        obtain ⟨r, hr, rfl⟩ := h
        have h2 := (frame_define_uniform (T := [st._cbuffer_type_id]) st loc info r
          (List.mem_singleton.mpr rfl) hr).2
        rw [hinv.1] at h2
        exact h2
      | _ => cases hdu

theorem globals_apart_run (env : dialect) :
    ∀ (calls : List call) (st st1 : codegen_glsl), globals_apart st →
      (∀ c ∈ calls, 1 ∉ block_args c) → run env st calls = some st1 → globals_apart st1 := by
  intro calls
  induction calls with
  | nil => intro st st1 hinv _ h; cases h; exact hinv
  | cons c calls ih =>
    intro st st1 hinv hwf h
    rw [run] at h
    split at h
    · cases h
    · rename_i st2 hstep
      exact ih st2 st1
        (globals_apart_step env st st2 c hinv (hwf c (List.mem_cons_self _ _)) hstep)
        (fun d hd => hwf d (List.mem_cons_of_mem _ hd)) h

theorem globals_apart_construct : globals_apart construct := by
  refine ⟨rfl, by decide, by decide, fun k hk => ?_, ?_⟩
  · exact absurd hk (List.not_mem_nil 1)
  · constructor
    · intro h; cases h
    · intro h; exact absurd rfl h

/-- Claim C18 on a fresh backend, on a backend on which only the two sample
uniforms were declared, and on a backend on which only a texture was declared.
The runs return, but the block store has no key 0, so `_blocks.at(0)` throws
and `write_result` does not return, although the read of the `$Globals` block
one statement earlier is guarded by `_blocks.count`. After the two uniforms
the block store does hold the text of the `$Globals` block. -/
theorem write_result_fails_on_fresh_backend :
    run sample_dialect construct [] = some construct ∧
      write_result construct empty_module = none ∧
      (run sample_dialect construct (uniform_calls sample_uniforms)).isSome = true ∧
      ((run sample_dialect construct (uniform_calls sample_uniforms)).map
          (fun st => (st._blocks 1, st._blocks 0))) =
        some (some (S "#line 1\nvec4 _Globals_a;\n#line 2\nfloat _Globals_b;\n"), none) ∧
      (run sample_dialect construct (uniform_calls sample_uniforms)).bind
        (fun st => write_result st empty_module) = none ∧
      (run sample_dialect construct [.define_texture { id := 0, unique_name := S "t" }]).bind
        (fun st => write_result st empty_module) = none := by
  refine ⟨rfl, by decide, by decide, by decide, by decide, by decide⟩

/-- When the caller enters the id 1 of `$Globals` as a block, `write_result` writes
the `_Globals` buffer although no uniform was declared. -/
theorem write_result_header_without_uniform :
    ((run sample_dialect construct sample_misuse_calls).getD construct)._uniforms = [] ∧
      ((run sample_dialect construct sample_misuse_calls).bind
          (fun st => write_result st empty_module)).map (fun m => m.hlsl) =
        some (S "layout(std140, binding = 0) uniform _Globals \x7b\n#line 2\nint x;\n\x7d;\n" ++
          S "#line 1\nint g;\n") := by
  refine ⟨by decide, by decide⟩

/-- The result of `write_result`. It returns exactly when the block store holds a text
for block 0. For a state reached from a fresh backend by calls that never pass
the id 1 of `$Globals` as a block id, and with a text for block 0, the source
text it appends is the declaration of the `_Globals` buffer around the text
accumulated for `$Globals` if at least one uniform was declared and nothing
otherwise, followed by the text of block 0; the sampler, texture, uniform,
technique and entry-point lists of the module are those of the backend, and
the samplers, textures and uniforms are the declared ones in declaration
order. -/
theorem write_result_text (env : dialect) (calls : List call) (st : codegen_glsl)
    (m0 : module) (hrun : run env construct calls = some st)
    (hwf : ∀ c ∈ calls, 1 ∉ block_args c) (h0 : (st._blocks 0).isSome = true) :
    (∀ s : codegen_glsl, (write_result s m0).isSome = (s._blocks 0).isSome) ∧
      ∃ m, write_result st m0 = some m ∧
        m.hlsl = m0.hlsl ++
          (if st._uniforms ≠ [] then
            S "layout(std140, binding = 0) uniform _Globals \x7b\n" ++
              block_text st st._cbuffer_type_id ++ S "\x7d;\n"
           else []) ++ block_text st 0 ∧
        m.samplers = st._samplers ∧ m.textures = st._textures ∧ m.uniforms = st._uniforms ∧
        m.techniques = st._techniques ∧ m.entry_points = st._entry_points ∧
        st._samplers.map (fun x => x.unique_name) = calls.filterMap declared_sampler ∧
        st._textures.map (fun x => x.unique_name) = calls.filterMap declared_texture ∧
        st._uniforms.map (fun x => x.name) = calls.filterMap declared_uniform := by
  constructor
  · intro s
    unfold write_result
    simp only []
    cases s._blocks 0 <;> rfl
  · have hinv := globals_apart_run env calls construct st globals_apart_construct hwf hrun
    obtain ⟨ht, hu⟩ := declared_names_run env calls construct st hrun
    have hs := sampler_names_run env calls construct st hrun
    obtain ⟨b0, hb0⟩ := Option.isSome_iff_exists.mp h0
    have hbt0 : block_text st 0 = b0 := by unfold block_text; rw [hb0]; rfl
    have hlists : st._samplers.map (fun x => x.unique_name) = calls.filterMap declared_sampler ∧
        st._textures.map (fun x => x.unique_name) = calls.filterMap declared_texture ∧
        st._uniforms.map (fun x => x.name) = calls.filterMap declared_uniform :=
      ⟨hs.trans rfl, ht.trans rfl, hu.trans rfl⟩
    by_cases hne : st._uniforms ≠ []
    · obtain ⟨b1, hb1⟩ := Option.isSome_iff_exists.mp (hinv.2.2.2.2.mpr hne)
      have hbt1 : block_text st st._cbuffer_type_id = b1 := by
        unfold block_text; rw [hinv.1, hb1]; rfl
      refine ⟨_, by unfold write_result; rw [hinv.1, hb1, hb0], ?_, rfl, rfl, rfl, rfl, rfl,
        hlists⟩
      rw [if_pos hne, hbt1, hbt0]
    · have hb1 : st._blocks 1 = none := by
        cases hb : st._blocks 1 with
        | none => rfl
        | some b => exact absurd (hinv.2.2.2.2.mp (by rw [hb]; rfl)) hne
      refine ⟨_, by unfold write_result; rw [hinv.1, hb1, hb0], ?_, rfl, rfl, rfl, rfl, rfl,
        hlists⟩
      rw [if_neg hne, hbt0, List.append_nil]

/-- The result of `write_result` after a texture, a sampler, two uniforms and a
global variable. -/
theorem write_result_text_witness :
    ∃ m, write_result ((run sample_dialect construct sample_module_calls).getD construct)
        empty_module = some m ∧
      m.hlsl =
        S "layout(std140, binding = 0) uniform _Globals \x7b\n" ++
        S "#line 2\nvec4 _Globals_a;\n#line 3\nfloat _Globals_b;\n" ++ S "\x7d;\n" ++
        S "#line 1\nlayout(binding = 0) uniform sampler2D s0;\n#line 4\nint g;\n" ∧
      m.samplers.map (fun x => x.unique_name) = [S "s0"] ∧
      m.textures.map (fun x => x.unique_name) = [S "t"] ∧
      m.uniforms.map (fun x => x.name) = [S "a", S "b"] := by
  obtain ⟨_, m, hm, htext, hs, ht, hu, _, _, hsn, htn, hun⟩ :=
    write_result_text sample_dialect sample_module_calls
      ((run sample_dialect construct sample_module_calls).getD construct) empty_module rfl
      (by decide) (by decide)
  exact ⟨m, hm, htext.trans (by decide), by rw [hs, hsn]; decide, by rw [ht, htn]; decide,
    by rw [hu, hun]; decide⟩

/-! ### Pre-test loops -/

/-- Claim C19 on the loop `while (ok_8)`. The condition block consists of the one
declaration line `const bool _8 = ok_8;` of the condition value 8. The text
that `emit_loop` appends keeps the line without `const` in front of the loop,
but inside the loop body the line is `_8;` and not the assignment
`_8 = ok_8;`: the search for the name `_8` ends in the operand `ok_8`. -/
theorem emit_loop_loses_assignment :
    (run sample_dialect construct sample_while_calls).isSome = true ∧
    block_text sample_while_state 3 = S "#line 3\nconst bool _8 = ok_8;\n" ∧
    id_to_name sample_while_state 8 = S "_8" ∧
    (emit_loop sample_while_state sample_dialect ⟨5⟩ 8 2 3 4 5 0).map
        (fun st => block_text st 6) =
      some (S "#line 3\nbool _8 = ok_8;\n" ++ S "#line 5\nwhile (_8)\n\x7b\n" ++
        S "#line 3\n_8;\n" ++ S "\x7d\n") ∧
    initializer_to_assignment (S "#line 3\nconst bool _8 = ok_8;\n") (S "_8") =
      some (S "#line 3\n_8;\n") := by
  decide

/-! ### Literals of the constants -/

theorem digitChar_value (k : Nat) (hk : k < 10) :
    (Nat.digitChar k).isDigit = true ∧ (Nat.digitChar k).toNat - 48 = k := by
  interval_cases k <;> decide

theorem parse_digits_toDigitsCore : ∀ (fuel n : Nat) (ds : std_string), n < fuel →
    ∃ k, ∀ a, parse_digits a (Nat.toDigitsCore 10 fuel n ds) =
      parse_digits (a * 10 ^ k + n) ds := by
  intro fuel
  induction fuel with
  | zero => intro n ds h; omega
  | succ fuel ih =>
    intro n ds h
    have hd := digitChar_value (n % 10) (Nat.mod_lt n (by decide))
    rw [Nat.toDigitsCore]
    split
    · rename_i h0
      refine ⟨1, fun a => ?_⟩
      rw [parse_digits, if_pos hd.1, hd.2]
      have : n % 10 = n := by omega
      rw [this, Nat.pow_one]
    · rename_i h0
      obtain ⟨k, hk⟩ := ih (n / 10) (Nat.digitChar (n % 10) :: ds) (by omega)
      refine ⟨k + 1, fun a => ?_⟩
      rw [hk a, parse_digits, if_pos hd.1, hd.2]
      congr 1
      rw [Nat.pow_succ, ← Nat.mul_assoc]
      have hdm := Nat.div_add_mod n 10
      clear hd hk
      generalize a * 10 ^ k = x
      omega

theorem toDigitsCore_ne_nil (fuel n : Nat) (ds : std_string) :
    Nat.toDigitsCore 10 (fuel + 1) n ds ≠ [] := by
  rw [Nat.toDigitsCore]
  split
  · exact List.cons_ne_nil _ _
  · intro h
    have hl := congrArg List.length h
    have := Nat.toDigitsCore_lens_eq 10 fuel (n / 10) (Nat.digitChar (n % 10)) ds
    rw [this] at hl
    simp at hl

/-- Reading the decimal rendering of a number gives the number. -/
theorem parse_nat_to_string (n : Nat) : parse_nat (to_string n) = some n := by
  unfold parse_nat to_string Nat.toDigits
  rw [if_neg (toDigitsCore_ne_nil n n [])]
  obtain ⟨k, hk⟩ := parse_digits_toDigitsCore (n + 1) n [] (by omega)
  rw [hk 0]
  simp [parse_digits]

theorem parse_int_of_digits (s : std_string) (h : ∀ c ∈ s, c ∈ S "0123456789") :
    parse_int s = (parse_nat s).map (fun (n : Nat) => Int.ofNat n) := by
  cases s with
  | nil => rfl
  | cons c cs =>
    have hc : c ≠ '-' := by
      intro e
      have := h c (List.mem_cons_self _ _)
      rw [e] at this
      exact absurd this (by decide)
    unfold parse_int
    split
    · rename_i ds heq
      exact absurd (List.cons.inj heq).1 hc
    · rfl

theorem int_word_as_int32 (w : Nat) (hw : w < 2 ^ 32) : int_word (as_int32 w) = w := by
  unfold int_word as_int32
  split <;> omega

/-- Reading the literal of an `int` component gives the component word. -/
theorem parse_int_to_string_int (w : Nat) (hw : w < 2 ^ 32) :
    (parse_int (to_string_int (as_int32 w))).map int_word = some w := by
  have hword := int_word_as_int32 w hw
  have e : Nat.toDigits 10 (as_int32 w).natAbs = to_string (as_int32 w).natAbs := rfl
  unfold to_string_int
  split
  · rename_i hneg
    have h1 : parse_int ('-' :: Nat.toDigits 10 (as_int32 w).natAbs) =
        (parse_nat (Nat.toDigits 10 (as_int32 w).natAbs)).map
          (fun (n : Nat) => -Int.ofNat n) := rfl
    have h2 : -Int.ofNat (as_int32 w).natAbs = as_int32 w := by
      show -((as_int32 w).natAbs : Int) = as_int32 w
      omega
    rw [h1, e, parse_nat_to_string, Option.map_some', Option.map_some', h2, hword]
  · rename_i hneg
    have h2 : Int.ofNat (as_int32 w).natAbs = as_int32 w := by
      show ((as_int32 w).natAbs : Int) = as_int32 w
      omega
    rw [e, parse_int_of_digits _ (fun c hc => to_string_mem _ c hc), parse_nat_to_string,
      Option.map_some', Option.map_some', h2, hword]

/-- Reading the literal that `write_constant` renders for a `uint`, `int` or `bool`
component gives the component word, for `bool` reduced to 0 or 1. -/
theorem parse_word_literal (env : dialect) (t : type) (w : Nat) (hw : w < 2 ^ 32) :
    (t.base = .t_uint → parse_word t.base (component_literal env t w) = some w) ∧
      (t.base = .t_int → parse_word t.base (component_literal env t w) = some w) ∧
      (t.base = .t_bool →
        parse_word t.base (component_literal env t w) = some (if w ≠ 0 then 1 else 0)) := by
  refine ⟨fun hb => ?_, fun hb => ?_, fun hb => ?_⟩
  · unfold component_literal parse_word
    rw [hb]
    exact parse_nat_to_string w
  · unfold component_literal parse_word
    rw [hb]
    exact parse_int_to_string_int w hw
  · unfold component_literal parse_word
    rw [hb]
    simp only []
    by_cases h0 : w ≠ 0
    · rw [if_pos h0, if_pos h0, if_pos rfl]
    · rw [if_neg h0, if_neg h0, if_neg (by decide), if_pos rfl]

theorem round_half_even_near (a b : Nat) (hb : 0 < b) :
    2 * (round_half_even a b * b - a) ≤ b ∧ 2 * (a - round_half_even a b * b) ≤ b := by
  have hdm : b * (a / b) + a % b = a := Nat.div_add_mod a b
  have hlt : a % b < b := Nat.mod_lt a hb
  have hc : a / b * b = b * (a / b) := Nat.mul_comm _ _
  have hc1 : (a / b + 1) * b = b * (a / b) + b := by rw [Nat.add_mul, Nat.one_mul, hc]
  unfold round_half_even
  split
  · rw [hc]; omega
  · split
    · rw [hc1]; omega
    · split
      · rw [hc]; omega
      · rw [hc1]; omega

theorem float_micro_pos (w : Nat) : 0 < (float_micro w).2 := by
  unfold float_micro
  by_cases h : 150 ≤ (if float_exponent w = 0 then 1 else float_exponent w)
  · simp only [h, if_true]; exact Nat.one_pos
  · simp only [h, if_false]; exact Nat.pow_pos (show 0 < 2 by decide)

theorem take_drop_while_append (p : Char → Bool) (x : Char) (hx : p x = false) :
    ∀ (l r : std_string), (∀ c ∈ l, p c = true) →
      (l ++ x :: r).takeWhile p = l ∧ (l ++ x :: r).dropWhile p = x :: r
  | [], r, _ => by simp [List.takeWhile, List.dropWhile, hx]
  | c :: l, r, h => by
    have hc : p c = true := h c (List.mem_cons_self _ _)
    obtain ⟨h1, h2⟩ := take_drop_while_append p x hx l r
      (fun d hd => h d (List.mem_cons_of_mem _ hd))
    rw [List.cons_append, List.takeWhile_cons, List.dropWhile_cons, if_pos hc, if_pos hc, h1, h2]
    exact ⟨rfl, rfl⟩

theorem parse_digits_zeros (s : std_string) :
    ∀ k : Nat, parse_digits 0 (List.replicate k '0' ++ s) = parse_digits 0 s
  | 0 => rfl
  | k + 1 => by
    rw [List.replicate_succ, List.cons_append, parse_digits, if_pos (by decide)]
    exact parse_digits_zeros s k

theorem to_string_ne_nil (n : Nat) : to_string n ≠ [] := toDigitsCore_ne_nil n n []

theorem to_string_length (n e : Nat) (h : n < 10 ^ e) (he : 0 < e) :
    (to_string n).length ≤ e :=
  Nat.toDigitsCore_length 10 (by decide) (n + 1) n e h he

theorem parse_nat_pad_zeros (n : Nat) (h : n < 10 ^ 6) :
    parse_nat (pad_zeros 6 (to_string n)) = some n ∧
      (pad_zeros 6 (to_string n)).length = 6 := by
  have hlen := to_string_length n 6 h (by decide)
  have hne := to_string_ne_nil n
  have hp := parse_nat_to_string n
  unfold parse_nat at hp
  rw [if_neg hne] at hp
  constructor
  · unfold parse_nat pad_zeros
    rw [if_neg (by simp [hne]), parse_digits_zeros, hp]
  · unfold pad_zeros
    rw [List.length_append, List.length_replicate]
    omega

/-- Reading the rendering of a finite `float` gives its sign and its magnitude
rounded to six digits after the decimal point. -/
theorem parse_fixed6_to_string_float (w : Nat) (hfin : float_exponent w ≠ 255) :
    parse_fixed6 (to_string_float w) = some (float_negative w, fixed6 w) := by
  have hpoint : ∀ c ∈ to_string (fixed6 w / 10 ^ 6), (c != '.') = true := by
    intro c hc
    have hd := to_string_mem _ c hc
    revert hd
    generalize c = d
    intro hd
    have : ∀ x ∈ S "0123456789", (x != '.') = true := by decide
    exact this d hd
  obtain ⟨ht, hdw⟩ := take_drop_while_append (fun c => c != '.') '.' (by decide)
    (to_string (fixed6 w / 10 ^ 6)) (pad_zeros 6 (to_string (fixed6 w % 10 ^ 6))) hpoint
  obtain ⟨hp, hl⟩ := parse_nat_pad_zeros (fixed6 w % 10 ^ 6) (Nat.mod_lt _ (by decide))
  have hval : fixed6 w / 10 ^ 6 * 10 ^ 6 + fixed6 w % 10 ^ 6 = fixed6 w := by
    rw [Nat.mul_comm]; exact Nat.div_add_mod _ _
  have hbody : to_string (fixed6 w / 10 ^ 6) ++ S "." ++
      pad_zeros 6 (to_string (fixed6 w % 10 ^ 6)) =
      to_string (fixed6 w / 10 ^ 6) ++ '.' :: pad_zeros 6 (to_string (fixed6 w % 10 ^ 6)) := by
    rw [List.append_assoc]; rfl
  unfold to_string_float
  rw [if_neg hfin, hbody]
  cases hneg : float_negative w
  · have hhead : ((to_string (fixed6 w / 10 ^ 6) ++
        '.' :: pad_zeros 6 (to_string (fixed6 w % 10 ^ 6))).head? = some '-') = False := by
      cases hts : to_string (fixed6 w / 10 ^ 6) with
      | nil => exact absurd hts (to_string_ne_nil _)
      | cons c cs =>
        have hc := hpoint c (by rw [hts]; exact List.mem_cons_self _ _)
        have hd := to_string_mem (fixed6 w / 10 ^ 6) c (by rw [hts]; exact List.mem_cons_self _ _)
        simp only [List.cons_append, List.head?_cons, Option.some.injEq, eq_iff_iff, iff_false]
        intro e
        rw [e] at hd
        exact absurd hd (by decide)
    unfold parse_fixed6
    simp only [Bool.false_eq_true, if_false, List.nil_append, hhead, decide_False, ht, hdw,
      List.drop_succ_cons, List.drop_zero, parse_nat_to_string, hp, hl, if_true, hval]
  · unfold parse_fixed6
    have hs : S "-" = ['-'] := rfl
    simp only [if_true, hs, List.singleton_append, List.head?_cons, decide_True,
      List.drop_succ_cons, List.drop_zero, ht, hdw, parse_nat_to_string, hp, hl, hval]

/-- Claim C14 on `float` constants, with the float rendering of the C++ standard
library. The constant with the word `0x33D6BF95` (the value 1.0e-7, exponent
field 103 and a nonzero fraction field) is written as `(0.000000)`, the same
text as the `float` constant 0: the literal reads back as 0, which has none of
the digits of the value. A `float` infinity is written as `(inf)`, which is no
decimal literal. -/
theorem float_literal_loses_value :
    write_constant construct std_dialect (numeric_type .t_float 1 1)
        (scalar_constant 0x33D6BF95) = some (S "(0.000000)") ∧
      write_constant construct std_dialect (numeric_type .t_float 1 1)
        (scalar_constant 0) = some (S "(0.000000)") ∧
      float_exponent 0x33D6BF95 = 103 ∧ float_mantissa 0x33D6BF95 = 5685141 ∧
      parse_fixed6 (S "0.000000") = some (false, 0) ∧
      write_constant construct std_dialect (numeric_type .t_float 1 1)
        (scalar_constant 0x7F800000) = some (S "(inf)") ∧
      parse_fixed6 (S "inf") = none := by
  decide

/-- The `bool` constants with the words 2 and 1 are both written as `(true)`, which
reads back as the word 1. -/
theorem bool_literal_of_nonzero_word :
    write_constant construct std_dialect (numeric_type .t_bool 1 1)
        (scalar_constant 2) = some (S "(true)") ∧
      write_constant construct std_dialect (numeric_type .t_bool 1 1)
        (scalar_constant 1) = some (S "(true)") ∧
      parse_word .t_bool (S "true") = some 1 := by
  decide

/-- The literals of a constant. A non-array numeric constant whose components fit the 16
words of the constant is written as the opening of its type, the literals of
its component words in their stored order joined by `, `, and the closing.  The
literal of a `uint` or `int` word reads back as the same 32-bit word; the
literal of a `bool` word reads back as 1 for a nonzero word and as 0 for the
word 0; with the float rendering of the C++ standard library, the literal of a
finite `float` word reads back as the sign and the magnitude rounded to six
digits after the decimal point, which is within half a unit of the sixth digit
of the magnitude. -/
theorem constant_round_trip (st : codegen_glsl) (t : type) (data : constant)
    (hnum : t.is_numeric = true) (harr : t.array_length = 0) (hfit : t.rows * t.cols ≤ 16)
    (hdata : data.as_uint.length = 16) (hwords : ∀ w ∈ data.as_uint, w < 2 ^ 32) :
    write_constant st std_dialect t data =
        some ((if ¬ t.is_scalar then
                (if t.is_matrix then S "transpose" else []) ++ S "(" ++ write_type st t false
               else []) ++ S "(" ++
          (S ", ").intercalate
            ((data.as_uint.take (t.rows * t.cols)).map (component_literal std_dialect t)) ++
          (if ¬ t.is_scalar then S ")" else []) ++ S ")") ∧
      ∀ w ∈ data.as_uint.take (t.rows * t.cols),
        (t.base = .t_uint → parse_word t.base (component_literal std_dialect t w) = some w) ∧
        (t.base = .t_int → parse_word t.base (component_literal std_dialect t w) = some w) ∧
        (t.base = .t_bool →
          parse_word t.base (component_literal std_dialect t w) =
            some (if w ≠ 0 then 1 else 0)) ∧
        (t.base = .t_float → float_exponent w ≠ 255 →
          parse_fixed6 (component_literal std_dialect t w) =
              some (float_negative w, fixed6 w) ∧
            2 * (fixed6 w * (float_micro w).2 - (float_micro w).1) ≤ (float_micro w).2 ∧
            2 * ((float_micro w).1 - fixed6 w * (float_micro w).2) ≤ (float_micro w).2) := by
  have hna : t.is_array = false := by simp [type.is_array, harr]
  have hcomp : t.components = t.rows * t.cols := u32_of_lt (by omega)
  constructor
  · have hbody := write_components_eq std_dialect t data (t.rows * t.cols) hfit (by omega)
      (t.rows * t.cols) 0 (by omega)
    rw [List.drop_zero] at hbody
    unfold write_constant
    rw [if_neg (by simp [hnum]), hna]
    simp only [Bool.false_eq_true, if_false]
    unfold write_constant_value
    rw [if_neg (by simp [hnum]), hnum, hcomp]
    simp only [if_true, hbody]
  · intro w hw
    have hlt : w < 2 ^ 32 := hwords w (List.mem_of_mem_take hw)
    obtain ⟨h1, h2, h3⟩ := parse_word_literal std_dialect t w hlt
    refine ⟨h1, h2, h3, fun hb hfin => ?_⟩
    have hlit : component_literal std_dialect t w = to_string_float w := by
      unfold component_literal
      rw [hb]
      rfl
    rw [hlit]
    exact ⟨parse_fixed6_to_string_float w hfin,
      round_half_even_near _ _ (float_micro_pos w)⟩

/-- The literals of the two-component `float` constant with the words of
3.14159274 and -1. -/
theorem constant_round_trip_witness :
    write_constant construct std_dialect (numeric_type .t_float 2 1) sample_float_constant =
        some (S "(vec2(3.141593, -1.000000))") ∧
      parse_fixed6 (S "3.141593") = some (false, 3141593) ∧
      parse_fixed6 (S "-1.000000") = some (true, 1000000) ∧
      fixed6 0x40490FDB = 3141593 ∧ fixed6 0xBF800000 = 1000000 := by
  obtain ⟨h1, h2⟩ := constant_round_trip construct (numeric_type .t_float 2 1)
    sample_float_constant (by decide) (by decide) (by decide) (by decide) (by decide)
  have ha := (h2 0x40490FDB (by decide)).2.2.2 rfl (by decide)
  have hb := (h2 0xBF800000 (by decide)).2.2.2 rfl (by decide)
  have e1 : component_literal std_dialect (numeric_type .t_float 2 1) 0x40490FDB =
      S "3.141593" := by decide
  have e2 : component_literal std_dialect (numeric_type .t_float 2 1) 0xBF800000 =
      S "-1.000000" := by decide
  have f1 : fixed6 0x40490FDB = 3141593 := by decide
  have f2 : fixed6 0xBF800000 = 1000000 := by decide
  refine ⟨h1.trans (by decide), ?_, ?_, f1, f2⟩
  · rw [← e1, ha.1, f1]; rfl
  · rw [← e2, hb.1, f2]; rfl

/-! ### Termination of the name escape -/

theorem prefix_us_iff (c : Char) (cs : std_string) :
    List.IsPrefix (S "__") (c :: cs) ↔ c = '_' ∧ cs.head? = some '_' := by
  rw [← is_prefix_us c cs]
  exact List.isPrefixOf_iff_prefix.symm

theorem not_infix_us_cons (c : Char) (cs : std_string)
    (h1 : ¬ (c = '_' ∧ cs.head? = some '_')) (h2 : ¬ List.IsInfix (S "__") cs) :
    ¬ List.IsInfix (S "__") (c :: cs) := by
  rw [List.infix_cons_iff]
  rintro (h | h)
  · exact h1 ((prefix_us_iff c cs).mp h)
  · exact h2 h

theorem not_infix_us_replace_all_us (s : std_string) :
    ¬ List.IsInfix (S "__") (replace_all_us s) := by
  induction s using replace_all_us.induct with
  | case1 =>
    intro h
    exact absurd (List.eq_nil_of_infix_nil h) (by decide)
  | case2 c =>
    intro h
    have hl : (2 : Nat) ≤ 1 := List.IsInfix.length_le h
    omega
  | case3 c d rest h ih =>
    rw [replace_all_us, if_pos h]
    exact not_infix_us_cons _ _ (by simp) (not_infix_us_cons _ _ (by simp)
      (not_infix_us_cons _ _ (by simp) ih))
  | case4 c d rest h ih =>
    rw [replace_all_us, if_neg h]
    refine not_infix_us_cons _ _ ?_ ih
    rw [replace_all_us_head]
    intro hc
    exact h ⟨hc.1, by simpa using hc.2⟩

theorem find_from_us_none : ∀ (s : std_string) (i : Nat), ¬ List.IsInfix (S "__") s →
    find_from (S "__") s i = none := by
  intro s
  induction s with
  | nil => intro i _; simp [find_from, S]
  | cons c cs ih =>
    intro i h
    rw [List.infix_cons_iff, not_or] at h
    rw [find_from, if_neg, ih (i + 1) h.2]
    intro hp
    exact h.1 (List.isPrefixOf_iff_prefix.mp hp)

/-- Claim C22. The replacement loop of `escape_name` stops on every text `res`: run
with as many rounds as `res` has underscores, or with any larger number, it
returns, and the text it returns holds no two consecutive underscores, so that
`find("__")` reports no position in it.  The function `escape_name` therefore
returns for every `name`, and the name it returns holds no two consecutive
underscores. -/
theorem escape_name_terminates (name res : std_string) :
    (∃ r, (∀ k, escape_loop (res.count '_' + k) res = some r) ∧
        find r (S "__") = none ∧ ¬ List.IsInfix (S "__") r) ∧
      ∃ r, escape_name name = some r ∧
        find r (S "__") = none ∧ ¬ List.IsInfix (S "__") r := by
  constructor
  · exact ⟨replace_all_us res, fun k => escape_loop_eq _ res (Nat.le_add_right _ _),
      find_from_us_none _ 0 (not_infix_us_replace_all_us res),
      not_infix_us_replace_all_us res⟩
  · exact ⟨_, escape_name_eq name, find_from_us_none _ 0 (not_infix_us_replace_all_us _),
      not_infix_us_replace_all_us _⟩

/-! ### Arms of a switch -/

theorem fallthrough_of_set_block (st : codegen_glsl) (id k : Nat) :
    fallthrough_of (set_block st id).2 k = fallthrough_of st k := rfl

theorem fallthrough_of_append_code (st : codegen_glsl) (s : std_string) (k : Nat) :
    fallthrough_of (append_code st s) k = fallthrough_of st k := rfl

theorem fallthrough_of_step (env : dialect) (st st1 : codegen_glsl) (c : call) (label : Nat)
    (hl : label ≠ 0) (h : step env st c = some st1) :
    fallthrough_of st1 label = fallthrough_of st label ++ registered_edge st label c := by
  by_cases hm : moves_cursor c = false
  · have hf := (frame_step env st st1 c hm h).2.2.1 label
    rw [hf]
    cases c <;> first
      | rfl
      | exact (List.append_nil _).symm
      | exact absurd hm (by simp [moves_cursor])
  · cases c with
    | set_block id => cases h; exact (List.append_nil _).symm
    | enter_block id => cases h; exact (List.append_nil _).symm
    | leave_block_and_kill =>
      cases h
      unfold leave_block_and_kill
      split <;> exact (List.append_nil _).symm
    | leave_block_and_return v =>
      cases h
      unfold leave_block_and_return
      split <;> exact (List.append_nil _).symm
    | leave_block_and_switch =>
      cases h
      unfold leave_block_and_switch
      split <;> exact (List.append_nil _).symm
    | leave_block_and_branch_conditional =>
      cases h
      unfold leave_block_and_branch_conditional
      split <;> exact (List.append_nil _).symm
    | leave_block_and_branch target flow =>
      cases h
      show fallthrough_of (leave_block_and_branch st target flow).2 label =
        fallthrough_of st label ++
          (if flow = 3 ∧ st._current_block = label then [target] else [])
      by_cases hb : st._current_block = 0
      · have hnb : ¬ (is_in_block st = true) := by simp [is_in_block, hb]
        unfold leave_block_and_branch
        have hne : ¬ (flow = 3 ∧ st._current_block = label) :=
          fun hh => hl (hh.2.symm.trans hb)
        rw [if_pos hnb, if_neg hne, List.append_nil]
      · by_cases h3 : flow = 3
        · subst h3
          obtain ⟨_, h2, h3, _⟩ := fallthrough_of_leave_block_and_branch st target hb
          by_cases hcl : st._current_block = label
          · rw [if_pos ⟨rfl, hcl⟩, ← hcl, h2]
          · rw [if_neg (fun hh => hcl hh.2), List.append_nil,
              h3 label (fun e => hcl e.symm)]
        · have hib : ¬ ¬ (is_in_block st = true) := by simp [is_in_block, hb]
          rw [if_neg (fun hh => h3 hh.1), List.append_nil]
          unfold leave_block_and_branch
          rw [if_neg hib]
          simp only [h3, if_false]
          by_cases h1 : flow = 1
          · rw [if_pos h1]; rfl
          · rw [if_neg h1]
            by_cases h2 : flow = 2
            · rw [if_pos h2]; rfl
            · rw [if_neg h2]; rfl
    | _ => exact absurd rfl hm

theorem fallthrough_of_run (env : dialect) (label : Nat) (hl : label ≠ 0) :
    ∀ (calls : List call) (st st1 : codegen_glsl), run env st calls = some st1 →
      fallthrough_of st1 label = fallthrough_of st label ++ registered_edges env label st calls := by
  intro calls
  induction calls with
  | nil =>
    intro st st1 h
    cases h
    exact (List.append_nil _).symm
  | cons c cs ih =>
    intro st st1 h
    rw [run] at h
    cases hs : step env st c with
    | none => rw [hs] at h; cases h
    | some st2 =>
      rw [hs] at h
      rw [registered_edges, hs, ih st2 st1 h, fallthrough_of_step env st st2 c label hl hs,
        List.append_assoc]

theorem switch_arms_eq (st : codegen_glsl) (targets : Nat → List Nat) :
    ∀ (n : Nat) (cases : List Nat), cases.length ≤ n →
      (∀ l ∈ case_labels cases, fallthrough_of st l = targets l) →
      switch_arms st cases =
        ((case_pairs cases).map (fun p =>
          write_scope st ++ S "case " ++ to_string p.1 ++ S ": \x7b\n" ++ block_text st p.2 ++
            ((targets p.2).map (block_text st)).flatten ++ write_scope st ++
            S "\x7d\n")).flatten := by
  intro n
  induction n with
  | zero =>
    intro cases hl _
    have : cases = [] := List.length_eq_zero.mp (Nat.le_zero.mp hl)
    subst this
    rfl
  | succ n ih =>
    intro cases hl ht
    match cases, hl, ht with
    | [], _, _ => rfl
    | [_], _, _ => rfl
    | a :: b :: rest, hl, ht =>
      have hlen : rest.length ≤ n := by simp only [List.length_cons] at hl; omega
      rw [switch_arms, case_pairs, List.map_cons, List.flatten_cons,
        ih rest hlen (fun l hm => ht l (List.mem_cons_of_mem _ hm)), switch_arm,
        ht b (List.mem_cons_self _ _)]

theorem cases_apart_labels (targets : Nat → List Nat) (cur : Nat) :
    ∀ (n : Nat) (cases : List Nat), cases.length ≤ n → cases_apart targets cur cases →
      ∀ l ∈ case_labels cases, l ≠ 0 := by
  intro n
  induction n with
  | zero =>
    intro cases hl _ l hm
    have : cases = [] := List.length_eq_zero.mp (Nat.le_zero.mp hl)
    subst this
    cases hm
  | succ n ih =>
    intro cases hl hc l hm
    match cases, hl, hc, hm with
    | [], _, _, hm => cases hm
    | [_], _, _, hm => cases hm
    | a :: b :: rest, hl, hc, hm =>
      have hlen : rest.length ≤ n := by simp only [List.length_cons] at hl; omega
      rcases List.mem_cons.mp hm with h1 | h1
      · rw [h1]; exact hc.1.1
      · exact ih rest hlen hc.2 l h1

theorem cases_apart_congr (t1 t2 : Nat → List Nat) (cur : Nat) :
    ∀ (n : Nat) (cases : List Nat), cases.length ≤ n →
      (∀ l, l ≠ 0 → t1 l = t2 l) → cases_apart t1 cur cases → cases_apart t2 cur cases := by
  intro n
  induction n with
  | zero =>
    intro cases hl _ hc
    have : cases = [] := List.length_eq_zero.mp (Nat.le_zero.mp hl)
    subst this
    exact hc
  | succ n ih =>
    intro cases hl ht hc
    match cases, hl, hc with
    | [], _, hc => exact hc
    | [_], _, hc => exact hc
    | a :: b :: rest, hl, hc =>
      have hlen : rest.length ≤ n := by simp only [List.length_cons] at hl; omega
      refine ⟨⟨hc.1.1, hc.1.2.1, ?_⟩, ih rest hlen ht hc.2⟩
      rw [← ht b hc.1.1]
      exact hc.1.2.2

/-- Claim C21. In a state reached from a fresh backend, `emit_switch` returns when
its ids pass the assertions, the case list holds whole (literal, label) pairs,
and no label and no fall-through target registered for a label is the block
the switch is written into.  The text it appends to the current block is the
head of the switch, then one arm for every (literal, label) pair, in the order
of the list, then the tail.  The arm of a pair is the indentation, the header
`case <literal>: {`, the text of the label's block, the texts of the targets
of the calls `leave_block_and_branch(target, 3)` that were made while the
label was the current block, in the order of these calls, the indentation and
`}`. -/
theorem switch_arms_in_order (env : dialect) (calls : List call) (st : codegen_glsl)
    (loc : location) (selector_value selector_block default_label : Nat) (cases : List Nat)
    (flags : Nat) (hrun : run env construct calls = some st)
    (hv : selector_value ≠ 0 ∧ selector_block ≠ 0 ∧ default_label ≠ 0)
    (hc : cases_apart (fun l => registered_edges env l construct calls) st._current_block
      cases) :
    ∃ st1, emit_switch st env loc selector_value selector_block default_label cases flags =
        some st1 ∧
      block_text st1 st._current_block = block_text st st._current_block ++
        switch_head st env loc selector_value selector_block flags ++
        ((case_pairs cases).map (fun p =>
          write_scope (scope_inc st) ++ S "case " ++ to_string p.1 ++ S ": \x7b\n" ++
            block_text st p.2 ++
            ((registered_edges env p.2 construct calls).map (block_text st)).flatten ++
            write_scope (scope_inc st) ++ S "\x7d\n")).flatten ++
        switch_tail st default_label := by
  have hreg : ∀ l, l ≠ 0 → fallthrough_of st l = registered_edges env l construct calls := by
    intro l hl
    rw [fallthrough_of_run env l hl calls construct st hrun]
    rfl
  have hc1 : cases_apart (fallthrough_of st) st._current_block cases :=
    cases_apart_congr _ _ _ cases.length cases (le_refl _) (fun l hl => (hreg l hl).symm) hc
  obtain ⟨st1, h1, _, h2⟩ := emit_switch_text st env loc selector_value selector_block
    default_label cases flags hv hc1
  refine ⟨st1, h1, ?_⟩
  rw [h2, switch_arms_eq (scope_inc st) (fun l => registered_edges env l construct calls)
    cases.length cases (le_refl _)
    (fun l hm => hreg l (cases_apart_labels _ _ cases.length cases (le_refl _) hc l hm))]
  rfl

/-- Claim C21 at the sample switch: block 2 registered the edge to 3, block 3
registered the edge to 4, block 4 left with `break`. -/
theorem switch_arms_in_order_witness :
    registered_edges sample_dialect 2 construct sample_switch_calls = [3] ∧
      registered_edges sample_dialect 3 construct sample_switch_calls = [4] ∧
      registered_edges sample_dialect 4 construct sample_switch_calls = [] ∧
      ∃ st1, emit_switch sample_switch_state sample_dialect ⟨9⟩ 11 6 7 [1, 2, 2, 3, 3, 4] 0 =
          some st1 ∧
        block_text st1 7 =
          S "#line 9\nswitch (_11)\n\x7b\n" ++
          S "\tcase 1: \x7b\n#line 1\nint a;\n#line 2\nint b;\n\t\x7d\n" ++
          S "\tcase 2: \x7b\n#line 2\nint b;\n#line 3\nint c;\nbreak;\n\t\x7d\n" ++
          S "\tcase 3: \x7b\n#line 3\nint c;\nbreak;\n\t\x7d\n" ++ S "\x7d\n" := by
  have hc : cases_apart (fun l => registered_edges sample_dialect l construct sample_switch_calls)
      sample_switch_state._current_block [1, 2, 2, 3, 3, 4] := by
    refine ⟨⟨?_, ?_, ?_⟩, ⟨?_, ?_, ?_⟩, ⟨?_, ?_, ?_⟩, True.intro⟩ <;> decide
  obtain ⟨st1, h1, h2⟩ := switch_arms_in_order sample_dialect sample_switch_calls
    sample_switch_state ⟨9⟩ 11 6 7 [1, 2, 2, 3, 3, 4] 0 rfl (by decide) hc
  exact ⟨by decide, by decide, by decide, st1, h1, h2.trans (by decide)⟩

/-! ### Names and texts that a call keeps -/

theorem kept_refl (N : List Nat) (st : codegen_glsl) : kept N st st :=
  ⟨fun _ => List.prefix_refl _, fun _ _ => rfl⟩

theorem kept_of_eq {N : List Nat} {st0 st st1 : codegen_glsl} (h : kept N st0 st)
    (hb : st1._blocks = st._blocks) (hn : st1._names = st._names) : kept N st0 st1 := by
  refine ⟨fun k => ?_, fun k hk => ?_⟩
  · unfold block_text; rw [hb]; exact h.1 k
  · rw [hn]; exact h.2 k hk

theorem kept_append_block {N : List Nat} {st0 st : codegen_glsl} (k : Nat) (s : std_string)
    (h : kept N st0 st) : kept N st0 (append_block st k s) := by
  refine ⟨fun j => ?_, h.2⟩
  by_cases hj : j = k
  · subst hj
    rw [block_text_append_block_same]
    exact (h.1 j).trans (List.prefix_append _ _)
  · rw [block_text_append_block_other st k j s hj]
    exact h.1 j

theorem kept_touch_block {N : List Nat} {st0 st : codegen_glsl} (k : Nat)
    (h : kept N st0 st) : kept N st0 (touch_block st k) := by
  refine ⟨fun j => ?_, h.2⟩
  rw [block_text_touch_block]
  exact h.1 j

theorem kept_append_code {N : List Nat} {st0 st : codegen_glsl} (s : std_string)
    (h : kept N st0 st) : kept N st0 (append_code st s) :=
  kept_append_block _ _ h

theorem kept_append_code_if {N : List Nat} {st0 st : codegen_glsl} (c : Bool) (s : std_string)
    (h : kept N st0 st) : kept N st0 (append_code_if st c s) := by
  unfold append_code_if
  split
  · exact kept_append_code s h
  · exact h

theorem kept_touch_block_if {N : List Nat} {st0 st : codegen_glsl} (c : Bool) (k : Nat)
    (h : kept N st0 st) : kept N st0 (touch_block_if st c k) := by
  unfold touch_block_if
  split
  · exact kept_touch_block k h
  · exact h

theorem kept_make_id {N : List Nat} {st0 st : codegen_glsl} (h : kept N st0 st) :
    kept N st0 (make_id st).2 := kept_of_eq h rfl rfl

theorem kept_set_name {N : List Nat} {st0 st : codegen_glsl} (i : Nat) (n : std_string)
    (hi : i ∈ N) (h : kept N st0 st) : kept N st0 (set_name st i n) := by
  refine ⟨h.1, fun k hk => ?_⟩
  have hne : k ≠ i := fun e => hk (e ▸ hi)
  show map_set st._names i n k = _
  unfold map_set
  rw [if_neg hne]
  exact h.2 k hk

theorem kept_scope_inc {N : List Nat} {st0 st : codegen_glsl} (h : kept N st0 st) :
    kept N st0 (scope_inc st) := by
  unfold scope_inc
  exact kept_of_eq h rfl rfl

theorem kept_scope_dec {N : List Nat} {st0 st : codegen_glsl} (h : kept N st0 st) :
    kept N st0 (scope_dec st) := by
  unfold scope_dec
  exact kept_of_eq h rfl rfl

theorem kept_touch_fallthrough {N : List Nat} {st0 st : codegen_glsl} (k : Nat)
    (h : kept N st0 st) : kept N st0 (touch_fallthrough st k) := by
  unfold touch_fallthrough
  exact kept_of_eq h rfl rfl

theorem kept_push_fallthrough {N : List Nat} {st0 st : codegen_glsl} (k : Nat)
    (h : kept N st0 st) : kept N st0 (push_fallthrough st k) := by
  unfold push_fallthrough
  exact kept_of_eq h rfl rfl

theorem kept_set_block {N : List Nat} {st0 st : codegen_glsl} (k : Nat)
    (h : kept N st0 st) : kept N st0 (set_block st k).2 := by
  unfold set_block
  exact kept_of_eq h rfl rfl

theorem kept_trans {N M : List Nat} {a b c : codegen_glsl} (h1 : kept N a b)
    (h2 : kept M b c) : kept (N ++ M) a c :=
  ⟨fun k => (h1.1 k).trans (h2.1 k),
    fun k hk => (h2.2 k (fun hm => hk (List.mem_append_right _ hm))).trans
      (h1.2 k (fun hm => hk (List.mem_append_left _ hm)))⟩

theorem kept_mono {N M : List Nat} {a b : codegen_glsl} (h : kept N a b)
    (hs : ∀ k ∈ N, k ∈ M) : kept M a b :=
  ⟨h.1, fun k hk => h.2 k (fun hm => hk (hs k hm))⟩

theorem kept_emitted (N : List Nat) (st : codegen_glsl) (s : std_string) :
    kept N st (append_code (make_id st).2 s) :=
  kept_append_code s (kept_make_id (kept_refl N st))

theorem kept_foldl {α : Type} {N : List Nat} {st0 : codegen_glsl}
    (f : codegen_glsl → α → codegen_glsl)
    (hf : ∀ s a, kept N st0 s → kept N st0 (f s a)) :
    ∀ (l : List α) (st : codegen_glsl), kept N st0 st → kept N st0 (l.foldl f st) := by
  intro l
  induction l with
  | nil => intro st h; exact h
  | cons a l ih => intro st h; rw [List.foldl_cons]; exact ih _ (hf _ _ h)

theorem kept_define_struct {N : List Nat} (st : codegen_glsl) (loc : location)
    (info : struct_info) (hid : st._next_id ∈ N) :
    kept N st (define_struct st loc info).2 := by
  unfold define_struct
  simp only []
  apply kept_append_code _
  apply kept_append_code_if _ _
  apply kept_foldl _ (fun s a hs => kept_append_code _ hs)
  apply kept_append_code _
  have h1 : kept N st (set_name (make_id st).2 (make_id st).1 info.unique_name) :=
    kept_set_name _ _ hid (kept_make_id (kept_refl _ _))
  exact kept_of_eq h1 rfl rfl

theorem kept_define_texture (N : List Nat) (st : codegen_glsl) (info : texture_info) :
    kept N st (define_texture st info).2 :=
  kept_of_eq (kept_refl _ _) rfl rfl

theorem kept_define_sampler {N : List Nat} (st : codegen_glsl) (loc : location)
    (info : sampler_info) (hid : st._next_id ∈ N) :
    kept N st (define_sampler st loc info).2 := by
  unfold define_sampler
  simp only []
  apply kept_set_name _ _ hid
  apply kept_append_code _
  exact kept_of_eq (kept_refl _ _) rfl rfl

theorem kept_define_uniform {N : List Nat} (st : codegen_glsl) (loc : location)
    (info : uniform_info) (r : Nat × codegen_glsl)
    (h : define_uniform st loc info = some r) :
    kept N st r.2 ∧
      block_text r.2 st._cbuffer_type_id = block_text st st._cbuffer_type_id ++
        (write_location loc ++ write_type st info.type false ++ S " _Globals_" ++ info.name ++
          S ";\n") := by
  unfold define_uniform at h
  simp only [] at h
  split at h
  · cases h
  · split at h
    · cases h
    · cases h
      refine ⟨?_, ?_⟩
      · refine @kept_of_eq N st _ _ (@kept_append_block N st _ st._cbuffer_type_id _
          (@kept_of_eq N st st _ (kept_refl _ _) rfl rfl)) rfl rfl
      · simp only [block_text, append_block, map_set, if_true, Option.getD_some]
        rfl

theorem kept_define_variable {N : List Nat} (st : codegen_glsl) (loc : location) (t : type)
    (name : Option std_string) (v : Nat) (hid : st._next_id ∈ N) :
    kept N st (define_variable st loc t name v).2 := by
  unfold define_variable
  cases name with
  | none =>
    exact kept_append_code _ (kept_append_code_if _ _ (kept_append_code _
      (kept_append_code _ (kept_make_id (kept_refl _ _)))))
  | some n =>
    exact kept_append_code _ (kept_append_code_if _ _ (kept_append_code _
      (kept_append_code _ (kept_set_name _ _ hid (kept_make_id (kept_refl _ _))))))

theorem kept_define_function_param {N : List Nat} {st0 : codegen_glsl} (n : Nat)
    (st : codegen_glsl) (p : parameter_info) (i : Nat) (hid : st._next_id ∈ N)
    (h : kept N st0 st) : kept N st0 (define_function_param n st p i).1 := by
  unfold define_function_param
  exact kept_append_code_if _ _ (kept_append_code _
    (kept_set_name _ _ hid (kept_make_id h)))

theorem kept_define_function_params_from {N : List Nat} {st0 : codegen_glsl} (n : Nat) :
    ∀ (l : List parameter_info) (j : Nat) (st : codegen_glsl) (acc : List parameter_info),
      (∀ i ∈ ids_from st._next_id l.length, i ∈ N) → kept N st0 st →
      kept N st0 ((l.enumFrom j).foldl
        (fun (a : codegen_glsl × List parameter_info) (ip : Nat × parameter_info) =>
          ((define_function_param n a.1 ip.2 ip.1).1,
            a.2 ++ [(define_function_param n a.1 ip.2 ip.1).2])) (st, acc)).1 := by
  intro l
  induction l with
  | nil => intro j st acc _ h; exact h
  | cons p l ih =>
    intro j st acc hids h
    rw [List.enumFrom_cons, List.foldl_cons]
    have hid : st._next_id ∈ N := hids _ (by rw [List.length_cons, ids_from]; exact List.mem_cons_self _ _)
    have hnext := (decl_view_define_function_param n st p j).2.1
    refine ih (j + 1) _ _ ?_ (kept_define_function_param n st p j hid h)
    intro i hi
    rw [hnext] at hi
    exact hids i (by rw [List.length_cons, ids_from]; exact List.mem_cons_of_mem _ hi)

theorem kept_define_function {N : List Nat} (st : codegen_glsl) (loc : location)
    (info : function_info)
    (hids : ∀ i ∈ ids_from st._next_id (1 + info.parameter_list.length), i ∈ N) :
    kept N st (define_function st loc info).2 := by
  have hid : st._next_id ∈ N :=
    hids _ (by rw [Nat.add_comm, ids_from]; exact List.mem_cons_self _ _)
  have hrest : ∀ i ∈ ids_from (u32 (st._next_id + 1)) info.parameter_list.length, i ∈ N :=
    fun i hi => hids i (by rw [Nat.add_comm, ids_from]; exact List.mem_cons_of_mem _ hi)
  unfold define_function define_function_params
  have h0 : kept N st (append_code (set_name (make_id st).2 (make_id st).1 info.unique_name)
      (write_location loc ++
        write_type (set_name (make_id st).2 (make_id st).1 info.unique_name) info.return_type
          false ++ S " " ++ info.unique_name ++ S "(")) :=
    kept_append_code _
      (kept_set_name (make_id st).1 info.unique_name hid (kept_make_id (kept_refl N st)))
  have h1 := kept_scope_inc (kept_append_code (S ")\n")
    (kept_define_function_params_from info.parameter_list.length info.parameter_list 0 _ []
      hrest h0))
  exact kept_of_eq h1 rfl rfl

theorem kept_create_entry_point (N : List Nat) (st : codegen_glsl) (f : function_info)
    (b : Bool) : kept N st (create_entry_point st f b) := by
  unfold create_entry_point
  split
  · exact kept_refl _ _
  · have h1 : kept N st
        (append_code (append_code (scope_dec (scope_inc
          (append_code (append_code st (S "#ifdef ENTRY_POINT_" ++ f.unique_name ++ S "\n"))
            (S "void main()\n\x7b\n")))) (S "\x7d\n")) (S "#endif\n")) :=
      kept_append_code _ (kept_append_code _
        (kept_scope_dec (kept_scope_inc (kept_append_code _
          (kept_append_code _ (kept_refl _ _))))))
    exact kept_of_eq h1 rfl rfl

theorem kept_emit_call_intrinsic (N : List Nat) (st : codegen_glsl) (env : dialect)
    (loc : location) (f : Nat) (t : type) (args : List expression) (r : Nat × codegen_glsl)
    (h : emit_call_intrinsic st env loc f t args = some r) :
    kept N st r.2 := by
  unfold emit_call_intrinsic at h
  split at h
  · cases h
  · simp only [] at h
    split at h
    · cases h
    · cases h
      exact kept_append_code _ (kept_append_code _
        (kept_append_code_if _ _ (kept_append_code _
          (kept_make_id (kept_refl _ _)))))

theorem kept_store_op {N : List Nat} {st0 : codegen_glsl} (st st1 : codegen_glsl)
    (op : operation) (hf : kept N st0 st)
    (h : store_op st op = some st1) : kept N st0 st1 := by
  unfold store_op at h
  split at h
  · cases h; exact hf
  · cases h; exact kept_append_code _ hf
  · split at h
    · cases h
    · cases h; exact kept_append_code _ (kept_append_code _ hf)
  · split at h
    · cases h
    · cases h; exact kept_append_code _ (kept_append_code _ hf)

theorem kept_store_chain {N : List Nat} {st0 : codegen_glsl} :
    ∀ (ops : List operation) (st st1 : codegen_glsl), kept N st0 st →
      store_chain st ops = some st1 → kept N st0 st1 := by
  intro ops
  induction ops with
  | nil => intro st st1 hf h; cases h; exact hf
  | cons op ops ih =>
    intro st st1 hf h
    unfold store_chain at h
    split at h
    · cases h
    · rename_i st2 hop
      exact ih _ _ (kept_store_op _ _ _ hf hop) h

theorem kept_emit_store (N : List Nat) (st st1 : codegen_glsl) (chain : expression)
    (value : Nat) (h : emit_store st chain value = some st1) :
    kept N st st1 := by
  unfold emit_store at h
  simp only [] at h
  split at h
  · cases h
  · rename_i st2 hc
    cases h
    exact kept_append_code _
      (kept_store_chain _ _ _ (kept_append_code _ (kept_refl _ _)) hc)

theorem kept_emit_if (N : List Nat) (st st1 : codegen_glsl) (env : dialect) (loc : location)
    (c cb tb fb flags : Nat)
    (h : emit_if st env loc c cb tb fb flags = some st1) : kept N st st1 := by
  unfold emit_if at h
  split at h
  · cases h
  · cases h
    exact kept_append_code _ (kept_touch_block _ (kept_touch_block _
      (kept_append_code_if _ _ (kept_append_code_if _ _
        (kept_append_code _ (kept_append_code _
          (kept_touch_block _ (kept_refl _ _))))))))

theorem kept_emit_phi (N : List Nat) (st : codegen_glsl) (loc : location)
    (c cb tv tb fv fb : Nat) (t : type) (r : Nat × codegen_glsl)
    (h : emit_phi st loc c cb tv tb fv fb t = some r) : kept N st r.2 := by
  unfold emit_phi at h
  split at h
  · cases h
  · cases h
    exact kept_append_code _ (kept_touch_block_if _ _ (kept_touch_block_if _ _
      (kept_touch_block _ (kept_make_id (kept_refl _ _)))))

theorem kept_emit_loop_head {N : List Nat} {st0 : codegen_glsl} (st st1 : codegen_glsl)
    (c cb : Nat) (hf : kept N st0 st)
    (h : emit_loop_head st c cb = some st1) : kept N st0 st1 := by
  unfold emit_loop_head at h
  split at h
  · cases h; exact kept_append_code _ hf
  · split at h
    · cases h
    · cases h; exact kept_append_code _ (kept_touch_block _ hf)

theorem kept_emit_loop_body {N : List Nat} {st0 : codegen_glsl} (st st1 : codegen_glsl)
    (c cb lb ctb : Nat) (hf : kept N st0 st)
    (h : emit_loop_body st c cb lb ctb = some st1) : kept N st0 st1 := by
  unfold emit_loop_body at h
  split at h
  · split at h
    · cases h
    · cases h
      exact kept_append_code _ (kept_touch_block _ (kept_touch_block _ hf))
  · split at h
    · cases h
    · cases h
      exact kept_append_code _
        (kept_touch_block _ (kept_touch_block _ (kept_touch_block _ hf)))

theorem kept_emit_loop (N : List Nat) (st st1 : codegen_glsl) (env : dialect) (loc : location)
    (c pb cb lb ctb flags : Nat)
    (h : emit_loop st env loc c pb cb lb ctb flags = some st1) : kept N st st1 := by
  unfold emit_loop at h
  split at h
  · cases h
  · simp only [] at h
    split at h
    · cases h
    · rename_i st2 h2
      have hf2 := kept_emit_loop_head _ _ _ _
        (kept_append_code _ (kept_touch_block _ (kept_refl N st))) h2
      exact kept_emit_loop_body _ _ _ _ _ _
        (kept_append_code_if _ _ (kept_append_code_if _ _
          (kept_append_code _ hf2))) h

theorem kept_emit_fallthrough {N : List Nat} {st0 : codegen_glsl} :
    ∀ (l : List Nat) (st : codegen_glsl), kept N st0 st →
      kept N st0 (emit_fallthrough st l) := by
  intro l
  induction l with
  | nil => intro st hf; exact hf
  | cons t l ih =>
    intro st hf
    rw [emit_fallthrough]
    exact ih _ (kept_append_code _ (kept_touch_block _ hf))

theorem kept_emit_switch_cases {N : List Nat} {st0 : codegen_glsl} :
    ∀ (n : Nat) (l : List Nat) (st st1 : codegen_glsl), l.length ≤ n →
      kept N st0 st → emit_switch_cases st l = some st1 → kept N st0 st1 := by
  intro n
  induction n with
  | zero =>
    intro l st st1 hl hf h
    have : l = [] := List.length_eq_zero.mp (Nat.le_zero.mp hl)
    subst this
    cases h; exact hf
  | succ n ih =>
    intro l st st1 hl hf h
    match l, hl, h with
    | [], _, h => cases h; exact hf
    | [_], _, h => cases h
    | a :: b :: rest, hl, h =>
      rw [emit_switch_cases] at h
      split at h
      · cases h
      · have hlen : rest.length ≤ n := by
          simp only [List.length_cons] at hl; omega
        have h1 : kept N st0 (append_code (touch_block st b)
            (write_scope st ++ S "case " ++ to_string a ++ S ": \x7b\n" ++ block_text st b)) :=
          kept_append_code _ (kept_touch_block _ hf)
        exact ih rest _ _ hlen
          (kept_append_code _ (kept_emit_fallthrough _ _ (kept_touch_fallthrough b h1))) h

theorem kept_emit_switch (N : List Nat) (st st1 : codegen_glsl) (env : dialect)
    (loc : location) (v b d : Nat) (cases : List Nat) (flags : Nat)
    (h : emit_switch st env loc v b d cases flags = some st1) : kept N st st1 := by
  unfold emit_switch at h
  split at h
  · cases h
  · simp only [] at h
    split at h
    · cases h
    · rename_i st7 h7
      have hopen : kept N st (scope_inc (emit_switch_open st env loc v b flags)) := by
        unfold emit_switch_open
        exact kept_scope_inc (kept_append_code _ (kept_append_code_if _ _
          (kept_append_code_if _ _ (kept_append_code _ (kept_append_code _
            (kept_touch_block _ (kept_refl _ _)))))))
      have h7f := kept_emit_switch_cases cases.length _ _ _ (le_refl _) hopen h7
      cases h
      exact kept_append_code _ (kept_scope_dec (kept_append_code_if _ _
        (kept_touch_block_if _ _ h7f)))

theorem kept_leave_function (N : List Nat) (st st1 : codegen_glsl)
    (h : leave_function st = some st1) : kept N st st1 := by
  unfold leave_function at h
  simp only [] at h
  split at h
  · cases h
  · cases h
    exact kept_scope_dec (kept_append_code _ (kept_touch_block _ (kept_refl _ _)))

theorem kept_leave_block_and_kill (N : List Nat) (st : codegen_glsl) :
    kept N st (leave_block_and_kill st).2 := by
  unfold leave_block_and_kill
  split
  · exact kept_refl _ _
  · exact kept_set_block _ (kept_append_code _ (kept_refl _ _))

theorem kept_leave_block_and_return (N : List Nat) (st : codegen_glsl) (v : Nat) :
    kept N st (leave_block_and_return st v).2 := by
  unfold leave_block_and_return
  split
  · exact kept_refl _ _
  · exact kept_set_block _ (kept_append_code _ (kept_refl _ _))

theorem kept_leave_block_and_switch (N : List Nat) (st : codegen_glsl) :
    kept N st (leave_block_and_switch st).2 := by
  unfold leave_block_and_switch
  split
  · exact kept_refl _ _
  · exact kept_set_block _ (kept_refl _ _)

theorem kept_leave_block_and_branch (N : List Nat) (st : codegen_glsl) (t f : Nat) :
    kept N st (leave_block_and_branch st t f).2 := by
  unfold leave_block_and_branch
  split
  · exact kept_refl _ _
  · apply kept_set_block
    split
    · exact kept_append_code _ (kept_refl _ _)
    · split
      · exact kept_append_code _ (kept_refl _ _)
      · split
        · exact kept_push_fallthrough _ (kept_refl _ _)
        · exact kept_refl _ _

theorem kept_leave_block_and_branch_conditional (N : List Nat) (st : codegen_glsl) :
    kept N st (leave_block_and_branch_conditional st).2 := by
  unfold leave_block_and_branch_conditional
  split
  · exact kept_refl _ _
  · exact kept_set_block _ (kept_refl _ _)

/-- A call that returns keeps the text of every block as the beginning of its
new text, and changes names at most at the ids it hands out. -/
theorem kept_step (env : dialect) (st st1 : codegen_glsl) (c : call)
    (h : step env st c = some st1) :
    kept (ids_from st._next_id (allocs c)) st st1 := by
  have hid : st._next_id ∈ ids_from st._next_id 1 := List.mem_cons_self _ _
  cases c with
  | define_struct loc info => cases h; exact kept_define_struct _ _ _ hid
  | define_texture info => cases h; exact kept_define_texture _ _ _
  | define_sampler loc info => cases h; exact kept_define_sampler _ _ _ hid
  | define_uniform loc info =>
    simp only [step, Option.map_eq_some'] at h
    obtain ⟨r, hr, rfl⟩ := h
    exact (kept_define_uniform _ _ _ _ hr).1
  | define_variable loc t name v => cases h; exact kept_define_variable _ _ _ _ _ hid
  | define_function loc info => cases h; exact kept_define_function _ _ _ (fun _ hi => hi)
  | create_block => cases h; exact kept_make_id (kept_refl _ _)
  | create_entry_point f b => cases h; exact kept_create_entry_point _ _ _ _
  | emit_load chain =>
    simp only [step, Option.map_eq_some'] at h
    obtain ⟨r, hr, rfl⟩ := h
    rw [emit_load_eq] at hr
    obtain ⟨_, _, rfl⟩ := Option.map_eq_some'.mp hr
    exact kept_emitted _ _ _
  | emit_store chain v => exact kept_emit_store _ _ _ _ _ h
  | emit_constant t d =>
    simp only [step, Option.map_eq_some'] at h
    obtain ⟨r, hr, rfl⟩ := h
    rw [emit_constant_eq] at hr
    split at hr
    · obtain ⟨_, _, rfl⟩ := Option.map_eq_some'.mp hr
      exact kept_emitted _ _ _
    · cases hr
  | emit_unary_op loc op t v =>
    simp only [step, Option.map_eq_some'] at h
    obtain ⟨r, hr, rfl⟩ := h
    rw [emit_unary_op_eq] at hr
    obtain ⟨_, _, rfl⟩ := Option.map_eq_some'.mp hr
    exact kept_emitted _ _ _
  | emit_binary_op loc op t1 t2 a b =>
    simp only [step, Option.map_eq_some'] at h
    obtain ⟨r, hr, rfl⟩ := h
    rw [emit_binary_op_eq] at hr
    obtain ⟨_, _, rfl⟩ := Option.map_eq_some'.mp hr
    exact kept_emitted _ _ _
  | emit_ternary_op loc op t a b c =>
    simp only [step, Option.map_eq_some'] at h
    obtain ⟨r, hr, rfl⟩ := h
    rw [emit_ternary_op_eq] at hr
    split at hr
    · cases hr; exact kept_emitted _ _ _
    · cases hr
  | emit_call loc f t args =>
    simp only [step, Option.map_eq_some'] at h
    obtain ⟨r, hr, rfl⟩ := h
    rw [emit_call_eq] at hr
    split at hr
    · cases hr; exact kept_emitted _ _ _
    · cases hr
  | emit_call_intrinsic loc f t args =>
    simp only [step, Option.map_eq_some'] at h
    obtain ⟨r, hr, rfl⟩ := h
    exact kept_emit_call_intrinsic _ _ _ _ _ _ _ _ hr
  | emit_construct loc t args =>
    simp only [step, Option.map_eq_some'] at h
    obtain ⟨r, hr, rfl⟩ := h
    by_cases hargs : args.all (fun arg =>
        (arg.type.is_scalar || t.is_array) && (arg.ops.isEmpty && decide (arg.base ≠ 0))) = true
    · rw [emit_construct_eq st loc t args hargs] at hr
      cases hr
      exact kept_emitted _ _ _
    · unfold emit_construct at hr
      rw [if_pos hargs] at hr
      cases hr
  | emit_if loc c cb tb fb flags => exact kept_emit_if _ _ _ _ _ _ _ _ _ _ h
  | emit_phi loc c cb tv tb fv fb t =>
    simp only [step, Option.map_eq_some'] at h
    obtain ⟨r, hr, rfl⟩ := h
    exact kept_emit_phi _ _ _ _ _ _ _ _ _ _ _ hr
  | emit_loop loc c pb cb lb ctb flags => exact kept_emit_loop _ _ _ _ _ _ _ _ _ _ _ h
  | emit_switch loc v b d cases flags => exact kept_emit_switch _ _ _ _ _ _ _ _ _ _ h
  | set_block id => cases h; exact kept_set_block _ (kept_refl _ _)
  | enter_block id => cases h; exact kept_of_eq (kept_refl _ _) rfl rfl
  | leave_block_and_kill => cases h; exact kept_leave_block_and_kill _ _
  | leave_block_and_return v => cases h; exact kept_leave_block_and_return _ _ _
  | leave_block_and_switch => cases h; exact kept_leave_block_and_switch _ _
  | leave_block_and_branch t f => cases h; exact kept_leave_block_and_branch _ _ _ _
  | leave_block_and_branch_conditional =>
    cases h; exact kept_leave_block_and_branch_conditional _ _
  | leave_function => exact kept_leave_function _ _ _ h

/-- Along a run the text of every block only grows at its end, and names change
at most at the ids handed out along the run. -/
theorem kept_run (env : dialect) :
    ∀ (calls : List call) (st st1 : codegen_glsl), run env st calls = some st1 →
      kept (run_ids env st calls) st st1 := by
  intro calls
  induction calls with
  | nil => intro st st1 h; cases h; exact kept_refl _ _
  | cons c calls ih =>
    intro st st1 h
    rw [run] at h
    cases hs : step env st c with
    | none => rw [hs] at h; cases h
    | some st2 =>
      rw [hs] at h
      rw [run_ids, hs, (decl_view_step env st st2 c hs).2]
      exact kept_trans (kept_step env st st2 c hs) (ih st2 st1 h)

/-! ### Names of the uniforms -/

theorem cbuffer_run (env : dialect) :
    ∀ (calls : List call) (st st1 : codegen_glsl), run env st calls = some st1 →
      st1._cbuffer_type_id = st._cbuffer_type_id := by
  intro calls
  induction calls with
  | nil => intro st st1 h; cases h; rfl
  | cons c calls ih =>
    intro st st1 h
    rw [run] at h
    cases hs : step env st c with
    | none => rw [hs] at h; cases h
    | some st2 =>
      rw [hs] at h
      exact (ih st2 st1 h).trans (cbuffer_step env st st2 c hs)

theorem push_member_head (s : struct_info) (rest : List struct_info) (id : Nat)
    (m : struct_member_info) (h : s.definition = id) :
    push_member (s :: rest) id m = { s with member_list := s.member_list ++ [m] } :: rest := by
  rw [push_member, if_pos h]

theorem globals_members_decl_after (d : codegen_glsl) (c : call) (h : globals_members d) :
    globals_members (decl_after d c) := by
  obtain ⟨s, rest, hs, hdef, hnames, hidx⟩ := h
  cases c with
  | define_struct loc info =>
    exact ⟨s, rest ++ [{ info with definition := d._next_id }],
      by show d._structs ++ _ = _; rw [hs]; rfl, hdef, hnames, hidx⟩
  | define_uniform loc info =>
    simp only [decl_after]
    split
    · exact ⟨s, rest, hs, hdef, hnames, hidx⟩
    · rename_i off hoff
      refine ⟨{ s with member_list := s.member_list ++ [{ type := info.type, name := info.name }] },
        rest, ?_, hdef, ?_, ?_⟩
      · show push_member d._structs d._cbuffer_type_id _ = _
        rw [hs, push_member_head s rest _ _ hdef]
      · show (s.member_list ++ [_]).map _ = (d._uniforms ++ [_]).map _
        rw [List.map_append, List.map_append, hnames]
        rfl
      · intro k u hk
        have hk' : (d._uniforms ++
            [{ info with size := uniform_size info.type, offset := off,
                         member_index := u32 d._uniforms.length }])[k]? = some u := hk
        by_cases hlt : k < d._uniforms.length
        · rw [List.getElem?_append_left hlt] at hk'
          exact hidx k u hk'
        · have hle : d._uniforms.length ≤ k := Nat.le_of_not_lt hlt
          rw [List.getElem?_append_right hle] at hk'
          cases hd : k - d._uniforms.length with
          | zero =>
            rw [hd] at hk'
            simp only [List.getElem?_cons_zero, Option.some.injEq] at hk'
            subst hk'
            have hk2 : k = d._uniforms.length := by omega
            rw [hk2]
          | succ m =>
            rw [hd] at hk'
            simp at hk'
  | _ => exact ⟨s, rest, hs, hdef, hnames, hidx⟩

theorem globals_members_step (env : dialect) (st st1 : codegen_glsl) (c : call)
    (hinv : globals_members st) (h : step env st c = some st1) : globals_members st1 := by
  have hd := (decl_view_step env st st1 c h).1
  have h0 : globals_members (decl_view st) := hinv
  have h1 : globals_members (decl_view st1) := by
    rw [hd]
    exact globals_members_decl_after _ c h0
  exact h1

theorem globals_members_run (env : dialect) :
    ∀ (calls : List call) (st st1 : codegen_glsl), globals_members st →
      run env st calls = some st1 → globals_members st1 := by
  intro calls
  induction calls with
  | nil => intro st st1 hinv h; cases h; exact hinv
  | cons c calls ih =>
    intro st st1 hinv h
    rw [run] at h
    cases hs : step env st c with
    | none => rw [hs] at h; cases h
    | some st2 =>
      rw [hs] at h
      exact ih st2 st1 (globals_members_step env st st2 c hinv hs) h

theorem globals_members_construct : globals_members construct :=
  ⟨_, [], rfl, rfl, rfl, fun k u hk => by cases hk⟩

theorem uniforms_declared_step (env : dialect) (st st1 : codegen_glsl) (c : call)
    (hinv : uniforms_declared st) (h : step env st c = some st1) : uniforms_declared st1 := by
  have hcb := cbuffer_step env st st1 c h
  have hk := (kept_step env st st1 c h).1 st._cbuffer_type_id
  have hold : ∀ u ∈ st._uniforms,
      List.IsInfix (S " _Globals_" ++ u.name ++ S ";\n") (block_text st1 st1._cbuffer_type_id) :=
    fun u hu => by
      rw [hcb]
      exact (hinv u hu).trans hk.isInfix
  by_cases hc : is_define_uniform c = true
  · cases c with
    | define_uniform loc info =>
      simp only [step, Option.map_eq_some'] at h
      obtain ⟨r, hr, rfl⟩ := h
      obtain ⟨_, off, _, hd⟩ := decl_view_define_uniform st loc info r hr
      have hu := congrArg (fun d => d._uniforms) hd
      have hu1 : r.2._uniforms = st._uniforms ++
          [{ info with size := uniform_size info.type, offset := off,
                       member_index := u32 st._uniforms.length }] := hu
      have htext := (@kept_define_uniform [] st loc info r hr).2
      intro u hu
      rw [hu1, List.mem_append] at hu
      rcases hu with hu | hu
      · exact hold u hu
      · rw [List.mem_singleton] at hu
        subst hu
        rw [hcb, htext]
        exact ⟨block_text st st._cbuffer_type_id ++
          (write_location loc ++ write_type st info.type false), [],
          by simp only [List.append_assoc, List.append_nil]⟩
    | _ => cases hc
  · have hc1 : is_define_uniform c = false := by
      cases hb : is_define_uniform c
      · rfl
      · exact absurd hb hc
    intro u hu
    rw [(uniforms_step env st st1 c h).2.2 hc1] at hu
    exact hold u hu

theorem uniforms_declared_run (env : dialect) :
    ∀ (calls : List call) (st st1 : codegen_glsl), uniforms_declared st →
      run env st calls = some st1 → uniforms_declared st1 := by
  intro calls
  induction calls with
  | nil => intro st st1 hinv h; cases h; exact hinv
  | cons c calls ih =>
    intro st st1 hinv h
    rw [run] at h
    cases hs : step env st c with
    | none => rw [hs] at h; cases h
    | some st2 =>
      rw [hs] at h
      exact ih st2 st1 (uniforms_declared_step env st st2 c hinv hs) h

/-- The name of `$Globals` stays registered under the id 1 while the id
counter does not wrap. -/
theorem globals_name_run (env : dialect) (calls : List call) (st : codegen_glsl)
    (hrun : run env construct calls = some st)
    (hfew : 1 + (run_ids env construct calls).length < 2 ^ 32) :
    st._cbuffer_type_id = 1 ∧ id_to_name st 1 = S "_Globals" := by
  have hn : construct._next_id = 2 := rfl
  have heq := run_ids_eq_range env calls construct st hrun (by rw [hn]; omega)
  rw [hn] at heq
  have h1 : 1 ∉ run_ids env construct calls := by
    intro hm
    rw [heq, List.mem_range'_1] at hm
    omega
  have hname := (kept_run env calls construct st hrun).2 1 h1
  refine ⟨(cbuffer_run env calls construct st hrun).trans rfl, ?_⟩
  unfold id_to_name
  rw [hname]
  rfl

theorem member_name_of_globals (st : codegen_glsl) (hinv : globals_members st)
    (hlen : st._uniforms.length ≤ 2 ^ 32) :
    ∀ u ∈ st._uniforms, member_name st st._cbuffer_type_id u.member_index = some u.name := by
  obtain ⟨s, rest, hs, hdef, hnames, hidx⟩ := hinv
  intro u hu
  obtain ⟨k, hk, hget⟩ := List.getElem_of_mem hu
  have hget' : st._uniforms[k]? = some u := by
    rw [List.getElem?_eq_getElem hk, hget]
  have hmi : u.member_index = k := by
    rw [hidx k u hget']
    exact u32_of_lt (by omega)
  have hfind : find_struct st st._cbuffer_type_id = some s := by
    unfold find_struct
    rw [hs, List.find?_cons_of_pos]
    exact decide_eq_true hdef
  have hmem : (s.member_list.map (fun m => m.name))[k]? = some u.name := by
    rw [hnames, List.getElem?_map, hget']
    rfl
  unfold member_name
  rw [hfind, hmi]
  simp only []
  rw [List.get?_eq_getElem?, ← List.getElem?_map]
  exact hmem

theorem counter_after_pos : ∀ (k n : Nat), counter_after n (k + 1) = u32 (n + (k + 1))
  | 0, n => rfl
  | k + 1, n => by
    rw [counter_after, counter_after_pos k (u32 (n + 1))]
    unfold u32
    rw [Nat.mod_add_mod]
    congr 1
    omega

theorem run_replicate_create_block (env : dialect) (rest : List call) :
    ∀ (n : Nat) (st : codegen_glsl),
      run env st (List.replicate n call.create_block ++ rest) = run env (alloc st n) rest := by
  intro n
  induction n with
  | zero => intro st; rfl
  | succ n ih =>
    intro st
    rw [List.replicate_succ, List.cons_append, run]
    show run env (alloc st 1) _ = _
    rw [ih (alloc st 1), alloc_alloc, Nat.add_comm]

/-- Claim C23 fails once the id counter has wrapped around. After `2 ^ 32 - 1` calls
of `create_block` the 32-bit counter is 1 again, so the struct `X` declared
next gets the id 1 of `$Globals` and its name replaces `_Globals` in the name
table. The uniform `n` declared after it is still written to the `$Globals`
block as `_Globals_n` and recorded as member 0 of `$Globals`, but `emit_load`
of the chain that selects this member renders `X_n`. -/
theorem globals_name_overwritten :
    run sample_dialect construct sample_wrap_calls = some sample_wrap_state ∧
      sample_wrap_state._cbuffer_type_id = 1 ∧
      sample_wrap_state._uniforms.map (fun u => (u.name, u.member_index)) = [(S "n", 0)] ∧
      block_text sample_wrap_state 1 = S "#line 2\nfloat _Globals_n;\n" ∧
      member_name sample_wrap_state 1 0 = some (S "n") ∧
      id_to_name sample_wrap_state 1 = S "X" ∧
      (emit_load sample_wrap_state sample_dialect
          (uniform_chain sample_wrap_state ⟨3⟩
            (sample_uniform "n" (numeric_type .t_float 1 1)))).map
        (fun r => block_text r.2 0) =
        some (S "#line 1\nstruct X\n\x7b\nfloat _dummy;\n\x7d;\n" ++
          S "#line 3\nconst float _2 = X_n;\n") := by
  have h1 : u32 (construct._next_id + (2 ^ 32 - 2 + 1)) = 1 := by decide
  have h2 : counter_after construct._next_id (2 ^ 32 - 2 + 1) = 1 :=
    (counter_after_pos (2 ^ 32 - 2) construct._next_id).trans h1
  have hc : counter_after construct._next_id (2 ^ 32 - 1) = 1 := h2
  have hst : alloc construct (2 ^ 32 - 1) = wrapped_backend := by
    unfold alloc wrapped_backend
    rw [hc]
  refine ⟨?_, by decide, by decide, by decide, by decide, by decide, by decide⟩
  unfold sample_wrap_calls
  rw [run_replicate_create_block, hst]
  rfl

/-- Claim C23, amended. Every call of `define_uniform` that returns appends the
declaration `<location><type> _Globals_<name>;` to the `$Globals` block. In a
state reached from a fresh backend with fewer than `2 ^ 32` ids handed out and
at most `2 ^ 32` uniforms, for every recorded uniform `u`: the text of the
`$Globals` block holds the declarator ` _Globals_<name of u>;`, the member of
the `$Globals` struct at the member index of `u` has the name of `u`, and
`emit_load` of a chain whose base is the id of `$Globals` and whose single
operation selects the member of `$Globals` at the member index of `u` returns
and appends a declaration with the right-hand side `_Globals_<name of u>`. -/
theorem uniform_naming_consistent (env : dialect) (calls : List call) (st : codegen_glsl)
    (hrun : run env construct calls = some st)
    (hfew : 1 + (run_ids env construct calls).length < 2 ^ 32)
    (hunif : st._uniforms.length ≤ 2 ^ 32) :
    (∀ (s : codegen_glsl) (loc : location) (info : uniform_info) (r : Nat × codegen_glsl),
        define_uniform s loc info = some r →
        block_text r.2 s._cbuffer_type_id = block_text s s._cbuffer_type_id ++
          (write_location loc ++ write_type s info.type false ++ S " _Globals_" ++ info.name ++
            S ";\n")) ∧
      ∀ u ∈ st._uniforms,
        List.IsInfix (S " _Globals_" ++ u.name ++ S ";\n")
            (block_text st st._cbuffer_type_id) ∧
          member_name st st._cbuffer_type_id u.member_index = some u.name ∧
          ∀ (chain : expression) (op : operation), chain.is_constant = false →
            chain.base = st._cbuffer_type_id → chain.ops = [op] → op.type = .op_member →
            op.from_.definition = st._cbuffer_type_id → op.index = u.member_index →
            ∃ st1, emit_load st env chain = some (st._next_id, st1) ∧
              block_text st1 st._current_block = block_text st st._current_block ++
                (write_location chain.location ++ write_scope st ++ S "const " ++
                  write_type st chain.type false ++ S " " ++ id_to_name st st._next_id ++
                  array_suffix chain.type ++ S " = " ++ (S "_Globals_" ++ u.name) ++
                  S ";\n") := by
  refine ⟨fun s loc info r hr => (@kept_define_uniform [] s loc info r hr).2, ?_⟩
  have hdecl : uniforms_declared construct := fun u hu => by cases hu
  have hd := uniforms_declared_run env calls construct st hdecl hrun
  have hm := member_name_of_globals st
    (globals_members_run env calls construct st globals_members_construct hrun) hunif
  obtain ⟨hcb, hname⟩ := globals_name_run env calls st hrun hfew
  intro u hu
  refine ⟨hd u hu, hm u hu, ?_⟩
  intro chain op hconst hbase hops htype hfrom hindex
  have hrhs : load_chain st (id_to_name st chain.base) chain.ops =
      some (S "_Globals_" ++ u.name) := by
    rw [hops, hbase, hcb, hname, load_chain, load_op, htype]
    simp only []
    rw [hfrom, hindex, hm u hu]
    simp only [if_true, load_chain]
    rfl
  rw [emit_load_eq, hconst]
  simp only [Bool.false_eq_true, if_false, hrhs, Option.map_some']
  refine ⟨_, rfl, ?_⟩
  show block_text (append_block (make_id st).2 st._current_block _) st._current_block = _
  rw [block_text_append_block_same]
  rfl

/-- Claim C23, amended, at the uniform `b` declared after a texture, a sampler
and the uniform `a`. -/
theorem uniform_naming_consistent_witness :
    List.IsInfix (S " _Globals_b;\n")
        (block_text ((run sample_dialect construct sample_module_calls).getD construct) 1) ∧
      member_name ((run sample_dialect construct sample_module_calls).getD construct) 1 1 =
        some (S "b") ∧
      ∃ st1, emit_load ((run sample_dialect construct sample_module_calls).getD construct)
          sample_dialect
          (uniform_chain ((run sample_dialect construct sample_module_calls).getD construct)
            ⟨7⟩ { sample_uniform "b" (numeric_type .t_float 1 1) with
                  size := 4, offset := 16, member_index := 1 }) = some (5, st1) ∧
        block_text st1 0 =
          S "#line 1\nlayout(binding = 0) uniform sampler2D s0;\n#line 4\nint g;\n" ++
          S "#line 7\nconst float _5 = _Globals_b;\n" := by
  obtain ⟨_, h⟩ := uniform_naming_consistent sample_dialect sample_module_calls
    ((run sample_dialect construct sample_module_calls).getD construct) rfl (by decide)
    (by decide)
  obtain ⟨h1, h2, h3⟩ := h { sample_uniform "b" (numeric_type .t_float 1 1) with
    size := 4, offset := 16, member_index := 1 } (by decide)
  obtain ⟨st1, h4, h5⟩ := h3
    (uniform_chain ((run sample_dialect construct sample_module_calls).getD construct) ⟨7⟩
      { sample_uniform "b" (numeric_type .t_float 1 1) with
        size := 4, offset := 16, member_index := 1 }) _ rfl rfl rfl rfl rfl rfl
  exact ⟨h1, h2, st1, h4, h5.trans (by decide)⟩

end codegen_glsl

end reshadefx
